import Mathlib

/-!
# Batch scheduling drivers of the VFX SDK samples

A shallow embedding of the two `BatchProcess` drivers

* `src/apps/BatchEffectApp/BatchAigsEffectApp.cpp` (namespace `Local`), and
* `src/apps/TritonClientApp/TritonClientApp.cpp` (namespace `Triton`),

as state-passing functions over an explicit `World` that fixes the content of
the video files and the status returned by every SDK / OpenCV call.  Each
driver appends the externally visible calls it makes to a trace of `Event`s;
the theorems below are statements about these traces and the returned status.

The file also embeds the command-line handling of the two drivers
(`GetFlagArgVal`, the output pattern of `main`), `BaseApp::Create`, the HDR list
of `src/apps/RelightingEffectApp/RelightingEffectApp.cpp` (namespace `Relight`)
and the rotating log files of `src/utils/nvCVLoggerExamples.cpp` (namespace
`MultifileLogger`).
-/

namespace VFX

/-! ## Data model -/

/-- Status codes of the SDK (`NvCV_Status`).  `NVCV_SUCCESS` is the code `0`
tested by `BAIL_IF_ERR`; `other` stands for any further non-zero code a call
can return. -/
inductive NvCV_Status where
  | NVCV_SUCCESS
  | NVCV_ERR_UNIMPLEMENTED
  | NVCV_ERR_MEMORY
  | NVCV_ERR_MISMATCH
  | NVCV_ERR_MISSINGINPUT
  | NVCV_ERR_READ
  | NVCV_ERR_WRITE
  | other (code : Nat)
  deriving DecidableEq, Repr

open NvCV_Status

/-- One decoded picture of a video file: only its size matters to the drivers. -/
structure Frame where
  width : Nat
  height : Nat
  deriving DecidableEq, Repr

/-- A non-empty `cv::Mat` obtained from a capture, tagged with the stream it
came from and its position in that stream.  A `cv::Mat` variable is an
`Option Mat`, `none` being the empty matrix. -/
structure Mat where
  stream : Nat
  index : Nat
  width : Nat
  height : Nat
  deriving DecidableEq, Repr

/-- Externally visible calls made by the drivers. -/
inductive Event where
  /-- `srcCaptures[stream].open(..)` and the value of `isOpened()` after it -/
  | openSource (stream : Nat) (ok : Bool)
  /-- `dstWriters[stream].open(..)` and the value of `isOpened()` after it -/
  | openSink (stream : Nat) (ok : Bool)
  /-- `srcCaptures[stream] >> mat`: the frame number read, `none` when the matrix came back empty -/
  | pull (stream : Nat) (frame : Option Nat)
  /-- `NvVFX_AllocateState` for `stream`: the handle obtained, `none` when the call failed -/
  | allocate (stream : Nat) (handle : Option Nat)
  /-- `NvVFX_DeallocateState` called on the handle stored for `stream` -/
  | deallocate (stream : Nat) (handle : Option Nat)
  /-- the size check of a frame failed in `cycle` for a frame of `stream` -/
  | mismatch (cycle : Nat) (stream : Nat)
  /-- `TransferToNthImage(slot, ..)` put `m` into slot `slot` of the input batch buffer -/
  | transferTo (cycle : Nat) (slot : Nat) (m : Mat)
  /-- `NvVFX_Run` was called: the batch size set, the array of state handles set, the
  array of recorded stream indices at that moment, and the status returned -/
  | run (cycle : Nat) (batchSize : Nat) (states : List (Option Nat)) (indices : List Nat)
      (status : NvCV_Status)
  /-- the picture read from slot `slot` of the output batch buffer was written to `dstWriters[stream]` -/
  | write (cycle : Nat) (stream : Nat) (slot : Nat)
  deriving DecidableEq, Repr

/-- Everything outside the drivers: the video files and the result of every
call into OpenCV and the SDK. -/
structure World where
  /-- the frames of each source file, in order (`srcVideos.size()` is the length) -/
  videos : List (List Frame)
  /-- whether `srcCaptures[i].open` leaves the capture opened -/
  sourceOpens : Nat → Bool
  /-- whether `dstWriters[i].open` leaves the writer opened -/
  sinkOpens : Nat → Bool
  /-- `app.init` (local driver) / `app->Init` (Triton driver) -/
  initStatus : NvCV_Status
  /-- `app->AllocateBuffers` (Triton driver) -/
  allocateBuffers : NvCV_Status
  /-- `app->SetParameters` (Triton driver) -/
  setParameters : NvCV_Status
  /-- `NvVFX_SetU32(.., NVVFX_MAX_NUMBER_STREAMS, ..)` (local driver) -/
  setMaxStreams : NvCV_Status
  /-- `NvVFX_SetU32(.., NVVFX_MODEL_BATCH, ..)` (local driver) -/
  setModelBatch : NvCV_Status
  /-- `NvVFX_Load` -/
  load : NvCV_Status
  /-- `NvVFX_AllocateState` for the given stream -/
  allocateState : Nat → NvCV_Status
  /-- whether `malloc` of the batch of states succeeds (local driver) -/
  mallocOk : Bool
  /-- `NvCVImage_Alloc` of the CPU staging image (local driver) -/
  imageAlloc : NvCV_Status
  /-- `TransferToNthImage` in the given cycle for the given slot -/
  transferToStatus : Nat → Nat → NvCV_Status
  /-- `NvVFX_SetU32(.., NVVFX_BATCH_SIZE, ..)` in the given cycle -/
  setBatchSize : Nat → NvCV_Status
  /-- `NvVFX_SetStateObjectHandleArray` in the given cycle -/
  setStates : Nat → NvCV_Status
  /-- `NvVFX_Run` in the given cycle -/
  runStatus : Nat → NvCV_Status
  /-- `TransferFromNthImage` / `GenerateNthOutputVizImage` in the given cycle for the given image -/
  transferFromStatus : Nat → Nat → NvCV_Status
  /-- `NvVFX_DeallocateState` for the given stream -/
  deallocateState : Nat → NvCV_Status
  /-- what entry `i` of the array returned by `malloc` for the batch of states holds: the
  memory is not initialised, so any handle or the null pointer (local driver) -/
  mallocContent : Nat → Option Nat

/-- Control flow of a code block that may `goto bail`. -/
inductive Flow (σ : Type) where
  | next (s : σ)
  | bail (s : σ)

/-- A counted `for (i = lo; i < lo + k; i++) body` whose body may `goto bail`. -/
def forLoop {σ : Type} (body : Nat → σ → Flow σ) : Nat → Nat → σ → Flow σ
  | 0, _, s => Flow.next s
  | k + 1, i, s =>
    match body i s with
    | Flow.bail s1 => Flow.bail s1
    | Flow.next s1 => forLoop body k (i + 1) s1

/-- `capture >> mat` at position `p` of stream `i`: the frame there, or the empty matrix. -/
def readFrame (w : World) (i p : Nat) : Option Mat :=
  match (w.videos.getD i [])[p]? with
  | none => none
  | some f => some ⟨i, p, f.width, f.height⟩

/-- Number of frames of stream `i`. -/
def streamLength (w : World) (i : Nat) : Nat := (w.videos.getD i []).length

/-- Length of the longest stream. -/
def maxLength (w : World) : Nat := (w.videos.map List.length).foldr max 0

/-! ## The local driver, `BatchAigsEffectApp.cpp` -/

namespace Local

/-- The variables of `BatchProcess` that the loop reads or writes, the handle
counter of the engine and the trace of calls made so far. -/
structure State where
  err : NvCV_Status
  srcWidth : Nat
  srcHeight : Nat
  /-- `srcCaptures`: `none` is a capture that is not opened, `some p` an opened one at frame `p` -/
  srcCaptures : List (Option Nat)
  arrayOfStates : List (Option Nat)
  /-- `batchOfStates`: `[]` while it is the null pointer -/
  batchOfStates : List (Option Nat)
  batchIndices : List Nat
  activeVideoCount : Nat
  /-- the next fresh handle of the engine -/
  nextHandle : Nat
  trace : List Event
  deriving DecidableEq, Repr

/-- State on entry of `BatchProcess` (lines 230-248). -/
def initial (w : World) : State :=
  { err := NVCV_SUCCESS, srcWidth := 0, srcHeight := 0,
    srcCaptures := List.replicate w.videos.length none,
    arrayOfStates := [], batchOfStates := [],
    batchIndices := List.replicate w.videos.length 0,
    activeVideoCount := 0, nextHandle := 0, trace := [] }

/-- `BAIL_IF_ERR(err = call)`. -/
def check (st : NvCV_Status) (s : State) : Flow State :=
  if st = NVCV_SUCCESS then Flow.next { s with err := st } else Flow.bail { s with err := st }

/-- Body of the loop opening readers and writers (lines 249-264). -/
def openStep (w : World) (i : Nat) (s : State) : Flow State :=
  if w.sourceOpens i = false then
    Flow.bail { s with err := NVCV_ERR_READ, trace := s.trace ++ [Event.openSource i false] }
  else
    let s1 := { s with srcCaptures := s.srcCaptures.set i (some 0),
                       trace := s.trace ++ [Event.openSource i true] }
    if w.sinkOpens i = false then
      Flow.bail { s1 with err := NVCV_ERR_WRITE, trace := s1.trace ++ [Event.openSink i false] }
    else
      Flow.next { s1 with trace := s1.trace ++ [Event.openSink i true] }

/-- Body of the loop creating the state objects (lines 284-288). -/
def allocStep (w : World) (i : Nat) (s : State) : Flow State :=
  if w.allocateState i = NVCV_SUCCESS then
    Flow.next { s with err := NVCV_SUCCESS,
                       arrayOfStates := s.arrayOfStates ++ [some s.nextHandle],
                       nextHandle := s.nextHandle + 1,
                       trace := s.trace ++ [Event.allocate i (some s.nextHandle)] }
  else
    Flow.bail { s with err := w.allocateState i, trace := s.trace ++ [Event.allocate i none] }

/-- Lines 266-299: first picture, effect set-up, state objects, buffers.  The batch of
states comes from `malloc` and is not initialised (line 291): its entries hold
`w.mallocContent` until a cycle stores a handle in them. -/
def setup (w : World) (s : State) : Flow State :=
  let n := w.videos.length
  if n = 0 then Flow.bail { s with err := NVCV_ERR_MISSINGINPUT } else
  match readFrame w 0 0 with
  | none => Flow.bail { s with err := NVCV_ERR_READ, trace := s.trace ++ [Event.pull 0 none] }
  | some m =>
    let s1 := { s with srcWidth := m.width, srcHeight := m.height,
                       trace := s.trace ++ [Event.pull 0 (some 0)] }
    match check w.initStatus s1 with
    | Flow.bail b => Flow.bail b
    | Flow.next s2 =>
    match check w.setMaxStreams s2 with
    | Flow.bail b => Flow.bail b
    | Flow.next s3 =>
    match check w.setModelBatch s3 with
    | Flow.bail b => Flow.bail b
    | Flow.next s4 =>
    match check w.load s4 with
    | Flow.bail b => Flow.bail b
    | Flow.next s5 =>
    match forLoop (allocStep w) n 0 s5 with
    | Flow.bail b => Flow.bail b
    | Flow.next s6 =>
    if w.mallocOk = false then Flow.bail { s6 with err := NVCV_ERR_MEMORY } else
    check w.imageAlloc { s6 with batchOfStates := (List.range n).map w.mallocContent }

/-- Body of the assembling loop of cycle `j` (lines 303-325). -/
def assembleStep (w : World) (j i : Nat) (s : State) : Flow State :=
  let capIdx := i % w.videos.length
  match s.srcCaptures.getD capIdx none with
  | none => Flow.next s
  | some p =>
    match readFrame w capIdx p with
    | none =>
      Flow.next { s with srcCaptures := s.srcCaptures.set capIdx none,
                         trace := s.trace ++ [Event.pull capIdx none] }
    | some m =>
      let s1 := { s with srcCaptures := s.srcCaptures.set capIdx (some (p + 1)),
                         batchIndices := s.batchIndices.set s.activeVideoCount capIdx,
                         batchOfStates :=
                           s.batchOfStates.set s.activeVideoCount (s.arrayOfStates.getD capIdx none),
                         trace := s.trace ++ [Event.pull capIdx (some p)] }
      if ¬ (m.width = s.srcWidth ∧ m.height = s.srcHeight) then
        Flow.bail { s1 with err := NVCV_ERR_MISMATCH,
                            trace := s1.trace ++ [Event.mismatch j capIdx] }
      else if w.transferToStatus j s.activeVideoCount = NVCV_SUCCESS then
        Flow.next { s1 with err := NVCV_SUCCESS,
                            activeVideoCount := s.activeVideoCount + 1,
                            trace := s1.trace ++ [Event.transferTo j s.activeVideoCount m] }
      else
        Flow.bail { s1 with err := w.transferToStatus j s.activeVideoCount }

/-- The engine call of cycle `j` (lines 328-334). -/
def dispatch (w : World) (j : Nat) (s : State) : Flow State :=
  match check (w.setBatchSize j) s with
  | Flow.bail b => Flow.bail b
  | Flow.next s1 =>
  match check (w.setStates j) s1 with
  | Flow.bail b => Flow.bail b
  | Flow.next s2 =>
  check (w.runStatus j)
    { s2 with trace := s2.trace ++
        [Event.run j s.activeVideoCount s.batchOfStates s.batchIndices (w.runStatus j)] }

/-- Body of the loop distributing the results of cycle `j` (lines 336-340). -/
def writeStep (w : World) (j i : Nat) (s : State) : Flow State :=
  let writerIdx := s.batchIndices.getD i 0
  if w.transferFromStatus j i = NVCV_SUCCESS then
    Flow.next { s with err := NVCV_SUCCESS, trace := s.trace ++ [Event.write j writerIdx i] }
  else
    Flow.bail { s with err := w.transferFromStatus j i }

/-- One pass of the cycle loop (lines 301-340): `next` to go on with cycle `j + 1`,
`bail` when the pass ends in `goto bail`. -/
def cycle (w : World) (j : Nat) (s : State) : Flow State :=
  match forLoop (assembleStep w j) w.videos.length 0 { s with activeVideoCount := 0 } with
  | Flow.bail b => Flow.bail b
  | Flow.next s1 =>
    if s1.activeVideoCount = 0 then Flow.bail s1 else
    match dispatch w j s1 with
    | Flow.bail b => Flow.bail b
    | Flow.next s2 => forLoop (writeStep w j) s1.activeVideoCount 0 s2

/-- The cycle loop `for (int j = 0;; j++)`, run for at most `fuel` passes;
`none` when the passes allowed did not reach `bail`. -/
def cycleLoop (w : World) : Nat → Nat → State → Option State
  | 0, _, _ => none
  | fuel + 1, j, s =>
    match cycle w j s with
    | Flow.bail b => some b
    | Flow.next s1 => cycleLoop w fuel (j + 1) s1

/-- The code after the label `bail` (lines 343-363). -/
def cleanup (s : State) : State :=
  { s with
    trace := s.trace ++
      (List.range s.arrayOfStates.length).map
        (fun i => Event.deallocate i (s.arrayOfStates.getD i none)),
    arrayOfStates := [],
    batchOfStates := [],
    srcCaptures := s.srcCaptures.map (fun _ => none) }

/-- The code of `BatchProcess` up to the label `bail`. -/
def body (w : World) : Option State :=
  match forLoop (openStep w) w.videos.length 0 (initial w) with
  | Flow.bail b => some b
  | Flow.next s1 =>
    match setup w s1 with
    | Flow.bail b => some b
    | Flow.next s2 => cycleLoop w (maxLength w + 1) 0 s2

/-- `BatchProcess` of the local driver: the final state, whose `err` is the
value returned and whose `trace` lists the calls made. -/
def BatchProcess (w : World) : Option State := (body w).map cleanup

end Local

/-! ## The Triton driver, `TritonClientApp.cpp` -/

namespace Triton

/-- The variables of `BatchProcess` and of the `BaseApp` object that the loop
reads or writes, the handle counter of the engine and the trace of calls made
so far. -/
structure State where
  err : NvCV_Status
  src_width : Nat
  src_height : Nat
  /-- `src_captures`: `none` is a capture that is not opened, `some p` an opened one at frame `p` -/
  src_captures : List (Option Nat)
  frames : List (Option Mat)
  frames_t_1 : List (Option Mat)
  m_arrayOfStates : List (Option Nat)
  m_batchOfStates : List (Option Nat)
  batch_indices : List Nat
  active_video_count : Nat
  /-- the next fresh handle of the engine -/
  nextHandle : Nat
  trace : List Event
  deriving DecidableEq, Repr

/-- State on entry of `BatchProcess` (lines 313-325). -/
def initial (w : World) : State :=
  { err := NVCV_SUCCESS, src_width := 0, src_height := 0,
    src_captures := List.replicate w.videos.length none,
    frames := List.replicate w.videos.length none,
    frames_t_1 := List.replicate w.videos.length none,
    m_arrayOfStates := [], m_batchOfStates := [],
    batch_indices := List.replicate w.videos.length 0,
    active_video_count := 0, nextHandle := 0, trace := [] }

/-- `BAIL_IF_ERR(err = call)`. -/
def check (st : NvCV_Status) (s : State) : Flow State :=
  if st = NVCV_SUCCESS then Flow.next { s with err := st } else Flow.bail { s with err := st }

/-- Body of the loop opening readers and writers (lines 328-343). -/
def openStep (w : World) (i : Nat) (s : State) : Flow State :=
  if w.sourceOpens i = false then
    Flow.bail { s with err := NVCV_ERR_READ, trace := s.trace ++ [Event.openSource i false] }
  else
    let s1 := { s with src_captures := s.src_captures.set i (some 0),
                       trace := s.trace ++ [Event.openSource i true] }
    if w.sinkOpens i = false then
      Flow.bail { s1 with err := NVCV_ERR_WRITE, trace := s1.trace ++ [Event.openSink i false] }
    else
      Flow.next { s1 with trace := s1.trace ++ [Event.openSink i true] }

/-- Body of the loop reading the first frame of every stream (lines 362-369).
`BAIL_IF_ERR(app->InitVideoStream(i))` tests the status without storing it in `err`. -/
def initStep (w : World) (i : Nat) (s : State) : Flow State :=
  match s.src_captures.getD i none with
  | none => Flow.next s
  | some p =>
    match readFrame w i p with
    | none =>
      Flow.next { s with frames := s.frames.set i none,
                         src_captures := s.src_captures.set i none,
                         trace := s.trace ++ [Event.pull i none] }
    | some m =>
      let s1 := { s with frames := s.frames.set i (some m),
                         src_captures := s.src_captures.set i (some (p + 1)),
                         trace := s.trace ++ [Event.pull i (some p)] }
      if w.allocateState i = NVCV_SUCCESS then
        Flow.next { s1 with m_arrayOfStates := s1.m_arrayOfStates.set i (some s1.nextHandle),
                            nextHandle := s1.nextHandle + 1,
                            trace := s1.trace ++ [Event.allocate i (some s1.nextHandle)] }
      else
        Flow.bail { s1 with trace := s1.trace ++ [Event.allocate i none] }

/-- Lines 345-369: first picture, effect set-up, first frame and state of every stream. -/
def setup (w : World) (s : State) : Flow State :=
  let n := w.videos.length
  if n = 0 then Flow.bail { s with err := NVCV_ERR_MISSINGINPUT } else
  match readFrame w 0 0 with
  | none => Flow.bail { s with err := NVCV_ERR_READ, trace := s.trace ++ [Event.pull 0 none] }
  | some m =>
    let s1 := { s with src_width := m.width, src_height := m.height,
                       trace := s.trace ++ [Event.pull 0 (some 0)] }
    match check w.initStatus s1 with
    | Flow.bail b => Flow.bail b
    | Flow.next s2 =>
    match check w.allocateBuffers
        { s2 with m_arrayOfStates := List.replicate n none,
                  m_batchOfStates := List.replicate n none } with
    | Flow.bail b => Flow.bail b
    | Flow.next s3 =>
    match check w.setParameters s3 with
    | Flow.bail b => Flow.bail b
    | Flow.next s4 =>
    match check w.load s4 with
    | Flow.bail b => Flow.bail b
    | Flow.next s5 => forLoop (initStep w) n 0 s5

/-- First half of the body of the assembling loop (lines 375-384): the
one-frame lookahead and the release of the state of a stream that ended.
`BAIL_IF_ERR(app->ReleaseVideoStream(i))` tests the status without storing it in `err`. -/
def lookahead (w : World) (i : Nat) (s : State) : Flow State :=
  match s.src_captures.getD i none with
  | none => Flow.next s
  | some p =>
    match readFrame w i p with
    | some m =>
      Flow.next { s with frames_t_1 := s.frames_t_1.set i (some m),
                         src_captures := s.src_captures.set i (some (p + 1)),
                         trace := s.trace ++ [Event.pull i (some p)] }
    | none =>
      let s1 := { s with frames_t_1 := s.frames_t_1.set i none,
                         trace := s.trace ++ [Event.pull i none] ++
                           [Event.deallocate i (s.m_arrayOfStates.getD i none)] }
      if w.deallocateState i = NVCV_SUCCESS then
        Flow.next { s1 with src_captures := s1.src_captures.set i none }
      else
        Flow.bail s1

/-- Body of the assembling loop of cycle `j` (lines 374-398). -/
def assembleStep (w : World) (j i : Nat) (s : State) : Flow State :=
  match lookahead w i s with
  | Flow.bail b => Flow.bail b
  | Flow.next s1 =>
    match s1.frames.getD i none with
    | none => Flow.next s1
    | some m =>
      let s2 := { s1 with batch_indices := s1.batch_indices.set s1.active_video_count i }
      if ¬ (m.width = s1.src_width ∧ m.height = s1.src_height) then
        Flow.bail { s2 with err := NVCV_ERR_MISMATCH, trace := s2.trace ++ [Event.mismatch j i] }
      else if w.transferToStatus j s1.active_video_count = NVCV_SUCCESS then
        Flow.next { s2 with err := NVCV_SUCCESS,
                            active_video_count := s1.active_video_count + 1,
                            trace := s2.trace ++ [Event.transferTo j s1.active_video_count m] }
      else
        Flow.bail { s2 with err := w.transferToStatus j s1.active_video_count }

/-- Body of the loop of `BaseApp::Run` filling the batch of states (lines 248-250). -/
def gatherStep (i : Nat) (s : State) : Flow State :=
  Flow.next { s with m_batchOfStates :=
    s.m_batchOfStates.set i (s.m_arrayOfStates.getD (s.batch_indices.getD i 0) none) }

/-- `err = app->Run(batch_indices.data(), batchsize)` in cycle `j` (lines 246-257, 403). -/
def Run (w : World) (j : Nat) (s : State) : Flow State :=
  match forLoop gatherStep s.active_video_count 0 s with
  | Flow.bail b => Flow.bail b
  | Flow.next s1 =>
  match check (w.setBatchSize j) s1 with
  | Flow.bail b => Flow.bail b
  | Flow.next s2 =>
  match check (w.setStates j) s2 with
  | Flow.bail b => Flow.bail b
  | Flow.next s3 =>
  check (w.runStatus j)
    { s3 with trace := s3.trace ++
        [Event.run j s.active_video_count s1.m_batchOfStates s.batch_indices (w.runStatus j)] }

/-- Body of the loop distributing the results of cycle `j` (lines 406-411):
`GenerateNthOutputVizImage(video_idx, ..)` reads image `video_idx` of the
output batch buffer. -/
def writeStep (w : World) (j i : Nat) (s : State) : Flow State :=
  let video_idx := s.batch_indices.getD i 0
  if w.transferFromStatus j video_idx = NVCV_SUCCESS then
    Flow.next { s with err := NVCV_SUCCESS,
                       trace := s.trace ++ [Event.write j video_idx video_idx] }
  else
    Flow.bail { s with err := w.transferFromStatus j video_idx }

/-- Body of the loop making the lookahead frame current (lines 414-418). -/
def updateStep (i : Nat) (s : State) : Flow State :=
  let video_idx := s.batch_indices.getD i 0
  Flow.next { s with frames := s.frames.set video_idx (s.frames_t_1.getD video_idx none) }

/-- One pass of the cycle loop (lines 372-418): `next` to go on with the next
cycle, `bail` when the pass ends in `goto bail`. -/
def cycle (w : World) (j : Nat) (s : State) : Flow State :=
  match forLoop (assembleStep w j) w.videos.length 0 { s with active_video_count := 0 } with
  | Flow.bail b => Flow.bail b
  | Flow.next s1 =>
    if s1.active_video_count = 0 then Flow.bail s1 else
    match Run w j s1 with
    | Flow.bail b => Flow.bail b
    | Flow.next s2 =>
    match forLoop (writeStep w j) s1.active_video_count 0 s2 with
    | Flow.bail b => Flow.bail b
    | Flow.next s3 => forLoop updateStep s1.active_video_count 0 s3

/-- The cycle loop `while (1)`, run for at most `fuel` passes, `j` counting the
passes made; `none` when the passes allowed did not reach `bail`. -/
def cycleLoop (w : World) : Nat → Nat → State → Option State
  | 0, _, _ => none
  | fuel + 1, j, s =>
    match cycle w j s with
    | Flow.bail b => some b
    | Flow.next s1 => cycleLoop w fuel (j + 1) s1

/-- The code after the label `bail` (lines 420-427): captures and writers are
released, no state is deallocated. -/
def cleanup (s : State) : State :=
  { s with src_captures := s.src_captures.map (fun _ => none) }

/-- The code of `BatchProcess` up to the label `bail`. -/
def body (w : World) : Option State :=
  match forLoop (openStep w) w.videos.length 0 (initial w) with
  | Flow.bail b => some b
  | Flow.next s1 =>
    match setup w s1 with
    | Flow.bail b => some b
    | Flow.next s2 => cycleLoop w (maxLength w + 1) 0 s2

/-- `BatchProcess` of the Triton driver: the final state, whose `err` is the
value returned and whose `trace` lists the calls made. -/
def BatchProcess (w : World) : Option State := (body w).map cleanup

end Triton

/-! ## Observations on traces -/

/-- The world in which every call succeeds, over the given video files; the memory
returned by `malloc` happens to hold null pointers. -/
def World.ideal (videos : List (List Frame)) : World :=
  { videos := videos, sourceOpens := fun _ => true, sinkOpens := fun _ => true,
    initStatus := NVCV_SUCCESS, allocateBuffers := NVCV_SUCCESS,
    setParameters := NVCV_SUCCESS, setMaxStreams := NVCV_SUCCESS,
    setModelBatch := NVCV_SUCCESS, load := NVCV_SUCCESS,
    allocateState := fun _ => NVCV_SUCCESS, mallocOk := true, imageAlloc := NVCV_SUCCESS,
    transferToStatus := fun _ _ => NVCV_SUCCESS, setBatchSize := fun _ => NVCV_SUCCESS,
    setStates := fun _ => NVCV_SUCCESS, runStatus := fun _ => NVCV_SUCCESS,
    transferFromStatus := fun _ _ => NVCV_SUCCESS,
    deallocateState := fun _ => NVCV_SUCCESS,
    mallocContent := fun _ => none }

/-- The stream indices recorded in the slots of each dispatched batch, in trace order. -/
def dispatched : List Event → List (List Nat)
  | [] => []
  | Event.run _ n _ idx _ :: t => idx.take n :: dispatched t
  | _ :: t => dispatched t

/-! ## Invariants and observations used in the proofs -/

/-- Events that fill or dispatch a batch. -/
def Event.inBatch : Event → Bool
  | Event.transferTo _ _ _ => true
  | Event.run _ _ _ _ _ => true
  | _ => false

/-- What holds of a batch dispatched in cycle `j` with size `n`, handles
`states` and recorded stream indices `idx`, in a trace `tr`. -/
structure GoodBatch (N : Nat) (tr : List Event) (j n : Nat) (states : List (Option Nat))
    (idx : List Nat) : Prop where
  size_le : n ≤ N
  len_le : n ≤ idx.length
  increasing : (idx.take n).Pairwise (· < ·)
  bounded : ∀ x ∈ idx.take n, x < N
  handle : ∀ i, i < n →
    ∃ h, states[i]? = some (some h) ∧ Event.allocate (idx.getD i 0) (some h) ∈ tr
  input : ∀ i, i < n → ∃ m, Event.transferTo j i m ∈ tr ∧ m.stream = idx.getD i 0
  inputOnly : ∀ i m, Event.transferTo j i m ∈ tr → i < n ∧ m.stream = idx.getD i 0

/-- Invariant of a trace between two cycles, `j` being the next cycle. -/
structure Sealed (N j : Nat) (tr : List Event) : Prop where
  runs : ∀ j' n st idx rs, Event.run j' n st idx rs ∈ tr → j' < j ∧ GoodBatch N tr j' n st idx
  transfers : ∀ j' slot m, Event.transferTo j' slot m ∈ tr → j' < j

/-- Invariant of the assembling loop of cycle `j` before it visits stream `i`,
`c` slots being filled and `idx` being the array of recorded stream indices. -/
structure Filling (N j i c : Nat) (idx : List Nat) (tr : List Event) : Prop where
  runs : ∀ j' n st idx' rs, Event.run j' n st idx' rs ∈ tr → j' < j ∧ GoodBatch N tr j' n st idx'
  transfers : ∀ j' slot m, Event.transferTo j' slot m ∈ tr →
    j' < j ∨ (j' = j ∧ slot < c ∧ m.stream = idx.getD slot 0)
  filled : ∀ slot, slot < c → ∃ m, Event.transferTo j slot m ∈ tr ∧ m.stream = idx.getD slot 0
  count_le : c ≤ i
  len : idx.length = N
  increasing : (idx.take c).Pairwise (· < ·)
  bounded : ∀ x ∈ idx.take c, x < i

/-- The stream and handle of an `allocate` event. -/
def Event.allocation : Event → Option (Nat × Option Nat)
  | Event.allocate i h => some (i, h)
  | _ => none

/-- The stream and handle of a `deallocate` event. -/
def Event.release : Event → Option (Nat × Option Nat)
  | Event.deallocate i h => some (i, h)
  | _ => none

/-- The calls of `NvVFX_AllocateState` in a trace, in order. -/
def allocations (tr : List Event) : List (Nat × Option Nat) := tr.filterMap Event.allocation

/-- The calls of `NvVFX_DeallocateState` in a trace, in order. -/
def releases (tr : List Event) : List (Nat × Option Nat) := tr.filterMap Event.release

/-- Events made before the cycle loop starts. -/
def Event.early : Event → Bool
  | Event.openSource _ _ => true
  | Event.openSink _ _ => true
  | Event.pull _ _ => true
  | Event.allocate _ _ => true
  | _ => false

/-- Events that end a run with an error: a frame of the wrong size, a failing engine call. -/
def Event.fatal : Event → Bool
  | Event.mismatch _ _ => true
  | Event.run _ _ _ _ rs => decide (rs ≠ NVCV_SUCCESS)
  | _ => false

/-- A trace made of events of the set-up only. -/
def Quiet (tr : List Event) : Prop := ∀ e ∈ tr, e.early = true

/-- A trace without any fatal event. -/
def Clean (tr : List Event) : Prop := ∀ e ∈ tr, e.fatal = false

namespace Local

/-- In the local driver the picture written for slot `slot` goes to the stream recorded for that slot. -/
def WritesOK (tr : List Event) : Prop :=
  ∀ j x slot, Event.write j x slot ∈ tr →
    ∃ n st idx, Event.run j n st idx NVCV_SUCCESS ∈ tr ∧ slot < n ∧ idx.getD slot 0 = x

/-- Every slot of a dispatched batch is written out, up to the first failing transfer. -/
def Complete (w : World) (tr : List Event) : Prop :=
  ∀ j n st idx, Event.run j n st idx NVCV_SUCCESS ∈ tr → ∀ i, i < n →
    (∀ k, k ≤ i → w.transferFromStatus j k = NVCV_SUCCESS) →
    Event.write j (idx.getD i 0) i ∈ tr

/-- Bookkeeping of the state objects of the local driver before the label `bail`:
the handles stored are those allocated, stream by stream, and none was released. -/
structure Allocated (arr : List (Option Nat)) (tr : List Event) : Prop where
  stored : arr = (List.range arr.length).map some
  noRelease : releases tr = []
  allocs : allocations tr = (List.range arr.length).map (fun i => (i, some i)) ∨
    allocations tr = (List.range arr.length).map (fun i => (i, some i)) ++ [(arr.length, none)]

/-- The part of the invariant of the cycle loop that speaks of the trace and of the
array of states only. -/
structure Ledger (w : World) (arr : List (Option Nat)) (tr : List Event) : Prop where
  lenArr : arr.length = w.videos.length
  alloc : Allocated arr tr
  full : allocations tr = (List.range w.videos.length).map (fun i => (i, some i))
  writes : WritesOK tr
  clean : Clean tr

/-- What holds of the trace, the array of states and the status at the label `bail`. -/
structure Tail (w : World) (arr : List (Option Nat)) (err : NvCV_Status) (tr : List Event) :
    Prop where
  writes : WritesOK tr
  alloc : Allocated arr tr
  complete : Complete w tr
  verdict : Clean tr ∨ err ≠ NVCV_SUCCESS
  reached : Quiet tr ∨ (arr.length = w.videos.length ∧
    allocations tr = (List.range w.videos.length).map (fun i => (i, some i)))

/-- Facts that hold from the end of the set-up to the label `bail`. -/
structure Inv (w : World) (s : State) : Prop where
  lenStates : s.batchOfStates.length = w.videos.length
  lenCaps : s.srcCaptures.length = w.videos.length
  ledger : Ledger w s.arrayOfStates s.trace
  complete : Complete w s.trace

/-- Invariant of the assembling loop of cycle `j` before it visits stream `i`. -/
structure Assembling (w : World) (j i : Nat) (s : State) : Prop where
  inv : Inv w s
  fill : Filling w.videos.length j i s.activeVideoCount s.batchIndices s.trace
  states : ∀ slot, slot < s.activeVideoCount →
    s.batchOfStates.getD slot none = s.arrayOfStates.getD (s.batchIndices.getD slot 0) none
  caps : ∀ x p, s.srcCaptures.getD x none = some p → p = if x < i then j + 1 else j
  progress : 0 < s.activeVideoCount → j < maxLength w

/-- Invariant of the cycle loop at the start of cycle `j`. -/
structure Ready (w : World) (j : Nat) (s : State) : Prop where
  inv : Inv w s
  sealed : Sealed w.videos.length j s.trace
  lenIdx : s.batchIndices.length = w.videos.length
  caps : ∀ x p, s.srcCaptures.getD x none = some p → p = j

/-- What holds at the label `bail`. -/
structure Done (w : World) (s : State) : Prop where
  sealed : ∃ j, Sealed w.videos.length j s.trace
  tail : Tail w s.arrayOfStates s.err s.trace

/-- Invariant of the loop distributing the results of cycle `j`, a batch of size `n`,
before it handles slot `i`. -/
structure Writing (w : World) (j n i : Nat) (s : State) : Prop where
  lenStates : s.batchOfStates.length = w.videos.length
  lenCaps : s.srcCaptures.length = w.videos.length
  ledger : Ledger w s.arrayOfStates s.trace
  sealed : Sealed w.videos.length (j + 1) s.trace
  lenIdx : s.batchIndices.length = w.videos.length
  caps : ∀ x p, s.srcCaptures.getD x none = some p → p = j + 1
  ran : ∃ st, Event.run j n st s.batchIndices NVCV_SUCCESS ∈ s.trace
  current : ∀ n' st' idx' rs, Event.run j n' st' idx' rs ∈ s.trace →
    n' = n ∧ idx' = s.batchIndices
  old : ∀ j' n' st' idx', Event.run j' n' st' idx' NVCV_SUCCESS ∈ s.trace → j' ≠ j →
    ∀ k, k < n' → (∀ k', k' ≤ k → w.transferFromStatus j' k' = NVCV_SUCCESS) →
    Event.write j' (idx'.getD k 0) k ∈ s.trace
  written : ∀ k, k < i → Event.write j (s.batchIndices.getD k 0) k ∈ s.trace

/-- Invariant of the code before the state objects are created. -/
structure Opening (w : World) (s : State) : Prop where
  lenIdx : s.batchIndices.length = w.videos.length
  lenCaps : s.srcCaptures.length = w.videos.length
  caps : ∀ x p, s.srcCaptures.getD x none = some p → p = 0
  quiet : Quiet s.trace
  noStates : s.arrayOfStates = []
  noAlloc : allocations s.trace = []
  noRelease : releases s.trace = []
  fresh : s.nextHandle = 0

/-- Invariant of the loop creating the state objects, before it visits stream `i`. -/
structure Allocating (w : World) (i : Nat) (s : State) : Prop where
  lenIdx : s.batchIndices.length = w.videos.length
  lenCaps : s.srcCaptures.length = w.videos.length
  caps : ∀ x p, s.srcCaptures.getD x none = some p → p = 0
  quiet : Quiet s.trace
  stored : s.arrayOfStates = (List.range i).map some
  allocs : allocations s.trace = (List.range i).map (fun x => (x, some x))
  noRelease : releases s.trace = []
  fresh : s.nextHandle = i

end Local

/-- Every `deallocate` call in the trace is made on a handle that an earlier,
successful `allocate` call of the same stream returned. -/
def Justified (tr : List Event) : Prop :=
  ∀ pre post i h, tr = pre ++ Event.deallocate i h :: post →
    ∃ x, h = some x ∧ Event.allocate i (some x) ∈ pre

namespace Triton

/-- What holds of the trace at the label `bail`. -/
structure Done (w : World) (s : State) : Prop where
  sealed : ∃ j, Sealed w.videos.length j s.trace
  allocOnce : ((allocations s.trace).map Prod.fst).Nodup
  relOnce : ((releases s.trace).map Prod.fst).Nodup
  justified : Justified s.trace

/-- Bookkeeping facts that hold from the end of the set-up to the label `bail`. -/
structure Book (w : World) (s : State) : Prop where
  lenCaps : s.src_captures.length = w.videos.length
  lenFrames : s.frames.length = w.videos.length
  lenNext : s.frames_t_1.length = w.videos.length
  lenBatch : s.m_batchOfStates.length = w.videos.length
  link : ∀ x, x < w.videos.length → 0 < streamLength w x →
    ∃ h, s.m_arrayOfStates[x]? = some (some h) ∧ Event.allocate x (some h) ∈ s.trace
  allocOnce : ((allocations s.trace).map Prod.fst).Nodup
  relOnce : ((releases s.trace).map Prod.fst).Nodup
  relClosed : ∀ x h, (x, h) ∈ releases s.trace → s.src_captures.getD x none = none
  justified : Justified s.trace
  closedNext : ∀ x, s.src_captures.getD x none = none → s.frames_t_1.getD x none = none

/-- Invariant of the assembling loop of cycle `j`: the lookahead is done for the
streams below `l`, the streams below `i` are batched. -/
structure Assembling (w : World) (j i l : Nat) (s : State) : Prop where
  book : Book w s
  fill : Filling w.videos.length j i s.active_video_count s.batch_indices s.trace
  caps : ∀ x p, s.src_captures.getD x none = some p →
    (p = if x < l then j + 2 else j + 1) ∧ 0 < streamLength w x
  frames : ∀ x m, s.frames.getD x none = some m →
    m.stream = x ∧ m.index = j ∧ j < streamLength w x
  inBatch : ∀ x, x < i → s.frames.getD x none ≠ none →
    ∃ k, k < s.active_video_count ∧ s.batch_indices.getD k 0 = x
  live : ∀ k, k < s.active_video_count → 0 < streamLength w (s.batch_indices.getD k 0)
  next : ∀ x m, x < l → s.frames_t_1.getD x none = some m →
    m.stream = x ∧ m.index = j + 1 ∧ j + 1 < streamLength w x
  progress : 0 < s.active_video_count → j < maxLength w

/-- Invariant of the cycle loop at the start of cycle `j`. -/
structure Ready (w : World) (j : Nat) (s : State) : Prop where
  book : Book w s
  sealed : Sealed w.videos.length j s.trace
  lenIdx : s.batch_indices.length = w.videos.length
  caps : ∀ x p, s.src_captures.getD x none = some p → p = j + 1 ∧ 0 < streamLength w x
  frames : ∀ x m, s.frames.getD x none = some m →
    m.stream = x ∧ m.index = j ∧ j < streamLength w x

/-- Invariant of the code of cycle `j` after the dispatch of a batch of size `n`:
the loop making the lookahead frames current has handled the slots below `i`. -/
structure Post (w : World) (j n i : Nat) (s : State) : Prop where
  book : Book w s
  sealed : Sealed w.videos.length (j + 1) s.trace
  lenIdx : s.batch_indices.length = w.videos.length
  caps : ∀ x p, s.src_captures.getD x none = some p → p = j + 2 ∧ 0 < streamLength w x
  next : ∀ x m, s.frames_t_1.getD x none = some m →
    m.stream = x ∧ m.index = j + 1 ∧ j + 1 < streamLength w x
  frames : ∀ x m, s.frames.getD x none = some m → m.stream = x ∧
    ((m.index = j + 1 ∧ j + 1 < streamLength w x) ∨
     (m.index = j ∧ ∃ k, i ≤ k ∧ k < n ∧ s.batch_indices.getD k 0 = x))

/-- Invariant of the loop of `BaseApp::Run` filling the batch of states. -/
def Gathering (w : World) (s : State) (i : Nat) (t : State) : Prop :=
  ∃ B : List (Option Nat), t = { s with m_batchOfStates := B } ∧ B.length = w.videos.length ∧
    ∀ k, k < i → B.getD k none = s.m_arrayOfStates.getD (s.batch_indices.getD k 0) none

/-- Invariant of the loop opening readers and writers, before it visits stream `i`. -/
structure Opening (w : World) (i : Nat) (s : State) : Prop where
  lenIdx : s.batch_indices.length = w.videos.length
  lenCaps : s.src_captures.length = w.videos.length
  lenFrames : s.frames.length = w.videos.length
  lenNext : s.frames_t_1.length = w.videos.length
  opened : ∀ x, x < i → s.src_captures.getD x none = some 0
  noFrames : ∀ x, s.frames.getD x none = none
  noNext : ∀ x, s.frames_t_1.getD x none = none
  quiet : Quiet s.trace
  noAlloc : allocations s.trace = []
  noRelease : releases s.trace = []
  fresh : s.nextHandle = 0

/-- Invariant of the loop reading the first frame of every stream, before it visits stream `i`. -/
structure Initing (w : World) (i : Nat) (s : State) : Prop where
  lenIdx : s.batch_indices.length = w.videos.length
  lenCaps : s.src_captures.length = w.videos.length
  lenFrames : s.frames.length = w.videos.length
  lenNext : s.frames_t_1.length = w.videos.length
  lenBatch : s.m_batchOfStates.length = w.videos.length
  lenArr : s.m_arrayOfStates.length = w.videos.length
  waiting : ∀ x, i ≤ x → x < w.videos.length → s.src_captures.getD x none = some 0
  caps : ∀ x p, x < i → s.src_captures.getD x none = some p → p = 1 ∧ 0 < streamLength w x
  frames : ∀ x m, s.frames.getD x none = some m →
    m.stream = x ∧ m.index = 0 ∧ 0 < streamLength w x
  noNext : ∀ x, s.frames_t_1.getD x none = none
  link : ∀ x, x < i → 0 < streamLength w x →
    ∃ h, s.m_arrayOfStates[x]? = some (some h) ∧ Event.allocate x (some h) ∈ s.trace
  allocBelow : ∀ x h, (x, h) ∈ allocations s.trace → x < i
  allocOnce : ((allocations s.trace).map Prod.fst).Nodup
  noRelease : releases s.trace = []
  quiet : Quiet s.trace

end Triton

/-- The stream indices recorded for every dispatched batch are strictly increasing and
name existing streams; so the batch has at most `N` slots, no stream twice. -/
def IndicesIncreasing (N : Nat) (tr : List Event) : Prop :=
  ∀ j n st idx rs, Event.run j n st idx rs ∈ tr →
    (idx.take n).Pairwise (· < ·) ∧ (∀ x ∈ idx.take n, x < N) ∧ n ≤ N ∧
    (idx.take n).length = n ∧ (idx.take n).Nodup

/-- In every dispatch, the handle at position `i` below the batch size is the one allocated
for the stream recorded for slot `i`, which is the stream whose frame was put into input
slot `i` in that cycle. -/
def HandlesMatch (tr : List Event) : Prop :=
  ∀ j n st idx rs, Event.run j n st idx rs ∈ tr → ∀ i, i < n →
    ∃ h m, st[i]? = some (some h) ∧ Event.allocate (idx.getD i 0) (some h) ∈ tr ∧
      (∀ h', Event.allocate (idx.getD i 0) h' ∈ tr → h' = some h) ∧
      Event.transferTo j i m ∈ tr ∧ m.stream = idx.getD i 0 ∧
      (∀ m', Event.transferTo j i m' ∈ tr → m'.stream = idx.getD i 0)

/-- Every stream has at most one allocation call and at most one deallocation call, and a
deallocation is only ever called on a handle that was allocated for that stream before. -/
def AllocationDiscipline (tr : List Event) : Prop :=
  ((allocations tr).map Prod.fst).Nodup ∧ ((releases tr).map Prod.fst).Nodup ∧ Justified tr

/-- Whether the trace holds a size mismatch or a failing engine call. -/
def aborted (tr : List Event) : Bool := tr.any Event.fatal

namespace Local

/-- The deallocation calls made after the label `bail`. -/
def closing (arr : List (Option Nat)) : List Event :=
  (List.range arr.length).map (fun i => Event.deallocate i (arr.getD i none))

end Local

/-- In the local driver every picture written to a stream's writer was read from the
output slot recorded for that stream, which is the slot its input frame was put into; and
every slot of a successfully dispatched batch is written out, in order, up to the first
failing transfer from the output buffer. -/
def OutputsRouted (w : World) (tr : List Event) : Prop :=
  (∀ j x slot, Event.write j x slot ∈ tr →
    ∃ n st idx, Event.run j n st idx NVCV_SUCCESS ∈ tr ∧ slot < n ∧ idx.getD slot 0 = x ∧
      (∃ m, Event.transferTo j slot m ∈ tr ∧ m.stream = x) ∧
      (∀ m', Event.transferTo j slot m' ∈ tr → m'.stream = x)) ∧
  (∀ j n st idx, Event.run j n st idx NVCV_SUCCESS ∈ tr → ∀ i, i < n →
    (∀ k, k ≤ i → w.transferFromStatus j k = NVCV_SUCCESS) →
    Event.write j (idx.getD i 0) i ∈ tr)

/-- A frame of 4 by 4 pixels. -/
def frame4 : Frame := ⟨4, 4⟩

/-- A frame of 6 by 6 pixels. -/
def frame6 : Frame := ⟨6, 6⟩

/-- Three streams of five frames each, every call succeeding but the engine call of the
fourth cycle. -/
def engineFailsInCycle4 : World :=
  { World.ideal [List.replicate 5 frame4, List.replicate 5 frame4, List.replicate 5 frame4] with
    runStatus := fun j => if j = 3 then NvCV_Status.other 1 else NVCV_SUCCESS }

/-- Two streams of one and two frames, every call succeeding. -/
def shortThenLong : World := World.ideal [[frame4], [frame4, frame4]]

/-- Two streams of three frames, the second frame of the second stream being of another
size, every call succeeding. -/
def secondFrameDiffers : World :=
  World.ideal [[frame4, frame4, frame4], [frame4, frame6, frame4]]

/-- One stream of two frames, every call succeeding but the first engine call. -/
def engineFailsAtOnce : World :=
  { World.ideal [[frame4, frame4]] with runStatus := fun _ => NvCV_Status.other 1 }

/-- All frames of all streams are equal to `f0`, so of its width and height. -/
def Uniform (videos : List (List Frame)) (f0 : Frame) : Prop := ∀ v ∈ videos, ∀ f ∈ v, f = f0

/-- The streams that have a frame for cycle `c` (counted from 0), in index order. -/
def activeAt (w : World) (c : Nat) : List Nat :=
  (List.range w.videos.length).filter (fun x => decide (c < streamLength w x))

/-- The batches expected: one per cycle below the length of the longest stream. -/
def schedule (w : World) : List (List Nat) := (List.range (maxLength w)).map (activeAt w)

namespace Local

/-- Invariant of the assembling loop of cycle `j`, before it visits stream `i`, in a world
where every call succeeds and every frame has the size of `f0`. -/
structure Smooth (w : World) (f0 : Frame) (j i : Nat) (s : State) : Prop where
  lenIdx : s.batchIndices.length = w.videos.length
  lenCaps : s.srcCaptures.length = w.videos.length
  width : s.srcWidth = f0.width
  height : s.srcHeight = f0.height
  capsDone : ∀ x, x < i →
    s.srcCaptures.getD x none = if j < streamLength w x then some (j + 1) else none
  capsTodo : ∀ x, i ≤ x → x < w.videos.length →
    s.srcCaptures.getD x none = if j ≤ streamLength w x then some j else none
  idx : s.batchIndices.take s.activeVideoCount =
    (List.range i).filter (fun x => decide (j < streamLength w x))
  count : s.activeVideoCount =
    ((List.range i).filter (fun x => decide (j < streamLength w x))).length
  disp : dispatched s.trace = (List.range j).map (activeAt w)

/-- Invariant of the cycle loop at the start of cycle `j`, in a world where every call
succeeds and every frame has the size of `f0`. -/
structure Calm (w : World) (f0 : Frame) (j : Nat) (s : State) : Prop where
  lenIdx : s.batchIndices.length = w.videos.length
  lenCaps : s.srcCaptures.length = w.videos.length
  width : s.srcWidth = f0.width
  height : s.srcHeight = f0.height
  caps : ∀ x, x < w.videos.length →
    s.srcCaptures.getD x none = if j ≤ streamLength w x then some j else none
  disp : dispatched s.trace = (List.range j).map (activeAt w)

/-- Invariant of the loop opening readers and writers when every call succeeds. -/
structure Warm (w : World) (i : Nat) (s : State) : Prop where
  lenIdx : s.batchIndices.length = w.videos.length
  lenCaps : s.srcCaptures.length = w.videos.length
  caps : ∀ x, x < i → s.srcCaptures.getD x none = some 0
  disp : dispatched s.trace = []

end Local

/-- What is observed of one stream and its handle along a trace: the number of
deallocation calls for the stream, the number of engine calls made before the first of
them, and the cycles of the engine calls made after it whose first `batchSize` handles
contain the handle. -/
structure Watch where
  releases : Nat
  runsBefore : Nat
  usesAfter : List Nat
  deriving DecidableEq, Repr

/-- The observation after one more event, for stream `x` and handle `h`. -/
def Watch.step (x h : Nat) (wt : Watch) : Event → Watch
  | Event.deallocate y _ => if y = x then { wt with releases := wt.releases + 1 } else wt
  | Event.run j n st _ _ =>
    if wt.releases = 0 then { wt with runsBefore := wt.runsBefore + 1 }
    else if some h ∈ st.take n then { wt with usesAfter := wt.usesAfter ++ [j] }
    else wt
  | _ => wt

/-- The observation of stream `x` and handle `h` along a trace. -/
def watch (x h : Nat) (tr : List Event) : Watch := tr.foldl (Watch.step x h) ⟨0, 0, []⟩

/-- The handle the engine returns for stream `x` when every call succeeds: handles are
numbered in allocation order, and only streams with a first frame get one. -/
def handleOf (w : World) (x : Nat) : Nat :=
  ((List.range x).filter (fun y => decide (0 < streamLength w y))).length

/-- The observation expected of stream `x` in cycle `j` of the Triton driver, the
lookahead of the streams below `l` being done. -/
def expectedWatch (w : World) (x j l : Nat) : Watch :=
  if streamLength w x ≤ j then ⟨1, streamLength w x - 1, [streamLength w x - 1]⟩
  else if j + 1 = streamLength w x ∧ x < l then ⟨1, j, []⟩
  else ⟨0, j, []⟩

namespace Triton

/-- Invariant of the assembling loop of cycle `j` in a world where every call succeeds and
every frame has the size of `f0`: the lookahead is done for the streams below `l`, the
streams below `i` are batched. -/
structure Smooth (w : World) (f0 : Frame) (j i l : Nat) (s : State) : Prop where
  lenIdx : s.batch_indices.length = w.videos.length
  lenCaps : s.src_captures.length = w.videos.length
  lenFrames : s.frames.length = w.videos.length
  lenNext : s.frames_t_1.length = w.videos.length
  lenBatch : s.m_batchOfStates.length = w.videos.length
  width : s.src_width = f0.width
  height : s.src_height = f0.height
  capsDone : ∀ x, x < l →
    s.src_captures.getD x none = if j + 1 < streamLength w x then some (j + 2) else none
  capsTodo : ∀ x, l ≤ x → x < w.videos.length →
    s.src_captures.getD x none = if j < streamLength w x then some (j + 1) else none
  frames : ∀ x, x < w.videos.length → s.frames.getD x none = readFrame w x j
  nextDone : ∀ x, x < l → j < streamLength w x →
    s.frames_t_1.getD x none = readFrame w x (j + 1)
  arr : ∀ x, x < w.videos.length →
    s.m_arrayOfStates.getD x none = if 0 < streamLength w x then some (handleOf w x) else none
  idx : s.batch_indices.take s.active_video_count =
    (List.range i).filter (fun x => decide (j < streamLength w x))
  count : s.active_video_count =
    ((List.range i).filter (fun x => decide (j < streamLength w x))).length
  disp : dispatched s.trace = (List.range j).map (activeAt w)
  watched : ∀ x, x < w.videos.length → 0 < streamLength w x →
    watch x (handleOf w x) s.trace = expectedWatch w x j l
  lastFrames : ∀ x c, x < w.videos.length → c < streamLength w x → (c < j ∨ (c = j ∧ x < i)) →
    ∃ slot m, Event.transferTo c slot m ∈ s.trace ∧ m.stream = x ∧ m.index = c
  allocd : ∀ x, x < w.videos.length → 0 < streamLength w x →
    Event.allocate x (some (handleOf w x)) ∈ s.trace

/-- Invariant of the code of cycle `j` after the dispatch of its batch of size `n`, in a
world where every call succeeds: the loop making the lookahead frames current has handled
the slots below `k`. -/
structure Settled (w : World) (f0 : Frame) (j n k : Nat) (s : State) : Prop where
  lenIdx : s.batch_indices.length = w.videos.length
  lenCaps : s.src_captures.length = w.videos.length
  lenFrames : s.frames.length = w.videos.length
  lenNext : s.frames_t_1.length = w.videos.length
  lenBatch : s.m_batchOfStates.length = w.videos.length
  width : s.src_width = f0.width
  height : s.src_height = f0.height
  caps : ∀ x, x < w.videos.length →
    s.src_captures.getD x none = if j + 1 < streamLength w x then some (j + 2) else none
  frames : ∀ x, x < w.videos.length →
    s.frames.getD x none =
      if x ∈ s.batch_indices.take k then readFrame w x (j + 1) else readFrame w x j
  next : ∀ x, x < w.videos.length → j < streamLength w x →
    s.frames_t_1.getD x none = readFrame w x (j + 1)
  arr : ∀ x, x < w.videos.length →
    s.m_arrayOfStates.getD x none = if 0 < streamLength w x then some (handleOf w x) else none
  idx : s.batch_indices.take n = activeAt w j
  size : n = (activeAt w j).length
  disp : dispatched s.trace = (List.range (j + 1)).map (activeAt w)
  watched : ∀ x, x < w.videos.length → 0 < streamLength w x →
    watch x (handleOf w x) s.trace = expectedWatch w x (j + 1) 0
  lastFrames : ∀ x c, x < w.videos.length → c < streamLength w x → c < j + 1 →
    ∃ slot m, Event.transferTo c slot m ∈ s.trace ∧ m.stream = x ∧ m.index = c
  allocd : ∀ x, x < w.videos.length → 0 < streamLength w x →
    Event.allocate x (some (handleOf w x)) ∈ s.trace

/-- Invariant of the cycle loop of the Triton driver at the start of cycle `j`, in a world
where every call succeeds and every frame has the size of `f0`. -/
structure Calm (w : World) (f0 : Frame) (j : Nat) (s : State) : Prop where
  lenIdx : s.batch_indices.length = w.videos.length
  lenCaps : s.src_captures.length = w.videos.length
  lenFrames : s.frames.length = w.videos.length
  lenNext : s.frames_t_1.length = w.videos.length
  lenBatch : s.m_batchOfStates.length = w.videos.length
  width : s.src_width = f0.width
  height : s.src_height = f0.height
  caps : ∀ x, x < w.videos.length →
    s.src_captures.getD x none = if j < streamLength w x then some (j + 1) else none
  frames : ∀ x, x < w.videos.length → s.frames.getD x none = readFrame w x j
  arr : ∀ x, x < w.videos.length →
    s.m_arrayOfStates.getD x none = if 0 < streamLength w x then some (handleOf w x) else none
  disp : dispatched s.trace = (List.range j).map (activeAt w)
  watched : ∀ x, x < w.videos.length → 0 < streamLength w x →
    watch x (handleOf w x) s.trace = expectedWatch w x j 0
  lastFrames : ∀ x c, x < w.videos.length → c < streamLength w x → c < j →
    ∃ slot m, Event.transferTo c slot m ∈ s.trace ∧ m.stream = x ∧ m.index = c
  allocd : ∀ x, x < w.videos.length → 0 < streamLength w x →
    Event.allocate x (some (handleOf w x)) ∈ s.trace

/-- What the trace of the Triton driver holds at the label `bail` when every call
succeeded. -/
structure Harvest (w : World) (s : State) : Prop where
  disp : dispatched s.trace = schedule w
  watched : ∀ x, x < w.videos.length → 0 < streamLength w x →
    watch x (handleOf w x) s.trace =
      ⟨1, streamLength w x - 1, [streamLength w x - 1]⟩
  lastFrames : ∀ x c, x < w.videos.length → c < streamLength w x →
    ∃ slot m, Event.transferTo c slot m ∈ s.trace ∧ m.stream = x ∧ m.index = c
  allocd : ∀ x, x < w.videos.length → 0 < streamLength w x →
    Event.allocate x (some (handleOf w x)) ∈ s.trace

/-- Invariant of the loop opening readers and writers of the Triton driver when every call
succeeds. -/
structure Tepid (w : World) (i : Nat) (s : State) : Prop where
  lenIdx : s.batch_indices.length = w.videos.length
  lenCaps : s.src_captures.length = w.videos.length
  lenFrames : s.frames.length = w.videos.length
  lenNext : s.frames_t_1.length = w.videos.length
  caps : ∀ x, x < i → s.src_captures.getD x none = some 0
  fresh : s.nextHandle = 0
  disp : dispatched s.trace = []
  watched : ∀ x h, watch x h s.trace = ⟨0, 0, []⟩

/-- Invariant of the loop reading the first frame of every stream, before it visits stream
`i`, when every call succeeds and every frame has the size of `f0`. -/
structure Priming (w : World) (f0 : Frame) (i : Nat) (s : State) : Prop where
  lenIdx : s.batch_indices.length = w.videos.length
  lenCaps : s.src_captures.length = w.videos.length
  lenFrames : s.frames.length = w.videos.length
  lenNext : s.frames_t_1.length = w.videos.length
  lenBatch : s.m_batchOfStates.length = w.videos.length
  lenArr : s.m_arrayOfStates.length = w.videos.length
  width : s.src_width = f0.width
  height : s.src_height = f0.height
  capsDone : ∀ x, x < i →
    s.src_captures.getD x none = if 0 < streamLength w x then some 1 else none
  capsTodo : ∀ x, i ≤ x → x < w.videos.length → s.src_captures.getD x none = some 0
  framesDone : ∀ x, x < i → s.frames.getD x none = readFrame w x 0
  fresh : s.nextHandle = handleOf w i
  arr : ∀ x, x < i →
    s.m_arrayOfStates.getD x none = if 0 < streamLength w x then some (handleOf w x) else none
  arrTodo : ∀ x, i ≤ x → s.m_arrayOfStates.getD x none = none
  disp : dispatched s.trace = []
  watched : ∀ x h, watch x h s.trace = ⟨0, 0, []⟩
  allocd : ∀ x, x < i → 0 < streamLength w x →
    Event.allocate x (some (handleOf w x)) ∈ s.trace

end Triton

/-- Stream `x` holds a slot of the batch dispatched in cycle `c`, cycles counted from 0
in the order of the engine calls of the trace. -/
def occupies (tr : List Event) (c x : Nat) : Prop :=
  ∃ b, (dispatched tr)[c]? = some b ∧ x ∈ b

/-- Two streams, the first without any frame, the second of two frames. -/
def emptyFirst : List (List Frame) := [[], [frame4, frame4]]

/-- Three streams of 2, 0 and 3 frames. -/
def emptyMiddle : List (List Frame) := [[frame4, frame4], [], [frame4, frame4, frame4]]

/-- Three streams of 5, 3 and 7 frames. -/
def fiveThreeSeven : List (List Frame) :=
  [List.replicate 5 frame4, List.replicate 3 frame4, List.replicate 7 frame4]

/-- The cycle of a dispatch or of a sink write. -/
def Event.output : Event → Option Nat
  | Event.run j _ _ _ _ => some j
  | Event.write j _ _ => some j
  | _ => none

/-- Calls opening a reader or a writer. -/
def Event.opening : Event → Bool
  | Event.openSource _ _ => true
  | Event.openSink _ _ => true
  | _ => false

/-- The picture has the width and height of the first frame of the first stream. -/
def Mat.fits (w : World) (m : Mat) : Prop :=
  ∀ m0, readFrame w 0 0 = some m0 → m.width = m0.width ∧ m.height = m0.height

/-- What the world grants when a driver gets past the first picture: there is a stream,
every reader and writer opens, and the first stream has a first frame. -/
structure Started (w : World) : Prop where
  nonempty : w.videos ≠ []
  sources : ∀ x, x < w.videos.length → w.sourceOpens x = true
  sinks : ∀ x, x < w.videos.length → w.sinkOpens x = true
  first : 0 < streamLength w 0

namespace Local

/-- What holds of every event of the local driver as long as nothing failed: no size
mismatch, no rejected allocation, every engine call succeeded and all its results were
delivered, every frame put into a batch has the reference size. -/
def Healthy (w : World) : Event → Prop
  | Event.mismatch _ _ => False
  | Event.allocate _ h => h ≠ none
  | Event.run j n _ _ rs =>
    rs = NVCV_SUCCESS ∧ ∀ k, k < n → w.transferFromStatus j k = NVCV_SUCCESS
  | Event.write j _ slot => w.transferFromStatus j slot = NVCV_SUCCESS
  | Event.transferTo _ _ m => m.fits w ∧ readFrame w m.stream m.index = some m
  | Event.pull x (some p) => p < streamLength w x
  | _ => True

/-- Invariant of the cycle loop of the local driver from the start of cycle `j` to its
dispatch. -/
structure Sane (w : World) (j : Nat) (s : State) : Prop where
  started : Started w
  ok : s.err = NVCV_SUCCESS
  ref : ∀ m0, readFrame w 0 0 = some m0 → s.srcWidth = m0.width ∧ s.srcHeight = m0.height
  healthy : ∀ e ∈ s.trace, Healthy w e
  outputs : ∀ e ∈ s.trace, ∀ c, e.output = some c → c < j

/-- Invariant of the loop distributing the results of cycle `j`, a batch of size `n`, before
it handles slot `i`. -/
structure Delivering (w : World) (j n i : Nat) (s : State) : Prop where
  started : Started w
  ok : s.err = NVCV_SUCCESS
  ref : ∀ m0, readFrame w 0 0 = some m0 → s.srcWidth = m0.width ∧ s.srcHeight = m0.height
  parts : ∃ pre st, s.trace = pre ++ [Event.run j n st s.batchIndices NVCV_SUCCESS] ++
      (List.range i).map (fun k => Event.write j (s.batchIndices.getD k 0) k) ∧
    (∀ e ∈ pre, Healthy w e) ∧ (∀ e ∈ pre, ∀ c, e.output = some c → c < j)
  served : ∀ k, k < i → w.transferFromStatus j k = NVCV_SUCCESS

/-- The ways in which `BatchProcess` of the local driver reaches the label `bail`, with the
status and the trace it has there. -/
inductive Exit (w : World) (err : NvCV_Status) (tr : List Event) : Prop where
  /-- a source does not open -/
  | unreadable (i : Nat) (hi : i < w.videos.length) (closed : w.sourceOpens i = false)
      (before : ∀ x, x < i → w.sourceOpens x = true ∧ w.sinkOpens x = true)
      (opens : ∀ e ∈ tr, e.opening = true) (status : err = NVCV_ERR_READ)
  /-- a writer does not open -/
  | unwritable (i : Nat) (hi : i < w.videos.length) (closed : w.sinkOpens i = false)
      (before : ∀ x, x < i → w.sourceOpens x = true ∧ w.sinkOpens x = true)
      (source : w.sourceOpens i = true)
      (opens : ∀ e ∈ tr, e.opening = true) (status : err = NVCV_ERR_WRITE)
  /-- there is no stream at all -/
  | noInput (empty : w.videos = []) (silent : tr = []) (status : err = NVCV_ERR_MISSINGINPUT)
  /-- the first stream has no first frame -/
  | noFirstFrame (nonempty : w.videos ≠ [])
      (opened : ∀ x, x < w.videos.length → w.sourceOpens x = true ∧ w.sinkOpens x = true)
      (first : streamLength w 0 = 0) (pre : List Event) (eq : tr = pre ++ [Event.pull 0 none])
      (opens : ∀ e ∈ pre, e.opening = true) (status : err = NVCV_ERR_READ)
  /-- a call of the set-up fails: effect, parameters, model, state objects, buffers -/
  | setupFailed (started : Started w) (quiet : Quiet tr) (status : err ≠ NVCV_SUCCESS)
      (reject : ∀ i, Event.allocate i none ∈ tr → err = w.allocateState i)
  /-- cycle `j` finds no frame: all streams are drained -/
  | drained (j : Nat) (started : Started w) (healthy : ∀ e ∈ tr, Healthy w e)
      (outputs : ∀ e ∈ tr, ∀ c, e.output = some c → c < j) (status : err = NVCV_SUCCESS)
  /-- a frame of stream `i` has another size in cycle `j` -/
  | mismatch (j i : Nat) (pre : List Event) (started : Started w)
      (eq : tr = pre ++ [Event.mismatch j i]) (healthy : ∀ e ∈ pre, Healthy w e)
      (outputs : ∀ e ∈ pre, ∀ c, e.output = some c → c < j)
      (real : ∃ p m, readFrame w i p = some m ∧ ¬ m.fits w)
      (status : err = NVCV_ERR_MISMATCH)
  /-- a transfer into the batch or the setting of a parameter of the dispatch fails in
  cycle `j` -/
  | stalled (j : Nat) (started : Started w) (healthy : ∀ e ∈ tr, Healthy w e)
      (outputs : ∀ e ∈ tr, ∀ c, e.output = some c → c < j) (status : err ≠ NVCV_SUCCESS)
  /-- the engine call of cycle `j` fails -/
  | engine (j n : Nat) (st : List (Option Nat)) (idx : List Nat) (pre : List Event)
      (started : Started w) (eq : tr = pre ++ [Event.run j n st idx err])
      (healthy : ∀ e ∈ pre, Healthy w e)
      (outputs : ∀ e ∈ pre, ∀ c, e.output = some c → c < j) (status : err ≠ NVCV_SUCCESS)
  /-- the transfer of the result of slot `i` fails in cycle `j` -/
  | undelivered (j n : Nat) (st : List (Option Nat)) (idx : List Nat) (i : Nat)
      (pre : List Event) (started : Started w)
      (eq : tr = pre ++ [Event.run j n st idx NVCV_SUCCESS] ++
        (List.range i).map (fun k => Event.write j (idx.getD k 0) k))
      (healthy : ∀ e ∈ pre, Healthy w e)
      (outputs : ∀ e ∈ pre, ∀ c, e.output = some c → c < j)
      (hi : i < n) (served : ∀ k, k < i → w.transferFromStatus j k = NVCV_SUCCESS)
      (status : err = w.transferFromStatus j i) (failed : err ≠ NVCV_SUCCESS)

/-- Invariant of the loop opening readers and writers, before it visits stream `i`. -/
structure Entering (w : World) (i : Nat) (s : State) : Prop where
  opened : ∀ x, x < i → w.sourceOpens x = true ∧ w.sinkOpens x = true
  opens : ∀ e ∈ s.trace, e.opening = true
  silent : i = 0 → s.trace = []

/-- Invariant of the set-up after the first picture was read. -/
structure Allotting (w : World) (s : State) : Prop where
  started : Started w
  ref : ∀ m0, readFrame w 0 0 = some m0 → s.srcWidth = m0.width ∧ s.srcHeight = m0.height
  quiet : Quiet s.trace
  healthy : ∀ e ∈ s.trace, Healthy w e

end Local

namespace Triton

/-- What holds of every event of the Triton driver as long as nothing failed: no size
mismatch, no rejected allocation or release, allocations for streams with a frame only,
every engine call succeeded and all its results were produced, every frame put into a
batch has the reference size. -/
def Healthy (w : World) : Event → Prop
  | Event.mismatch _ _ => False
  | Event.allocate x h => h ≠ none ∧ 0 < streamLength w x
  | Event.deallocate x _ => w.deallocateState x = NVCV_SUCCESS
  | Event.run j n _ idx rs =>
    rs = NVCV_SUCCESS ∧ ∀ k, k < n → w.transferFromStatus j (idx.getD k 0) = NVCV_SUCCESS
  | Event.write j x _ => w.transferFromStatus j x = NVCV_SUCCESS
  | Event.transferTo _ _ m => m.fits w ∧ readFrame w m.stream m.index = some m
  | Event.pull x (some p) => p < streamLength w x
  | _ => True

/-- Invariant of the cycle loop of the Triton driver from the start of cycle `j` to its
dispatch. -/
structure Sane (w : World) (j : Nat) (s : State) : Prop where
  started : Started w
  ok : s.err = NVCV_SUCCESS
  ref : ∀ m0, readFrame w 0 0 = some m0 → s.src_width = m0.width ∧ s.src_height = m0.height
  healthy : ∀ e ∈ s.trace, Healthy w e
  outputs : ∀ e ∈ s.trace, ∀ c, e.output = some c → c < j
  frames : ∀ x m, s.frames.getD x none = some m → ∃ p, readFrame w x p = some m
  next : ∀ x m, s.frames_t_1.getD x none = some m → ∃ p, readFrame w x p = some m

/-- Invariant of the loop distributing the results of cycle `j`, a batch of size `n`, before
it handles slot `i`. -/
structure Delivering (w : World) (j n i : Nat) (s : State) : Prop where
  started : Started w
  ok : s.err = NVCV_SUCCESS
  ref : ∀ m0, readFrame w 0 0 = some m0 → s.src_width = m0.width ∧ s.src_height = m0.height
  parts : ∃ pre st, s.trace = pre ++ [Event.run j n st s.batch_indices NVCV_SUCCESS] ++
      (List.range i).map
        (fun k => Event.write j (s.batch_indices.getD k 0) (s.batch_indices.getD k 0)) ∧
    (∀ e ∈ pre, Healthy w e) ∧ (∀ e ∈ pre, ∀ c, e.output = some c → c < j)
  served : ∀ k, k < i → w.transferFromStatus j (s.batch_indices.getD k 0) = NVCV_SUCCESS
  frames : ∀ x m, s.frames.getD x none = some m → ∃ p, readFrame w x p = some m
  next : ∀ x m, s.frames_t_1.getD x none = some m → ∃ p, readFrame w x p = some m

/-- Invariant of the loop opening readers and writers, before it visits stream `i`. -/
structure Entering (w : World) (i : Nat) (s : State) : Prop where
  opened : ∀ x, x < i → w.sourceOpens x = true ∧ w.sinkOpens x = true
  opens : ∀ e ∈ s.trace, e.opening = true
  silent : i = 0 → s.trace = []
  frames : ∀ x, s.frames.getD x none = none
  next : ∀ x, s.frames_t_1.getD x none = none

/-- Invariant of the loop reading the first frame of every stream. -/
structure Allotting (w : World) (s : State) : Prop where
  started : Started w
  ok : s.err = NVCV_SUCCESS
  ref : ∀ m0, readFrame w 0 0 = some m0 → s.src_width = m0.width ∧ s.src_height = m0.height
  quiet : Quiet s.trace
  healthy : ∀ e ∈ s.trace, Healthy w e
  frames : ∀ x m, s.frames.getD x none = some m → ∃ p, readFrame w x p = some m
  next : ∀ x m, s.frames_t_1.getD x none = some m → ∃ p, readFrame w x p = some m

/-- The ways in which `BatchProcess` of the Triton driver reaches the label `bail`, with
the status and the trace it has there. -/
inductive Exit (w : World) (err : NvCV_Status) (tr : List Event) : Prop where
  /-- a source does not open -/
  | unreadable (i : Nat) (hi : i < w.videos.length) (closed : w.sourceOpens i = false)
      (before : ∀ x, x < i → w.sourceOpens x = true ∧ w.sinkOpens x = true)
      (opens : ∀ e ∈ tr, e.opening = true) (status : err = NVCV_ERR_READ)
  /-- a writer does not open -/
  | unwritable (i : Nat) (hi : i < w.videos.length) (closed : w.sinkOpens i = false)
      (before : ∀ x, x < i → w.sourceOpens x = true ∧ w.sinkOpens x = true)
      (source : w.sourceOpens i = true)
      (opens : ∀ e ∈ tr, e.opening = true) (status : err = NVCV_ERR_WRITE)
  /-- there is no stream at all -/
  | noInput (empty : w.videos = []) (silent : tr = []) (status : err = NVCV_ERR_MISSINGINPUT)
  /-- the first stream has no first frame -/
  | noFirstFrame (nonempty : w.videos ≠ [])
      (opened : ∀ x, x < w.videos.length → w.sourceOpens x = true ∧ w.sinkOpens x = true)
      (first : streamLength w 0 = 0) (pre : List Event) (eq : tr = pre ++ [Event.pull 0 none])
      (opens : ∀ e ∈ pre, e.opening = true) (status : err = NVCV_ERR_READ)
  /-- a call of the set-up fails: effect, buffers, parameters, model -/
  | setupFailed (started : Started w) (pre : List Event)
      (eq : tr = pre ++ [Event.pull 0 (some 0)]) (opens : ∀ e ∈ pre, e.opening = true)
      (status : err ≠ NVCV_SUCCESS)
  /-- the engine rejects the state of stream `i`: the status tested is not stored -/
  | rejected (i : Nat) (pre : List Event) (started : Started w)
      (eq : tr = pre ++ [Event.allocate i none]) (quiet : Quiet pre)
      (healthy : ∀ e ∈ pre, Healthy w e) (live : 0 < streamLength w i)
      (refused : w.allocateState i ≠ NVCV_SUCCESS) (status : err = NVCV_SUCCESS)
  /-- cycle `j` finds no frame: all streams are drained -/
  | drained (j : Nat) (started : Started w) (healthy : ∀ e ∈ tr, Healthy w e)
      (outputs : ∀ e ∈ tr, ∀ c, e.output = some c → c < j) (status : err = NVCV_SUCCESS)
  /-- the release of the state of stream `i` fails in cycle `j`: the status tested is not
  stored -/
  | unreleased (j i : Nat) (h : Option Nat) (pre : List Event) (started : Started w)
      (eq : tr = pre ++ [Event.deallocate i h]) (healthy : ∀ e ∈ pre, Healthy w e)
      (outputs : ∀ e ∈ pre, ∀ c, e.output = some c → c < j)
      (refused : w.deallocateState i ≠ NVCV_SUCCESS) (status : err = NVCV_SUCCESS)
  /-- a frame of stream `i` has another size in cycle `j` -/
  | mismatch (j i : Nat) (pre : List Event) (started : Started w)
      (eq : tr = pre ++ [Event.mismatch j i]) (healthy : ∀ e ∈ pre, Healthy w e)
      (outputs : ∀ e ∈ pre, ∀ c, e.output = some c → c < j)
      (real : ∃ p m, readFrame w i p = some m ∧ ¬ m.fits w)
      (status : err = NVCV_ERR_MISMATCH)
  /-- a transfer into the batch or the setting of a parameter of the dispatch fails in
  cycle `j` -/
  | stalled (j : Nat) (started : Started w) (healthy : ∀ e ∈ tr, Healthy w e)
      (outputs : ∀ e ∈ tr, ∀ c, e.output = some c → c < j) (status : err ≠ NVCV_SUCCESS)
  /-- the engine call of cycle `j` fails -/
  | engine (j n : Nat) (st : List (Option Nat)) (idx : List Nat) (pre : List Event)
      (started : Started w) (eq : tr = pre ++ [Event.run j n st idx err])
      (healthy : ∀ e ∈ pre, Healthy w e)
      (outputs : ∀ e ∈ pre, ∀ c, e.output = some c → c < j) (status : err ≠ NVCV_SUCCESS)
  /-- the transfer of the result of slot `i` fails in cycle `j` -/
  | undelivered (j n : Nat) (st : List (Option Nat)) (idx : List Nat) (i : Nat)
      (pre : List Event) (started : Started w)
      (eq : tr = pre ++ [Event.run j n st idx NVCV_SUCCESS] ++
        (List.range i).map (fun k => Event.write j (idx.getD k 0) (idx.getD k 0)))
      (healthy : ∀ e ∈ pre, Healthy w e)
      (outputs : ∀ e ∈ pre, ∀ c, e.output = some c → c < j)
      (hi : i < n)
      (served : ∀ k, k < i → w.transferFromStatus j (idx.getD k 0) = NVCV_SUCCESS)
      (status : err = w.transferFromStatus j (idx.getD i 0)) (failed : err ≠ NVCV_SUCCESS)

end Triton

/-- Two streams of one frame each, the reader of the second one not opening. -/
def secondSourceClosed : World :=
  { World.ideal [[frame4], [frame4]] with sourceOpens := fun i => decide (i ≠ 1) }

/-- Two streams, the first of one frame, the second without any frame. -/
def emptySecond : List (List Frame) := [[frame4], []]

/-- Two streams of two frames each, every call succeeding but the allocation of the state
of the second stream. -/
def rejectsSecond : World :=
  { World.ideal [[frame4, frame4], [frame4, frame4]] with
    allocateState := fun i => if i = 1 then NvCV_Status.other 1 else NVCV_SUCCESS }

/-- Two streams of one and two frames, every call succeeding but the release of the state
of the first stream. -/
def releaseFails : World :=
  { World.ideal [[frame4], [frame4, frame4]] with
    deallocateState := fun i => if i = 0 then NvCV_Status.other 1 else NVCV_SUCCESS }

/-- Two streams of two frames each, every call succeeding but the transfer of the second
result of the first cycle. -/
def deliveryFails : World :=
  { World.ideal [[frame4, frame4], [frame4, frame4]] with
    transferFromStatus := fun j i => if j = 0 ∧ i = 1 then NvCV_Status.other 1 else NVCV_SUCCESS }

/-- The claim that a stream keeps its slot: whenever a stream is recorded for a slot of two
dispatched batches of a trace, the two slots are the same. -/
def StableSlots (tr : List Event) : Prop :=
  ∀ j1 n1 st1 idx1 rs1 j2 n2 st2 idx2 rs2 k1 k2,
    Event.run j1 n1 st1 idx1 rs1 ∈ tr → Event.run j2 n2 st2 idx2 rs2 ∈ tr →
    k1 < n1 → k2 < n2 → idx1.getD k1 0 = idx2.getD k2 0 → k1 = k2

/-- The slot of a stream in a dispatched batch is its rank among the streams of the batch:
slot `k` is that of the stream with exactly `k` streams of lower index in the batch; hence
a stream has the same slot in two batches that hold the same streams of lower index. -/
def SlotsByRank (tr : List Event) : Prop :=
  (∀ j n st idx rs, Event.run j n st idx rs ∈ tr → ∀ k, k < n →
    ((idx.take n).filter (fun y => decide (y < idx.getD k 0))).length = k) ∧
  (∀ j1 n1 st1 idx1 rs1 j2 n2 st2 idx2 rs2 k1 k2,
    Event.run j1 n1 st1 idx1 rs1 ∈ tr → Event.run j2 n2 st2 idx2 rs2 ∈ tr →
    k1 < n1 → k2 < n2 → idx1.getD k1 0 = idx2.getD k2 0 →
    (∀ y, y < idx1.getD k1 0 → (y ∈ idx1.take n1 ↔ y ∈ idx2.take n2)) → k1 = k2)

/-- The batch size set for each engine call of a trace, in order. -/
def batchSizes : List Event → List Nat
  | [] => []
  | Event.run _ n _ _ _ :: t => n :: batchSizes t
  | _ :: t => batchSizes t

/-- Two streams of two and one frames, every call succeeding but the release of the state
of the second stream. -/
def secondReleaseFails : World :=
  { World.ideal [[frame4, frame4], [frame4]] with
    deallocateState := fun i => if i = 1 then NvCV_Status.other 1 else NVCV_SUCCESS }

/-- A trace in which no stream is pulled again after a pull of it returned no frame. -/
def Once (tr : List Event) : Prop :=
  ∀ pre post x, tr = pre ++ Event.pull x none :: post → ∀ f, Event.pull x f ∉ post

/-- Pulls of a frame source. -/
def Event.isPull : Event → Bool
  | Event.pull _ _ => true
  | _ => false

/-- Pulls that returned no frame. -/
def Event.isEnd : Event → Bool
  | Event.pull _ none => true
  | _ => false

/-- The trace is `Once` and the capture of every stream whose pull returned no frame
is released. -/
def Shut (caps : List (Option Nat)) (tr : List Event) : Prop :=
  Once tr ∧ ∀ x, Event.pull x none ∈ tr → caps.getD x none = none

/-! ## Command line of the batch drivers, creation of the Triton app, HDR list of `RelightingEffectApp.cpp` -/

/-- `strchr(arg, c)`: the offset of the first `c` in `arg`, `none` for the null pointer.
A C string is the list of its characters without the terminating NUL; a `const char*`
that may be null is an `Option`. -/
def strchr (arg : List Char) (c : Char) : Option Nat :=
  if c ∈ arg then some (arg.indexOf c) else none

/-- `strcasecmp(a, b) == 0`. -/
def strcasecmp (a b : List Char) : Bool := a.map Char.toLower == b.map Char.toLower

/-- `GetFlagArgVal(const char* flag, const char* arg, const char** val)` of both batch
drivers: `none` is `return false`, `some v` is `return true` with `*val = v`, where
`v = none` is the null pointer. -/
def GetFlagArgVal (flag arg : List Char) : Option (Option (List Char)) :=
  match arg with
  | [] => none
  | c :: rest =>
    if c ≠ '-' then none else
    let name := rest.dropWhile (fun d => d == '-')
    match strchr name '=' with
    | none => if flag ≠ name then none else some none
    | some n =>
      if flag.length ≠ n ∨ flag.take n ≠ name.take n then none
      else some (some (name.drop (n + 1)))

/-- `GetFlagArgVal(const char* flag, const char* arg, std::string* val)`: the value
assigned on `return true`; a null value string is replaced by the empty string. -/
def GetFlagArgValString (flag arg : List Char) : Option (List Char) :=
  match GetFlagArgVal flag arg with
  | none => none
  | some valStr => some (valStr.getD [])

/-- `GetFlagArgVal(const char* flag, const char* arg, bool* val)`: the value assigned on
`return true`; a null value string counts as true. -/
def GetFlagArgValBool (flag arg : List Char) : Option Bool :=
  match GetFlagArgVal flag arg with
  | none => none
  | some none => some true
  | some (some valStr) =>
    some (strcasecmp valStr "true".toList || strcasecmp valStr "on".toList ||
      strcasecmp valStr "yes".toList || strcasecmp valStr "1".toList)

/-- What a call of the overloads for `long` and `int` does. -/
inductive NumberResult where
  /-- `return false` -/
  | noMatch
  /-- `return true` with the number stored in `*val` -/
  | value (v : Int)
  /-- `strtol` was called with the null pointer as its string -/
  | strtolOfNull
  deriving DecidableEq, Repr

/-- `GetFlagArgVal(const char* flag, const char* arg, long* val)`; the library function
`strtol(.., NULL, 10)` is a parameter. -/
def GetFlagArgValLong (strtol : List Char → Int) (flag arg : List Char) : NumberResult :=
  match GetFlagArgVal flag arg with
  | none => NumberResult.noMatch
  | some none => NumberResult.strtolOfNull
  | some (some valStr) => NumberResult.value (strtol valStr)

/-- `GetFlagArgVal(const char* flag, const char* arg, int* val)`, with `(int)longVal`
keeping the low 32 bits. -/
def GetFlagArgValInt (strtol : List Char → Int) (flag arg : List Char) : NumberResult :=
  match GetFlagArgValLong strtol flag arg with
  | NumberResult.value longVal => NumberResult.value ((longVal + 2 ^ 31) % 2 ^ 32 - 2 ^ 31)
  | r => r

/-- `std::string::insert(pos, str)`: `none` is the exception `std::out_of_range`, thrown
when `pos > size()`. -/
def stringInsert (s : List Char) (pos : Nat) (str : List Char) : Option (List Char) :=
  if pos > s.length then none else some (s.take pos ++ str ++ s.drop pos)

/-- Lines 377-382 of `main` (441-446 in the Triton driver): the pattern handed to
`BatchProcess` for the value of `--out_file`; `FLAG_outFile.size() - 4` is computed in
`size_t`.  `none` is the exception leaving `main`. -/
def outFilePattern (FLAG_outFile : List Char) : Option (List Char) :=
  if FLAG_outFile = [] then some "BatchOut_%02u.mp4".toList
  else if '%' ∉ FLAG_outFile then
    stringInsert FLAG_outFile ((FLAG_outFile.length + 2 ^ 64 - 4) % 2 ^ 64) "_%02u".toList
  else some FLAG_outFile

namespace Triton

/-- `BaseApp::Create` (lines 301-309): `none` is the null pointer, `some name` the new
`AIGSApp` with its `m_effectName`.  The SDK constant `NVVFX_FX_GREEN_SCREEN` is a
parameter. -/
def Create (NVVFX_FX_GREEN_SCREEN effect_name : List Char) : Option (List Char) :=
  if strcasecmp effect_name NVVFX_FX_GREEN_SCREEN then some effect_name else none

/-- How a call of `BatchProcess` ends. -/
inductive Outcome where
  /-- `return err` with the final state -/
  | returned (s : State)
  /-- the virtual call `app->Init(..)` was made through the null pointer, in state `s` -/
  | nullAppUsed (s : State)
  deriving DecidableEq, Repr

/-- `BatchProcess(effectName, ..)` (lines 311-427) including the creation of `app`.  With
an app object it is `BatchProcess`; with the null pointer the code runs as far as
`BAIL_IF_ERR(err = app->Init(num_video_streams))` (line 357), the first use of `app`. -/
def BatchProcessFor (NVVFX_FX_GREEN_SCREEN effectName : List Char) (w : World) :
    Option Outcome :=
  match Create NVVFX_FX_GREEN_SCREEN effectName with
  | some _ => (BatchProcess w).map Outcome.returned
  | none =>
    match forLoop (openStep w) w.videos.length 0 (initial w) with
    | Flow.bail b => some (Outcome.returned (cleanup b))
    | Flow.next s =>
      if w.videos.length = 0 then
        some (Outcome.returned (cleanup { s with err := NVCV_ERR_MISSINGINPUT }))
      else
        match readFrame w 0 0 with
        | none =>
          some (Outcome.returned (cleanup
            { s with err := NVCV_ERR_READ, trace := s.trace ++ [Event.pull 0 none] }))
        | some m =>
          some (Outcome.nullAppUsed
            { s with src_width := m.width, src_height := m.height,
                     trace := s.trace ++ [Event.pull 0 (some 0)] })

end Triton

namespace Relight

/-- The members `m_hdrFiles` and `m_hdrIndex` of `RelightApp`; a file is named by a
number. -/
structure HdrState where
  m_hdrFiles : List Nat
  m_hdrIndex : Nat
  deriving DecidableEq, Repr

/-- The values of `RelightApp::Err` that the key handler returns. -/
inductive Err where
  | errNone
  | errQuit
  deriving DecidableEq, Repr

/-- How the handling of the key `n` ends. -/
inductive KeyOutcome where
  /-- `return e` in state `s` -/
  | returned (e : Err) (s : HdrState)
  /-- a remainder modulo `unsigned(m_hdrFiles.size()) = 0` was taken in state `s` -/
  | remainderByZero (s : HdrState)
  /-- `m_hdrFiles[m_hdrIndex]` was read outside the vector in state `s` -/
  | outOfRange (s : HdrState)
  deriving DecidableEq, Repr

/-- The loop of `processMovie` (lines 1123-1127) erasing the first file until one can be
read. -/
def skipUnreadable (readable : Nat → Bool) : List Nat → List Nat
  | [] => []
  | f :: rest => if readable f then f :: rest else skipUnreadable readable rest

/-- Lines 1117-1128 of `processMovie` for an empty `m_hdrFiles`: `listed` is what
`readHDRlist` pushed when it returned `NVCV_SUCCESS`; `none` when `processMovie` returns
because no file could be read. -/
def initHdr (readable : Nat → Bool) (listed : List Nat) : Option HdrState :=
  match listed with
  | [] => some ⟨[], 0⟩
  | f :: rest =>
    match skipUnreadable readable (f :: rest) with
    | [] => none
    | files => some ⟨files, 0⟩

/-- The `while` loop of case `n` of `processKey` (lines 915-920) and the statements after
it, run for at most `fuel` tests of the loop condition. -/
def nextHdrLoop (readable : Nat → Bool) : Nat → HdrState → Option KeyOutcome
  | 0, _ => none
  | fuel + 1, s =>
    if s.m_hdrFiles = [] then some (KeyOutcome.returned Err.errQuit s) else
    match s.m_hdrFiles[s.m_hdrIndex]? with
    | none => some (KeyOutcome.outOfRange s)
    | some f =>
      if readable f then some (KeyOutcome.returned Err.errNone s) else
      let files := s.m_hdrFiles.eraseIdx s.m_hdrIndex
      if files.length % 2 ^ 32 = 0 then some (KeyOutcome.remainderByZero ⟨files, s.m_hdrIndex⟩)
      else nextHdrLoop readable fuel ⟨files, s.m_hdrIndex % (files.length % 2 ^ 32)⟩

/-- Case `n` of `RelightApp::processKey` (lines 912-923) with the `return` it leads to;
`readable` tells for which files `ReadImage` succeeds. -/
def processKeyN (readable : Nat → Bool) (s : HdrState) : Option KeyOutcome :=
  if s.m_hdrFiles.length % 2 ^ 32 = 0 then some (KeyOutcome.remainderByZero s)
  else
    nextHdrLoop readable (s.m_hdrFiles.length + 1)
      ⟨s.m_hdrFiles, (s.m_hdrIndex + 1) % 2 ^ 32 % (s.m_hdrFiles.length % 2 ^ 32)⟩

end Relight

/-! ## The multi-file logger of `nvCVLoggerExamples.cpp` -/

namespace MultifileLogger

/-- The line feed character. -/
def newline : Char := Char.ofNat 10

/-- The members of `MultifileLogger` (`nvCVLoggerExamples.cpp`) that `writeBuffer` reads
or writes, and the files written so far: every `fopen` starts a file, `closed` lists
index and content of the files closed so far, oldest first, `current` is the content of
the open file. -/
structure State where
  /-- `m_fd` is not the null pointer -/
  m_fd : Bool
  m_numFiles : Nat
  m_maxSize : Nat
  m_currSize : Nat
  m_currIndex : Nat
  closed : List (Nat × List Char)
  current : List Char
  deriving DecidableEq, Repr

/-- The members after the constructor without arguments. -/
def constructed : State :=
  { m_fd := false, m_numFiles := 0, m_maxSize := 0, m_currSize := 0, m_currIndex := 0,
    closed := [], current := [] }

/-- `MultifileLogger::openLogFile(unsigned index)` (lines 208-230): `none` is the
remainder modulo `m_numFiles = 0`; otherwise whether `NVCV_SUCCESS` is returned, and the
state.  `fopenOk i` tells whether the file of index `i` can be opened. -/
def openLogFile (fopenOk : Nat → Bool) (index : Nat) (s : State) : Option (Bool × State) :=
  if s.m_numFiles = 0 then none
  else
    let i := index % 2 ^ 32 % s.m_numFiles
    some (fopenOk i,
      { s with m_currIndex := i, m_fd := fopenOk i, m_currSize := 0,
               closed := if s.m_fd then s.closed ++ [(s.m_currIndex, s.current)] else s.closed,
               current := [] })

/-- `MultifileLogger::init` (lines 232-237). -/
def init (fopenOk : Nat → Bool) (max_size num_files first : Nat) (s : State) :
    Option (Bool × State) :=
  openLogFile fopenOk first { s with m_maxSize := max_size, m_numFiles := num_files }

/-- `fwrite(buf, 1, z, m_fd)`: `none` when `m_fd` is null or the `z` bytes are not all
inside the buffer. -/
def fwrite (buf : List Char) (z : Nat) (s : State) : Option State :=
  if s.m_fd = false ∨ buf.length < z then none
  else some { s with current := s.current ++ buf.take z }

/-- The `for` loop of `writeBuffer` (line 264) with `s` starting at `send + k`: it reads
`buf[k - 1]`, `buf[k - 2]`, .. until it meets a line feed.  `none` is a read outside the
buffer, `some none` the exit with `s = send`, `some (some z)` the exit at a line feed
with `z = s - send`. -/
def findBreak (buf : List Char) : Nat → Option (Option Nat)
  | 0 => some none
  | k + 1 =>
    match buf[k]? with
    | none => none
    | some c => if c = newline then some (some (k + 1)) else findBreak buf k

/-- The `while` loop of `writeBuffer` and the statement after it (lines 262-291), for at
most `fuel` tests of the loop condition; the buffer is the list `buf`, its `size` the
length of the list.  `none` is a read or write outside the buffer, a write to a null
file, a pointer before `send`, a remainder modulo zero, or the end of the fuel. -/
def writeLoop (fopenOk : Nat → Bool) : Nat → List Char → State → Option State
  | 0, _, _ => none
  | fuel + 1, buf, s =>
    if (s.m_currSize + buf.length) % 2 ^ 64 > s.m_maxSize then
      if s.m_maxSize < s.m_currSize then none else
      match findBreak buf (s.m_maxSize - s.m_currSize) with
      | none => none
      | some (some z) =>
        match fwrite buf z s with
        | none => none
        | some s1 =>
          match openLogFile fopenOk (s1.m_currIndex + 1)
              { s1 with m_currSize := (s1.m_currSize + z) % 2 ^ 64 } with
          | none => none
          | some (ok, s2) => if ok then writeLoop fopenOk fuel (buf.drop z) s2 else some s2
      | some none =>
        if s.m_currSize ≠ 0 then
          match openLogFile fopenOk (s.m_currIndex + 1) s with
          | none => none
          | some (ok, s1) => if ok then writeLoop fopenOk fuel buf s1 else some s1
        else
          match fwrite buf buf.length s with
          | none => none
          | some s1 => some { s1 with m_currSize := (s1.m_currSize + buf.length) % 2 ^ 64 }
    else if buf.length ≠ 0 then
      match fwrite buf buf.length s with
      | none => none
      | some s1 => some { s1 with m_currSize := (s1.m_currSize + buf.length) % 2 ^ 64 }
    else some s

/-- `MultifileLogger::writeBuffer(buf, size)` (lines 256-292). -/
def writeBuffer (fopenOk : Nat → Bool) (buf : List Char) (s : State) : Option State :=
  if s.m_currSize ≥ s.m_maxSize then
    match openLogFile fopenOk (s.m_currIndex + 1) s with
    | none => none
    | some (ok, s1) => if ok then writeLoop fopenOk (2 * buf.length + 2) buf s1 else some s1
  else writeLoop fopenOk (2 * buf.length + 2) buf s

/-- Successive calls of `writeBuffer`, one for each buffer. -/
def writeAll (fopenOk : Nat → Bool) : List (List Char) → State → Option State
  | [], s => some s
  | buf :: rest, s =>
    match writeBuffer fopenOk buf s with
    | none => none
    | some s1 => writeAll fopenOk rest s1

/-- All bytes written so far, in the order of the files and within each file. -/
def written (s : State) : List Char := (s.closed.map Prod.snd).flatten ++ s.current

/-- The buffer is a sequence of lines, each ended by a line feed and at most `max` bytes
long with it; `n` is the number of bytes of the line begun before the buffer. -/
def linesOk (max : Nat) : Nat → List Char → Bool
  | n, [] => n == 0
  | n, c :: rest =>
    if c = newline then decide (n + 1 ≤ max) && linesOk max 0 rest
    else linesOk max (n + 1) rest

/-- The content is empty or ends with a line feed. -/
def endsLine (c : List Char) : Bool :=
  match c.getLast? with
  | none => true
  | some x => x == newline

/-- The size counter is the size of the open file, and every file is at most `m_maxSize`
bytes long and ends at a line end. -/
structure Tidy (s : State) : Prop where
  size : s.m_currSize = s.current.length
  current : s.current.length ≤ s.m_maxSize ∧ endsLine s.current = true
  closed : ∀ f ∈ s.closed, f.2.length ≤ s.m_maxSize ∧ endsLine f.2 = true

/-- A logger state with two files of at most 8 bytes, the open file holding one line of
five bytes. -/
def sampleState : State :=
  { m_fd := true, m_numFiles := 2, m_maxSize := 8, m_currSize := 5, m_currIndex := 0,
    closed := [], current := "abcd".toList ++ [newline] }

/-- A buffer of three lines, the second longer than 8 bytes. -/
def sampleBuffer : List Char :=
  "ef".toList ++ [newline] ++ "ghijklmnopq".toList ++ [newline] ++ "r".toList ++ [newline]

/-- Three buffers of lines of at most 8 bytes. -/
def sampleBuffers : List (List Char) :=
  ["ab".toList ++ [newline] ++ "cd".toList ++ [newline], "efg".toList ++ [newline],
    "hijklmn".toList ++ [newline] ++ "op".toList ++ [newline]]

end MultifileLogger

/-! ## Further observations on the traces of the drivers -/

/-- Frames put into a slot of the input batch. -/
def Event.isFrame : Event → Bool
  | Event.transferTo _ _ _ => true
  | _ => false

/-- In every cycle, dispatched or not, the streams of the frames put into the slots of
the input batch, which are the stream indices recorded for these slots, increase strictly
with the slot and are below `N`; a slot holds frames of one stream only. -/
def SlotsIncreasing (N : Nat) (tr : List Event) : Prop :=
  (∀ j a m, Event.transferTo j a m ∈ tr → a ≤ m.stream ∧ m.stream < N) ∧
  (∀ j a b m m', Event.transferTo j a m ∈ tr → Event.transferTo j b m' ∈ tr → a < b →
    m.stream < m'.stream) ∧
  (∀ j a m m', Event.transferTo j a m ∈ tr → Event.transferTo j a m' ∈ tr →
    m.stream = m'.stream)

/-- Engine calls. -/
def Event.isRun : Event → Bool
  | Event.run _ _ _ _ _ => true
  | _ => false

/-- Pictures written to a writer. -/
def Event.isWrite : Event → Bool
  | Event.write _ _ _ => true
  | _ => false

/-- Cycle, slot and stream of a frame put into the input batch. -/
def Event.placed : Event → Option (Nat × Nat × Nat)
  | Event.transferTo j slot m => some (j, slot, m.stream)
  | _ => none

/-- The claim C3 without a condition on the calls: every slot below the batch size of
every batch the engine processed is written to the writer of the stream recorded for it. -/
def EverySlotWritten (tr : List Event) : Prop :=
  ∀ j n st idx, Event.run j n st idx NVCV_SUCCESS ∈ tr → ∀ i, i < n →
    Event.write j (idx.getD i 0) i ∈ tr

/-- Every engine call of the trace succeeded, on a batch that is not empty, and every slot
below its batch size was written to the writer of the stream recorded for the slot, the
stream whose frame was put into that input slot in the same cycle. -/
def AllWritten (tr : List Event) : Prop :=
  ∀ j n st idx rs, Event.run j n st idx rs ∈ tr → rs = NVCV_SUCCESS ∧ 0 < n ∧ ∀ i, i < n →
    Event.write j (idx.getD i 0) i ∈ tr ∧
    ∃ m, Event.transferTo j i m ∈ tr ∧ m.stream = idx.getD i 0

/-- Every stream that has a frame number `c` holds a slot of a dispatched batch made of the
streams with a frame number `c`, and the handle passed for that slot is the one allocated
for the stream. -/
def Served (w : World) (tr : List Event) : Prop :=
  ∀ x c, x < w.videos.length → c < streamLength w x →
    ∃ j n st idx rs i h, Event.run j n st idx rs ∈ tr ∧ idx.take n = activeAt w c ∧ i < n ∧
      idx.getD i 0 = x ∧ st[i]? = some (some h) ∧ Event.allocate x (some h) ∈ tr

/-- The stream indices recorded for a dispatched batch are the streams of the frames put
into the slots of the input batch in that cycle. -/
def SlotsRecorded (tr : List Event) : Prop :=
  ∀ j n st idx rs, Event.run j n st idx rs ∈ tr →
    (∀ i, i < n → ∃ m, Event.transferTo j i m ∈ tr ∧ m.stream = idx.getD i 0) ∧
    ∀ a m, Event.transferTo j a m ∈ tr → a < n ∧ m.stream = idx.getD a 0

/-- Three streams of 2, 0 and 3 frames, every call succeeding, the memory returned by
`malloc` holding the values 7, 8 and 9. -/
def staleMemory : World :=
  { World.ideal emptyMiddle with mallocContent := fun i => some (7 + i) }

/-! ## Theorems -/

theorem forLoop_rule {σ : Type} (body : Nat → σ → Flow σ) (n : Nat)
    (P : Nat → σ → Prop) (Q : σ → Prop)
    (hnext : ∀ i s s1, i < n → P i s → body i s = Flow.next s1 → P (i + 1) s1)
    (hbail : ∀ i s s1, i < n → P i s → body i s = Flow.bail s1 → Q s1) :
    ∀ k i s, i + k = n → P i s →
      (∀ s1, forLoop body k i s = Flow.next s1 → P n s1) ∧
      (∀ s1, forLoop body k i s = Flow.bail s1 → Q s1) := by
  intro k
  induction k with
  | zero =>
    intro i s hik hP
    simp only [Nat.add_zero] at hik
    subst hik
    constructor
    · intro s1 h
      simp only [forLoop, Flow.next.injEq] at h
      subst h
      exact hP
    · intro s1 h
      simp [forLoop] at h
  | succ k ih =>
    intro i s hik hP
    have hlt : i < n := by omega
    cases hb : body i s with
    | bail b =>
      constructor
      · intro s1 h
        simp [forLoop, hb] at h
      · intro s1 h
        simp only [forLoop, hb, Flow.bail.injEq] at h
        subst h
        exact hbail i s _ hlt hP hb
    | next s2 =>
      have hP2 := hnext i s s2 hlt hP hb
      have := ih (i + 1) s2 (by omega) hP2
      simpa [forLoop, hb] using this

theorem GoodBatch.goodBatch_snoc {N : Nat} {tr : List Event} {j n : Nat} {states : List (Option Nat)}
    {idx : List Nat} (h : GoodBatch N tr j n states idx) (e : Event)
    (he : ∀ slot m, e ≠ Event.transferTo j slot m) :
    GoodBatch N (tr ++ [e]) j n states idx where
  size_le := h.size_le
  len_le := h.len_le
  increasing := h.increasing
  bounded := h.bounded
  handle := fun i hi => by
    obtain ⟨x, hx, hm⟩ := h.handle i hi
    exact ⟨x, hx, List.mem_append_left _ hm⟩
  input := fun i hi => by
    obtain ⟨m, hm, hs⟩ := h.input i hi
    exact ⟨m, List.mem_append_left _ hm, hs⟩
  inputOnly := fun i m hm => by
    rcases List.mem_append.1 hm with hm | hm
    · exact h.inputOnly i m hm
    · exact absurd (List.mem_singleton.1 hm).symm (he i m)

theorem Sealed.sealed_snoc {N j : Nat} {tr : List Event} (h : Sealed N j tr) (e : Event)
    (he : e.inBatch = false) : Sealed N j (tr ++ [e]) where
  runs := fun j' n st idx rs hm => by
    rcases List.mem_append.1 hm with hm | hm
    · refine ⟨(h.runs _ _ _ _ _ hm).1, (h.runs _ _ _ _ _ hm).2.goodBatch_snoc e ?_⟩
      intro slot m hem
      subst hem
      simp [Event.inBatch] at he
    · rw [List.mem_singleton] at hm
      subst hm
      simp [Event.inBatch] at he
  transfers := fun j' slot m hm => by
    rcases List.mem_append.1 hm with hm | hm
    · exact h.transfers _ _ _ hm
    · rw [List.mem_singleton] at hm
      subst hm
      simp [Event.inBatch] at he

theorem Sealed.sealed_mono {N j k : Nat} {tr : List Event} (h : Sealed N j tr) (hjk : j ≤ k) :
    Sealed N k tr where
  runs := fun j' n st idx rs hm =>
    ⟨Nat.lt_of_lt_of_le (h.runs _ _ _ _ _ hm).1 hjk, (h.runs _ _ _ _ _ hm).2⟩
  transfers := fun j' slot m hm => Nat.lt_of_lt_of_le (h.transfers _ _ _ hm) hjk

theorem Sealed.append {N j : Nat} {tr : List Event} (h : Sealed N j tr) (es : List Event)
    (he : ∀ e ∈ es, e.inBatch = false) : Sealed N j (tr ++ es) := by
  induction es using List.reverseRecOn with
  | nil => simpa using h
  | append_singleton es e ih =>
    rw [← List.append_assoc]
    exact (ih (fun x hx => he x (List.mem_append_left _ hx))).sealed_snoc e
      (he e (List.mem_append_right _ (List.mem_singleton_self e)))

theorem Sealed.start {N j : Nat} {tr : List Event} (h : Sealed N j tr) (idx : List Nat)
    (hlen : idx.length = N) : Filling N j 0 0 idx tr where
  runs := h.runs
  transfers := fun j' slot m hm => Or.inl (h.transfers _ _ _ hm)
  filled := fun slot hs => absurd hs (Nat.not_lt_zero _)
  count_le := Nat.le_refl 0
  len := hlen
  increasing := by simp
  bounded := by simp

theorem Filling.filling_snoc {N j i c : Nat} {idx : List Nat} {tr : List Event}
    (h : Filling N j i c idx tr) (e : Event) (he : e.inBatch = false) :
    Filling N j i c idx (tr ++ [e]) where
  runs := fun j' n st idx' rs hm => by
    rcases List.mem_append.1 hm with hm | hm
    · refine ⟨(h.runs _ _ _ _ _ hm).1, (h.runs _ _ _ _ _ hm).2.goodBatch_snoc e ?_⟩
      intro slot m hem
      subst hem
      simp [Event.inBatch] at he
    · rw [List.mem_singleton] at hm
      subst hm
      simp [Event.inBatch] at he
  transfers := fun j' slot m hm => by
    rcases List.mem_append.1 hm with hm | hm
    · exact h.transfers _ _ _ hm
    · rw [List.mem_singleton] at hm
      subst hm
      simp [Event.inBatch] at he
  filled := fun slot hs => by
    obtain ⟨m, hm, hst⟩ := h.filled slot hs
    exact ⟨m, List.mem_append_left _ hm, hst⟩
  count_le := h.count_le
  len := h.len
  increasing := h.increasing
  bounded := h.bounded

theorem Filling.skip {N j i c : Nat} {idx : List Nat} {tr : List Event}
    (h : Filling N j i c idx tr) : Filling N j (i + 1) c idx tr :=
  { h with
    count_le := Nat.le_succ_of_le h.count_le
    bounded := fun x hx => Nat.lt_succ_of_lt (h.bounded x hx) }

theorem Filling.seal {N j i c : Nat} {idx : List Nat} {tr : List Event}
    (h : Filling N j i c idx tr) : Sealed N (j + 1) tr where
  runs := fun j' n st idx' rs hm =>
    ⟨Nat.lt_succ_of_lt (h.runs _ _ _ _ _ hm).1, (h.runs _ _ _ _ _ hm).2⟩
  transfers := fun j' slot m hm => by
    rcases h.transfers _ _ _ hm with h1 | h1
    · exact Nat.lt_succ_of_lt h1
    · rw [h1.1]; exact Nat.lt_succ_self j

theorem getD_set_ne {α : Type} (l : List α) (c slot : Nat) (v d : α) (h : slot ≠ c) :
    (l.set c v).getD slot d = l.getD slot d := by
  simp [List.getD_eq_getElem?_getD, List.getElem?_set_ne (Ne.symm h)]

theorem getD_set_eq {α : Type} (l : List α) (c : Nat) (v d : α) (h : c < l.length) :
    (l.set c v).getD c d = v := by
  simp [List.getD_eq_getElem?_getD, List.getElem?_set_self h]

theorem getD_set_self_or {α : Type} (l : List α) (c : Nat) (v d : α) :
    (l.set c v).getD c d = v ∨ (l.set c v).getD c d = d := by
  by_cases h : c < l.length
  · exact Or.inl (getD_set_eq l c v d h)
  · right
    rw [List.getD_eq_getElem?_getD, List.getElem?_eq_none (by simp; omega)]
    rfl

theorem take_succ_set {α : Type} (l : List α) (c : Nat) (v : α) (h : c < l.length) :
    (l.set c v).take (c + 1) = l.take c ++ [v] := by
  induction l generalizing c with
  | nil => simp at h
  | cons a t ih =>
    cases c with
    | zero => simp
    | succ c =>
      simp only [List.length_cons, Nat.add_lt_add_iff_right] at h
      simp [ih c h]

theorem getD_take {α : Type} (l : List α) (n i : Nat) (d : α) (h : i < n) :
    (l.take n).getD i d = l.getD i d := by
  simp [List.getD_eq_getElem?_getD, List.getElem?_take, h]

theorem getD_mem_take {α : Type} (l : List α) (n i : Nat) (d : α) (h : i < n)
    (hn : n ≤ l.length) : l.getD i d ∈ l.take n := by
  have hi : i < l.length := Nat.lt_of_lt_of_le h hn
  rw [List.getD_eq_getElem?_getD, List.getElem?_eq_getElem hi, Option.getD_some]
  rw [List.mem_take_iff_getElem]
  exact ⟨i, by simp [h, hi], rfl⟩

theorem Filling.push {N j i c : Nat} {idx : List Nat} {tr : List Event}
    (h : Filling N j i c idx tr) (hi : i < N) (m : Mat) (hm : m.stream = i) :
    Filling N j (i + 1) (c + 1) (idx.set c i) (tr ++ [Event.transferTo j c m]) := by
  have hc : c < idx.length := by rw [h.len]; exact Nat.lt_of_le_of_lt h.count_le hi
  refine ⟨?_, ?_, ?_, Nat.succ_le_succ h.count_le, by rw [List.length_set]; exact h.len, ?_, ?_⟩
  · intro j' n st idx' rs hmem
    rcases List.mem_append.1 hmem with hmem | hmem
    · have hr := h.runs _ _ _ _ _ hmem
      refine ⟨hr.1, hr.2.goodBatch_snoc _ ?_⟩
      intro slot m' heq
      injection heq with h1
      omega
    · simp at hmem
  · intro j' slot m' hmem
    rcases List.mem_append.1 hmem with hmem | hmem
    · rcases h.transfers _ _ _ hmem with h1 | ⟨h1, h2, h3⟩
      · exact Or.inl h1
      · refine Or.inr ⟨h1, Nat.lt_succ_of_lt h2, ?_⟩
        rw [getD_set_ne _ _ _ _ _ (Nat.ne_of_lt h2)]
        exact h3
    · rw [List.mem_singleton] at hmem
      injection hmem with h1 h2 h3
      subst h1 h2 h3
      exact Or.inr ⟨rfl, Nat.lt_succ_self _, by rw [getD_set_eq _ _ _ _ hc]; exact hm⟩
  · intro slot hs
    rcases Nat.lt_succ_iff_lt_or_eq.1 hs with h1 | h1
    · obtain ⟨m', hm1, hm2⟩ := h.filled slot h1
      refine ⟨m', List.mem_append_left _ hm1, ?_⟩
      rw [getD_set_ne _ _ _ _ _ (Nat.ne_of_lt h1)]
      exact hm2
    · subst h1
      refine ⟨m, List.mem_append_right _ (List.mem_singleton_self _), ?_⟩
      rw [getD_set_eq _ _ _ _ hc]
      exact hm
  · rw [take_succ_set _ _ _ hc, List.pairwise_append]
    refine ⟨h.increasing, List.pairwise_singleton _ _, ?_⟩
    intro a ha b hb
    rw [List.mem_singleton] at hb
    subst hb
    exact h.bounded a ha
  · intro x hx
    rw [take_succ_set _ _ _ hc, List.mem_append, List.mem_singleton] at hx
    rcases hx with hx | hx
    · exact Nat.lt_succ_of_lt (h.bounded x hx)
    · subst hx
      exact Nat.lt_succ_self _

theorem Filling.dispatch {N j c : Nat} {idx : List Nat} {tr : List Event}
    (h : Filling N j N c idx tr) (states : List (Option Nat)) (rs : NvCV_Status)
    (hh : ∀ i, i < c →
      ∃ x, states[i]? = some (some x) ∧ Event.allocate (idx.getD i 0) (some x) ∈ tr) :
    Sealed N (j + 1) (tr ++ [Event.run j c states idx rs]) := by
  constructor
  · intro j' n st idx' rs' hmem
    rcases List.mem_append.1 hmem with hmem | hmem
    · have hr := h.runs _ _ _ _ _ hmem
      exact ⟨Nat.lt_succ_of_lt hr.1, hr.2.goodBatch_snoc _ (by intro slot m heq; cases heq)⟩
    · rw [List.mem_singleton] at hmem
      injection hmem with h1 h2 h3 h4 h5
      subst h1 h2 h3 h4 h5
      refine ⟨Nat.lt_succ_self _, ?_⟩
      refine ⟨h.count_le, by rw [h.len]; exact h.count_le, h.increasing, h.bounded, ?_, ?_, ?_⟩
      · intro i hi
        obtain ⟨x, hx1, hx2⟩ := hh i hi
        exact ⟨x, hx1, List.mem_append_left _ hx2⟩
      · intro i hi
        obtain ⟨m, hm1, hm2⟩ := h.filled i hi
        exact ⟨m, List.mem_append_left _ hm1, hm2⟩
      · intro i m hmem
        rcases List.mem_append.1 hmem with hmem | hmem
        · rcases h.transfers _ _ _ hmem with h1 | ⟨_, h2, h3⟩
          · exact absurd h1 (Nat.lt_irrefl _)
          · exact ⟨h2, h3⟩
        · simp at hmem
  · intro j' slot m hmem
    rcases List.mem_append.1 hmem with hmem | hmem
    · rcases h.transfers _ _ _ hmem with h1 | ⟨h1, _, _⟩
      · exact Nat.lt_succ_of_lt h1
      · rw [h1]; exact Nat.lt_succ_self _
    · simp at hmem

theorem streamLength_le_maxLength (w : World) (i : Nat) : streamLength w i ≤ maxLength w := by
  unfold streamLength maxLength
  generalize w.videos = vs
  induction vs generalizing i with
  | nil => simp
  | cons v t ih =>
    cases i with
    | zero => simp
    | succ i =>
      have := ih i
      simp only [List.getD_cons_succ, List.map_cons, List.foldr_cons]
      omega

theorem readFrame_some_lt {w : World} {i p : Nat} {m : Mat} (h : readFrame w i p = some m) :
    p < streamLength w i ∧ m.stream = i ∧ m.index = p := by
  unfold readFrame at h
  unfold streamLength
  split at h
  · cases h
  · rename_i f hf
    simp only [Option.some.injEq] at h
    subst h
    have := (List.getElem?_eq_some_iff.1 hf).1
    exact ⟨this, rfl, rfl⟩

theorem allocations_append (a b : List Event) :
    allocations (a ++ b) = allocations a ++ allocations b := by
  simp [allocations, List.filterMap_append]

theorem releases_append (a b : List Event) : releases (a ++ b) = releases a ++ releases b := by
  simp [releases, List.filterMap_append]

theorem mem_allocations {tr : List Event} {i : Nat} {h : Option Nat} :
    (i, h) ∈ allocations tr ↔ Event.allocate i h ∈ tr := by
  unfold allocations
  rw [List.mem_filterMap]
  constructor
  · rintro ⟨e, he, hx⟩
    cases e <;> simp [Event.allocation] at hx
    obtain ⟨rfl, rfl⟩ := hx
    exact he
  · intro he
    exact ⟨_, he, rfl⟩

theorem mem_releases {tr : List Event} {i : Nat} {h : Option Nat} :
    (i, h) ∈ releases tr ↔ Event.deallocate i h ∈ tr := by
  unfold releases
  rw [List.mem_filterMap]
  constructor
  · rintro ⟨e, he, hx⟩
    cases e <;> simp [Event.release] at hx
    obtain ⟨rfl, rfl⟩ := hx
    exact he
  · intro he
    exact ⟨_, he, rfl⟩

theorem Quiet.quiet_nil : Quiet [] := by
  intro e he
  cases he

theorem Quiet.quiet_snoc {tr : List Event} (h : Quiet tr) (e : Event) (he : e.early = true) :
    Quiet (tr ++ [e]) := by
  intro x hx
  rcases List.mem_append.1 hx with hx | hx
  · exact h x hx
  · rw [List.mem_singleton] at hx
    subst hx
    exact he

theorem Quiet.clean {tr : List Event} (h : Quiet tr) : Clean tr := by
  intro e he
  have := h e he
  cases e <;> simp [Event.early] at this <;> rfl

theorem Quiet.sealed {tr : List Event} (h : Quiet tr) (N : Nat) : Sealed N 0 tr where
  runs := fun j' n st idx rs hm => by
    have := h _ hm
    simp [Event.early] at this
  transfers := fun j' slot m hm => by
    have := h _ hm
    simp [Event.early] at this

theorem Clean.clean_snoc {tr : List Event} (h : Clean tr) (e : Event) (he : e.fatal = false) :
    Clean (tr ++ [e]) := by
  intro x hx
  rcases List.mem_append.1 hx with hx | hx
  · exact h x hx
  · rw [List.mem_singleton] at hx
    subst hx
    exact he

theorem releases_snoc (tr : List Event) (e : Event) (he : e.release = none) :
    releases (tr ++ [e]) = releases tr := by
  rw [releases_append]; simp [releases, he]

theorem allocations_snoc (tr : List Event) (e : Event) (he : e.allocation = none) :
    allocations (tr ++ [e]) = allocations tr := by
  rw [allocations_append]; simp [allocations, he]

namespace Local

theorem WritesOK.local_writesOK_snoc {tr : List Event} (h : WritesOK tr) (e : Event)
    (he : ∀ j x slot, e ≠ Event.write j x slot) : WritesOK (tr ++ [e]) := by
  intro j x slot hm
  rcases List.mem_append.1 hm with hm | hm
  · obtain ⟨n, st, idx, h1, h2⟩ := h j x slot hm
    exact ⟨n, st, idx, List.mem_append_left _ h1, h2⟩
  · exact absurd (List.mem_singleton.1 hm).symm (he j x slot)

theorem Complete.local_complete_snoc {w : World} {tr : List Event} (h : Complete w tr) (e : Event)
    (he : ∀ j n st idx, e ≠ Event.run j n st idx NVCV_SUCCESS) : Complete w (tr ++ [e]) := by
  intro j n st idx hm i hi hok
  rcases List.mem_append.1 hm with hm | hm
  · exact List.mem_append_left _ (h j n st idx hm i hi hok)
  · exact absurd (List.mem_singleton.1 hm).symm (he j n st idx)

theorem Quiet.writesOK {tr : List Event} (h : Quiet tr) : WritesOK tr := by
  intro j x slot hm
  have := h _ hm
  simp [Event.early] at this

theorem Quiet.complete {tr : List Event} (h : Quiet tr) (w : World) : Complete w tr := by
  intro j n st idx hm
  have := h _ hm
  simp [Event.early] at this

theorem Allocated.local_allocated_snoc {arr : List (Option Nat)} {tr : List Event} (h : Allocated arr tr)
    (e : Event) (h1 : e.allocation = none) (h2 : e.release = none) :
    Allocated arr (tr ++ [e]) where
  stored := h.stored
  noRelease := by rw [releases_snoc _ _ h2, h.noRelease]
  allocs := by
    rw [allocations_snoc _ _ h1]
    exact h.allocs

theorem Allocated.link {arr : List (Option Nat)} {tr : List Event} (h : Allocated arr tr)
    {x : Nat} (hx : x < arr.length) :
    arr[x]? = some (some x) ∧ Event.allocate x (some x) ∈ tr := by
  constructor
  · rw [h.stored]
    simp [List.getElem?_range, hx]
  · rw [← mem_allocations]
    rcases h.allocs with h1 | h1 <;> rw [h1] <;> simp <;> exact hx

theorem Ledger.local_ledger_snoc {w : World} {arr : List (Option Nat)} {tr : List Event}
    (h : Ledger w arr tr) (e : Event) (h1 : e.allocation = none) (h2 : e.release = none)
    (h3 : ∀ j x slot, e ≠ Event.write j x slot) (h4 : e.fatal = false) :
    Ledger w arr (tr ++ [e]) where
  lenArr := h.lenArr
  alloc := h.alloc.local_allocated_snoc e h1 h2
  full := by rw [allocations_snoc _ _ h1]; exact h.full
  writes := h.writes.local_writesOK_snoc e h3
  clean := h.clean.clean_snoc e h4

theorem Ledger.tail {w : World} {arr : List (Option Nat)} {tr : List Event}
    (h : Ledger w arr tr) (hc : Complete w tr) (err : NvCV_Status) : Tail w arr err tr :=
  ⟨h.writes, h.alloc, hc, Or.inl h.clean, Or.inr ⟨h.lenArr, h.full⟩⟩

theorem Ledger.tail_fatal {w : World} {arr : List (Option Nat)} {tr : List Event}
    (h : Ledger w arr tr) (hc : Complete w tr) (e : Event) (h1 : e.allocation = none)
    (h2 : e.release = none) (h3 : ∀ j x slot, e ≠ Event.write j x slot)
    (h4 : ∀ j n st idx, e ≠ Event.run j n st idx NVCV_SUCCESS)
    (err : NvCV_Status) (herr : err ≠ NVCV_SUCCESS) : Tail w arr err (tr ++ [e]) :=
  ⟨h.writes.local_writesOK_snoc e h3, h.alloc.local_allocated_snoc e h1 h2, hc.local_complete_snoc e h4, Or.inr herr,
    Or.inr ⟨h.lenArr, by rw [allocations_snoc _ _ h1]; exact h.full⟩⟩

theorem Assembling.local_assembling_done {w : World} {j i : Nat} {s : State} (h : Assembling w j i s)
    (e : NvCV_Status) : Done w { s with err := e } :=
  ⟨⟨j + 1, h.fill.seal⟩, h.inv.ledger.tail h.inv.complete e⟩

theorem Inv.local_inv_snoc {w : World} {s : State} (h : Inv w s) (e : Event) (h1 : e.allocation = none)
    (h2 : e.release = none) (h3 : ∀ j x slot, e ≠ Event.write j x slot) (h4 : e.fatal = false)
    (h5 : ∀ j n st idx, e ≠ Event.run j n st idx NVCV_SUCCESS) :
    Inv w { s with trace := s.trace ++ [e] } :=
  ⟨h.lenStates, h.lenCaps, h.ledger.local_ledger_snoc e h1 h2 h3 h4, h.complete.local_complete_snoc e h5⟩

theorem local_assembleStep_spec {w : World} {j i : Nat} {s : State} (h : Assembling w j i s)
    (hi : i < w.videos.length) :
    (∀ s1, assembleStep w j i s = Flow.next s1 → Assembling w j (i + 1) s1) ∧
    (∀ s1, assembleStep w j i s = Flow.bail s1 → Done w s1) := by
  have hmod : i % w.videos.length = i := Nat.mod_eq_of_lt hi
  have hc : s.activeVideoCount < w.videos.length := Nat.lt_of_le_of_lt h.fill.count_le hi
  have hstep : ∀ x, x ≠ i → ((x < i + 1) = (x < i)) := by
    intro x hx; simp; omega
  unfold assembleStep
  simp only [hmod]
  cases hcap : s.srcCaptures.getD i none with
  | none =>
    simp only [Flow.next.injEq, false_and, forall_const, and_true, reduceCtorEq, IsEmpty.forall_iff,
      implies_true]
    intro s1 hs
    subst hs
    refine ⟨h.inv, h.fill.skip, h.states, ?_, h.progress⟩
    intro x p hx
    have hxi : x ≠ i := by rintro rfl; rw [hcap] at hx; cases hx
    simp only [hstep x hxi]
    exact h.caps x p hx
  | some p =>
    have hp : j = p := by simpa using (h.caps i p hcap).symm
    subst hp
    dsimp only
    cases hread : readFrame w i j with
    | none =>
      simp only [Flow.next.injEq, reduceCtorEq, IsEmpty.forall_iff, implies_true, and_true]
      intro s1 hs
      subst hs
      have hinv := h.inv.local_inv_snoc (Event.pull i none) rfl rfl (by simp) rfl (by simp)
      refine ⟨⟨hinv.lenStates, by simp [h.inv.lenCaps], hinv.ledger, hinv.complete⟩,
        (h.fill.filling_snoc (Event.pull i none) rfl).skip, h.states, ?_, h.progress⟩
      intro x q hx
      have hx' : (s.srcCaptures.set i none).getD x none = some q := hx
      by_cases hxi : x = i
      · subst hxi
        rw [getD_set_eq _ _ _ _ (by rw [h.inv.lenCaps]; exact hi)] at hx'
        cases hx'
      · rw [getD_set_ne _ _ _ _ _ hxi] at hx'
        simp only [hstep x hxi]
        exact h.caps x q hx'
    | some m =>
      obtain ⟨hlt, hstream, -⟩ := readFrame_some_lt hread
      dsimp only
      have hinv := h.inv.local_inv_snoc (Event.pull i (some j)) rfl rfl (by simp) rfl (by simp)
      split
      · -- size mismatch
        simp only [reduceCtorEq, IsEmpty.forall_iff, implies_true, Flow.bail.injEq, true_and]
        intro s1 hs
        subst hs
        exact ⟨⟨j + 1, ((h.fill.filling_snoc (Event.pull i (some j)) rfl).filling_snoc
          (Event.mismatch j i) rfl).seal⟩,
          hinv.ledger.tail_fatal hinv.complete (Event.mismatch j i) rfl rfl (by simp) (by simp)
            NVCV_ERR_MISMATCH (by simp)⟩
      · split
        · simp only [Flow.next.injEq, reduceCtorEq, IsEmpty.forall_iff, implies_true, and_true]
          intro s1 hs
          subst hs
          have hinv2 := hinv.local_inv_snoc (Event.transferTo j s.activeVideoCount m) rfl rfl (by simp) rfl
            (by simp)
          refine ⟨⟨by simp [h.inv.lenStates], by simp [h.inv.lenCaps], hinv2.ledger,
            hinv2.complete⟩, ?_, ?_, ?_, ?_⟩
          · exact (h.fill.filling_snoc (Event.pull i (some j)) rfl).push hi m hstream
          · intro slot hs
            simp only at hs ⊢
            rcases Nat.lt_succ_iff_lt_or_eq.1 hs with h1 | h1
            · rw [getD_set_ne _ _ _ _ _ (Nat.ne_of_lt h1), getD_set_ne _ _ _ _ _ (Nat.ne_of_lt h1)]
              exact h.states slot h1
            · subst h1
              rw [getD_set_eq _ _ _ _ (by rw [h.inv.lenStates]; exact hc),
                getD_set_eq _ _ _ _ (by rw [h.fill.len]; exact hc)]
          · intro x q hx
            have hx' : (s.srcCaptures.set i (some (j + 1))).getD x none = some q := hx
            by_cases hxi : x = i
            · subst hxi
              rw [getD_set_eq _ _ _ _ (by rw [h.inv.lenCaps]; exact hi)] at hx'
              simp at hx' ⊢
              exact hx'.symm
            · rw [getD_set_ne _ _ _ _ _ hxi] at hx'
              simp only [hstep x hxi]
              exact h.caps x q hx'
          · intro _
            exact Nat.lt_of_lt_of_le hlt (streamLength_le_maxLength w i)
        · rename_i hne
          simp only [reduceCtorEq, IsEmpty.forall_iff, implies_true, Flow.bail.injEq, true_and]
          intro s1 hs
          subst hs
          exact ⟨⟨j + 1, (h.fill.filling_snoc (Event.pull i (some j)) rfl).seal⟩,
            ⟨hinv.ledger.writes, hinv.ledger.alloc, hinv.complete, Or.inr hne,
              Or.inr ⟨hinv.ledger.lenArr, hinv.ledger.full⟩⟩⟩

theorem WritesOK.snoc_write {tr : List Event} (h : WritesOK tr) (j x slot n : Nat)
    (st : List (Option Nat)) (idx : List Nat)
    (hr : Event.run j n st idx NVCV_SUCCESS ∈ tr) (hs : slot < n) (hx : idx.getD slot 0 = x) :
    WritesOK (tr ++ [Event.write j x slot]) := by
  intro j' x' slot' hm
  rcases List.mem_append.1 hm with hm | hm
  · obtain ⟨n', st', idx', h1, h2⟩ := h j' x' slot' hm
    exact ⟨n', st', idx', List.mem_append_left _ h1, h2⟩
  · rw [List.mem_singleton] at hm
    injection hm with h1 h2 h3
    subst h1 h2 h3
    exact ⟨n, st, idx, List.mem_append_left _ hr, hs, hx⟩

theorem Ready.local_ready_done {w : World} {j : Nat} {s : State} (h : Ready w j s) (e : NvCV_Status) :
    Done w { s with err := e } :=
  ⟨⟨j, h.sealed⟩, h.inv.ledger.tail h.inv.complete e⟩

theorem Writing.local_writing_ready {w : World} {j n : Nat} {s : State} (h : Writing w j n n s) :
    Ready w (j + 1) s where
  inv := ⟨h.lenStates, h.lenCaps, h.ledger, by
    intro j' n' st' idx' hm k hk hok
    by_cases hj : j' = j
    · subst hj
      obtain ⟨h1, h2⟩ := h.current _ _ _ _ hm
      subst h1 h2
      exact h.written k hk
    · exact h.old j' n' st' idx' hm hj k hk hok⟩
  sealed := h.sealed
  lenIdx := h.lenIdx
  caps := h.caps

theorem Assembling.caps_after {w : World} {j : Nat} {s : State}
    (h : Assembling w j w.videos.length s) :
    ∀ x p, s.srcCaptures.getD x none = some p → p = j + 1 := by
  intro x p hx
  have := h.caps x p hx
  by_cases hlt : x < w.videos.length
  · simpa [hlt] using this
  · rw [List.getD_eq_getElem?_getD, List.getElem?_eq_none (by rw [h.inv.lenCaps]; omega)] at hx
    cases hx

theorem Assembling.local_assembling_handles {w : World} {j : Nat} {s : State}
    (h : Assembling w j w.videos.length s) :
    ∀ i, i < s.activeVideoCount →
      ∃ x, s.batchOfStates[i]? = some (some x) ∧
        Event.allocate (s.batchIndices.getD i 0) (some x) ∈ s.trace := by
  intro i hi
  have hcN : s.activeVideoCount ≤ w.videos.length := h.fill.count_le
  have hmem : s.batchIndices.getD i 0 ∈ s.batchIndices.take s.activeVideoCount :=
    getD_mem_take _ _ _ _ hi (by rw [h.fill.len]; exact hcN)
  have hb : s.batchIndices.getD i 0 < s.arrayOfStates.length := by
    rw [h.inv.ledger.lenArr]; exact h.fill.bounded _ hmem
  obtain ⟨h1, h2⟩ := h.inv.ledger.alloc.link hb
  refine ⟨_, ?_, h2⟩
  have hst := h.states i hi
  rw [List.getD_eq_getElem?_getD, List.getD_eq_getElem?_getD, h1] at hst
  have hil : i < s.batchOfStates.length := by rw [h.inv.lenStates]; omega
  rw [List.getElem?_eq_getElem hil] at hst ⊢
  simpa using hst

theorem dispatch_spec {w : World} {j : Nat} {s : State}
    (h : Assembling w j w.videos.length s) :
    (∀ s1, dispatch w j s = Flow.next s1 → Writing w j s.activeVideoCount 0 s1) ∧
    (∀ s1, dispatch w j s = Flow.bail s1 → Done w s1) := by
  unfold dispatch check
  by_cases h1 : w.setBatchSize j = NVCV_SUCCESS
  · by_cases h2 : w.setStates j = NVCV_SUCCESS
    · have hsealed := h.fill.dispatch s.batchOfStates (w.runStatus j) h.local_assembling_handles
      by_cases h3 : w.runStatus j = NVCV_SUCCESS
      · simp only [h1, h2, h3, if_true, Flow.next.injEq, reduceCtorEq, IsEmpty.forall_iff,
          implies_true, and_true]
        intro s1 hs
        subst hs
        rw [h3] at hsealed
        refine ⟨h.inv.lenStates, h.inv.lenCaps,
          h.inv.ledger.local_ledger_snoc _ (by rfl) (by rfl) (by simp) (by simp [Event.fatal]), hsealed,
          h.fill.len, h.caps_after, ⟨s.batchOfStates, by simp⟩, ?_, ?_, ?_⟩
        · intro n' st' idx' rs hm
          have hm' : Event.run j n' st' idx' rs ∈ s.trace ++
            [Event.run j s.activeVideoCount s.batchOfStates s.batchIndices NVCV_SUCCESS] := hm
          rcases List.mem_append.1 hm' with hm' | hm'
          · exact absurd (h.fill.runs _ _ _ _ _ hm').1 (Nat.lt_irrefl _)
          · rw [List.mem_singleton] at hm'
            injection hm' with _ e2 _ e4 _
            exact ⟨e2, e4⟩
        · intro j' n' st' idx' hm hj k hk hok
          have hm' : Event.run j' n' st' idx' NVCV_SUCCESS ∈ s.trace ++
            [Event.run j s.activeVideoCount s.batchOfStates s.batchIndices NVCV_SUCCESS] := hm
          rcases List.mem_append.1 hm' with hm' | hm'
          · exact List.mem_append_left _ (h.inv.complete j' n' st' idx' hm' k hk hok)
          · rw [List.mem_singleton] at hm'
            injection hm' with e1
            exact absurd e1 hj
        · intro k hk
          exact absurd hk (Nat.not_lt_zero _)
      · simp only [h1, h2, h3, if_true, if_false, reduceCtorEq, IsEmpty.forall_iff,
          implies_true, Flow.bail.injEq, true_and]
        intro s1 hs
        subst hs
        refine ⟨⟨j + 1, hsealed⟩, h.inv.ledger.tail_fatal h.inv.complete _ (by rfl) (by rfl)
          (by simp) ?_ _ h3⟩
        intro j' n' st' idx' heq
        injection heq with _ _ _ _ e5
        exact h3 e5
    · simp only [h1, h2, if_true, if_false, reduceCtorEq, IsEmpty.forall_iff,
        implies_true, Flow.bail.injEq, true_and]
      intro s1 hs
      subst hs
      exact ⟨⟨j + 1, h.fill.seal⟩, ⟨h.inv.ledger.writes, h.inv.ledger.alloc, h.inv.complete,
        Or.inr h2, Or.inr ⟨h.inv.ledger.lenArr, h.inv.ledger.full⟩⟩⟩
  · simp only [h1, if_false, reduceCtorEq, IsEmpty.forall_iff,
      implies_true, Flow.bail.injEq, true_and]
    intro s1 hs
    subst hs
    exact ⟨⟨j + 1, h.fill.seal⟩, ⟨h.inv.ledger.writes, h.inv.ledger.alloc, h.inv.complete,
      Or.inr h1, Or.inr ⟨h.inv.ledger.lenArr, h.inv.ledger.full⟩⟩⟩

theorem local_writeStep_spec {w : World} {j n i : Nat} {s : State} (h : Writing w j n i s)
    (hi : i < n) :
    (∀ s1, writeStep w j i s = Flow.next s1 → Writing w j n (i + 1) s1) ∧
    (∀ s1, writeStep w j i s = Flow.bail s1 → Done w s1) := by
  unfold writeStep
  obtain ⟨st, hst⟩ := h.ran
  by_cases h1 : w.transferFromStatus j i = NVCV_SUCCESS
  · simp only [h1, if_true, Flow.next.injEq, reduceCtorEq, IsEmpty.forall_iff, implies_true,
      and_true]
    intro s1 hs
    subst hs
    refine ⟨h.lenStates, h.lenCaps, ⟨h.ledger.lenArr, h.ledger.alloc.local_allocated_snoc _ (by rfl) (by rfl),
      by rw [allocations_snoc _ (Event.write j (s.batchIndices.getD i 0) i) rfl]; exact h.ledger.full,
      h.ledger.writes.snoc_write j _ i n st s.batchIndices hst hi rfl,
      h.ledger.clean.clean_snoc _ (by rfl)⟩,
      h.sealed.sealed_snoc _ (by rfl), h.lenIdx, h.caps, ⟨st, List.mem_append_left _ hst⟩, ?_, ?_, ?_⟩
    · intro n' st' idx' rs hm
      have hm' : Event.run j n' st' idx' rs ∈ s.trace ++
        [Event.write j (s.batchIndices.getD i 0) i] := hm
      rcases List.mem_append.1 hm' with hm' | hm'
      · exact h.current _ _ _ _ hm'
      · simp at hm'
    · intro j' n' st' idx' hm hj k hk hok
      have hm' : Event.run j' n' st' idx' NVCV_SUCCESS ∈ s.trace ++
        [Event.write j (s.batchIndices.getD i 0) i] := hm
      rcases List.mem_append.1 hm' with hm' | hm'
      · exact List.mem_append_left _ (h.old j' n' st' idx' hm' hj k hk hok)
      · simp at hm'
    · intro k hk
      rcases Nat.lt_succ_iff_lt_or_eq.1 hk with h2 | h2
      · exact List.mem_append_left _ (h.written k h2)
      · subst h2
        exact List.mem_append_right _ (List.mem_singleton_self _)
  · simp only [h1, if_false, reduceCtorEq, IsEmpty.forall_iff, implies_true, Flow.bail.injEq,
      true_and]
    intro s1 hs
    subst hs
    refine ⟨⟨j + 1, h.sealed⟩, ⟨h.ledger.writes, h.ledger.alloc, ?_, Or.inr h1,
      Or.inr ⟨h.ledger.lenArr, h.ledger.full⟩⟩⟩
    intro j' n' st' idx' hm k hk hok
    by_cases hj : j' = j
    · subst hj
      obtain ⟨e1, e2⟩ := h.current _ _ _ _ hm
      subst e1 e2
      by_cases hki : k < i
      · exact h.written k hki
      · exact absurd (hok i (by omega)) h1
    · exact h.old j' n' st' idx' hm hj k hk hok

theorem Ready.local_ready_assembling {w : World} {j : Nat} {s : State} (h : Ready w j s) :
    Assembling w j 0 { s with activeVideoCount := 0 } where
  inv := ⟨h.inv.lenStates, h.inv.lenCaps, h.inv.ledger, h.inv.complete⟩
  fill := h.sealed.start _ h.lenIdx
  states := fun slot hs => absurd hs (Nat.not_lt_zero _)
  caps := fun x p hx => by simpa using h.caps x p hx
  progress := fun hp => absurd hp (Nat.lt_irrefl 0)

theorem local_cycle_spec {w : World} {j : Nat} {s : State} (h : Ready w j s) :
    (∀ s1, cycle w j s = Flow.next s1 → Ready w (j + 1) s1 ∧ j < maxLength w) ∧
    (∀ s1, cycle w j s = Flow.bail s1 → Done w s1) := by
  have hA := forLoop_rule (assembleStep w j) w.videos.length (fun i t => Assembling w j i t)
    (Done w) (fun i t t1 hi hP => (local_assembleStep_spec hP hi).1 t1)
    (fun i t t1 hi hP => (local_assembleStep_spec hP hi).2 t1)
    w.videos.length 0 { s with activeVideoCount := 0 } (Nat.zero_add _) h.local_ready_assembling
  unfold cycle
  cases hloop : forLoop (assembleStep w j) w.videos.length 0 { s with activeVideoCount := 0 } with
  | bail b =>
    simp only [reduceCtorEq, IsEmpty.forall_iff, implies_true, Flow.bail.injEq, true_and]
    intro s1 hs
    subst hs
    exact hA.2 _ hloop
  | next s1 =>
    have hs1 := hA.1 _ hloop
    dsimp only
    by_cases hz : s1.activeVideoCount = 0
    · simp only [hz, if_true, reduceCtorEq, IsEmpty.forall_iff, implies_true, Flow.bail.injEq,
        true_and]
      intro s2 hs
      subst hs
      exact hs1.local_assembling_done s1.err
    · simp only [hz, if_false]
      have hD := dispatch_spec hs1
      cases hd : dispatch w j s1 with
      | bail b =>
        simp only [reduceCtorEq, IsEmpty.forall_iff, implies_true, Flow.bail.injEq, true_and]
        intro s2 hs
        subst hs
        exact hD.2 _ hd
      | next s2 =>
        dsimp only
        have hW := forLoop_rule (writeStep w j) s1.activeVideoCount
          (fun i t => Writing w j s1.activeVideoCount i t) (Done w)
          (fun i t t1 hi hP => (local_writeStep_spec hP hi).1 t1)
          (fun i t t1 hi hP => (local_writeStep_spec hP hi).2 t1)
          s1.activeVideoCount 0 s2 (Nat.zero_add _) (hD.1 _ hd)
        constructor
        · intro s3 hs
          exact ⟨(hW.1 _ hs).local_writing_ready, hs1.progress (Nat.pos_of_ne_zero hz)⟩
        · intro s3 hs
          exact hW.2 _ hs

theorem local_cycleLoop_done {w : World} :
    ∀ (fuel j : Nat) (s s1 : State), Ready w j s → cycleLoop w fuel j s = some s1 → Done w s1 := by
  intro fuel
  induction fuel with
  | zero => intro j s s1 _ h; simp [cycleLoop] at h
  | succ fuel ih =>
    intro j s s1 hr h
    unfold cycleLoop at h
    have hc := local_cycle_spec hr
    cases hcy : cycle w j s with
    | bail b =>
      simp only [hcy, Option.some.injEq] at h
      subst h
      exact hc.2 _ hcy
    | next s2 =>
      simp only [hcy] at h
      exact ih (j + 1) s2 s1 (hc.1 _ hcy).1 h

theorem local_cycleLoop_total {w : World} :
    ∀ (fuel j : Nat) (s : State), Ready w j s → j ≤ maxLength w → maxLength w < j + fuel →
      ∃ s1, cycleLoop w fuel j s = some s1 := by
  intro fuel
  induction fuel with
  | zero => intro j s _ h1 h2; omega
  | succ fuel ih =>
    intro j s hr h1 h2
    unfold cycleLoop
    have hc := local_cycle_spec hr
    cases hcy : cycle w j s with
    | bail b => exact ⟨b, rfl⟩
    | next s2 =>
      have := hc.1 _ hcy
      exact ih (j + 1) s2 this.1 this.2 (by omega)

theorem Opening.local_opening_done {w : World} {s : State} (h : Opening w s) (e : NvCV_Status) :
    Done w { s with err := e } :=
  ⟨⟨0, h.quiet.sealed _⟩, Quiet.writesOK h.quiet,
    ⟨by rw [h.noStates]; rfl, h.noRelease, Or.inl (by rw [h.noStates, h.noAlloc]; rfl)⟩,
    Quiet.complete h.quiet w, Or.inl h.quiet.clean, Or.inl h.quiet⟩

theorem Opening.local_opening_atEntry (w : World) : Opening w (Local.initial w) where
  lenIdx := by simp [Local.initial]
  lenCaps := by simp [Local.initial]
  caps := fun x p hx => by
    simp only [Local.initial, List.getD_eq_getElem?_getD, List.getElem?_replicate] at hx
    split at hx <;> simp at hx
  quiet := Quiet.quiet_nil
  noStates := rfl
  noAlloc := rfl
  noRelease := rfl
  fresh := rfl

theorem Opening.local_opening_snoc {w : World} {s : State} (h : Opening w s) (e : Event)
    (h1 : e.early = true) (h3 : e.allocation = none) (h4 : e.release = none)
    (err : NvCV_Status) :
    Opening w { s with err := err, trace := s.trace ++ [e] } where
  lenIdx := h.lenIdx
  lenCaps := h.lenCaps
  caps := h.caps
  quiet := h.quiet.quiet_snoc e h1
  noStates := h.noStates
  noAlloc := by
    show allocations (s.trace ++ [e]) = []
    rw [allocations_snoc _ _ h3, h.noAlloc]
  noRelease := by
    show releases (s.trace ++ [e]) = []
    rw [releases_snoc _ _ h4, h.noRelease]
  fresh := h.fresh

theorem Opening.opened {w : World} {s : State} (h : Opening w s) (i : Nat) :
    Opening w { s with srcCaptures := s.srcCaptures.set i (some 0) } where
  lenIdx := h.lenIdx
  lenCaps := by simp [h.lenCaps]
  caps := fun x p hx => by
    have hx' : (s.srcCaptures.set i (some 0)).getD x none = some p := hx
    by_cases hxi : x = i
    · subst hxi
      rcases getD_set_self_or s.srcCaptures x (some 0) none with h1 | h1
      · rw [h1] at hx'
        exact (Option.some.inj hx').symm
      · rw [h1] at hx'
        cases hx'
    · rw [getD_set_ne _ _ _ _ _ hxi] at hx'
      exact h.caps x p hx'
  quiet := h.quiet
  noStates := h.noStates
  noAlloc := h.noAlloc
  noRelease := h.noRelease
  fresh := h.fresh

theorem local_openStep_spec {w : World} {i : Nat} {s : State} (h : Opening w s) :
    (∀ s1, openStep w i s = Flow.next s1 → Opening w s1) ∧
    (∀ s1, openStep w i s = Flow.bail s1 → Done w s1) := by
  unfold openStep
  by_cases h1 : w.sourceOpens i = false
  · simp only [h1, if_true, reduceCtorEq, IsEmpty.forall_iff, implies_true, Flow.bail.injEq,
      true_and]
    intro s1 hs
    subst hs
    exact (h.local_opening_snoc (Event.openSource i false) rfl rfl rfl s.err).local_opening_done NVCV_ERR_READ
  · by_cases h2 : w.sinkOpens i = false
    · simp only [h1, h2, if_true, if_false, reduceCtorEq, IsEmpty.forall_iff, implies_true,
        Flow.bail.injEq, true_and]
      intro s1 hs
      subst hs
      exact ((((h.opened i).local_opening_snoc (Event.openSource i true) rfl rfl rfl s.err).local_opening_snoc
        (Event.openSink i false) rfl rfl rfl s.err)).local_opening_done NVCV_ERR_WRITE
    · simp only [h1, h2, if_false, Flow.next.injEq, reduceCtorEq, IsEmpty.forall_iff,
        implies_true, and_true]
      intro s1 hs
      subst hs
      exact (((h.opened i).local_opening_snoc (Event.openSource i true) rfl rfl rfl s.err).local_opening_snoc
        (Event.openSink i true) rfl rfl rfl s.err)

theorem Opening.allocating {w : World} {s : State} (h : Opening w s) (e : NvCV_Status) :
    Allocating w 0 { s with err := e } :=
  ⟨h.lenIdx, h.lenCaps, h.caps, h.quiet, h.noStates, h.noAlloc, h.noRelease, h.fresh⟩

theorem Allocating.allocated {w : World} {i : Nat} {s : State} (h : Allocating w i s) :
    Allocated s.arrayOfStates s.trace where
  stored := by rw [h.stored]; simp
  noRelease := h.noRelease
  allocs := Or.inl (by rw [h.allocs, h.stored]; simp)

theorem Allocating.local_allocating_done {w : World} {i : Nat} {s : State} (h : Allocating w i s)
    (e : NvCV_Status) : Done w { s with err := e } :=
  ⟨⟨0, h.quiet.sealed _⟩, Quiet.writesOK h.quiet, h.allocated, Quiet.complete h.quiet w,
    Or.inl h.quiet.clean, Or.inl h.quiet⟩

theorem allocStep_spec {w : World} {i : Nat} {s : State} (h : Allocating w i s) :
    (∀ s1, allocStep w i s = Flow.next s1 → Allocating w (i + 1) s1) ∧
    (∀ s1, allocStep w i s = Flow.bail s1 → Done w s1) := by
  unfold allocStep
  by_cases h1 : w.allocateState i = NVCV_SUCCESS
  · simp only [h1, if_true, Flow.next.injEq, reduceCtorEq, IsEmpty.forall_iff, implies_true,
      and_true]
    intro s1 hs
    subst hs
    refine ⟨h.lenIdx, h.lenCaps, h.caps, h.quiet.quiet_snoc _ rfl, ?_, ?_, ?_, ?_⟩
    · show s.arrayOfStates ++ [some s.nextHandle] = _
      rw [h.stored, h.fresh, List.range_succ, List.map_append]; rfl
    · show allocations (s.trace ++ [Event.allocate i (some s.nextHandle)]) = _
      rw [allocations_append, h.allocs, h.fresh, List.range_succ, List.map_append]; rfl
    · show releases (s.trace ++ [Event.allocate i (some s.nextHandle)]) = _
      rw [releases_append, h.noRelease]; rfl
    · show s.nextHandle + 1 = i + 1
      rw [h.fresh]
  · simp only [h1, if_false, reduceCtorEq, IsEmpty.forall_iff, implies_true, Flow.bail.injEq,
      true_and]
    intro s1 hs
    subst hs
    have hq : Quiet (s.trace ++ [Event.allocate i none]) := h.quiet.quiet_snoc _ rfl
    refine ⟨⟨0, hq.sealed _⟩, Quiet.writesOK hq, ⟨?_, ?_, ?_⟩, Quiet.complete hq w,
      Or.inl hq.clean, Or.inl hq⟩
    · show s.arrayOfStates = _
      rw [h.stored]; simp
    · show releases (s.trace ++ [Event.allocate i none]) = _
      rw [releases_append, h.noRelease]; rfl
    · right
      show allocations (s.trace ++ [Event.allocate i none]) = _
      rw [allocations_append, h.allocs, h.stored]; simp [allocations, Event.allocation]

theorem Allocating.local_allocating_ready {w : World} {s : State} (h : Allocating w w.videos.length s)
    (e : NvCV_Status) :
    Ready w 0 { s with err := e,
                       batchOfStates := (List.range w.videos.length).map w.mallocContent } where
  inv := ⟨by simp, h.lenCaps,
    ⟨by show s.arrayOfStates.length = _; rw [h.stored]; simp, h.allocated, h.allocs,
      Quiet.writesOK h.quiet, h.quiet.clean⟩, Quiet.complete h.quiet w⟩
  sealed := h.quiet.sealed _
  lenIdx := h.lenIdx
  caps := h.caps

theorem local_setup_spec {w : World} {s : State} (h : Opening w s) :
    (∀ s1, setup w s = Flow.next s1 → Ready w 0 s1) ∧
    (∀ s1, setup w s = Flow.bail s1 → Done w s1) := by
  unfold setup
  by_cases hn : w.videos.length = 0
  · simp only [hn, if_true, reduceCtorEq, IsEmpty.forall_iff, implies_true, Flow.bail.injEq,
      true_and]
    intro s1 hs
    subst hs
    exact h.local_opening_done _
  simp only [hn, if_false]
  cases hread : readFrame w 0 0 with
  | none =>
    simp only [reduceCtorEq, IsEmpty.forall_iff, implies_true, Flow.bail.injEq, true_and]
    intro s1 hs
    subst hs
    exact (h.local_opening_snoc (Event.pull 0 none) rfl rfl rfl s.err).local_opening_done NVCV_ERR_READ
  | some m =>
    have h1 : Opening w { s with srcWidth := m.width, srcHeight := m.height,
                                 trace := s.trace ++ [Event.pull 0 (some 0)] } :=
      ⟨h.lenIdx, h.lenCaps, h.caps, h.quiet.quiet_snoc _ rfl, h.noStates,
        (h.local_opening_snoc (Event.pull 0 (some 0)) rfl rfl rfl s.err).noAlloc,
        (h.local_opening_snoc (Event.pull 0 (some 0)) rfl rfl rfl s.err).noRelease, h.fresh⟩
    dsimp only
    generalize ({ s with srcWidth := m.width, srcHeight := m.height,
                         trace := s.trace ++ [Event.pull 0 (some 0)] } : State) = t at h1 ⊢
    unfold check
    by_cases c1 : w.initStatus = NVCV_SUCCESS
    swap
    · simp only [c1, if_false, reduceCtorEq, IsEmpty.forall_iff, implies_true, Flow.bail.injEq,
        true_and]
      intro s1 hs; subst hs; exact h1.local_opening_done _
    by_cases c2 : w.setMaxStreams = NVCV_SUCCESS
    swap
    · simp only [c1, c2, if_true, if_false, reduceCtorEq, IsEmpty.forall_iff, implies_true,
        Flow.bail.injEq, true_and]
      intro s1 hs; subst hs; exact h1.local_opening_done _
    by_cases c3 : w.setModelBatch = NVCV_SUCCESS
    swap
    · simp only [c1, c2, c3, if_true, if_false, reduceCtorEq, IsEmpty.forall_iff, implies_true,
        Flow.bail.injEq, true_and]
      intro s1 hs; subst hs; exact h1.local_opening_done _
    by_cases c4 : w.load = NVCV_SUCCESS
    swap
    · simp only [c1, c2, c3, c4, if_true, if_false, reduceCtorEq, IsEmpty.forall_iff,
        implies_true, Flow.bail.injEq, true_and]
      intro s1 hs; subst hs; exact h1.local_opening_done _
    simp only [c1, c2, c3, c4, if_true]
    have hA := forLoop_rule (allocStep w) w.videos.length (fun i t => Allocating w i t)
      (Done w) (fun i t t1 _ hP => (allocStep_spec hP).1 t1)
      (fun i t t1 _ hP => (allocStep_spec hP).2 t1)
      w.videos.length 0 { t with err := NVCV_SUCCESS } (Nat.zero_add _)
      (h1.allocating NVCV_SUCCESS)
    cases hloop : forLoop (allocStep w) w.videos.length 0 { t with err := NVCV_SUCCESS } with
    | bail b =>
      simp only [reduceCtorEq, IsEmpty.forall_iff, implies_true, Flow.bail.injEq, true_and]
      intro s1 hs; subst hs
      exact hA.2 _ hloop
    | next s6 =>
      have h6 := hA.1 _ hloop
      dsimp only
      by_cases c5 : w.mallocOk = false
      · simp only [c5, if_true, reduceCtorEq, IsEmpty.forall_iff, implies_true, Flow.bail.injEq,
          true_and]
        intro s1 hs; subst hs
        exact h6.local_allocating_done _
      · simp only [c5, if_false]
        by_cases c6 : w.imageAlloc = NVCV_SUCCESS
        · simp only [c6, if_true, if_false, Flow.next.injEq, reduceCtorEq, IsEmpty.forall_iff,
            implies_true, and_true]
          intro s1 hs; subst hs
          exact h6.local_allocating_ready _
        · simp only [c6, if_false, reduceCtorEq, IsEmpty.forall_iff, implies_true,
            Flow.bail.injEq, true_and]
          intro s1 hs; subst hs
          exact (h6.local_allocating_ready s6.err).local_ready_done _

theorem local_body_done {w : World} {s : State} (h : body w = some s) : Done w s := by
  unfold body at h
  have hO := forLoop_rule (openStep w) w.videos.length (fun _ t => Opening w t)
    (Done w) (fun i t t1 _ hP => (local_openStep_spec hP).1 t1)
    (fun i t t1 _ hP => (local_openStep_spec hP).2 t1)
    w.videos.length 0 (initial w) (Nat.zero_add _) (Opening.local_opening_atEntry w)
  cases hloop : forLoop (openStep w) w.videos.length 0 (initial w) with
  | bail b =>
    simp only [hloop, Option.some.injEq] at h
    subst h
    exact hO.2 _ hloop
  | next s1 =>
    simp only [hloop] at h
    have hS := local_setup_spec (hO.1 _ hloop)
    cases hset : setup w s1 with
    | bail b =>
      simp only [hset, Option.some.injEq] at h
      subst h
      exact hS.2 _ hset
    | next s2 =>
      simp only [hset] at h
      exact local_cycleLoop_done _ _ _ _ (hS.1 _ hset) h

theorem local_body_total (w : World) : ∃ s, body w = some s := by
  unfold body
  have hO := forLoop_rule (openStep w) w.videos.length (fun _ t => Opening w t)
    (Done w) (fun i t t1 _ hP => (local_openStep_spec hP).1 t1)
    (fun i t t1 _ hP => (local_openStep_spec hP).2 t1)
    w.videos.length 0 (initial w) (Nat.zero_add _) (Opening.local_opening_atEntry w)
  cases hloop : forLoop (openStep w) w.videos.length 0 (initial w) with
  | bail b => exact ⟨b, rfl⟩
  | next s1 =>
    have hS := local_setup_spec (hO.1 _ hloop)
    dsimp only
    cases hset : setup w s1 with
    | bail b => exact ⟨b, rfl⟩
    | next s2 =>
      dsimp only
      exact local_cycleLoop_total (maxLength w + 1) 0 s2 (hS.1 _ hset) (Nat.zero_le _)
        (by omega)

end Local

theorem Justified.justified_nil : Justified [] := by
  intro pre post i h heq
  cases pre <;> cases heq

theorem Justified.snoc_release {tr : List Event} (h : Justified tr) (i x : Nat)
    (hx : Event.allocate i (some x) ∈ tr) : Justified (tr ++ [Event.deallocate i (some x)]) := by
  intro pre post i' h' heq
  rcases List.eq_nil_or_concat post with hp | ⟨post', e, hp⟩
  · subst hp
    have := List.append_inj' heq (by simp)
    obtain ⟨h1, h2⟩ := this
    injection h2 with h3
    injection h3 with h4 h5
    subst h1 h4 h5
    exact ⟨x, rfl, hx⟩
  · subst hp
    have heq' : tr ++ [Event.deallocate i (some x)] =
        (pre ++ Event.deallocate i' h' :: post') ++ [e] := by simpa using heq
    have := List.append_inj' heq' (by simp)
    exact h pre post' i' h' this.1

theorem Justified.justified_snoc {tr : List Event} (h : Justified tr) (e : Event)
    (he : e.release = none) : Justified (tr ++ [e]) := by
  intro pre post i' h' heq
  rcases List.eq_nil_or_concat post with hp | ⟨post', e', hp⟩
  · subst hp
    have := List.append_inj' heq (by simp)
    obtain ⟨_, h2⟩ := this
    injection h2 with h3
    subst h3
    simp [Event.release] at he
  · subst hp
    have heq' : tr ++ [e] = (pre ++ Event.deallocate i' h' :: post') ++ [e'] := by
      simpa using heq
    have := List.append_inj' heq' (by simp)
    exact h pre post' i' h' this.1

namespace Triton

theorem Book.triton_book_done {w : World} {s : State} (h : Book w s) {j : Nat}
    (hs : Sealed w.videos.length j s.trace) : Done w s :=
  ⟨⟨j, hs⟩, h.allocOnce, h.relOnce, h.justified⟩

theorem Done.withErr {w : World} {s : State} (h : Done w s) (e : NvCV_Status) :
    Done w { s with err := e } := ⟨h.sealed, h.allocOnce, h.relOnce, h.justified⟩

theorem Assembling.triton_assembling_done {w : World} {j i l : Nat} {s : State} (h : Assembling w j i l s) :
    Done w s := h.book.triton_book_done h.fill.seal

/-- The bookkeeping survives an event that is neither an allocation nor a release. -/
theorem Book.triton_book_snoc {w : World} {s : State} (h : Book w s) (e : Event)
    (h1 : e.allocation = none) (h2 : e.release = none) :
    Book w { s with trace := s.trace ++ [e] } where
  lenCaps := h.lenCaps
  lenFrames := h.lenFrames
  lenNext := h.lenNext
  lenBatch := h.lenBatch
  link := fun x hx hl => by
    obtain ⟨a, ha1, ha2⟩ := h.link x hx hl
    exact ⟨a, ha1, List.mem_append_left _ ha2⟩
  allocOnce := by
    show ((allocations (s.trace ++ [e])).map Prod.fst).Nodup
    rw [allocations_snoc _ _ h1]; exact h.allocOnce
  relOnce := by
    show ((releases (s.trace ++ [e])).map Prod.fst).Nodup
    rw [releases_snoc _ _ h2]; exact h.relOnce
  relClosed := fun x a hx => by
    have hx' : (x, a) ∈ releases (s.trace ++ [e]) := hx
    rw [releases_snoc _ _ h2] at hx'
    exact h.relClosed x a hx'
  justified := h.justified.justified_snoc e h2
  closedNext := h.closedNext

theorem lookahead_spec {w : World} {j i : Nat} {s : State} (h : Assembling w j i i s)
    (hi : i < w.videos.length) :
    (∀ s1, lookahead w i s = Flow.next s1 → Assembling w j i (i + 1) s1) ∧
    (∀ s1, lookahead w i s = Flow.bail s1 → Done w s1) := by
  have hstep : ∀ x, x ≠ i → ((x < i + 1) = (x < i)) := by
    intro x hx; simp; omega
  unfold lookahead
  cases hcap : s.src_captures.getD i none with
  | none =>
    simp only [Flow.next.injEq, reduceCtorEq, IsEmpty.forall_iff, implies_true, and_true]
    intro s1 hs
    subst hs
    refine ⟨h.book, h.fill, ?_, h.frames, h.inBatch, h.live, ?_, h.progress⟩
    · intro x p hx
      have hxi : x ≠ i := by rintro rfl; rw [hcap] at hx; cases hx
      simp only [hstep x hxi]
      exact h.caps x p hx
    · intro x m hx hm
      by_cases hxi : x = i
      · subst hxi
        rw [h.book.closedNext x hcap] at hm
        cases hm
      · exact h.next x m (by omega) hm
  | some p =>
    obtain ⟨hp, hlive⟩ := h.caps i p hcap
    simp only [Nat.lt_irrefl, if_false] at hp
    subst hp
    dsimp only
    have hil : i < s.src_captures.length := by rw [h.book.lenCaps]; exact hi
    have hin : i < s.frames_t_1.length := by rw [h.book.lenNext]; exact hi
    cases hread : readFrame w i (j + 1) with
    | some m =>
      obtain ⟨hlt, hstream, hidx⟩ := readFrame_some_lt hread
      simp only [Flow.next.injEq, reduceCtorEq, IsEmpty.forall_iff, implies_true, and_true]
      intro s1 hs
      subst hs
      have hb := h.book.triton_book_snoc (Event.pull i (some (j + 1))) rfl rfl
      refine ⟨⟨by simp [h.book.lenCaps], h.book.lenFrames, by simp [h.book.lenNext],
        h.book.lenBatch, hb.link, hb.allocOnce, hb.relOnce, ?_, hb.justified, ?_⟩,
        h.fill.filling_snoc _ (by rfl), ?_, h.frames, h.inBatch, h.live, ?_, h.progress⟩
      · intro x a hx
        have hold := hb.relClosed x a hx
        have hxi : x ≠ i := by
          rintro rfl
          rw [show ({ s with trace := s.trace ++ [Event.pull x (some (j + 1))] } :
            State).src_captures = s.src_captures from rfl, hcap] at hold
          cases hold
        show (s.src_captures.set i (some (j + 1 + 1))).getD x none = none
        rw [getD_set_ne _ _ _ _ _ hxi]
        exact hold
      · intro x hx
        have hx' : (s.src_captures.set i (some (j + 1 + 1))).getD x none = none := hx
        have hxi : x ≠ i := by
          rintro rfl
          rw [getD_set_eq _ _ _ _ hil] at hx'
          cases hx'
        rw [getD_set_ne _ _ _ _ _ hxi] at hx'
        show (s.frames_t_1.set i (some m)).getD x none = none
        rw [getD_set_ne _ _ _ _ _ hxi]
        exact h.book.closedNext x hx'
      · intro x q hx
        have hx' : (s.src_captures.set i (some (j + 1 + 1))).getD x none = some q := hx
        by_cases hxi : x = i
        · subst hxi
          rw [getD_set_eq _ _ _ _ hil] at hx'
          simp only [Option.some.injEq] at hx'
          subst hx'
          simp [hlive]
        · rw [getD_set_ne _ _ _ _ _ hxi] at hx'
          simp only [hstep x hxi]
          exact h.caps x q hx'
      · intro x m' hx hm
        have hm' : (s.frames_t_1.set i (some m)).getD x none = some m' := hm
        by_cases hxi : x = i
        · subst hxi
          rw [getD_set_eq _ _ _ _ hin] at hm'
          simp only [Option.some.injEq] at hm'
          subst hm'
          exact ⟨hstream, hidx, hlt⟩
        · rw [getD_set_ne _ _ _ _ _ hxi] at hm'
          exact h.next x m' (by omega) hm'
    | none =>
      dsimp only
      obtain ⟨a, ha1, ha2⟩ := h.book.link i hi hlive
      have harr : s.m_arrayOfStates.getD i none = some a := by
        rw [List.getD_eq_getElem?_getD, ha1]; rfl
      rw [harr]
      have hb := h.book.triton_book_snoc (Event.pull i none) rfl rfl
      have hfresh : i ∉ (releases (s.trace ++ [Event.pull i none])).map Prod.fst := by
        intro hmem
        rw [List.mem_map] at hmem
        obtain ⟨⟨x, b⟩, hxb, hxi⟩ := hmem
        simp only at hxi
        subst hxi
        have := hb.relClosed x b hxb
        rw [show ({ s with trace := s.trace ++ [Event.pull x none] } :
          State).src_captures = s.src_captures from rfl, hcap] at this
        cases this
      have hrel : releases (s.trace ++ [Event.pull i none] ++ [Event.deallocate i (some a)]) =
          releases (s.trace ++ [Event.pull i none]) ++ [(i, some a)] := by
        rw [releases_append]; rfl
      have honce : ((releases (s.trace ++ [Event.pull i none] ++
          [Event.deallocate i (some a)])).map Prod.fst).Nodup := by
        rw [hrel, List.map_append, List.nodup_append]
        refine ⟨hb.relOnce, by simp, ?_⟩
        intro x hx1 hx2
        simp only [List.map_cons, List.map_nil, List.mem_singleton] at hx2
        subst hx2
        exact hfresh hx1
      have hall : ((allocations (s.trace ++ [Event.pull i none] ++
          [Event.deallocate i (some a)])).map Prod.fst).Nodup := by
        rw [allocations_snoc _ (Event.deallocate i (some a)) rfl]; exact hb.allocOnce
      have hjust : Justified (s.trace ++ [Event.pull i none] ++ [Event.deallocate i (some a)]) :=
        hb.justified.snoc_release i a (List.mem_append_left _ ha2)
      have hfill := (h.fill.filling_snoc (Event.pull i none) rfl).filling_snoc (Event.deallocate i (some a)) rfl
      by_cases hd : w.deallocateState i = NVCV_SUCCESS
      · simp only [hd, if_true, Flow.next.injEq, reduceCtorEq, IsEmpty.forall_iff, implies_true,
          and_true]
        intro s1 hs
        subst hs
        refine ⟨⟨by simp [h.book.lenCaps], h.book.lenFrames, by simp [h.book.lenNext],
          h.book.lenBatch, ?_, hall, honce, ?_, hjust, ?_⟩,
          hfill, ?_, h.frames, h.inBatch, h.live, ?_, h.progress⟩
        · intro x hx hl
          obtain ⟨b, hb1, hb2⟩ := h.book.link x hx hl
          exact ⟨b, hb1, List.mem_append_left _ (List.mem_append_left _ hb2)⟩
        · intro x b hx
          have hx' : (x, b) ∈ releases (s.trace ++ [Event.pull i none] ++
            [Event.deallocate i (some a)]) := hx
          show (s.src_captures.set i none).getD x none = none
          by_cases hxi : x = i
          · subst hxi
            rw [getD_set_eq _ _ _ _ hil]
          · rw [getD_set_ne _ _ _ _ _ hxi]
            rw [hrel, List.mem_append] at hx'
            rcases hx' with hx' | hx'
            · exact hb.relClosed x b hx'
            · simp only [List.mem_singleton, Prod.mk.injEq] at hx'
              exact absurd hx'.1 hxi
        · intro x hx
          have hx' : (s.src_captures.set i none).getD x none = none := hx
          show (s.frames_t_1.set i none).getD x none = none
          by_cases hxi : x = i
          · subst hxi
            rw [getD_set_eq _ _ _ _ hin]
          · rw [getD_set_ne _ _ _ _ _ hxi] at hx' ⊢
            exact h.book.closedNext x hx'
        · intro x q hx
          have hx' : (s.src_captures.set i none).getD x none = some q := hx
          by_cases hxi : x = i
          · subst hxi
            rw [getD_set_eq _ _ _ _ hil] at hx'
            cases hx'
          · rw [getD_set_ne _ _ _ _ _ hxi] at hx'
            simp only [hstep x hxi]
            exact h.caps x q hx'
        · intro x m' hx hm
          have hm' : (s.frames_t_1.set i none).getD x none = some m' := hm
          by_cases hxi : x = i
          · subst hxi
            rw [getD_set_eq _ _ _ _ hin] at hm'
            cases hm'
          · rw [getD_set_ne _ _ _ _ _ hxi] at hm'
            exact h.next x m' (by omega) hm'
      · simp only [hd, if_false, reduceCtorEq, IsEmpty.forall_iff, implies_true,
          Flow.bail.injEq, true_and]
        intro s1 hs
        subst hs
        exact ⟨⟨j + 1, hfill.seal⟩, hall, honce, hjust⟩

theorem triton_assembleStep_spec {w : World} {j i : Nat} {s : State} (h : Assembling w j i i s)
    (hi : i < w.videos.length) :
    (∀ s1, assembleStep w j i s = Flow.next s1 → Assembling w j (i + 1) (i + 1) s1) ∧
    (∀ s1, assembleStep w j i s = Flow.bail s1 → Done w s1) := by
  have hL := lookahead_spec h hi
  unfold assembleStep
  cases hl : lookahead w i s with
  | bail b =>
    simp only [reduceCtorEq, IsEmpty.forall_iff, implies_true, Flow.bail.injEq, true_and]
    intro s1 hs
    subst hs
    exact hL.2 _ hl
  | next t =>
    have ht := hL.1 _ hl
    have hc : t.active_video_count < w.videos.length := Nat.lt_of_le_of_lt ht.fill.count_le hi
    have hcl : t.active_video_count < t.batch_indices.length := by rw [ht.fill.len]; exact hc
    dsimp only
    cases hf : t.frames.getD i none with
    | none =>
      simp only [Flow.next.injEq, reduceCtorEq, IsEmpty.forall_iff, implies_true, and_true]
      intro s1 hs
      subst hs
      refine ⟨ht.book, ht.fill.skip, ht.caps, ht.frames, ?_, ht.live, ht.next, ht.progress⟩
      intro x hx hne
      by_cases hxi : x = i
      · subst hxi; exact absurd hf hne
      · exact ht.inBatch x (by omega) hne
    | some m =>
      obtain ⟨hstream, -, hlt⟩ := ht.frames i m hf
      dsimp only
      split
      · simp only [reduceCtorEq, IsEmpty.forall_iff, implies_true, Flow.bail.injEq, true_and]
        intro s1 hs
        subst hs
        have hb := ht.book.triton_book_snoc (Event.mismatch j i) rfl rfl
        exact ⟨⟨j + 1, (ht.fill.filling_snoc (Event.mismatch j i) rfl).seal⟩, hb.allocOnce, hb.relOnce,
          hb.justified⟩
      · split
        · simp only [Flow.next.injEq, reduceCtorEq, IsEmpty.forall_iff, implies_true, and_true]
          intro s1 hs
          subst hs
          have hb := ht.book.triton_book_snoc (Event.transferTo j t.active_video_count m) rfl rfl
          refine ⟨⟨hb.lenCaps, hb.lenFrames, hb.lenNext, hb.lenBatch, hb.link, hb.allocOnce,
            hb.relOnce, hb.relClosed, hb.justified, hb.closedNext⟩,
            ht.fill.push hi m hstream, ht.caps, ht.frames, ?_, ?_, ht.next, ?_⟩
          · intro x hx hne
            by_cases hxi : x = i
            · subst hxi
              exact ⟨t.active_video_count, Nat.lt_succ_self _, getD_set_eq _ _ _ _ hcl⟩
            · obtain ⟨k, hk1, hk2⟩ := ht.inBatch x (by omega) hne
              refine ⟨k, Nat.lt_succ_of_lt hk1, ?_⟩
              show (t.batch_indices.set t.active_video_count i).getD k 0 = x
              rw [getD_set_ne _ _ _ _ _ (Nat.ne_of_lt hk1)]
              exact hk2
          · intro k hk
            show 0 < streamLength w ((t.batch_indices.set t.active_video_count i).getD k 0)
            rcases Nat.lt_succ_iff_lt_or_eq.1 hk with h1 | h1
            · rw [getD_set_ne _ _ _ _ _ (Nat.ne_of_lt h1)]
              exact ht.live k h1
            · subst h1
              rw [getD_set_eq _ _ _ _ hcl]
              omega
          · intro _
            exact Nat.lt_of_lt_of_le hlt (streamLength_le_maxLength w i)
        · simp only [reduceCtorEq, IsEmpty.forall_iff, implies_true, Flow.bail.injEq, true_and]
          intro s1 hs
          subst hs
          exact ⟨⟨j + 1, ht.fill.seal⟩, ht.book.allocOnce, ht.book.relOnce, ht.book.justified⟩

theorem Post.triton_post_done {w : World} {j n i : Nat} {s : State} (h : Post w j n i s) : Done w s :=
  h.book.triton_book_done h.sealed

theorem Post.triton_post_ready {w : World} {j n : Nat} {s : State} (h : Post w j n n s) :
    Ready w (j + 1) s where
  book := h.book
  sealed := h.sealed
  lenIdx := h.lenIdx
  caps := h.caps
  frames := fun x m hx => by
    obtain ⟨h1, h2 | ⟨_, k, hk1, hk2, _⟩⟩ := h.frames x m hx
    · exact ⟨h1, h2.1, h2.2⟩
    · omega

theorem gatherStep_spec {w : World} {s : State} {i : Nat} {t t1 : State}
    (h : Gathering w s i t) (hi : i < w.videos.length) (ht : gatherStep i t = Flow.next t1) :
    Gathering w s (i + 1) t1 := by
  obtain ⟨B, hB, hlen, hk⟩ := h
  subst hB
  simp only [gatherStep, Flow.next.injEq] at ht
  subst ht
  refine ⟨B.set i (s.m_arrayOfStates.getD (s.batch_indices.getD i 0) none), rfl, by simp [hlen], ?_⟩
  intro k hk'
  rcases Nat.lt_succ_iff_lt_or_eq.1 hk' with h1 | h1
  · rw [getD_set_ne _ _ _ _ _ (Nat.ne_of_lt h1)]
    exact hk k h1
  · subst h1
    rw [getD_set_eq _ _ _ _ (by rw [hlen]; exact hi)]

theorem gatherStep_next (i : Nat) (t : State) : ∀ b, gatherStep i t ≠ Flow.bail b := by
  intro b h
  simp [gatherStep] at h

theorem Assembling.post {w : World} {j : Nat} {s : State}
    (h : Assembling w j w.videos.length w.videos.length s) (B : List (Option Nat))
    (hlen : B.length = w.videos.length) (e : NvCV_Status) (tr : List Event)
    (hbook : Book w { s with trace := tr }) (hs : Sealed w.videos.length (j + 1) tr) :
    Post w j s.active_video_count 0 { s with m_batchOfStates := B, err := e, trace := tr } where
  book := ⟨hbook.lenCaps, hbook.lenFrames, hbook.lenNext, hlen, hbook.link, hbook.allocOnce,
    hbook.relOnce, hbook.relClosed, hbook.justified, hbook.closedNext⟩
  sealed := hs
  lenIdx := h.fill.len
  caps := fun x p hx => by
    have hx' : s.src_captures.getD x none = some p := hx
    have := h.caps x p hx'
    by_cases hlt : x < w.videos.length
    · simpa [hlt] using this
    · rw [List.getD_eq_getElem?_getD, List.getElem?_eq_none (by rw [h.book.lenCaps]; omega)] at hx'
      cases hx'
  next := fun x m hx => by
    have hx' : s.frames_t_1.getD x none = some m := hx
    by_cases hlt : x < w.videos.length
    · exact h.next x m hlt hx'
    · rw [List.getD_eq_getElem?_getD, List.getElem?_eq_none (by rw [h.book.lenNext]; omega)] at hx'
      cases hx'
  frames := fun x m hx => by
    have hx' : s.frames.getD x none = some m := hx
    obtain ⟨h1, h2, _⟩ := h.frames x m hx'
    refine ⟨h1, Or.inr ⟨h2, ?_⟩⟩
    by_cases hlt : x < w.videos.length
    · obtain ⟨k, hk1, hk2⟩ := h.inBatch x hlt (by rw [hx']; simp)
      exact ⟨k, Nat.zero_le _, hk1, hk2⟩
    · rw [List.getD_eq_getElem?_getD, List.getElem?_eq_none (by rw [h.book.lenFrames]; omega)] at hx'
      cases hx'

theorem Run_spec {w : World} {j : Nat} {s : State}
    (h : Assembling w j w.videos.length w.videos.length s) :
    (∀ s1, Run w j s = Flow.next s1 → Post w j s.active_video_count 0 s1) ∧
    (∀ s1, Run w j s = Flow.bail s1 → Done w s1) := by
  have hn : s.active_video_count ≤ w.videos.length := h.fill.count_le
  have hG := forLoop_rule gatherStep s.active_video_count (fun i t => Gathering w s i t)
    (fun _ => False)
    (fun i t t1 hi hP ht => gatherStep_spec hP (Nat.lt_of_lt_of_le hi hn) ht)
    (fun i t t1 _ _ ht => gatherStep_next i t t1 ht)
    s.active_video_count 0 s (Nat.zero_add _)
    ⟨s.m_batchOfStates, rfl, h.book.lenBatch, fun k hk => absurd hk (Nat.not_lt_zero _)⟩
  unfold Run
  cases hloop : forLoop gatherStep s.active_video_count 0 s with
  | bail b => exact absurd (hG.2 _ hloop) id
  | next t =>
    obtain ⟨B, hB, hlen, hk⟩ := hG.1 _ hloop
    subst hB
    dsimp only
    have hdone : ∀ e, Done w { s with m_batchOfStates := B, err := e } := fun e =>
      ⟨⟨j + 1, h.fill.seal⟩, h.book.allocOnce, h.book.relOnce, h.book.justified⟩
    unfold check
    by_cases h1 : w.setBatchSize j = NVCV_SUCCESS
    swap
    · simp only [h1, if_false, reduceCtorEq, IsEmpty.forall_iff, implies_true, Flow.bail.injEq,
        true_and]
      intro s1 hs; subst hs; exact hdone _
    by_cases h2 : w.setStates j = NVCV_SUCCESS
    swap
    · simp only [h1, h2, if_true, if_false, reduceCtorEq, IsEmpty.forall_iff, implies_true,
        Flow.bail.injEq, true_and]
      intro s1 hs; subst hs; exact hdone _
    have hhandles : ∀ i, i < s.active_video_count →
        ∃ x, B[i]? = some (some x) ∧
          Event.allocate (s.batch_indices.getD i 0) (some x) ∈ s.trace := by
      intro i hi
      have hmem : s.batch_indices.getD i 0 ∈ s.batch_indices.take s.active_video_count :=
        getD_mem_take _ _ _ _ hi (by rw [h.fill.len]; exact hn)
      obtain ⟨a, ha1, ha2⟩ := h.book.link _ (h.fill.bounded _ hmem) (h.live i hi)
      refine ⟨a, ?_, ha2⟩
      have hBi := hk i hi
      rw [List.getD_eq_getElem?_getD, List.getD_eq_getElem?_getD, ha1] at hBi
      have hil : i < B.length := by rw [hlen]; omega
      rw [List.getElem?_eq_getElem hil] at hBi ⊢
      simpa using hBi
    have hsealed := h.fill.dispatch B (w.runStatus j) hhandles
    have hbook := h.book.triton_book_snoc
      (Event.run j s.active_video_count B s.batch_indices (w.runStatus j)) rfl rfl
    by_cases h3 : w.runStatus j = NVCV_SUCCESS
    · simp only [h1, h2, h3, if_true, Flow.next.injEq, reduceCtorEq, IsEmpty.forall_iff,
        implies_true, and_true]
      intro s1 hs
      subst hs
      rw [h3] at hsealed hbook
      exact h.post B hlen NVCV_SUCCESS _ hbook hsealed
    · simp only [h1, h2, h3, if_true, if_false, reduceCtorEq, IsEmpty.forall_iff, implies_true,
        Flow.bail.injEq, true_and]
      intro s1 hs
      subst hs
      exact ⟨⟨j + 1, hsealed⟩, hbook.allocOnce, hbook.relOnce, hbook.justified⟩

theorem triton_writeStep_spec {w : World} {j n i : Nat} {s : State} (h : Post w j n 0 s) :
    (∀ s1, writeStep w j i s = Flow.next s1 → Post w j n 0 s1) ∧
    (∀ s1, writeStep w j i s = Flow.bail s1 → Done w s1) := by
  unfold writeStep
  by_cases h1 : w.transferFromStatus j (s.batch_indices.getD i 0) = NVCV_SUCCESS
  · simp only [h1, if_true, Flow.next.injEq, reduceCtorEq, IsEmpty.forall_iff, implies_true,
      and_true]
    intro s1 hs
    subst hs
    have hb := h.book.triton_book_snoc
      (Event.write j (s.batch_indices.getD i 0) (s.batch_indices.getD i 0)) rfl rfl
    exact ⟨⟨hb.lenCaps, hb.lenFrames, hb.lenNext, hb.lenBatch, hb.link, hb.allocOnce,
      hb.relOnce, hb.relClosed, hb.justified, hb.closedNext⟩,
      h.sealed.sealed_snoc _ (by rfl), h.lenIdx, h.caps, h.next, h.frames⟩
  · simp only [h1, if_false, reduceCtorEq, IsEmpty.forall_iff, implies_true, Flow.bail.injEq,
      true_and]
    intro s1 hs
    subst hs
    exact h.triton_post_done.withErr _

theorem updateStep_spec {w : World} {j n i : Nat} {s s1 : State} (h : Post w j n i s)
    (hs : updateStep i s = Flow.next s1) : Post w j n (i + 1) s1 := by
  simp only [updateStep, Flow.next.injEq] at hs
  subst hs
  refine ⟨⟨h.book.lenCaps, by simp [h.book.lenFrames], h.book.lenNext, h.book.lenBatch,
    h.book.link, h.book.allocOnce, h.book.relOnce, h.book.relClosed, h.book.justified,
    h.book.closedNext⟩, h.sealed, h.lenIdx, h.caps, h.next, ?_⟩
  intro x m hx
  have hx' : (s.frames.set (s.batch_indices.getD i 0)
    (s.frames_t_1.getD (s.batch_indices.getD i 0) none)).getD x none = some m := hx
  by_cases hxv : x = s.batch_indices.getD i 0
  · rw [hxv] at hx' ⊢
    rcases getD_set_self_or s.frames (s.batch_indices.getD i 0)
      (s.frames_t_1.getD (s.batch_indices.getD i 0) none) none with h1 | h1
    · rw [h1] at hx'
      obtain ⟨a, b, c⟩ := h.next _ m hx'
      exact ⟨a, Or.inl ⟨b, c⟩⟩
    · rw [h1] at hx'
      cases hx'
  · rw [getD_set_ne _ _ _ _ _ hxv] at hx'
    obtain ⟨a, b | ⟨b, k, hk1, hk2, hk3⟩⟩ := h.frames x m hx'
    · exact ⟨a, Or.inl b⟩
    · refine ⟨a, Or.inr ⟨b, k, ?_, hk2, hk3⟩⟩
      have : k ≠ i := by
        rintro rfl
        exact hxv hk3.symm
      omega

theorem updateStep_next (i : Nat) (t : State) : ∀ b, updateStep i t ≠ Flow.bail b := by
  intro b h
  simp [updateStep] at h

theorem Ready.triton_ready_assembling {w : World} {j : Nat} {s : State} (h : Ready w j s) :
    Assembling w j 0 0 { s with active_video_count := 0 } where
  book := ⟨h.book.lenCaps, h.book.lenFrames, h.book.lenNext, h.book.lenBatch, h.book.link,
    h.book.allocOnce, h.book.relOnce, h.book.relClosed, h.book.justified, h.book.closedNext⟩
  fill := h.sealed.start _ h.lenIdx
  caps := fun x p hx => by simpa using h.caps x p hx
  frames := h.frames
  inBatch := fun x hx => absurd hx (Nat.not_lt_zero _)
  live := fun k hk => absurd hk (Nat.not_lt_zero _)
  next := fun x m hx => absurd hx (Nat.not_lt_zero _)
  progress := fun hp => absurd hp (Nat.lt_irrefl 0)

theorem triton_cycle_spec {w : World} {j : Nat} {s : State} (h : Ready w j s) :
    (∀ s1, cycle w j s = Flow.next s1 → Ready w (j + 1) s1 ∧ j < maxLength w) ∧
    (∀ s1, cycle w j s = Flow.bail s1 → Done w s1) := by
  have hA := forLoop_rule (assembleStep w j) w.videos.length (fun i t => Assembling w j i i t)
    (Done w) (fun i t t1 hi hP => (triton_assembleStep_spec hP hi).1 t1)
    (fun i t t1 hi hP => (triton_assembleStep_spec hP hi).2 t1)
    w.videos.length 0 { s with active_video_count := 0 } (Nat.zero_add _) h.triton_ready_assembling
  unfold cycle
  cases hloop : forLoop (assembleStep w j) w.videos.length 0
      { s with active_video_count := 0 } with
  | bail b =>
    simp only [reduceCtorEq, IsEmpty.forall_iff, implies_true, Flow.bail.injEq, true_and]
    intro s1 hs
    subst hs
    exact hA.2 _ hloop
  | next s1 =>
    have hs1 := hA.1 _ hloop
    dsimp only
    by_cases hz : s1.active_video_count = 0
    · simp only [hz, if_true, reduceCtorEq, IsEmpty.forall_iff, implies_true, Flow.bail.injEq,
        true_and]
      intro s2 hs
      subst hs
      exact hs1.triton_assembling_done
    · simp only [hz, if_false]
      have hR := Run_spec hs1
      cases hd : Run w j s1 with
      | bail b =>
        simp only [reduceCtorEq, IsEmpty.forall_iff, implies_true, Flow.bail.injEq, true_and]
        intro s2 hs
        subst hs
        exact hR.2 _ hd
      | next s2 =>
        dsimp only
        have hW := forLoop_rule (writeStep w j) s1.active_video_count
          (fun _ t => Post w j s1.active_video_count 0 t) (Done w)
          (fun i t t1 _ hP => (triton_writeStep_spec hP).1 t1)
          (fun i t t1 _ hP => (triton_writeStep_spec hP).2 t1)
          s1.active_video_count 0 s2 (Nat.zero_add _) (hR.1 _ hd)
        cases hw : forLoop (writeStep w j) s1.active_video_count 0 s2 with
        | bail b =>
          simp only [reduceCtorEq, IsEmpty.forall_iff, implies_true, Flow.bail.injEq, true_and]
          intro s3 hs
          subst hs
          exact hW.2 _ hw
        | next s3 =>
          dsimp only
          have hU := forLoop_rule updateStep s1.active_video_count
            (fun i t => Post w j s1.active_video_count i t) (fun _ => False)
            (fun i t t1 _ hP ht => updateStep_spec hP ht)
            (fun i t t1 _ _ ht => updateStep_next i t t1 ht)
            s1.active_video_count 0 s3 (Nat.zero_add _) (hW.1 _ hw)
          constructor
          · intro s4 hs
            exact ⟨(hU.1 _ hs).triton_post_ready, hs1.progress (Nat.pos_of_ne_zero hz)⟩
          · intro s4 hs
            exact absurd (hU.2 _ hs) id

theorem triton_cycleLoop_done {w : World} :
    ∀ (fuel j : Nat) (s s1 : State), Ready w j s → cycleLoop w fuel j s = some s1 → Done w s1 := by
  intro fuel
  induction fuel with
  | zero => intro j s s1 _ h; simp [cycleLoop] at h
  | succ fuel ih =>
    intro j s s1 hr h
    unfold cycleLoop at h
    have hc := triton_cycle_spec hr
    cases hcy : cycle w j s with
    | bail b =>
      simp only [hcy, Option.some.injEq] at h
      subst h
      exact hc.2 _ hcy
    | next s2 =>
      simp only [hcy] at h
      exact ih (j + 1) s2 s1 (hc.1 _ hcy).1 h

theorem triton_cycleLoop_total {w : World} :
    ∀ (fuel j : Nat) (s : State), Ready w j s → j ≤ maxLength w → maxLength w < j + fuel →
      ∃ s1, cycleLoop w fuel j s = some s1 := by
  intro fuel
  induction fuel with
  | zero => intro j s _ h1 h2; omega
  | succ fuel ih =>
    intro j s hr h1 h2
    unfold cycleLoop
    have hc := triton_cycle_spec hr
    cases hcy : cycle w j s with
    | bail b => exact ⟨b, rfl⟩
    | next s2 =>
      have := hc.1 _ hcy
      exact ih (j + 1) s2 this.1 this.2 (by omega)

end Triton

theorem readFrame_none_le {w : World} {i p : Nat} (h : readFrame w i p = none) :
    streamLength w i ≤ p := by
  unfold readFrame at h
  unfold streamLength
  split at h
  · rename_i hf
    exact List.getElem?_eq_none_iff.1 hf
  · cases h

theorem Justified.of_no_release {tr : List Event} (h : releases tr = []) : Justified tr := by
  intro pre post i a heq
  have : (i, a) ∈ releases tr := by
    rw [mem_releases, heq]
    exact List.mem_append_right _ (List.mem_cons_self _ _)
  rw [h] at this
  cases this

theorem getD_replicate_none {α : Type} (n x : Nat) :
    (List.replicate n (none : Option α)).getD x none = none := by
  rw [List.getD_eq_getElem?_getD, List.getElem?_replicate]
  split <;> rfl

namespace Triton

theorem Opening.triton_opening_done {w : World} {i : Nat} {s : State} (h : Opening w i s) : Done w s :=
  ⟨⟨0, h.quiet.sealed _⟩, (by rw [h.noAlloc]; exact List.nodup_nil),
    (by rw [h.noRelease]; exact List.nodup_nil), Justified.of_no_release h.noRelease⟩

theorem Opening.triton_opening_atEntry (w : World) : Opening w 0 (Triton.initial w) where
  lenIdx := by simp [Triton.initial]
  lenCaps := by simp [Triton.initial]
  lenFrames := by simp [Triton.initial]
  lenNext := by simp [Triton.initial]
  opened := fun x hx => absurd hx (Nat.not_lt_zero _)
  noFrames := fun x => getD_replicate_none _ x
  noNext := fun x => getD_replicate_none _ x
  quiet := Quiet.quiet_nil
  noAlloc := rfl
  noRelease := rfl
  fresh := rfl

theorem Opening.triton_opening_snoc {w : World} {i : Nat} {s : State} (h : Opening w i s) (e : Event)
    (h1 : e.early = true)
    (h3 : e.allocation = none) (h4 : e.release = none) (err : NvCV_Status) :
    Opening w i { s with err := err, trace := s.trace ++ [e] } where
  lenIdx := h.lenIdx
  lenCaps := h.lenCaps
  lenFrames := h.lenFrames
  lenNext := h.lenNext
  opened := h.opened
  noFrames := h.noFrames
  noNext := h.noNext
  quiet := h.quiet.quiet_snoc e h1
  noAlloc := by
    show allocations (s.trace ++ [e]) = []
    rw [allocations_snoc _ _ h3, h.noAlloc]
  noRelease := by
    show releases (s.trace ++ [e]) = []
    rw [releases_snoc _ _ h4, h.noRelease]
  fresh := h.fresh

theorem Opening.open {w : World} {i : Nat} {s : State} (h : Opening w i s)
    (hi : i < w.videos.length) :
    Opening w (i + 1) { s with src_captures := s.src_captures.set i (some 0) } where
  lenIdx := h.lenIdx
  lenCaps := by simp [h.lenCaps]
  lenFrames := h.lenFrames
  lenNext := h.lenNext
  opened := fun x hx => by
    show (s.src_captures.set i (some 0)).getD x none = some 0
    by_cases hxi : x = i
    · subst hxi
      exact getD_set_eq _ _ _ _ (by rw [h.lenCaps]; exact hi)
    · rw [getD_set_ne _ _ _ _ _ hxi]
      exact h.opened x (by omega)
  noFrames := h.noFrames
  noNext := h.noNext
  quiet := h.quiet
  noAlloc := h.noAlloc
  noRelease := h.noRelease
  fresh := h.fresh

theorem Opening.triton_opening_mono {w : World} {i : Nat} {s : State} (h : Opening w (i + 1) s) :
    Opening w i s :=
  { h with opened := fun x hx => h.opened x (by omega) }

theorem triton_openStep_spec {w : World} {i : Nat} {s : State} (h : Opening w i s)
    (hi : i < w.videos.length) :
    (∀ s1, openStep w i s = Flow.next s1 → Opening w (i + 1) s1) ∧
    (∀ s1, openStep w i s = Flow.bail s1 → Done w s1) := by
  unfold openStep
  by_cases h1 : w.sourceOpens i = false
  · simp only [h1, if_true, reduceCtorEq, IsEmpty.forall_iff, implies_true, Flow.bail.injEq,
      true_and]
    intro s1 hs
    subst hs
    exact (h.triton_opening_snoc (Event.openSource i false) rfl rfl rfl NVCV_ERR_READ).triton_opening_done
  · by_cases h2 : w.sinkOpens i = false
    · simp only [h1, h2, if_true, if_false, reduceCtorEq, IsEmpty.forall_iff, implies_true,
        Flow.bail.injEq, true_and]
      intro s1 hs
      subst hs
      exact ((((h.open hi).triton_opening_snoc (Event.openSource i true) rfl rfl rfl s.err).triton_opening_snoc
        (Event.openSink i false) rfl rfl rfl NVCV_ERR_WRITE)).triton_opening_done
    · simp only [h1, h2, if_false, Flow.next.injEq, reduceCtorEq, IsEmpty.forall_iff,
        implies_true, and_true]
      intro s1 hs
      subst hs
      exact (((h.open hi).triton_opening_snoc (Event.openSource i true) rfl rfl rfl s.err).triton_opening_snoc
        (Event.openSink i true) rfl rfl rfl s.err)

theorem Initing.triton_initing_done {w : World} {i : Nat} {s : State} (h : Initing w i s) : Done w s :=
  ⟨⟨0, h.quiet.sealed _⟩, h.allocOnce, (by rw [h.noRelease]; exact List.nodup_nil),
    Justified.of_no_release h.noRelease⟩

theorem Opening.initing {w : World} {s : State} (h : Opening w w.videos.length s)
    (e : NvCV_Status) :
    Initing w 0 { s with err := e, m_arrayOfStates := List.replicate w.videos.length none,
                         m_batchOfStates := List.replicate w.videos.length none } where
  lenIdx := h.lenIdx
  lenCaps := h.lenCaps
  lenFrames := h.lenFrames
  lenNext := h.lenNext
  lenBatch := by simp
  lenArr := by simp
  waiting := fun x _ hx => h.opened x hx
  caps := fun x p hx => absurd hx (Nat.not_lt_zero _)
  frames := fun x m hx => by
    have hx' : s.frames.getD x none = some m := hx
    rw [h.noFrames x] at hx'
    cases hx'
  noNext := h.noNext
  link := fun x hx => absurd hx (Nat.not_lt_zero _)
  allocBelow := fun x a hx => by
    have hx' : (x, a) ∈ allocations s.trace := hx
    rw [h.noAlloc] at hx'
    cases hx'
  allocOnce := by
    show ((allocations s.trace).map Prod.fst).Nodup
    rw [h.noAlloc]; exact List.nodup_nil
  noRelease := h.noRelease
  quiet := h.quiet

theorem Initing.triton_initing_ready {w : World} {s : State} (h : Initing w w.videos.length s) :
    Ready w 0 s where
  book := ⟨h.lenCaps, h.lenFrames, h.lenNext, h.lenBatch, h.link, h.allocOnce,
    (by rw [h.noRelease]; exact List.nodup_nil),
    (fun x a hx => by rw [h.noRelease] at hx; cases hx),
    Justified.of_no_release h.noRelease, fun x _ => h.noNext x⟩
  sealed := h.quiet.sealed _
  lenIdx := h.lenIdx
  caps := fun x p hx => by
    by_cases hlt : x < w.videos.length
    · exact h.caps x p hlt hx
    · rw [List.getD_eq_getElem?_getD, List.getElem?_eq_none (by rw [h.lenCaps]; omega)] at hx
      cases hx
  frames := h.frames

theorem initStep_spec {w : World} {i : Nat} {s : State} (h : Initing w i s)
    (hi : i < w.videos.length) :
    (∀ s1, initStep w i s = Flow.next s1 → Initing w (i + 1) s1) ∧
    (∀ s1, initStep w i s = Flow.bail s1 → Done w s1) := by
  have hcap := h.waiting i (Nat.le_refl i) hi
  have hil : i < s.src_captures.length := by rw [h.lenCaps]; exact hi
  have hif : i < s.frames.length := by rw [h.lenFrames]; exact hi
  have hia : i < s.m_arrayOfStates.length := by rw [h.lenArr]; exact hi
  unfold initStep
  rw [hcap]
  dsimp only
  cases hread : readFrame w i 0 with
  | none =>
    have hL : streamLength w i = 0 := Nat.le_zero.1 (readFrame_none_le hread)
    simp only [Flow.next.injEq, reduceCtorEq, IsEmpty.forall_iff, implies_true, and_true]
    intro s1 hs
    subst hs
    refine ⟨h.lenIdx, by simp [h.lenCaps], by simp [h.lenFrames], h.lenNext, h.lenBatch,
      h.lenArr, ?_, ?_, ?_, h.noNext, ?_, ?_, ?_, ?_, h.quiet.quiet_snoc _ (by rfl)⟩
    · intro x hx1 hx2
      show (s.src_captures.set i none).getD x none = some 0
      rw [getD_set_ne _ _ _ _ _ (by omega)]
      exact h.waiting x (by omega) hx2
    · intro x p hx hp
      have hp' : (s.src_captures.set i none).getD x none = some p := hp
      by_cases hxi : x = i
      · subst hxi
        rw [getD_set_eq _ _ _ _ hil] at hp'
        cases hp'
      · rw [getD_set_ne _ _ _ _ _ hxi] at hp'
        exact h.caps x p (by omega) hp'
    · intro x m hx
      have hx' : (s.frames.set i none).getD x none = some m := hx
      by_cases hxi : x = i
      · subst hxi
        rw [getD_set_eq _ _ _ _ hif] at hx'
        cases hx'
      · rw [getD_set_ne _ _ _ _ _ hxi] at hx'
        exact h.frames x m hx'
    · intro x hx hl
      have hxi : x ≠ i := by rintro rfl; omega
      obtain ⟨a, ha1, ha2⟩ := h.link x (by omega) hl
      exact ⟨a, ha1, List.mem_append_left _ ha2⟩
    · intro x a hx
      have hx' : (x, a) ∈ allocations (s.trace ++ [Event.pull i none]) := hx
      rw [allocations_snoc _ (Event.pull i none) rfl] at hx'
      exact Nat.lt_succ_of_lt (h.allocBelow x a hx')
    · show ((allocations (s.trace ++ [Event.pull i none])).map Prod.fst).Nodup
      rw [allocations_snoc _ (Event.pull i none) rfl]
      exact h.allocOnce
    · show releases (s.trace ++ [Event.pull i none]) = []
      rw [releases_snoc _ (Event.pull i none) rfl]
      exact h.noRelease
  | some m =>
    obtain ⟨hlt, hstream, hidx⟩ := readFrame_some_lt hread
    dsimp only
    have hallocs : ∀ a, allocations (s.trace ++ [Event.pull i (some 0)] ++ [Event.allocate i a]) =
        allocations s.trace ++ [(i, a)] := by
      intro a
      rw [allocations_append, allocations_snoc _ (Event.pull i (some 0)) rfl]; rfl
    have honce : ∀ a, ((allocations (s.trace ++ [Event.pull i (some 0)] ++
        [Event.allocate i a])).map Prod.fst).Nodup := by
      intro a
      rw [hallocs, List.map_append, List.nodup_append]
      refine ⟨h.allocOnce, by simp, ?_⟩
      intro x hx1 hx2
      simp only [List.map_cons, List.map_nil, List.mem_singleton] at hx2
      subst hx2
      rw [List.mem_map] at hx1
      obtain ⟨⟨y, b⟩, hyb, hy⟩ := hx1
      simp only at hy
      subst hy
      exact absurd (h.allocBelow _ _ hyb) (Nat.lt_irrefl _)
    have hrel : ∀ a, releases (s.trace ++ [Event.pull i (some 0)] ++ [Event.allocate i a]) = [] := by
      intro a
      rw [releases_snoc _ (Event.allocate i a) rfl, releases_snoc _ (Event.pull i (some 0)) rfl]
      exact h.noRelease
    have hquiet : ∀ a, Quiet (s.trace ++ [Event.pull i (some 0)] ++ [Event.allocate i a]) :=
      fun a => (h.quiet.quiet_snoc _ (by rfl)).quiet_snoc _ (by rfl)
    by_cases ha : w.allocateState i = NVCV_SUCCESS
    · simp only [ha, if_true, Flow.next.injEq, reduceCtorEq, IsEmpty.forall_iff, implies_true,
        and_true]
      intro s1 hs
      subst hs
      refine ⟨h.lenIdx, by simp [h.lenCaps], by simp [h.lenFrames], h.lenNext, h.lenBatch,
        by simp [h.lenArr], ?_, ?_, ?_, h.noNext, ?_, ?_, honce _, hrel _, hquiet _⟩
      · intro x hx1 hx2
        show (s.src_captures.set i (some (0 + 1))).getD x none = some 0
        rw [getD_set_ne _ _ _ _ _ (by omega)]
        exact h.waiting x (by omega) hx2
      · intro x p hx hp
        have hp' : (s.src_captures.set i (some (0 + 1))).getD x none = some p := hp
        by_cases hxi : x = i
        · subst hxi
          rw [getD_set_eq _ _ _ _ hil] at hp'
          simp only [Option.some.injEq] at hp'
          exact ⟨by omega, by omega⟩
        · rw [getD_set_ne _ _ _ _ _ hxi] at hp'
          exact h.caps x p (by omega) hp'
      · intro x m' hx
        have hx' : (s.frames.set i (some m)).getD x none = some m' := hx
        by_cases hxi : x = i
        · subst hxi
          rw [getD_set_eq _ _ _ _ hif] at hx'
          simp only [Option.some.injEq] at hx'
          subst hx'
          exact ⟨hstream, hidx, by omega⟩
        · rw [getD_set_ne _ _ _ _ _ hxi] at hx'
          exact h.frames x m' hx'
      · intro x hx hl
        show ∃ a, (s.m_arrayOfStates.set i (some s.nextHandle))[x]? = some (some a) ∧
          Event.allocate x (some a) ∈
            s.trace ++ [Event.pull i (some 0)] ++ [Event.allocate i (some s.nextHandle)]
        by_cases hxi : x = i
        · subst hxi
          exact ⟨s.nextHandle, List.getElem?_set_self hia,
            List.mem_append_right _ (List.mem_singleton_self _)⟩
        · obtain ⟨a, ha1, ha2⟩ := h.link x (by omega) hl
          refine ⟨a, ?_, List.mem_append_left _ (List.mem_append_left _ ha2)⟩
          rw [List.getElem?_set_ne (Ne.symm hxi)]
          exact ha1
      · intro x a hx
        have hx' : (x, a) ∈ allocations (s.trace ++ [Event.pull i (some 0)] ++
          [Event.allocate i (some s.nextHandle)]) := hx
        rw [hallocs, List.mem_append] at hx'
        rcases hx' with hx' | hx'
        · exact Nat.lt_succ_of_lt (h.allocBelow x a hx')
        · simp only [List.mem_singleton, Prod.mk.injEq] at hx'
          omega
    · simp only [ha, if_false, reduceCtorEq, IsEmpty.forall_iff, implies_true, Flow.bail.injEq,
        true_and]
      intro s1 hs
      subst hs
      exact ⟨⟨0, (hquiet none).sealed _⟩, honce none,
        (by rw [hrel none]; exact List.nodup_nil), Justified.of_no_release (hrel none)⟩

theorem triton_setup_spec {w : World} {s : State} (h : Opening w w.videos.length s) :
    (∀ s1, setup w s = Flow.next s1 → Ready w 0 s1) ∧
    (∀ s1, setup w s = Flow.bail s1 → Done w s1) := by
  unfold setup
  by_cases hn : w.videos.length = 0
  · simp only [hn, if_true, reduceCtorEq, IsEmpty.forall_iff, implies_true, Flow.bail.injEq,
      true_and]
    intro s1 hs
    subst hs
    exact h.triton_opening_done.withErr _
  simp only [hn, if_false]
  cases hread : readFrame w 0 0 with
  | none =>
    simp only [reduceCtorEq, IsEmpty.forall_iff, implies_true, Flow.bail.injEq, true_and]
    intro s1 hs
    subst hs
    exact (h.triton_opening_snoc (Event.pull 0 none) rfl rfl rfl NVCV_ERR_READ).triton_opening_done
  | some m =>
    have h1 : Opening w w.videos.length
        { s with src_width := m.width, src_height := m.height,
                 trace := s.trace ++ [Event.pull 0 (some 0)] } :=
      ⟨h.lenIdx, h.lenCaps, h.lenFrames, h.lenNext, h.opened, h.noFrames, h.noNext,
        h.quiet.quiet_snoc _ rfl,
        (h.triton_opening_snoc (Event.pull 0 (some 0)) rfl rfl rfl s.err).noAlloc,
        (h.triton_opening_snoc (Event.pull 0 (some 0)) rfl rfl rfl s.err).noRelease, h.fresh⟩
    dsimp only
    generalize ({ s with src_width := m.width, src_height := m.height,
                         trace := s.trace ++ [Event.pull 0 (some 0)] } : State) = t at h1 ⊢
    unfold check
    by_cases c1 : w.initStatus = NVCV_SUCCESS
    swap
    · simp only [c1, if_false, reduceCtorEq, IsEmpty.forall_iff, implies_true, Flow.bail.injEq,
        true_and]
      intro s1 hs; subst hs; exact h1.triton_opening_done.withErr _
    have h2 := h1.initing NVCV_SUCCESS
    by_cases c2 : w.allocateBuffers = NVCV_SUCCESS
    swap
    · simp only [c1, c2, if_true, if_false, reduceCtorEq, IsEmpty.forall_iff, implies_true,
        Flow.bail.injEq, true_and]
      intro s1 hs; subst hs; exact h2.triton_initing_done.withErr _
    by_cases c3 : w.setParameters = NVCV_SUCCESS
    swap
    · simp only [c1, c2, c3, if_true, if_false, reduceCtorEq, IsEmpty.forall_iff, implies_true,
        Flow.bail.injEq, true_and]
      intro s1 hs; subst hs; exact h2.triton_initing_done.withErr _
    by_cases c4 : w.load = NVCV_SUCCESS
    swap
    · simp only [c1, c2, c3, c4, if_true, if_false, reduceCtorEq, IsEmpty.forall_iff,
        implies_true, Flow.bail.injEq, true_and]
      intro s1 hs; subst hs; exact h2.triton_initing_done.withErr _
    simp only [c1, c2, c3, c4, if_true]
    have hA := forLoop_rule (initStep w) w.videos.length (fun i t => Initing w i t)
      (Done w) (fun i t t1 hi hP => (initStep_spec hP hi).1 t1)
      (fun i t t1 hi hP => (initStep_spec hP hi).2 t1)
      w.videos.length 0 _ (Nat.zero_add _) h2
    exact ⟨fun s1 hs => (hA.1 s1 hs).triton_initing_ready, fun s1 hs => hA.2 s1 hs⟩

theorem triton_body_done {w : World} {s : State} (h : body w = some s) : Done w s := by
  unfold body at h
  have hO := forLoop_rule (openStep w) w.videos.length (fun i t => Opening w i t)
    (Done w) (fun i t t1 hi hP => (triton_openStep_spec hP hi).1 t1)
    (fun i t t1 hi hP => (triton_openStep_spec hP hi).2 t1)
    w.videos.length 0 (initial w) (Nat.zero_add _) (Opening.triton_opening_atEntry w)
  cases hloop : forLoop (openStep w) w.videos.length 0 (initial w) with
  | bail b =>
    simp only [hloop, Option.some.injEq] at h
    subst h
    exact hO.2 _ hloop
  | next s1 =>
    simp only [hloop] at h
    have hS := triton_setup_spec (hO.1 _ hloop)
    cases hset : setup w s1 with
    | bail b =>
      simp only [hset, Option.some.injEq] at h
      subst h
      exact hS.2 _ hset
    | next s2 =>
      simp only [hset] at h
      exact triton_cycleLoop_done _ _ _ _ (hS.1 _ hset) h

theorem triton_body_total (w : World) : ∃ s, body w = some s := by
  unfold body
  have hO := forLoop_rule (openStep w) w.videos.length (fun i t => Opening w i t)
    (Done w) (fun i t t1 hi hP => (triton_openStep_spec hP hi).1 t1)
    (fun i t t1 hi hP => (triton_openStep_spec hP hi).2 t1)
    w.videos.length 0 (initial w) (Nat.zero_add _) (Opening.triton_opening_atEntry w)
  cases hloop : forLoop (openStep w) w.videos.length 0 (initial w) with
  | bail b => exact ⟨b, rfl⟩
  | next s1 =>
    have hS := triton_setup_spec (hO.1 _ hloop)
    dsimp only
    cases hset : setup w s1 with
    | bail b => exact ⟨b, rfl⟩
    | next s2 =>
      dsimp only
      exact triton_cycleLoop_total (maxLength w + 1) 0 s2 (hS.1 _ hset) (Nat.zero_le _)
        (by omega)

end Triton

theorem Sealed.indices {N j : Nat} {tr : List Event} (h : Sealed N j tr) :
    IndicesIncreasing N tr := by
  intro j' n st idx rs hm
  have g := (h.runs _ _ _ _ _ hm).2
  refine ⟨g.increasing, g.bounded, g.size_le, ?_, ?_⟩
  · rw [List.length_take]; exact Nat.min_eq_left g.len_le
  · exact g.increasing.imp (fun hab => Nat.ne_of_lt hab)

theorem nodup_fst_unique {l : List (Nat × Option Nat)} (h : (l.map Prod.fst).Nodup)
    {x : Nat} {a b : Option Nat} (ha : (x, a) ∈ l) (hb : (x, b) ∈ l) : a = b := by
  induction l with
  | nil => cases ha
  | cons p t ih =>
    rw [List.map_cons, List.nodup_cons] at h
    rcases List.mem_cons.1 ha with ha1 | ha1
    · rcases List.mem_cons.1 hb with hb1 | hb1
      · rw [← ha1] at hb1
        exact ((Prod.mk.inj hb1).2).symm
      · rw [← ha1] at h
        exact absurd (List.mem_map.2 ⟨(x, b), hb1, rfl⟩ : x ∈ t.map Prod.fst) h.1
    · rcases List.mem_cons.1 hb with hb1 | hb1
      · rw [← hb1] at h
        exact absurd (List.mem_map.2 ⟨(x, a), ha1, rfl⟩ : x ∈ t.map Prod.fst) h.1
      · exact ih h.2 ha1 hb1

theorem Sealed.sealed_handles {N j : Nat} {tr : List Event} (h : Sealed N j tr)
    (honce : ((allocations tr).map Prod.fst).Nodup) : HandlesMatch tr := by
  intro j' n st idx rs hm i hi
  have g := (h.runs _ _ _ _ _ hm).2
  obtain ⟨a, ha1, ha2⟩ := g.handle i hi
  obtain ⟨m, hm1, hm2⟩ := g.input i hi
  refine ⟨a, m, ha1, ha2, ?_, hm1, hm2, fun m' hm' => (g.inputOnly i m' hm').2⟩
  intro h' hh'
  exact nodup_fst_unique honce (mem_allocations.2 hh') (mem_allocations.2 ha2)

theorem split_in_tail {tr D pre post : List Event} {d : Event}
    (h : tr ++ D = pre ++ d :: post) (hd : d ∉ tr) :
    ∃ D1, D = D1 ++ d :: post ∧ pre = tr ++ D1 := by
  rcases List.append_eq_append_iff.1 h with ⟨a, h1, h2⟩ | ⟨c, h1, h2⟩
  · exact ⟨a, h2, h1⟩
  · cases c with
    | nil =>
      refine ⟨[], ?_, ?_⟩
      · simpa using h2.symm
      · simpa using h1.symm
    | cons e c =>
      rw [List.cons_append] at h2
      injection h2 with h3 _
      subst h3
      exact absurd (by rw [h1]; exact List.mem_append_right _ (List.mem_cons_self _ _)) hd

theorem Justified.append_releases {tr : List Event} (h : Justified tr) (D : List Event)
    (hD : ∀ d ∈ D, ∃ i x, d = Event.deallocate i (some x) ∧ Event.allocate i (some x) ∈ tr) :
    Justified (tr ++ D) := by
  induction D using List.reverseRecOn with
  | nil => simpa using h
  | append_singleton D d ih =>
    have hih := ih (fun x hx => hD x (List.mem_append_left _ hx))
    obtain ⟨i, x, hd, hx⟩ := hD d (List.mem_append_right _ (List.mem_singleton_self d))
    subst hd
    rw [← List.append_assoc]
    exact hih.snoc_release i x (List.mem_append_left _ hx)

namespace Local

theorem local_cleanup_trace (s : State) : (cleanup s).trace = s.trace ++ closing s.arrayOfStates := rfl

theorem cleanup_err (s : State) : (cleanup s).err = s.err := rfl

theorem local_BatchProcess_eq {w : World} {r : State} (h : BatchProcess w = some r) :
    ∃ s, body w = some s ∧ r = cleanup s := by
  unfold BatchProcess at h
  cases hb : body w with
  | none => simp [hb] at h
  | some s =>
    simp only [hb, Option.map_some', Option.some.injEq] at h
    exact ⟨s, rfl, h.symm⟩

theorem local_BatchProcess_total (w : World) : ∃ r, BatchProcess w = some r := by
  obtain ⟨s, hs⟩ := local_body_total w
  exact ⟨cleanup s, by simp [BatchProcess, hs]⟩

theorem closing_mem {arr : List (Option Nat)} {tr : List Event} (h : Allocated arr tr)
    {d : Event} (hd : d ∈ closing arr) :
    ∃ i, i < arr.length ∧ d = Event.deallocate i (some i) ∧ Event.allocate i (some i) ∈ tr := by
  unfold closing at hd
  rw [List.mem_map] at hd
  obtain ⟨i, hi, rfl⟩ := hd
  rw [List.mem_range] at hi
  obtain ⟨h1, h2⟩ := h.link hi
  refine ⟨i, hi, ?_, h2⟩
  rw [List.getD_eq_getElem?_getD, h1]
  rfl

theorem closing_eq {arr : List (Option Nat)} {tr : List Event} (h : Allocated arr tr) :
    closing arr = (List.range arr.length).map (fun i => Event.deallocate i (some i)) := by
  unfold closing
  apply List.map_congr_left
  intro i hi
  rw [List.mem_range] at hi
  rw [List.getD_eq_getElem?_getD, (h.link hi).1]
  rfl

theorem releases_closing {arr : List (Option Nat)} {tr : List Event} (h : Allocated arr tr) :
    releases (closing arr) = (List.range arr.length).map (fun i => (i, some i)) := by
  rw [closing_eq h]
  generalize List.range arr.length = l
  induction l with
  | nil => rfl
  | cons a t ih =>
    simp only [List.map_cons]
    show releases ([Event.deallocate a (some a)] ++ _) = _
    rw [releases_append, ih]
    rfl

theorem allocations_closing (arr : List (Option Nat)) : allocations (closing arr) = [] := by
  unfold closing allocations
  rw [List.filterMap_eq_nil_iff]
  intro e he
  rw [List.mem_map] at he
  obtain ⟨i, _, rfl⟩ := he
  rfl

theorem closing_not_inBatch (arr : List (Option Nat)) :
    ∀ e ∈ closing arr, e.inBatch = false := by
  intro e he
  unfold closing at he
  rw [List.mem_map] at he
  obtain ⟨i, _, rfl⟩ := he
  rfl

theorem Allocated.allocOnce {arr : List (Option Nat)} {tr : List Event} (h : Allocated arr tr) :
    ((allocations tr).map Prod.fst).Nodup := by
  rcases h.allocs with h1 | h1
  · rw [h1, List.map_map]
    have : (Prod.fst ∘ fun i : Nat => (i, some i)) = id := rfl
    rw [this, List.map_id]
    exact List.nodup_range _
  · rw [h1, List.map_append, List.map_map]
    have : (Prod.fst ∘ fun i : Nat => (i, some i)) = id := rfl
    rw [this, List.map_id]
    show (List.range arr.length ++ [arr.length]).Nodup
    rw [← List.range_succ]
    exact List.nodup_range _

theorem final_sealed {w : World} {s : State} (h : Done w s) :
    ∃ j, Sealed w.videos.length j (cleanup s).trace := by
  obtain ⟨j, hj⟩ := h.sealed
  exact ⟨j, hj.append _ (closing_not_inBatch _)⟩

theorem final_allocations {w : World} {s : State} (_h : Done w s) :
    allocations (cleanup s).trace = allocations s.trace := by
  rw [local_cleanup_trace, allocations_append, allocations_closing, List.append_nil]

theorem final_releases {w : World} {s : State} (h : Done w s) :
    releases (cleanup s).trace =
      (List.range s.arrayOfStates.length).map (fun i => (i, some i)) := by
  rw [local_cleanup_trace, releases_append, h.tail.alloc.noRelease, releases_closing h.tail.alloc,
    List.nil_append]

theorem final_discipline {w : World} {s : State} (h : Done w s) :
    AllocationDiscipline (cleanup s).trace := by
  refine ⟨?_, ?_, ?_⟩
  · rw [final_allocations h]
    exact h.tail.alloc.allocOnce
  · rw [final_releases h, List.map_map]
    have : (Prod.fst ∘ fun i : Nat => (i, some i)) = id := rfl
    rw [this, List.map_id]
    exact List.nodup_range _
  · rw [local_cleanup_trace]
    apply (Justified.of_no_release h.tail.alloc.noRelease).append_releases
    intro d hd
    obtain ⟨i, _, h2, h3⟩ := closing_mem h.tail.alloc hd
    exact ⟨i, i, h2, h3⟩

end Local

namespace Triton

theorem triton_BatchProcess_eq {w : World} {r : State} (h : BatchProcess w = some r) :
    ∃ s, body w = some s ∧ r = cleanup s := by
  unfold BatchProcess at h
  cases hb : body w with
  | none => simp [hb] at h
  | some s =>
    simp only [hb, Option.map_some', Option.some.injEq] at h
    exact ⟨s, rfl, h.symm⟩

theorem triton_BatchProcess_total (w : World) : ∃ r, BatchProcess w = some r := by
  obtain ⟨s, hs⟩ := triton_body_total w
  exact ⟨cleanup s, by simp [BatchProcess, hs]⟩

theorem triton_cleanup_trace (s : State) : (cleanup s).trace = s.trace := rfl

end Triton

theorem Local.final_routed {w : World} {s : Local.State} (h : Local.Done w s) :
    OutputsRouted w (Local.cleanup s).trace := by
  obtain ⟨j, hsealed⟩ := Local.final_sealed h
  have hmem : ∀ e, (∀ i a, e ≠ Event.deallocate i a) →
      (e ∈ (Local.cleanup s).trace ↔ e ∈ s.trace) := by
    intro e he
    rw [Local.local_cleanup_trace, List.mem_append]
    constructor
    · rintro (h1 | h1)
      · exact h1
      · unfold Local.closing at h1
        rw [List.mem_map] at h1
        obtain ⟨i, _, hi⟩ := h1
        exact absurd hi.symm (he _ _)
    · exact Or.inl
  constructor
  · intro j' x slot hm
    rw [hmem _ (by simp)] at hm
    obtain ⟨n, st, idx, h1, h2, h3⟩ := h.tail.writes j' x slot hm
    have h1' := (hmem _ (by simp)).2 h1
    have g := (hsealed.runs _ _ _ _ _ h1').2
    obtain ⟨m, hm1, hm2⟩ := g.input slot h2
    refine ⟨n, st, idx, h1', h2, h3, ⟨m, hm1, by rw [hm2, h3]⟩, ?_⟩
    intro m' hm'
    rw [(g.inputOnly slot m' hm').2, h3]
  · intro j' n st idx hm i hi hok
    rw [hmem _ (by simp)] at hm
    exact (hmem _ (by simp)).2 (h.tail.complete j' n st idx hm i hi hok)

theorem aborted_append (a b : List Event) : aborted (a ++ b) = (aborted a || aborted b) := by
  simp [aborted, List.any_append]

theorem Local.aborted_closing (arr : List (Option Nat)) : aborted (Local.closing arr) = false := by
  unfold aborted
  rw [List.any_eq_false]
  intro e he
  unfold Local.closing at he
  rw [List.mem_map] at he
  obtain ⟨i, _, rfl⟩ := he
  simp [Event.fatal]

theorem Clean.not_aborted {tr : List Event} (h : Clean tr) : aborted tr = false := by
  unfold aborted
  rw [List.any_eq_false]
  intro e he
  simp [h e he]

/-- C7: in both drivers, whatever the stream lengths and whichever call fails, the state of
each stream is allocated at most once and deallocated at most once, and a deallocation is
only requested for a handle that an earlier successful allocation of that stream returned. -/
theorem state_allocated_and_released_at_most_once (w : World) :
    (∃ r, Local.BatchProcess w = some r ∧ AllocationDiscipline r.trace) ∧
    (∃ r, Triton.BatchProcess w = some r ∧ AllocationDiscipline r.trace) := by
  constructor
  · obtain ⟨r, hr⟩ := Local.local_BatchProcess_total w
    obtain ⟨s, hs, rfl⟩ := Local.local_BatchProcess_eq hr
    exact ⟨_, hr, Local.final_discipline (Local.local_body_done hs)⟩
  · obtain ⟨r, hr⟩ := Triton.triton_BatchProcess_total w
    obtain ⟨s, hs, rfl⟩ := Triton.triton_BatchProcess_eq hr
    have hd := Triton.triton_body_done hs
    exact ⟨_, hr, hd.allocOnce, hd.relOnce, hd.justified⟩

/-- C9: in the local driver, when a run is stopped by a frame of the wrong size or by a
failing engine call, the status returned is not success, one state was allocated per stream
and each is deallocated exactly once before the return, and a deallocation is followed by
deallocations only, so by no dispatch. -/
theorem local_abort_releases_every_state (w : World) (r : Local.State)
    (hr : Local.BatchProcess w = some r) (hab : aborted r.trace = true) :
    r.err ≠ NVCV_SUCCESS ∧
    allocations r.trace = (List.range w.videos.length).map (fun i => (i, some i)) ∧
    releases r.trace = (List.range w.videos.length).map (fun i => (i, some i)) ∧
    ∀ pre post i h, r.trace = pre ++ Event.deallocate i h :: post →
      ∀ e ∈ post, ∃ i' h', e = Event.deallocate i' h' := by
  obtain ⟨s, hs, rfl⟩ := Local.local_BatchProcess_eq hr
  have hd := Local.local_body_done hs
  rw [Local.local_cleanup_trace, aborted_append, Local.aborted_closing, Bool.or_false] at hab
  have hnotclean : ¬ Clean s.trace := fun hc => by
    rw [hc.not_aborted] at hab
    cases hab
  have herr : s.err ≠ NVCV_SUCCESS := by
    rcases hd.tail.verdict with h1 | h1
    · exact absurd h1 hnotclean
    · exact h1
  have hfull := hd.tail.reached.resolve_left (fun hq => hnotclean hq.clean)
  refine ⟨herr, ?_, ?_, ?_⟩
  · rw [Local.final_allocations hd]
    exact hfull.2
  · rw [Local.final_releases hd, hfull.1]
  · intro pre post i h heq e he
    rw [Local.local_cleanup_trace] at heq
    have hnot : Event.deallocate i h ∉ s.trace := by
      intro hmem
      have := mem_releases.2 hmem
      rw [hd.tail.alloc.noRelease] at this
      cases this
    obtain ⟨D1, hD, -⟩ := split_in_tail heq hnot
    have hmem : e ∈ Local.closing s.arrayOfStates := by
      rw [hD]
      exact List.mem_append_right _ (List.mem_cons_of_mem _ he)
    unfold Local.closing at hmem
    rw [List.mem_map] at hmem
    obtain ⟨k, _, hk⟩ := hmem
    exact ⟨k, _, hk.symm⟩

set_option maxRecDepth 100000 in

/-- C9, the scenario of the specification: three streams, the engine call of the fourth
cycle fails; the run returns an error after exactly three deallocation calls, one per
stream. -/
theorem local_abort_releases_every_state_witness :
    ∃ r, Local.BatchProcess engineFailsInCycle4 = some r ∧ aborted r.trace = true ∧
      r.err ≠ NVCV_SUCCESS ∧ releases r.trace = [(0, some 0), (1, some 1), (2, some 2)] := by
  obtain ⟨r, hr⟩ := Local.local_BatchProcess_total engineFailsInCycle4
  have hab : aborted r.trace = true := by
    have h : (Local.BatchProcess engineFailsInCycle4).map (fun r => aborted r.trace) =
        some true := by decide
    rw [hr] at h
    simpa using h
  have h := local_abort_releases_every_state engineFailsInCycle4 r hr hab
  exact ⟨r, hr, hab, h.1, h.2.2.1⟩

set_option maxRecDepth 100000 in

/-- C4 fails on the code: with streams of one and two frames, the second cycle of the Triton
driver puts the frame of stream 1 into input slot 0 of a batch of size 1, and writes to
the writer of stream 1 the picture read from slot 1 of the output buffer. -/
theorem triton_reads_output_slot_of_stream_index :
    (Triton.BatchProcess shortThenLong).map (fun r =>
      (dispatched r.trace,
       decide (Event.transferTo 1 0 ⟨1, 1, 4, 4⟩ ∈ r.trace),
       decide (Event.write 1 1 1 ∈ r.trace),
       decide (Event.write 1 1 0 ∈ r.trace))) =
    some ([[0, 1], [1]], true, true, false) := by
  decide

set_option maxRecDepth 100000 in

/-- C10 fails on the code: a frame of the wrong size in the second cycle, or a failing
engine call, stops the Triton driver with an error while the handles allocated are still
held, and no deallocation call is made. -/
theorem triton_abort_releases_nothing :
    (Triton.BatchProcess secondFrameDiffers).map
        (fun r => (r.err, allocations r.trace, releases r.trace)) =
      some (NVCV_ERR_MISMATCH, [(0, some 0), (1, some 1)], []) ∧
    (Triton.BatchProcess engineFailsAtOnce).map
        (fun r => (r.err, allocations r.trace, releases r.trace)) =
      some (NvCV_Status.other 1, [(0, some 0)], []) := by
  constructor <;> rfl

theorem dispatched_append (a b : List Event) :
    dispatched (a ++ b) = dispatched a ++ dispatched b := by
  induction a with
  | nil => rfl
  | cons e t ih =>
    cases e <;> simp [dispatched, ih]

theorem dispatched_snoc (tr : List Event) (e : Event)
    (he : ∀ j n st idx rs, e ≠ Event.run j n st idx rs) : dispatched (tr ++ [e]) = dispatched tr := by
  rw [dispatched_append]
  cases e <;> first | exact absurd rfl (he _ _ _ _ _) | simp [dispatched]

theorem dispatched_snoc_run (tr : List Event) (j n : Nat) (st : List (Option Nat))
    (idx : List Nat) (rs : NvCV_Status) :
    dispatched (tr ++ [Event.run j n st idx rs]) = dispatched tr ++ [idx.take n] := by
  rw [dispatched_append]; rfl

theorem readFrame_uniform {videos : List (List Frame)} {f0 : Frame} (hu : Uniform videos f0)
    {x p : Nat} {m : Mat} (h : readFrame (World.ideal videos) x p = some m) :
    m.width = f0.width ∧ m.height = f0.height := by
  unfold readFrame at h
  split at h
  · cases h
  · rename_i f hf
    simp only [Option.some.injEq] at h
    subst h
    have hmem : f ∈ (World.ideal videos).videos.getD x [] := by
      obtain ⟨hp, hpf⟩ := List.getElem?_eq_some_iff.1 hf
      rw [← hpf]
      exact List.getElem_mem _
    have hv : (World.ideal videos).videos.getD x [] ∈ videos := by
      rw [List.getD_eq_getElem?_getD] at hmem ⊢
      cases hx : (World.ideal videos).videos[x]? with
      | none =>
        rw [hx] at hmem
        simp at hmem
      | some v =>
        obtain ⟨hp, hpv⟩ := List.getElem?_eq_some_iff.1 hx
        rw [Option.getD_some, ← hpv]
        exact List.getElem_mem _
    rw [hu _ hv f hmem]
    exact ⟨rfl, rfl⟩

theorem readFrame_isSome {w : World} {x p : Nat} (h : p < streamLength w x) :
    ∃ m, readFrame w x p = some m := by
  cases hr : readFrame w x p with
  | some m => exact ⟨m, rfl⟩
  | none => exact absurd (readFrame_none_le hr) (by omega)

theorem exists_longer {w : World} {c : Nat} (h : c < maxLength w) :
    ∃ x, x < w.videos.length ∧ c < streamLength w x := by
  unfold maxLength at h
  unfold streamLength
  generalize w.videos = vs at h ⊢
  induction vs with
  | nil => simp at h
  | cons v t ih =>
    simp only [List.map_cons, List.foldr_cons] at h
    by_cases hv : c < v.length
    · exact ⟨0, by simp, by simpa using hv⟩
    · have : c < (t.map List.length).foldr max 0 := by omega
      obtain ⟨x, hx1, hx2⟩ := ih this
      exact ⟨x + 1, by simpa using hx1, by simpa using hx2⟩

theorem activeAt_eq_nil {w : World} {c : Nat} (h : maxLength w ≤ c) : activeAt w c = [] := by
  unfold activeAt
  rw [List.filter_eq_nil_iff]
  intro x _
  have := streamLength_le_maxLength w x
  simp
  omega

theorem activeAt_ne_nil {w : World} {c : Nat} (h : c < maxLength w) : activeAt w c ≠ [] := by
  obtain ⟨x, hx1, hx2⟩ := exists_longer h
  intro hnil
  have : x ∈ activeAt w c := by
    unfold activeAt
    rw [List.mem_filter]
    exact ⟨List.mem_range.2 hx1, by simpa using hx2⟩
  rw [hnil] at this
  cases this

theorem filter_range_succ (p : Nat → Bool) (i : Nat) :
    (List.range (i + 1)).filter p = (List.range i).filter p ++ (if p i then [i] else []) := by
  rw [List.range_succ, List.filter_append]
  congr 1
  by_cases h : p i <;> simp [h]

theorem filter_range_succ_pos (p : Nat → Bool) (i : Nat) (h : p i = true) :
    (List.range (i + 1)).filter p = (List.range i).filter p ++ [i] := by
  rw [filter_range_succ, h]; rfl

theorem filter_range_succ_neg (p : Nat → Bool) (i : Nat) (h : p i = false) :
    (List.range (i + 1)).filter p = (List.range i).filter p := by
  rw [filter_range_succ, h]; simp

theorem readFrame_eq_none {w : World} {x p : Nat} (h : streamLength w x ≤ p) :
    readFrame w x p = none := by
  cases hr : readFrame w x p with
  | none => rfl
  | some m => exact absurd (readFrame_some_lt hr).1 (by omega)

namespace Local

theorem local_smooth_assembleStep {videos : List (List Frame)} {f0 : Frame} (hu : Uniform videos f0)
    {j i : Nat} {s : State} (h : Smooth (World.ideal videos) f0 j i s)
    (hi : i < (World.ideal videos).videos.length) :
    ∃ s1, assembleStep (World.ideal videos) j i s = Flow.next s1 ∧
      Smooth (World.ideal videos) f0 j (i + 1) s1 := by
  have hmod : i % (World.ideal videos).videos.length = i := Nat.mod_eq_of_lt hi
  have hcap := h.capsTodo i (Nat.le_refl i) hi
  have hil : i < s.srcCaptures.length := by rw [h.lenCaps]; exact hi
  have hcount_le : s.activeVideoCount ≤ i := by
    rw [h.count]
    calc ((List.range i).filter _).length ≤ (List.range i).length := List.length_filter_le _ _
      _ = i := List.length_range i
  have hcl : s.activeVideoCount < s.batchIndices.length := by rw [h.lenIdx]; omega
  have hdone : ∀ (v : Option Nat) (x : Nat), x < i →
      (s.srcCaptures.set i v).getD x none =
        if j < streamLength (World.ideal videos) x then some (j + 1) else none := by
    intro v x hx
    rw [getD_set_ne _ _ _ _ _ (Nat.ne_of_lt hx)]
    exact h.capsDone x hx
  have htodo : ∀ (v : Option Nat) (x : Nat), i + 1 ≤ x → x < (World.ideal videos).videos.length →
      (s.srcCaptures.set i v).getD x none =
        if j ≤ streamLength (World.ideal videos) x then some j else none := by
    intro v x hx hxn
    rw [getD_set_ne _ _ _ _ _ (by omega)]
    exact h.capsTodo x (by omega) hxn
  unfold assembleStep
  simp only [hmod]
  rw [hcap]
  by_cases hj : j ≤ streamLength (World.ideal videos) i
  · simp only [hj, if_true]
    by_cases hlt : j < streamLength (World.ideal videos) i
    · obtain ⟨m, hm⟩ := readFrame_isSome hlt
      obtain ⟨hw, hh⟩ := readFrame_uniform hu hm
      rw [hm]
      have hshape : m.width = s.srcWidth ∧ m.height = s.srcHeight := by
        rw [h.width, h.height]; exact ⟨hw, hh⟩
      have hts : (World.ideal videos).transferToStatus j s.activeVideoCount = NVCV_SUCCESS := rfl
      simp only [hshape, and_self, not_true_eq_false, if_false, hts, if_true]
      refine ⟨_, rfl, ?_⟩
      have hp : decide (j < streamLength (World.ideal videos) i) = true := by
        simpa using hlt
      have hf := filter_range_succ_pos
        (fun x => decide (j < streamLength (World.ideal videos) x)) i hp
      refine ⟨by simp [h.lenIdx], by simp [h.lenCaps], h.width, h.height, ?_, ?_, ?_, ?_, ?_⟩
      · intro x hx
        show (s.srcCaptures.set i (some (j + 1))).getD x none = _
        rcases Nat.lt_succ_iff_lt_or_eq.1 hx with h1 | h1
        · exact hdone _ x h1
        · subst h1
          rw [getD_set_eq _ _ _ _ hil]
          simp [hlt]
      · exact htodo _
      · show (s.batchIndices.set s.activeVideoCount i).take (s.activeVideoCount + 1) = _
        rw [take_succ_set _ _ _ hcl, h.idx, hf]
      · show s.activeVideoCount + 1 = _
        rw [hf, List.length_append, ← h.count]
        rfl
      · show dispatched (s.trace ++ [Event.pull i (some j)] ++
          [Event.transferTo j s.activeVideoCount m]) = _
        rw [dispatched_snoc _ _ (by simp), dispatched_snoc _ _ (by simp)]
        exact h.disp
    · have hnone : readFrame (World.ideal videos) i j = none := readFrame_eq_none (by omega)
      rw [hnone]
      refine ⟨_, rfl, ?_⟩
      have hp : decide (j < streamLength (World.ideal videos) i) = false := by
        simpa using hlt
      have hf := filter_range_succ_neg
        (fun x => decide (j < streamLength (World.ideal videos) x)) i hp
      refine ⟨h.lenIdx, by simp [h.lenCaps], h.width, h.height, ?_, ?_, ?_, ?_, ?_⟩
      · intro x hx
        show (s.srcCaptures.set i none).getD x none = _
        rcases Nat.lt_succ_iff_lt_or_eq.1 hx with h1 | h1
        · exact hdone _ x h1
        · subst h1
          rw [getD_set_eq _ _ _ _ hil]
          simp [hlt]
      · exact htodo _
      · show s.batchIndices.take s.activeVideoCount = _
        rw [hf, h.idx]
      · show s.activeVideoCount = _
        rw [hf, ← h.count]
      · show dispatched (s.trace ++ [Event.pull i none]) = _
        rw [dispatched_snoc _ _ (by simp)]
        exact h.disp
  · simp only [hj, if_false]
    refine ⟨_, rfl, ?_⟩
    have hlt : ¬ j < streamLength (World.ideal videos) i := by omega
    have hp : decide (j < streamLength (World.ideal videos) i) = false := by
      simpa using hlt
    have hf := filter_range_succ_neg
      (fun x => decide (j < streamLength (World.ideal videos) x)) i hp
    refine ⟨h.lenIdx, h.lenCaps, h.width, h.height, ?_, ?_, ?_, ?_, h.disp⟩
    · intro x hx
      rcases Nat.lt_succ_iff_lt_or_eq.1 hx with h1 | h1
      · exact h.capsDone x h1
      · subst h1
        rw [hcap]
        simp [hj, hlt]
    · intro x hx hxn
      exact h.capsTodo x (by omega) hxn
    · rw [hf, h.idx]
    · rw [hf, ← h.count]

end Local

theorem forLoop_total {σ : Type} (body : Nat → σ → Flow σ) (n : Nat) (P : Nat → σ → Prop)
    (hstep : ∀ i s, i < n → P i s → ∃ s1, body i s = Flow.next s1 ∧ P (i + 1) s1) :
    ∀ k i s, i + k = n → P i s → ∃ s1, forLoop body k i s = Flow.next s1 ∧ P n s1 := by
  intro k
  induction k with
  | zero =>
    intro i s hik hP
    simp only [Nat.add_zero] at hik
    subst hik
    exact ⟨s, rfl, hP⟩
  | succ k ih =>
    intro i s hik hP
    obtain ⟨s1, hs1, hP1⟩ := hstep i s (by omega) hP
    obtain ⟨s2, hs2, hP2⟩ := ih (i + 1) s1 (by omega) hP1
    exact ⟨s2, by simp only [forLoop, hs1, hs2], hP2⟩

theorem schedule_succ (w : World) (j : Nat) :
    (List.range (j + 1)).map (activeAt w) = (List.range j).map (activeAt w) ++ [activeAt w j] := by
  rw [List.range_succ, List.map_append]; rfl

namespace Local

theorem Calm.smooth {w : World} {f0 : Frame} {j : Nat} {s : State} (h : Calm w f0 j s) :
    Smooth w f0 j 0 { s with activeVideoCount := 0 } where
  lenIdx := h.lenIdx
  lenCaps := h.lenCaps
  width := h.width
  height := h.height
  capsDone := fun x hx => absurd hx (Nat.not_lt_zero _)
  capsTodo := fun x _ hx => h.caps x hx
  idx := by simp
  count := by simp
  disp := h.disp

theorem calm_writeStep (videos : List (List Frame)) (j i : Nat) (s : State) :
    ∃ s1, writeStep (World.ideal videos) j i s = Flow.next s1 ∧
      s1.srcCaptures = s.srcCaptures ∧ s1.batchIndices = s.batchIndices ∧
      s1.srcWidth = s.srcWidth ∧ s1.srcHeight = s.srcHeight ∧
      dispatched s1.trace = dispatched s.trace :=
  ⟨_, rfl, rfl, rfl, rfl, rfl, dispatched_snoc _ _ (by simp)⟩

theorem calm_cycle {videos : List (List Frame)} {f0 : Frame} (hu : Uniform videos f0)
    {j : Nat} {s : State} (h : Calm (World.ideal videos) f0 j s) :
    (j < maxLength (World.ideal videos) →
      ∃ s1, cycle (World.ideal videos) j s = Flow.next s1 ∧
        Calm (World.ideal videos) f0 (j + 1) s1) ∧
    (maxLength (World.ideal videos) ≤ j →
      ∃ s1, cycle (World.ideal videos) j s = Flow.bail s1 ∧
        dispatched s1.trace = (List.range j).map (activeAt (World.ideal videos))) := by
  obtain ⟨s1, hs1, hS⟩ := forLoop_total (assembleStep (World.ideal videos) j)
    (World.ideal videos).videos.length (fun i t => Smooth (World.ideal videos) f0 j i t)
    (fun i t hi hP => local_smooth_assembleStep hu hP hi)
    (World.ideal videos).videos.length 0 { s with activeVideoCount := 0 } (Nat.zero_add _)
    h.smooth
  have hidx : s1.batchIndices.take s1.activeVideoCount = activeAt (World.ideal videos) j := hS.idx
  have hcount : s1.activeVideoCount = (activeAt (World.ideal videos) j).length := hS.count
  constructor
  · intro hj
    have hne : s1.activeVideoCount ≠ 0 := by
      rw [hcount]
      intro h0
      exact activeAt_ne_nil hj (List.length_eq_zero.1 h0)
    obtain ⟨s3, hs3, hW⟩ := forLoop_total (writeStep (World.ideal videos) j)
      s1.activeVideoCount
      (fun _ t => t.srcCaptures = s1.srcCaptures ∧ t.batchIndices = s1.batchIndices ∧
        t.srcWidth = s1.srcWidth ∧ t.srcHeight = s1.srcHeight ∧
        dispatched t.trace = dispatched s1.trace ++ [s1.batchIndices.take s1.activeVideoCount])
      (fun i t _ hP => by
        obtain ⟨t1, ht1, e1, e2, e3, e4, e5⟩ := calm_writeStep videos j i t
        exact ⟨t1, ht1, e1.trans hP.1, e2.trans hP.2.1, e3.trans hP.2.2.1,
          e4.trans hP.2.2.2.1, e5.trans hP.2.2.2.2⟩)
      s1.activeVideoCount 0
      { s1 with err := NVCV_SUCCESS,
                trace := s1.trace ++ [Event.run j s1.activeVideoCount s1.batchOfStates
                  s1.batchIndices NVCV_SUCCESS] }
      (Nat.zero_add _) ⟨rfl, rfl, rfl, rfl, dispatched_snoc_run _ _ _ _ _ _⟩
    refine ⟨s3, ?_, ?_⟩
    · unfold cycle
      rw [hs1]
      simp only [hne, if_false]
      exact hs3
    · obtain ⟨e1, e2, e3, e4, e5⟩ := hW
      refine ⟨by rw [e2]; exact hS.lenIdx, by rw [e1]; exact hS.lenCaps,
        by rw [e3]; exact hS.width, by rw [e4]; exact hS.height, ?_, ?_⟩
      · intro x hx
        rw [e1, hS.capsDone x hx]
        by_cases hlt : j < streamLength (World.ideal videos) x
        · simp [hlt, Nat.succ_le_of_lt hlt]
        · have : ¬ j + 1 ≤ streamLength (World.ideal videos) x := by omega
          simp [hlt, this]
      · rw [e5, hS.disp, hidx, schedule_succ]
  · intro hj
    have hz : s1.activeVideoCount = 0 := by
      rw [hcount, activeAt_eq_nil hj]; rfl
    refine ⟨s1, ?_, hS.disp⟩
    unfold cycle
    rw [hs1]
    simp only [hz, if_true]

theorem calm_cycleLoop {videos : List (List Frame)} {f0 : Frame} (hu : Uniform videos f0) :
    ∀ (fuel j : Nat) (s : State), Calm (World.ideal videos) f0 j s →
      j ≤ maxLength (World.ideal videos) → maxLength (World.ideal videos) < j + fuel →
      ∃ s1, cycleLoop (World.ideal videos) fuel j s = some s1 ∧
        dispatched s1.trace = schedule (World.ideal videos) := by
  intro fuel
  induction fuel with
  | zero => intro j s _ h1 h2; omega
  | succ fuel ih =>
    intro j s hc h1 h2
    have hcy := calm_cycle hu hc
    by_cases hj : j < maxLength (World.ideal videos)
    · obtain ⟨s1, hs1, hc1⟩ := hcy.1 hj
      obtain ⟨s2, hs2, hd⟩ := ih (j + 1) s1 hc1 hj (by omega)
      exact ⟨s2, by simp only [cycleLoop, hs1, hs2], hd⟩
    · obtain ⟨s1, hs1, hd⟩ := hcy.2 (by omega)
      have hjm : j = maxLength (World.ideal videos) := by omega
      refine ⟨s1, by simp only [cycleLoop, hs1], ?_⟩
      rw [hd, hjm]
      rfl

theorem warm_openStep (videos : List (List Frame)) {i : Nat} {s : State}
    (h : Warm (World.ideal videos) i s) (hi : i < (World.ideal videos).videos.length) :
    ∃ s1, openStep (World.ideal videos) i s = Flow.next s1 ∧
      Warm (World.ideal videos) (i + 1) s1 := by
  refine ⟨_, rfl, h.lenIdx, by simp [h.lenCaps], ?_, ?_⟩
  · intro x hx
    show (s.srcCaptures.set i (some 0)).getD x none = some 0
    rcases Nat.lt_succ_iff_lt_or_eq.1 hx with h1 | h1
    · rw [getD_set_ne _ _ _ _ _ (Nat.ne_of_lt h1)]
      exact h.caps x h1
    · subst h1
      exact getD_set_eq _ _ _ _ (by rw [h.lenCaps]; exact hi)
  · show dispatched (s.trace ++ [Event.openSource i true] ++ [Event.openSink i true]) = []
    rw [dispatched_snoc _ _ (by simp), dispatched_snoc _ _ (by simp)]
    exact h.disp

theorem calm_allocStep (videos : List (List Frame)) (f0 : Frame) {i : Nat} {s : State}
    (h : Calm (World.ideal videos) f0 0 s) :
    ∃ s1, allocStep (World.ideal videos) i s = Flow.next s1 ∧
      Calm (World.ideal videos) f0 0 s1 := by
  refine ⟨_, rfl, h.lenIdx, h.lenCaps, h.width, h.height, h.caps, ?_⟩
  show dispatched (s.trace ++ [Event.allocate i (some s.nextHandle)]) = _
  rw [dispatched_snoc _ _ (by simp)]
  exact h.disp

theorem calm_setup {videos : List (List Frame)} {f0 : Frame} (hu : Uniform videos f0)
    (hfirst : 0 < streamLength (World.ideal videos) 0) {s : State}
    (h : Warm (World.ideal videos) (World.ideal videos).videos.length s) :
    ∃ s1, setup (World.ideal videos) s = Flow.next s1 ∧ Calm (World.ideal videos) f0 0 s1 := by
  have hn : (World.ideal videos).videos.length ≠ 0 := by
    intro h0
    have : streamLength (World.ideal videos) 0 = 0 := by
      unfold streamLength
      rw [List.getD_eq_getElem?_getD, List.getElem?_eq_none (by omega)]
      rfl
    omega
  obtain ⟨m, hm⟩ := readFrame_isSome hfirst
  obtain ⟨hw, hh⟩ := readFrame_uniform hu hm
  have h1 : Calm (World.ideal videos) f0 0
      { s with srcWidth := m.width, srcHeight := m.height, err := NVCV_SUCCESS,
               trace := s.trace ++ [Event.pull 0 (some 0)] } := by
    refine ⟨h.lenIdx, h.lenCaps, hw, hh, ?_, ?_⟩
    · intro x hx
      show s.srcCaptures.getD x none = _
      rw [h.caps x hx]
      simp
    · show dispatched (s.trace ++ [Event.pull 0 (some 0)]) = _
      rw [dispatched_snoc _ _ (by simp)]
      exact h.disp
  obtain ⟨s6, hs6, h6⟩ := forLoop_total (allocStep (World.ideal videos))
    (World.ideal videos).videos.length (fun _ t => Calm (World.ideal videos) f0 0 t)
    (fun i t _ hP => calm_allocStep videos f0 hP)
    (World.ideal videos).videos.length 0 _ (Nat.zero_add _) h1
  refine ⟨{ s6 with batchOfStates := (List.range (World.ideal videos).videos.length).map
                      (World.ideal videos).mallocContent,
                    err := NVCV_SUCCESS }, ?_,
    ⟨h6.lenIdx, h6.lenCaps, h6.width, h6.height, h6.caps, h6.disp⟩⟩
  unfold setup
  simp only [hn, if_false, hm]
  have c1 : (World.ideal videos).initStatus = NVCV_SUCCESS := rfl
  have c2 : (World.ideal videos).setMaxStreams = NVCV_SUCCESS := rfl
  have c3 : (World.ideal videos).setModelBatch = NVCV_SUCCESS := rfl
  have c4 : (World.ideal videos).load = NVCV_SUCCESS := rfl
  have c5 : (World.ideal videos).mallocOk = true := rfl
  have c6 : (World.ideal videos).imageAlloc = NVCV_SUCCESS := rfl
  simp only [check, c1, c2, c3, c4, c5, c6, if_true]
  rw [hs6]
  simp

theorem calm_body {videos : List (List Frame)} {f0 : Frame} (hu : Uniform videos f0)
    (hfirst : 0 < streamLength (World.ideal videos) 0) :
    ∃ s, body (World.ideal videos) = some s ∧
      dispatched s.trace = schedule (World.ideal videos) := by
  obtain ⟨s1, hs1, h1⟩ := forLoop_total (openStep (World.ideal videos))
    (World.ideal videos).videos.length (fun i t => Warm (World.ideal videos) i t)
    (fun i t hi hP => warm_openStep videos hP hi)
    (World.ideal videos).videos.length 0 (initial (World.ideal videos)) (Nat.zero_add _)
    ⟨by simp [initial], by simp [initial], fun x hx => absurd hx (Nat.not_lt_zero _), rfl⟩
  obtain ⟨s2, hs2, h2⟩ := calm_setup hu hfirst h1
  obtain ⟨s3, hs3, h3⟩ := calm_cycleLoop hu (maxLength (World.ideal videos) + 1) 0 s2 h2
    (Nat.zero_le _) (by omega)
  exact ⟨s3, by simp only [body, hs1, hs2, hs3], h3⟩

theorem dispatched_closing (arr : List (Option Nat)) : dispatched (closing arr) = [] := by
  unfold closing
  generalize List.range arr.length = l
  induction l with
  | nil => rfl
  | cons a t ih => simpa [dispatched] using ih

theorem calm_BatchProcess {videos : List (List Frame)} {f0 : Frame} (hu : Uniform videos f0)
    (hfirst : 0 < streamLength (World.ideal videos) 0) :
    ∃ r, BatchProcess (World.ideal videos) = some r ∧
      dispatched r.trace = schedule (World.ideal videos) := by
  obtain ⟨s, hs, hd⟩ := calm_body hu hfirst
  refine ⟨cleanup s, by simp [BatchProcess, hs], ?_⟩
  rw [local_cleanup_trace, dispatched_append, dispatched_closing, List.append_nil, hd]

end Local

theorem watch_snoc (x h : Nat) (tr : List Event) (e : Event) :
    watch x h (tr ++ [e]) = Watch.step x h (watch x h tr) e := by
  simp [watch, List.foldl_append]

theorem handleOf_lt {w : World} {y x : Nat} (hyx : y < x) (hy : 0 < streamLength w y) :
    handleOf w y < handleOf w x := by
  unfold handleOf
  induction x with
  | zero => omega
  | succ x ih =>
    rw [filter_range_succ]
    rw [List.length_append]
    rcases Nat.lt_succ_iff_lt_or_eq.1 hyx with h1 | h1
    · have := ih h1
      omega
    · subst h1
      simp [hy]

theorem handleOf_inj {w : World} {y x : Nat} (hy : 0 < streamLength w y)
    (hx : 0 < streamLength w x) (h : handleOf w y = handleOf w x) : y = x := by
  rcases Nat.lt_trichotomy y x with h1 | h1 | h1
  · exact absurd h (Nat.ne_of_lt (handleOf_lt h1 hy))
  · exact h1
  · exact absurd h.symm (Nat.ne_of_lt (handleOf_lt h1 hx))

namespace Triton

theorem expectedWatch_succ_of_ne {w : World} {x j l : Nat} (hxl : x ≠ l) :
    expectedWatch w x j (l + 1) = expectedWatch w x j l := by
  unfold expectedWatch
  have : (x < l + 1) = (x < l) := by simp; omega
  simp only [this]

theorem smooth_lookahead {videos : List (List Frame)} {f0 : Frame}
    {j i : Nat} {s : State} (h : Smooth (World.ideal videos) f0 j i i s)
    (hi : i < (World.ideal videos).videos.length) :
    ∃ s1, lookahead (World.ideal videos) i s = Flow.next s1 ∧
      Smooth (World.ideal videos) f0 j i (i + 1) s1 := by
  have hcap := h.capsTodo i (Nat.le_refl i) hi
  have hil : i < s.src_captures.length := by rw [h.lenCaps]; exact hi
  have hin : i < s.frames_t_1.length := by rw [h.lenNext]; exact hi
  have hdone : ∀ (v : Option Nat) (x : Nat), x < i →
      (s.src_captures.set i v).getD x none =
        if j + 1 < streamLength (World.ideal videos) x then some (j + 2) else none := by
    intro v x hx
    rw [getD_set_ne _ _ _ _ _ (Nat.ne_of_lt hx)]
    exact h.capsDone x hx
  have htodo : ∀ (v : Option Nat) (x : Nat), i + 1 ≤ x → x < (World.ideal videos).videos.length →
      (s.src_captures.set i v).getD x none =
        if j < streamLength (World.ideal videos) x then some (j + 1) else none := by
    intro v x hx hxn
    rw [getD_set_ne _ _ _ _ _ (by omega)]
    exact h.capsTodo x (by omega) hxn
  have hnext : ∀ (v : Option Mat), (j < streamLength (World.ideal videos) i →
      v = readFrame (World.ideal videos) i (j + 1)) → ∀ x, x < i + 1 →
      j < streamLength (World.ideal videos) x →
      (s.frames_t_1.set i v).getD x none = readFrame (World.ideal videos) x (j + 1) := by
    intro v hv x hx hjx
    rcases Nat.lt_succ_iff_lt_or_eq.1 hx with h1 | h1
    · rw [getD_set_ne _ _ _ _ _ (Nat.ne_of_lt h1)]
      exact h.nextDone x h1 hjx
    · subst h1
      rw [getD_set_eq _ _ _ _ hin]
      exact hv hjx
  unfold lookahead
  rw [hcap]
  by_cases hj : j < streamLength (World.ideal videos) i
  · simp only [hj, if_true]
    by_cases hlt : j + 1 < streamLength (World.ideal videos) i
    · obtain ⟨m, hm⟩ := readFrame_isSome hlt
      rw [hm]
      refine ⟨_, rfl, h.lenIdx, by simp [h.lenCaps], h.lenFrames, by simp [h.lenNext],
        h.lenBatch, h.width, h.height, ?_, htodo _, h.frames, hnext _ (fun _ => hm.symm),
        h.arr, h.idx, h.count, ?_, ?_, ?_,
        fun x hx hl => List.mem_append_left _ (h.allocd x hx hl)⟩
      · intro x hx
        show (s.src_captures.set i (some (j + 1 + 1))).getD x none = _
        rcases Nat.lt_succ_iff_lt_or_eq.1 hx with h1 | h1
        · exact hdone _ x h1
        · subst h1
          rw [getD_set_eq _ _ _ _ hil]
          simp [hlt]
      · show dispatched (s.trace ++ [Event.pull i (some (j + 1))]) = _
        rw [dispatched_snoc _ _ (by simp)]
        exact h.disp
      · intro x hx hl
        show watch x _ (s.trace ++ [Event.pull i (some (j + 1))]) = _
        rw [watch_snoc, h.watched x hx hl]
        by_cases hxi : x = i
        · subst hxi
          unfold expectedWatch
          have h1 : ¬ streamLength (World.ideal videos) x ≤ j := by omega
          have h2 : ¬ j + 1 = streamLength (World.ideal videos) x := by omega
          simp [h1, h2, Watch.step]
        · rw [expectedWatch_succ_of_ne hxi]
          rfl
      · intro x c hx hc hcj
        obtain ⟨slot, m', h1, h2⟩ := h.lastFrames x c hx hc hcj
        exact ⟨slot, m', List.mem_append_left _ h1, h2⟩
    · have hL : streamLength (World.ideal videos) i = j + 1 := by omega
      have hnone : readFrame (World.ideal videos) i (j + 1) = none :=
        readFrame_eq_none (by omega)
      rw [hnone]
      have hd : (World.ideal videos).deallocateState i = NVCV_SUCCESS := rfl
      simp only [hd, if_true]
      have harr : s.m_arrayOfStates.getD i none = some (handleOf (World.ideal videos) i) := by
        rw [h.arr i hi]
        simp [show 0 < streamLength (World.ideal videos) i by omega]
      rw [harr]
      refine ⟨_, rfl, h.lenIdx, by simp [h.lenCaps], h.lenFrames, by simp [h.lenNext],
        h.lenBatch, h.width, h.height, ?_, htodo _, h.frames, hnext _ (fun _ => hnone.symm),
        h.arr, h.idx, h.count, ?_, ?_, ?_,
        fun x hx hl => List.mem_append_left _ (List.mem_append_left _ (h.allocd x hx hl))⟩
      · intro x hx
        show (s.src_captures.set i none).getD x none = _
        rcases Nat.lt_succ_iff_lt_or_eq.1 hx with h1 | h1
        · exact hdone _ x h1
        · subst h1
          rw [getD_set_eq _ _ _ _ hil]
          simp [hlt]
      · show dispatched (s.trace ++ [Event.pull i none] ++
          [Event.deallocate i (some (handleOf (World.ideal videos) i))]) = _
        rw [dispatched_snoc _ _ (by simp), dispatched_snoc _ _ (by simp)]
        exact h.disp
      · intro x hx hl
        show watch x _ (s.trace ++ [Event.pull i none] ++
          [Event.deallocate i (some (handleOf (World.ideal videos) i))]) = _
        rw [watch_snoc, watch_snoc, h.watched x hx hl]
        by_cases hxi : x = i
        · subst hxi
          unfold expectedWatch
          have h1 : ¬ streamLength (World.ideal videos) x ≤ j := by omega
          simp [h1, hL, Watch.step]
        · rw [expectedWatch_succ_of_ne hxi]
          have hix : ¬ i = x := fun e => hxi e.symm
          simp [Watch.step, hix]
      · intro x c hx hc hcj
        obtain ⟨slot, m', h1, h2⟩ := h.lastFrames x c hx hc hcj
        exact ⟨slot, m', List.mem_append_left _ (List.mem_append_left _ h1), h2⟩
  · simp only [hj, if_false]
    refine ⟨_, rfl, h.lenIdx, h.lenCaps, h.lenFrames, h.lenNext,
      h.lenBatch, h.width, h.height, ?_, ?_, h.frames, ?_, h.arr, h.idx, h.count, h.disp,
      ?_, h.lastFrames, h.allocd⟩
    · intro x hx
      rcases Nat.lt_succ_iff_lt_or_eq.1 hx with h1 | h1
      · exact h.capsDone x h1
      · subst h1
        rw [hcap]
        have : ¬ j + 1 < streamLength (World.ideal videos) x := by omega
        simp [hj, this]
    · intro x hx hxn
      exact h.capsTodo x (by omega) hxn
    · intro x hx hjx
      rcases Nat.lt_succ_iff_lt_or_eq.1 hx with h1 | h1
      · exact h.nextDone x h1 hjx
      · subst h1
        exact absurd hjx hj
    · intro x hx hl
      rw [h.watched x hx hl]
      by_cases hxi : x = i
      · subst hxi
        unfold expectedWatch
        have h1 : streamLength (World.ideal videos) x ≤ j := by omega
        simp [h1]
      · rw [expectedWatch_succ_of_ne hxi]

end Triton

theorem mem_take_iff_getD {α : Type} {l : List α} {n : Nat} {a d : α} (hn : n ≤ l.length) :
    a ∈ l.take n ↔ ∃ k, k < n ∧ l.getD k d = a := by
  rw [List.mem_take_iff_getElem]
  constructor
  · rintro ⟨k, hk, rfl⟩
    have hk' : k < n := by
      have := Nat.lt_of_lt_of_le hk (Nat.min_le_left _ _)
      exact this
    refine ⟨k, hk', ?_⟩
    rw [List.getD_eq_getElem?_getD, List.getElem?_eq_getElem (by omega)]
    rfl
  · rintro ⟨k, hk, rfl⟩
    have hkl : k < l.length := by omega
    refine ⟨k, by rw [Nat.min_eq_left hn]; exact hk, ?_⟩
    rw [List.getD_eq_getElem?_getD, List.getElem?_eq_getElem hkl]
    rfl

theorem mem_activeAt {w : World} {c x : Nat} :
    x ∈ activeAt w c ↔ x < w.videos.length ∧ c < streamLength w x := by
  unfold activeAt
  rw [List.mem_filter, List.mem_range]
  simp

namespace Triton

theorem triton_smooth_assembleStep {videos : List (List Frame)} {f0 : Frame} (hu : Uniform videos f0)
    {j i : Nat} {s : State} (h : Smooth (World.ideal videos) f0 j i i s)
    (hi : i < (World.ideal videos).videos.length) :
    ∃ s1, assembleStep (World.ideal videos) j i s = Flow.next s1 ∧
      Smooth (World.ideal videos) f0 j (i + 1) (i + 1) s1 := by
  obtain ⟨t, ht, hS⟩ := smooth_lookahead h hi
  have hcount_le : t.active_video_count ≤ i := by
    rw [hS.count]
    calc ((List.range i).filter _).length ≤ (List.range i).length := List.length_filter_le _ _
      _ = i := List.length_range i
  have hcl : t.active_video_count < t.batch_indices.length := by rw [hS.lenIdx]; omega
  unfold assembleStep
  rw [ht]
  dsimp only
  rw [hS.frames i hi]
  by_cases hj : j < streamLength (World.ideal videos) i
  · obtain ⟨m, hm⟩ := readFrame_isSome hj
    obtain ⟨hw, hh⟩ := readFrame_uniform hu hm
    obtain ⟨-, hstream, hindex⟩ := readFrame_some_lt hm
    rw [hm]
    have hshape : m.width = t.src_width ∧ m.height = t.src_height := by
      rw [hS.width, hS.height]; exact ⟨hw, hh⟩
    have hts : (World.ideal videos).transferToStatus j t.active_video_count = NVCV_SUCCESS := rfl
    simp only [hshape, and_self, not_true_eq_false, if_false, hts, if_true]
    have hp : decide (j < streamLength (World.ideal videos) i) = true := by simpa using hj
    have hf := filter_range_succ_pos
      (fun x => decide (j < streamLength (World.ideal videos) x)) i hp
    refine ⟨_, rfl, by simp [hS.lenIdx], hS.lenCaps, hS.lenFrames, hS.lenNext, hS.lenBatch,
      hS.width, hS.height, hS.capsDone, hS.capsTodo, hS.frames, hS.nextDone, hS.arr,
      ?_, ?_, ?_, ?_, ?_, fun x hx hl => List.mem_append_left _ (hS.allocd x hx hl)⟩
    · show (t.batch_indices.set t.active_video_count i).take (t.active_video_count + 1) = _
      rw [take_succ_set _ _ _ hcl, hS.idx, hf]
    · show t.active_video_count + 1 = _
      rw [hf, List.length_append, ← hS.count]
      rfl
    · show dispatched (t.trace ++ [Event.transferTo j t.active_video_count m]) = _
      rw [dispatched_snoc _ _ (by simp)]
      exact hS.disp
    · intro x hx hl
      show watch x _ (t.trace ++ [Event.transferTo j t.active_video_count m]) = _
      rw [watch_snoc, hS.watched x hx hl]
      rfl
    · intro x c hx hc hcj
      by_cases hnew : c = j ∧ x = i
      · obtain ⟨rfl, rfl⟩ := hnew
        exact ⟨t.active_video_count, m, List.mem_append_right _ (List.mem_singleton_self _),
          hstream, hindex⟩
      · obtain ⟨slot, m', h1, h2⟩ := hS.lastFrames x c hx hc (by omega)
        exact ⟨slot, m', List.mem_append_left _ h1, h2⟩
  · have hnone : readFrame (World.ideal videos) i j = none := readFrame_eq_none (by omega)
    rw [hnone]
    have hp : decide (j < streamLength (World.ideal videos) i) = false := by simpa using hj
    have hf := filter_range_succ_neg
      (fun x => decide (j < streamLength (World.ideal videos) x)) i hp
    refine ⟨_, rfl, hS.lenIdx, hS.lenCaps, hS.lenFrames, hS.lenNext, hS.lenBatch,
      hS.width, hS.height, hS.capsDone, hS.capsTodo, hS.frames, hS.nextDone, hS.arr,
      ?_, ?_, hS.disp, hS.watched, ?_, hS.allocd⟩
    · rw [hf, hS.idx]
    · rw [hf, ← hS.count]
    · intro x c hx hc hcj
      have : c < j ∨ (c = j ∧ x < i) := by
        rcases hcj with h1 | ⟨h1, h2⟩
        · exact Or.inl h1
        · right
          refine ⟨h1, ?_⟩
          rcases Nat.lt_succ_iff_lt_or_eq.1 h2 with h3 | h3
          · exact h3
          · subst h3 h1
            exact absurd hc hj
      exact hS.lastFrames x c hx hc this

theorem handle_in_batch {w : World} {f0 : Frame} {j : Nat} {s : State}
    (h : Smooth w f0 j w.videos.length w.videos.length s) (B : List (Option Nat))
    (hlen : B.length = w.videos.length)
    (hB : ∀ k, k < s.active_video_count →
      B.getD k none = s.m_arrayOfStates.getD (s.batch_indices.getD k 0) none)
    {x : Nat} (hx : x < w.videos.length) (hl : 0 < streamLength w x) :
    some (handleOf w x) ∈ B.take s.active_video_count ↔ j < streamLength w x := by
  have hidx : s.batch_indices.take s.active_video_count = activeAt w j := h.idx
  have hn : s.active_video_count ≤ w.videos.length := by
    rw [h.count]
    calc ((List.range w.videos.length).filter _).length ≤ (List.range w.videos.length).length :=
          List.length_filter_le _ _
      _ = w.videos.length := List.length_range _
  rw [mem_take_iff_getD (d := none) (by rw [hlen]; exact hn)]
  constructor
  · rintro ⟨k, hk, hkB⟩
    rw [hB k hk] at hkB
    have hy : s.batch_indices.getD k 0 ∈ activeAt w j := by
      rw [← hidx]
      exact getD_mem_take _ _ _ _ hk (by rw [h.lenIdx]; exact hn)
    obtain ⟨hy1, hy2⟩ := mem_activeAt.1 hy
    rw [h.arr _ hy1] at hkB
    have hy3 : 0 < streamLength w (s.batch_indices.getD k 0) := by omega
    simp only [hy3, if_true, Option.some.injEq] at hkB
    have := handleOf_inj hy3 hl hkB
    rw [this] at hy2
    exact hy2
  · intro hj
    have hxm : x ∈ s.batch_indices.take s.active_video_count := by
      rw [hidx]; exact mem_activeAt.2 ⟨hx, hj⟩
    obtain ⟨k, hk, hkx⟩ := (mem_take_iff_getD (d := 0) (by rw [h.lenIdx]; exact hn)).1 hxm
    refine ⟨k, hk, ?_⟩
    rw [hB k hk, hkx, h.arr x hx]
    simp [hl]

theorem smooth_count_le {w : World} {f0 : Frame} {j i l : Nat} {s : State}
    (h : Smooth w f0 j i l s) : s.active_video_count ≤ i := by
  rw [h.count]
  calc ((List.range i).filter _).length ≤ (List.range i).length := List.length_filter_le _ _
    _ = i := List.length_range i

theorem smooth_Run {videos : List (List Frame)} {f0 : Frame} {j : Nat} {s : State}
    (h : Smooth (World.ideal videos) f0 j (World.ideal videos).videos.length
      (World.ideal videos).videos.length s) :
    ∃ s1, Run (World.ideal videos) j s = Flow.next s1 ∧
      Settled (World.ideal videos) f0 j s.active_video_count 0 s1 := by
  have hn : s.active_video_count ≤ (World.ideal videos).videos.length := smooth_count_le h
  obtain ⟨t, ht, B, hB, hlen, hk⟩ := forLoop_total gatherStep s.active_video_count
    (fun i t => Gathering (World.ideal videos) s i t)
    (fun i t hi hP => ⟨_, rfl, gatherStep_spec hP (Nat.lt_of_lt_of_le hi hn) rfl⟩)
    s.active_video_count 0 s (Nat.zero_add _)
    ⟨s.m_batchOfStates, rfl, h.lenBatch, fun k hk => absurd hk (Nat.not_lt_zero _)⟩
  subst hB
  have hidx : s.batch_indices.take s.active_video_count = activeAt (World.ideal videos) j := h.idx
  refine ⟨{ s with m_batchOfStates := B, err := NVCV_SUCCESS,
                   trace := s.trace ++ [Event.run j s.active_video_count B s.batch_indices
                     NVCV_SUCCESS] }, ?_, ?_⟩
  · unfold Run
    rw [ht]
    rfl
  · refine ⟨h.lenIdx, h.lenCaps, h.lenFrames, h.lenNext, hlen, h.width, h.height, h.capsDone,
      ?_, ?_, h.arr, hidx, ?_, ?_, ?_, ?_, ?_⟩
    · intro x hx
      show s.frames.getD x none = _
      rw [h.frames x hx]
      simp
    · intro x hx hjx
      exact h.nextDone x hx hjx
    · rw [← hidx, List.length_take, h.lenIdx, Nat.min_eq_left hn]
    · show dispatched (s.trace ++ [Event.run j s.active_video_count B s.batch_indices
        NVCV_SUCCESS]) = _
      rw [dispatched_snoc_run, h.disp, hidx, schedule_succ]
    · intro x hx hl
      show watch x _ (s.trace ++ [Event.run j s.active_video_count B s.batch_indices
        NVCV_SUCCESS]) = _
      rw [watch_snoc, h.watched x hx hl]
      have hmem := handle_in_batch h B hlen hk hx hl
      unfold expectedWatch
      by_cases h1 : streamLength (World.ideal videos) x ≤ j
      · have h2 : streamLength (World.ideal videos) x ≤ j + 1 := by omega
        have h3 : ¬ some (handleOf (World.ideal videos) x) ∈ B.take s.active_video_count := by
          rw [hmem]; omega
        simp [h1, h2, Watch.step, h3]
      · by_cases h2 : j + 1 = streamLength (World.ideal videos) x
        · have h3 : some (handleOf (World.ideal videos) x) ∈ B.take s.active_video_count := by
            rw [hmem]; omega
          have h4 : streamLength (World.ideal videos) x ≤ j + 1 := by omega
          have h5 : streamLength (World.ideal videos) x - 1 = j := by omega
          simp only [h1, if_false, h2, hx, and_self, if_true, Watch.step, h4,
            Nat.add_one_ne_zero, h3, h5, List.nil_append, Nat.le_refl]
        · have h4 : ¬ streamLength (World.ideal videos) x ≤ j + 1 := by omega
          simp [h1, h2, h4, Watch.step]
    · intro x c hx hc hcj
      exact (h.lastFrames x c hx hc (by omega)).imp fun slot hm =>
        hm.imp fun m hm' => ⟨List.mem_append_left _ hm'.1, hm'.2⟩
    · intro x hx hl
      exact List.mem_append_left _ (h.allocd x hx hl)

theorem settled_writeStep {videos : List (List Frame)} {f0 : Frame} {j n i : Nat} {s : State}
    (h : Settled (World.ideal videos) f0 j n 0 s) :
    ∃ s1, writeStep (World.ideal videos) j i s = Flow.next s1 ∧
      Settled (World.ideal videos) f0 j n 0 s1 := by
  refine ⟨_, rfl, h.lenIdx, h.lenCaps, h.lenFrames, h.lenNext, h.lenBatch, h.width, h.height,
    h.caps, h.frames, h.next, h.arr, h.idx, h.size, ?_, ?_, ?_, ?_⟩
  · show dispatched (s.trace ++ [Event.write j _ _]) = _
    rw [dispatched_snoc _ _ (by simp)]
    exact h.disp
  · intro x hx hl
    show watch x _ (s.trace ++ [Event.write j _ _]) = _
    rw [watch_snoc, h.watched x hx hl]
    rfl
  · intro x c hx hc hcj
    exact (h.lastFrames x c hx hc hcj).imp fun slot hm =>
      hm.imp fun m hm' => ⟨List.mem_append_left _ hm'.1, hm'.2⟩
  · intro x hx hl
    exact List.mem_append_left _ (h.allocd x hx hl)

theorem settled_updateStep {videos : List (List Frame)} {f0 : Frame} {j n k : Nat} {s : State}
    (h : Settled (World.ideal videos) f0 j n k s) (hk : k < n) :
    ∃ s1, updateStep k s = Flow.next s1 ∧ Settled (World.ideal videos) f0 j n (k + 1) s1 := by
  have hnN : n ≤ s.batch_indices.length := by
    have := congrArg List.length h.idx
    rw [List.length_take] at this
    rw [h.size]
    omega
  have hv : s.batch_indices.getD k 0 ∈ activeAt (World.ideal videos) j := by
    rw [← h.idx]
    exact getD_mem_take _ _ _ _ hk hnN
  obtain ⟨hv1, hv2⟩ := mem_activeAt.1 hv
  have htake : s.batch_indices.take (k + 1) = s.batch_indices.take k ++ [s.batch_indices.getD k 0] := by
    rw [List.take_succ, List.getD_eq_getElem?_getD, List.getElem?_eq_getElem (by omega)]
    rfl
  refine ⟨_, rfl, h.lenIdx, h.lenCaps, by simp [updateStep, h.lenFrames], h.lenNext, h.lenBatch,
    h.width, h.height, h.caps, ?_, h.next, h.arr, h.idx, h.size, h.disp, h.watched,
    h.lastFrames, h.allocd⟩
  intro x hx
  show (s.frames.set (s.batch_indices.getD k 0)
    (s.frames_t_1.getD (s.batch_indices.getD k 0) none)).getD x none =
    if x ∈ s.batch_indices.take (k + 1) then _ else _
  rw [htake]
  by_cases hxv : x = s.batch_indices.getD k 0
  · rw [← hxv, getD_set_eq _ _ _ _ (by rw [h.lenFrames]; exact hx), h.next x hx (hxv ▸ hv2)]
    simp
  · rw [getD_set_ne _ _ _ _ _ hxv, h.frames x hx]
    have : (x ∈ s.batch_indices.take k ++ [s.batch_indices.getD k 0]) =
        (x ∈ s.batch_indices.take k) := by
      simp only [List.mem_append, List.mem_singleton, hxv, or_false]
    simp only [this]

theorem calm_smooth {w : World} {f0 : Frame} {j : Nat} {s : State} (h : Calm w f0 j s) :
    Smooth w f0 j 0 0 { s with active_video_count := 0 } where
  lenIdx := h.lenIdx
  lenCaps := h.lenCaps
  lenFrames := h.lenFrames
  lenNext := h.lenNext
  lenBatch := h.lenBatch
  width := h.width
  height := h.height
  capsDone := fun x hx => absurd hx (Nat.not_lt_zero _)
  capsTodo := fun x _ hx => h.caps x hx
  frames := h.frames
  nextDone := fun x hx => absurd hx (Nat.not_lt_zero _)
  arr := h.arr
  idx := by simp
  count := by simp
  disp := h.disp
  watched := h.watched
  lastFrames := fun x c hx hc hcj => h.lastFrames x c hx hc (by omega)
  allocd := h.allocd

theorem settled_calm {w : World} {f0 : Frame} {j n : Nat} {s : State}
    (h : Settled w f0 j n n s) : Calm w f0 (j + 1) s where
  lenIdx := h.lenIdx
  lenCaps := h.lenCaps
  lenFrames := h.lenFrames
  lenNext := h.lenNext
  lenBatch := h.lenBatch
  width := h.width
  height := h.height
  caps := fun x hx => by rw [h.caps x hx]
  frames := fun x hx => by
    rw [h.frames x hx, h.idx]
    by_cases hm : x ∈ activeAt w j
    · simp [hm]
    · have hL : streamLength w x ≤ j := by
        by_contra hc
        exact hm (mem_activeAt.2 ⟨hx, by omega⟩)
      simp only [hm, if_false]
      rw [readFrame_eq_none hL, readFrame_eq_none (by omega)]
  arr := h.arr
  disp := h.disp
  watched := h.watched
  lastFrames := h.lastFrames
  allocd := h.allocd

theorem triton_calm_cycle {videos : List (List Frame)} {f0 : Frame} (hu : Uniform videos f0)
    {j : Nat} {s : State} (h : Calm (World.ideal videos) f0 j s) :
    (j < maxLength (World.ideal videos) →
      ∃ s1, cycle (World.ideal videos) j s = Flow.next s1 ∧
        Calm (World.ideal videos) f0 (j + 1) s1) ∧
    (maxLength (World.ideal videos) = j →
      ∃ s1, cycle (World.ideal videos) j s = Flow.bail s1 ∧
        Harvest (World.ideal videos) s1) := by
  obtain ⟨s1, hs1, hS⟩ := forLoop_total (assembleStep (World.ideal videos) j)
    (World.ideal videos).videos.length (fun i t => Smooth (World.ideal videos) f0 j i i t)
    (fun i t hi hP => triton_smooth_assembleStep hu hP hi)
    (World.ideal videos).videos.length 0 { s with active_video_count := 0 } (Nat.zero_add _)
    (calm_smooth h)
  have hcount : s1.active_video_count = (activeAt (World.ideal videos) j).length := hS.count
  constructor
  · intro hj
    have hne : s1.active_video_count ≠ 0 := by
      rw [hcount]
      intro h0
      exact activeAt_ne_nil hj (List.length_eq_zero.1 h0)
    obtain ⟨s2, hs2, h2⟩ := smooth_Run hS
    obtain ⟨s3, hs3, h3⟩ := forLoop_total (writeStep (World.ideal videos) j)
      s1.active_video_count
      (fun _ t => Settled (World.ideal videos) f0 j s1.active_video_count 0 t)
      (fun i t _ hP => settled_writeStep hP)
      s1.active_video_count 0 s2 (Nat.zero_add _) h2
    obtain ⟨s4, hs4, h4⟩ := forLoop_total updateStep s1.active_video_count
      (fun k t => Settled (World.ideal videos) f0 j s1.active_video_count k t)
      (fun k t hk hP => settled_updateStep hP hk)
      s1.active_video_count 0 s3 (Nat.zero_add _) h3
    refine ⟨s4, ?_, settled_calm h4⟩
    unfold cycle
    rw [hs1]
    simp only [hne, if_false, hs2, hs3]
    exact hs4
  · intro hj
    have hz : s1.active_video_count = 0 := by
      rw [hcount, activeAt_eq_nil (Nat.le_of_eq hj)]; rfl
    refine ⟨s1, ?_, ?_, ?_, ?_, hS.allocd⟩
    · unfold cycle
      rw [hs1]
      simp only [hz, if_true]
    · rw [hS.disp, ← hj]
      rfl
    · intro x hx hl
      rw [hS.watched x hx hl]
      unfold expectedWatch
      have := streamLength_le_maxLength (World.ideal videos) x
      simp [show streamLength (World.ideal videos) x ≤ j by omega]
    · intro x c hx hc
      have := streamLength_le_maxLength (World.ideal videos) x
      exact hS.lastFrames x c hx hc (Or.inl (by omega))

theorem triton_calm_cycleLoop {videos : List (List Frame)} {f0 : Frame}
    (hu : Uniform videos f0) :
    ∀ (fuel j : Nat) (s : State), Calm (World.ideal videos) f0 j s →
      j ≤ maxLength (World.ideal videos) → maxLength (World.ideal videos) < j + fuel →
      ∃ s1, cycleLoop (World.ideal videos) fuel j s = some s1 ∧
        Harvest (World.ideal videos) s1 := by
  intro fuel
  induction fuel with
  | zero => intro j s _ h1 h2; omega
  | succ fuel ih =>
    intro j s hc h1 h2
    have hcy := triton_calm_cycle hu hc
    by_cases hj : j < maxLength (World.ideal videos)
    · obtain ⟨s1, hs1, hc1⟩ := hcy.1 hj
      obtain ⟨s2, hs2, hd⟩ := ih (j + 1) s1 hc1 hj (by omega)
      exact ⟨s2, by simp only [cycleLoop, hs1, hs2], hd⟩
    · obtain ⟨s1, hs1, hd⟩ := hcy.2 (by omega)
      exact ⟨s1, by simp only [cycleLoop, hs1], hd⟩

end Triton

theorem handleOf_succ_pos {w : World} {i : Nat} (h : 0 < streamLength w i) :
    handleOf w (i + 1) = handleOf w i + 1 := by
  unfold handleOf
  rw [filter_range_succ_pos _ i (by simpa using h), List.length_append]
  rfl

theorem handleOf_succ_neg {w : World} {i : Nat} (h : ¬ 0 < streamLength w i) :
    handleOf w (i + 1) = handleOf w i := by
  unfold handleOf
  rw [filter_range_succ_neg _ i (by simpa using h)]

namespace Triton

theorem tepid_openStep (videos : List (List Frame)) {i : Nat} {s : State}
    (h : Tepid (World.ideal videos) i s) (hi : i < (World.ideal videos).videos.length) :
    ∃ s1, openStep (World.ideal videos) i s = Flow.next s1 ∧
      Tepid (World.ideal videos) (i + 1) s1 := by
  refine ⟨_, rfl, h.lenIdx, by simp [h.lenCaps], h.lenFrames, h.lenNext, ?_, h.fresh, ?_, ?_⟩
  · intro x hx
    show (s.src_captures.set i (some 0)).getD x none = some 0
    rcases Nat.lt_succ_iff_lt_or_eq.1 hx with h1 | h1
    · rw [getD_set_ne _ _ _ _ _ (Nat.ne_of_lt h1)]
      exact h.caps x h1
    · subst h1
      exact getD_set_eq _ _ _ _ (by rw [h.lenCaps]; exact hi)
  · show dispatched (s.trace ++ [Event.openSource i true] ++ [Event.openSink i true]) = []
    rw [dispatched_snoc _ _ (by simp), dispatched_snoc _ _ (by simp)]
    exact h.disp
  · intro x a
    show watch x a (s.trace ++ [Event.openSource i true] ++ [Event.openSink i true]) = _
    rw [watch_snoc, watch_snoc, h.watched x a]
    rfl

theorem priming_initStep {videos : List (List Frame)} {f0 : Frame} {i : Nat} {s : State}
    (h : Priming (World.ideal videos) f0 i s) (hi : i < (World.ideal videos).videos.length) :
    ∃ s1, initStep (World.ideal videos) i s = Flow.next s1 ∧
      Priming (World.ideal videos) f0 (i + 1) s1 := by
  have hcap := h.capsTodo i (Nat.le_refl i) hi
  have hil : i < s.src_captures.length := by rw [h.lenCaps]; exact hi
  have hif : i < s.frames.length := by rw [h.lenFrames]; exact hi
  have hia : i < s.m_arrayOfStates.length := by rw [h.lenArr]; exact hi
  have hdone : ∀ (v : Option Nat) (x : Nat), x < i →
      (s.src_captures.set i v).getD x none =
        if 0 < streamLength (World.ideal videos) x then some 1 else none := by
    intro v x hx
    rw [getD_set_ne _ _ _ _ _ (Nat.ne_of_lt hx)]
    exact h.capsDone x hx
  have htodo : ∀ (v : Option Nat) (x : Nat), i + 1 ≤ x → x < (World.ideal videos).videos.length →
      (s.src_captures.set i v).getD x none = some 0 := by
    intro v x hx hxn
    rw [getD_set_ne _ _ _ _ _ (by omega)]
    exact h.capsTodo x (by omega) hxn
  have hframes : ∀ (v : Option Mat), v = readFrame (World.ideal videos) i 0 → ∀ x, x < i + 1 →
      (s.frames.set i v).getD x none = readFrame (World.ideal videos) x 0 := by
    intro v hv x hx
    rcases Nat.lt_succ_iff_lt_or_eq.1 hx with h1 | h1
    · rw [getD_set_ne _ _ _ _ _ (Nat.ne_of_lt h1)]
      exact h.framesDone x h1
    · subst h1
      rw [getD_set_eq _ _ _ _ hif]
      exact hv
  unfold initStep
  rw [hcap]
  dsimp only
  by_cases hl : 0 < streamLength (World.ideal videos) i
  · obtain ⟨m, hm⟩ := readFrame_isSome hl
    rw [hm]
    have ha : (World.ideal videos).allocateState i = NVCV_SUCCESS := rfl
    simp only [ha, if_true]
    refine ⟨_, rfl, h.lenIdx, by simp [h.lenCaps], by simp [h.lenFrames], h.lenNext,
      h.lenBatch, by simp [h.lenArr], h.width, h.height, ?_, htodo _, hframes _ hm.symm,
      ?_, ?_, ?_, ?_, ?_, ?_⟩
    · intro x hx
      show (s.src_captures.set i (some (0 + 1))).getD x none = _
      rcases Nat.lt_succ_iff_lt_or_eq.1 hx with h1 | h1
      · exact hdone _ x h1
      · subst h1
        rw [getD_set_eq _ _ _ _ hil]
        simp [hl]
    · show s.nextHandle + 1 = _
      rw [handleOf_succ_pos hl, h.fresh]
    · intro x hx
      show (s.m_arrayOfStates.set i (some s.nextHandle)).getD x none = _
      rcases Nat.lt_succ_iff_lt_or_eq.1 hx with h1 | h1
      · rw [getD_set_ne _ _ _ _ _ (Nat.ne_of_lt h1)]
        exact h.arr x h1
      · subst h1
        rw [getD_set_eq _ _ _ _ hia, h.fresh]
        simp [hl]
    · intro x hx
      show (s.m_arrayOfStates.set i (some s.nextHandle)).getD x none = none
      rw [getD_set_ne _ _ _ _ _ (by omega)]
      exact h.arrTodo x (by omega)
    · show dispatched (s.trace ++ [Event.pull i (some 0)] ++
        [Event.allocate i (some s.nextHandle)]) = []
      rw [dispatched_snoc _ _ (by simp), dispatched_snoc _ _ (by simp)]
      exact h.disp
    · intro x a
      show watch x a (s.trace ++ [Event.pull i (some 0)] ++
        [Event.allocate i (some s.nextHandle)]) = _
      rw [watch_snoc, watch_snoc, h.watched x a]
      rfl
    · intro x hx hlx
      show Event.allocate x (some (handleOf (World.ideal videos) x)) ∈
        s.trace ++ [Event.pull i (some 0)] ++ [Event.allocate i (some s.nextHandle)]
      rcases Nat.lt_succ_iff_lt_or_eq.1 hx with h1 | h1
      · exact List.mem_append_left _ (List.mem_append_left _ (h.allocd x h1 hlx))
      · subst h1
        rw [h.fresh]
        exact List.mem_append_right _ (List.mem_singleton_self _)
  · have hnone : readFrame (World.ideal videos) i 0 = none := readFrame_eq_none (by omega)
    rw [hnone]
    refine ⟨_, rfl, h.lenIdx, by simp [h.lenCaps], by simp [h.lenFrames], h.lenNext,
      h.lenBatch, h.lenArr, h.width, h.height, ?_, htodo _, hframes _ hnone.symm,
      ?_, ?_, ?_, ?_, ?_, ?_⟩
    · intro x hx
      show (s.src_captures.set i none).getD x none = _
      rcases Nat.lt_succ_iff_lt_or_eq.1 hx with h1 | h1
      · exact hdone _ x h1
      · subst h1
        rw [getD_set_eq _ _ _ _ hil]
        simp [hl]
    · show s.nextHandle = _
      rw [handleOf_succ_neg hl, h.fresh]
    · intro x hx
      show s.m_arrayOfStates.getD x none = _
      rcases Nat.lt_succ_iff_lt_or_eq.1 hx with h1 | h1
      · exact h.arr x h1
      · subst h1
        simp only [hl, if_false]
        exact h.arrTodo x (Nat.le_refl x)
    · intro x hx
      exact h.arrTodo x (by omega)
    · show dispatched (s.trace ++ [Event.pull i none]) = []
      rw [dispatched_snoc _ _ (by simp)]
      exact h.disp
    · intro x a
      show watch x a (s.trace ++ [Event.pull i none]) = _
      rw [watch_snoc, h.watched x a]
      rfl
    · intro x hx hlx
      rcases Nat.lt_succ_iff_lt_or_eq.1 hx with h1 | h1
      · exact List.mem_append_left _ (h.allocd x h1 hlx)
      · subst h1
        exact absurd hlx hl

theorem triton_calm_setup {videos : List (List Frame)} {f0 : Frame} (hu : Uniform videos f0)
    (hfirst : 0 < streamLength (World.ideal videos) 0) {s : State}
    (h : Tepid (World.ideal videos) (World.ideal videos).videos.length s) :
    ∃ s1, setup (World.ideal videos) s = Flow.next s1 ∧ Calm (World.ideal videos) f0 0 s1 := by
  have hn : (World.ideal videos).videos.length ≠ 0 := by
    intro h0
    have : streamLength (World.ideal videos) 0 = 0 := by
      unfold streamLength
      rw [List.getD_eq_getElem?_getD, List.getElem?_eq_none (by omega)]
      rfl
    omega
  obtain ⟨m, hm⟩ := readFrame_isSome hfirst
  obtain ⟨hw, hh⟩ := readFrame_uniform hu hm
  have h1 : Priming (World.ideal videos) f0 0
      { s with src_width := m.width, src_height := m.height, err := NVCV_SUCCESS,
               trace := s.trace ++ [Event.pull 0 (some 0)],
               m_arrayOfStates := List.replicate (World.ideal videos).videos.length none,
               m_batchOfStates := List.replicate (World.ideal videos).videos.length none } := by
    refine ⟨h.lenIdx, h.lenCaps, h.lenFrames, h.lenNext, by simp, by simp, hw, hh,
      fun x hx => absurd hx (Nat.not_lt_zero _), fun x _ hx => h.caps x hx,
      fun x hx => absurd hx (Nat.not_lt_zero _), ?_,
      fun x hx => absurd hx (Nat.not_lt_zero _), ?_, ?_, ?_,
      fun x hx => absurd hx (Nat.not_lt_zero _)⟩
    · show s.nextHandle = _
      rw [h.fresh]
      rfl
    · intro x _
      exact getD_replicate_none _ _
    · show dispatched (s.trace ++ [Event.pull 0 (some 0)]) = _
      rw [dispatched_snoc _ _ (by simp)]
      exact h.disp
    · intro x a
      show watch x a (s.trace ++ [Event.pull 0 (some 0)]) = _
      rw [watch_snoc, h.watched x a]
      rfl
  obtain ⟨s6, hs6, h6⟩ := forLoop_total (initStep (World.ideal videos))
    (World.ideal videos).videos.length (fun i t => Priming (World.ideal videos) f0 i t)
    (fun i t hi hP => priming_initStep hP hi)
    (World.ideal videos).videos.length 0 _ (Nat.zero_add _) h1
  refine ⟨s6, ?_, ⟨h6.lenIdx, h6.lenCaps, h6.lenFrames, h6.lenNext, h6.lenBatch, h6.width,
    h6.height, ?_, h6.framesDone, h6.arr, ?_, ?_, ?_, h6.allocd⟩⟩
  · unfold setup
    simp only [hn, if_false, hm]
    have c1 : (World.ideal videos).initStatus = NVCV_SUCCESS := rfl
    have c2 : (World.ideal videos).allocateBuffers = NVCV_SUCCESS := rfl
    have c3 : (World.ideal videos).setParameters = NVCV_SUCCESS := rfl
    have c4 : (World.ideal videos).load = NVCV_SUCCESS := rfl
    simp only [check, c1, c2, c3, c4, if_true]
    exact hs6
  · intro x hx
    rw [h6.capsDone x hx]
  · rw [h6.disp]
    rfl
  · intro x hx hl
    rw [h6.watched]
    unfold expectedWatch
    rw [if_neg (by omega), if_neg (by omega)]
  · intro x c _ _ hc
    exact absurd hc (Nat.not_lt_zero _)

theorem triton_calm_body {videos : List (List Frame)} {f0 : Frame} (hu : Uniform videos f0)
    (hfirst : 0 < streamLength (World.ideal videos) 0) :
    ∃ s, body (World.ideal videos) = some s ∧ Harvest (World.ideal videos) s := by
  obtain ⟨s1, hs1, h1⟩ := forLoop_total (openStep (World.ideal videos))
    (World.ideal videos).videos.length (fun i t => Tepid (World.ideal videos) i t)
    (fun i t hi hP => tepid_openStep videos hP hi)
    (World.ideal videos).videos.length 0 (initial (World.ideal videos)) (Nat.zero_add _)
    ⟨by simp [initial], by simp [initial], by simp [initial], by simp [initial],
      fun x hx => absurd hx (Nat.not_lt_zero _), rfl, rfl, fun _ _ => rfl⟩
  obtain ⟨s2, hs2, h2⟩ := triton_calm_setup hu hfirst h1
  obtain ⟨s3, hs3, h3⟩ := triton_calm_cycleLoop hu (maxLength (World.ideal videos) + 1) 0 s2 h2
    (Nat.zero_le _) (by omega)
  exact ⟨s3, by simp only [body, hs1, hs2, hs3], h3⟩

theorem triton_calm_BatchProcess {videos : List (List Frame)} {f0 : Frame}
    (hu : Uniform videos f0) (hfirst : 0 < streamLength (World.ideal videos) 0) :
    ∃ r, BatchProcess (World.ideal videos) = some r ∧ Harvest (World.ideal videos) r := by
  obtain ⟨s, hs, hd⟩ := triton_calm_body hu hfirst
  exact ⟨cleanup s, by simp [BatchProcess, hs], ⟨hd.disp, hd.watched, hd.lastFrames, hd.allocd⟩⟩

end Triton

theorem schedule_length (w : World) : (schedule w).length = maxLength w := by
  simp [schedule]

theorem schedule_ne_nil {w : World} {b : List Nat} (h : b ∈ schedule w) : b ≠ [] := by
  unfold schedule at h
  rw [List.mem_map] at h
  obtain ⟨c, hc, rfl⟩ := h
  exact activeAt_ne_nil (List.mem_range.1 hc)

theorem occupies_iff {w : World} {tr : List Event} (h : dispatched tr = schedule w)
    {c x : Nat} (hx : x < w.videos.length) : occupies tr c x ↔ c < streamLength w x := by
  unfold occupies
  rw [h]
  constructor
  · rintro ⟨b, hb, hxb⟩
    rw [List.getElem?_eq_some_iff] at hb
    obtain ⟨hc, hb⟩ := hb
    subst hb
    unfold schedule at hxb
    rw [List.getElem_map, List.getElem_range] at hxb
    exact (mem_activeAt.1 hxb).2
  · intro hc
    have hm : c < maxLength w := Nat.lt_of_lt_of_le hc (streamLength_le_maxLength w x)
    refine ⟨activeAt w c, ?_, mem_activeAt.2 ⟨hx, hc⟩⟩
    rw [List.getElem?_eq_some_iff]
    refine ⟨by rw [schedule_length]; exact hm, ?_⟩
    unfold schedule
    rw [List.getElem_map, List.getElem_range]

theorem first_stream_nonempty {videos : List (List Frame)} (hne : videos ≠ [])
    (hall : ∀ v ∈ videos, v ≠ []) : 0 < streamLength (World.ideal videos) 0 := by
  cases videos with
  | nil => exact absurd rfl hne
  | cons v rest =>
    show 0 < v.length
    exact List.length_pos.2 (hall v (List.mem_cons_self _ _))

theorem uniform_replicate (f0 : Frame) (ns : List Nat) :
    Uniform (ns.map (fun n => List.replicate n f0)) f0 := by
  intro v hv f hf
  rw [List.mem_map] at hv
  obtain ⟨n, _, rfl⟩ := hv
  exact List.eq_of_mem_replicate hf

/-- Claim C1, at an input it allows: with two streams of 0 and 2 frames, every call
succeeding, the longest stream has 2 frames but neither driver dispatches 2 batches: both
stop at the missing first frame of the first stream with `NVCV_ERR_READ` and no engine
call at all. -/
theorem empty_first_stream_dispatches_nothing :
    maxLength (World.ideal emptyFirst) = 2 ∧
    (Local.BatchProcess (World.ideal emptyFirst)).map
      (fun r => (r.err, (dispatched r.trace).length)) = some (NVCV_ERR_READ, 0) ∧
    (Triton.BatchProcess (World.ideal emptyFirst)).map
      (fun r => (r.err, (dispatched r.trace).length)) = some (NVCV_ERR_READ, 0) ∧
    ¬ (∃ r, Local.BatchProcess (World.ideal emptyFirst) = some r ∧
        (dispatched r.trace).length = maxLength (World.ideal emptyFirst)) ∧
    ¬ (∃ r, Triton.BatchProcess (World.ideal emptyFirst) = some r ∧
        (dispatched r.trace).length = maxLength (World.ideal emptyFirst)) := by
  have h1 : (Local.BatchProcess (World.ideal emptyFirst)).map
      (fun r => (r.err, (dispatched r.trace).length)) = some (NVCV_ERR_READ, 0) := rfl
  have h2 : (Triton.BatchProcess (World.ideal emptyFirst)).map
      (fun r => (r.err, (dispatched r.trace).length)) = some (NVCV_ERR_READ, 0) := rfl
  have hm : maxLength (World.ideal emptyFirst) = 2 := rfl
  refine ⟨hm, h1, h2, ?_, ?_⟩
  · rintro ⟨r, hr, hl⟩
    rw [hr] at h1
    simp only [Option.map_some', Option.some.injEq, Prod.mk.injEq] at h1
    rw [hm, h1.2] at hl
    exact absurd hl (by decide)
  · rintro ⟨r, hr, hl⟩
    rw [hr] at h2
    simp only [Option.map_some', Option.some.injEq, Prod.mk.injEq] at h2
    rw [hm, h2.2] at hl
    exact absurd hl (by decide)

/-- Claim C1, amended: when all frames have one size, every call succeeds and the first
stream has at least one frame (the other streams may have none), `BatchProcess` of both
drivers returns, having dispatched exactly as many batches as the longest stream has
frames, each of them non-empty. -/
theorem dispatches_one_batch_per_frame_of_longest_stream (videos : List (List Frame))
    (f0 : Frame) (hu : Uniform videos f0) (hfirst : 0 < streamLength (World.ideal videos) 0) :
    (∃ r, Local.BatchProcess (World.ideal videos) = some r ∧
      (dispatched r.trace).length = maxLength (World.ideal videos) ∧
      ∀ b ∈ dispatched r.trace, b ≠ []) ∧
    (∃ r, Triton.BatchProcess (World.ideal videos) = some r ∧
      (dispatched r.trace).length = maxLength (World.ideal videos) ∧
      ∀ b ∈ dispatched r.trace, b ≠ []) := by
  obtain ⟨r1, hr1, hd1⟩ := Local.calm_BatchProcess hu hfirst
  obtain ⟨r2, hr2, hd2⟩ := Triton.triton_calm_BatchProcess hu hfirst
  refine ⟨⟨r1, hr1, ?_, ?_⟩, ⟨r2, hr2, ?_, ?_⟩⟩
  · rw [hd1, schedule_length]
  · rw [hd1]
    exact fun b hb => schedule_ne_nil hb
  · rw [hd2.disp, schedule_length]
  · rw [hd2.disp]
    exact fun b hb => schedule_ne_nil hb

/-- The amended claim C1 at three streams of 2, 0 and 3 frames: both drivers dispatch 3
non-empty batches. -/
theorem dispatches_one_batch_per_frame_of_longest_stream_witness :
    Uniform emptyMiddle frame4 ∧ 0 < streamLength (World.ideal emptyMiddle) 0 ∧
    maxLength (World.ideal emptyMiddle) = 3 ∧
    ((∃ r, Local.BatchProcess (World.ideal emptyMiddle) = some r ∧
      (dispatched r.trace).length = maxLength (World.ideal emptyMiddle) ∧
      ∀ b ∈ dispatched r.trace, b ≠ []) ∧
    (∃ r, Triton.BatchProcess (World.ideal emptyMiddle) = some r ∧
      (dispatched r.trace).length = maxLength (World.ideal emptyMiddle) ∧
      ∀ b ∈ dispatched r.trace, b ≠ [])) :=
  ⟨by simp [Uniform, emptyMiddle], by decide, rfl,
    dispatches_one_batch_per_frame_of_longest_stream emptyMiddle frame4
      (by simp [Uniform, emptyMiddle]) (by decide)⟩

/-- Claim C2: for at least one stream, every stream with at least one frame, all frames of
one size and every call succeeding, `BatchProcess` of both drivers returns and stream `x`
holds a slot of the batch dispatched in cycle `c` (counted from 0, so cycle `c + 1` of the
claim) exactly when `c` is below the length of the stream; the batches are exactly the
expected ones in order, one per frame of the longest stream. -/
theorem stream_in_batch_exactly_while_it_has_frames (videos : List (List Frame)) (f0 : Frame)
    (hu : Uniform videos f0) (hne : videos ≠ []) (hall : ∀ v ∈ videos, v ≠ []) :
    (∃ r, Local.BatchProcess (World.ideal videos) = some r ∧
      (dispatched r.trace).length = maxLength (World.ideal videos) ∧
      dispatched r.trace = schedule (World.ideal videos) ∧
      ∀ c x, x < videos.length →
        (occupies r.trace c x ↔ c < streamLength (World.ideal videos) x)) ∧
    (∃ r, Triton.BatchProcess (World.ideal videos) = some r ∧
      (dispatched r.trace).length = maxLength (World.ideal videos) ∧
      dispatched r.trace = schedule (World.ideal videos) ∧
      ∀ c x, x < videos.length →
        (occupies r.trace c x ↔ c < streamLength (World.ideal videos) x)) := by
  have hfirst := first_stream_nonempty hne hall
  obtain ⟨r1, hr1, hd1⟩ := Local.calm_BatchProcess hu hfirst
  obtain ⟨r2, hr2, hd2⟩ := Triton.triton_calm_BatchProcess hu hfirst
  refine ⟨⟨r1, hr1, ?_, hd1, ?_⟩, ⟨r2, hr2, ?_, hd2.disp, ?_⟩⟩
  · rw [hd1, schedule_length]
  · exact fun c x hx => occupies_iff hd1 hx
  · rw [hd2.disp, schedule_length]
  · exact fun c x hx => occupies_iff hd2.disp hx

/-- Claim C2 at streams of 5, 3 and 7 frames: both drivers make 7 dispatches, of the
streams 0 1 2 in the first three cycles, 0 2 in the next two and 2 alone in the last two,
so the second stream is absent from the batches of cycles 4 to 7 and the batch of cycle 7
holds only the third stream. -/
theorem stream_in_batch_exactly_while_it_has_frames_witness :
    Uniform fiveThreeSeven frame4 ∧ fiveThreeSeven ≠ [] ∧ (∀ v ∈ fiveThreeSeven, v ≠ []) ∧
    (Local.BatchProcess (World.ideal fiveThreeSeven)).map (fun r => dispatched r.trace) =
      some [[0, 1, 2], [0, 1, 2], [0, 1, 2], [0, 2], [0, 2], [2], [2]] ∧
    (Triton.BatchProcess (World.ideal fiveThreeSeven)).map (fun r => dispatched r.trace) =
      some [[0, 1, 2], [0, 1, 2], [0, 1, 2], [0, 2], [0, 2], [2], [2]] ∧
    ((∃ r, Local.BatchProcess (World.ideal fiveThreeSeven) = some r ∧
      (dispatched r.trace).length = maxLength (World.ideal fiveThreeSeven) ∧
      dispatched r.trace = schedule (World.ideal fiveThreeSeven) ∧
      ∀ c x, x < fiveThreeSeven.length →
        (occupies r.trace c x ↔ c < streamLength (World.ideal fiveThreeSeven) x)) ∧
    (∃ r, Triton.BatchProcess (World.ideal fiveThreeSeven) = some r ∧
      (dispatched r.trace).length = maxLength (World.ideal fiveThreeSeven) ∧
      dispatched r.trace = schedule (World.ideal fiveThreeSeven) ∧
      ∀ c x, x < fiveThreeSeven.length →
        (occupies r.trace c x ↔ c < streamLength (World.ideal fiveThreeSeven) x))) :=
  ⟨uniform_replicate frame4 [5, 3, 7], by decide, by decide, rfl, rfl,
    stream_in_batch_exactly_while_it_has_frames fiveThreeSeven frame4
      (uniform_replicate frame4 [5, 3, 7]) (by decide) (by decide)⟩

/-- Claim C8, at an input it allows: with two streams of 0 and 2 frames, every call
succeeding, the second stream has frames but the Triton driver stops at the missing first
frame of the first stream with `NVCV_ERR_READ`: its trace holds the four opens and the
failed read only, so no deallocation call is made for the second stream, in no cycle. -/
theorem triton_empty_first_stream_never_releases :
    0 < streamLength (World.ideal emptyFirst) 1 ∧
    (Triton.BatchProcess (World.ideal emptyFirst)).map (fun r => (r.err, r.trace)) =
      some (NVCV_ERR_READ, [Event.openSource 0 true, Event.openSink 0 true,
        Event.openSource 1 true, Event.openSink 1 true, Event.pull 0 none]) ∧
    ¬ (∃ r h, Triton.BatchProcess (World.ideal emptyFirst) = some r ∧
        (watch 1 h r.trace).releases = 1) := by
  have h1 : (Triton.BatchProcess (World.ideal emptyFirst)).map (fun r => (r.err, r.trace)) =
      some (NVCV_ERR_READ, [Event.openSource 0 true, Event.openSink 0 true,
        Event.openSource 1 true, Event.openSink 1 true, Event.pull 0 none]) := rfl
  refine ⟨by decide, h1, ?_⟩
  rintro ⟨r, h, hr, hw⟩
  rw [hr] at h1
  simp only [Option.map_some', Option.some.injEq, Prod.mk.injEq] at h1
  rw [h1.2] at hw
  exact Nat.zero_ne_one hw

/-- Claim C8, amended: in the Triton driver, all frames of one size, every call succeeding
and the first stream having at least one frame, for
every stream `x` with at least one frame `BatchProcess` returns a trace in which the
stream was given a handle `h`, exactly one deallocation call is made for the stream, the
number of engine calls before that call is the length of the stream minus one (so the call
falls in the last cycle of the stream, before its dispatch), and the engine calls after it
whose first `batchSize` handles contain `h` are exactly one, that of the last cycle of the
stream, in which the last frame of the stream was transferred into the batch. -/
theorem triton_release_precedes_last_dispatch_of_stream (videos : List (List Frame))
    (f0 : Frame) (hu : Uniform videos f0) (hfirst : 0 < streamLength (World.ideal videos) 0)
    (x : Nat) (hx : x < videos.length) (hl : 0 < streamLength (World.ideal videos) x) :
    ∃ r h, Triton.BatchProcess (World.ideal videos) = some r ∧
      Event.allocate x (some h) ∈ r.trace ∧
      watch x h r.trace = ⟨1, streamLength (World.ideal videos) x - 1,
        [streamLength (World.ideal videos) x - 1]⟩ ∧
      ∃ slot m, Event.transferTo (streamLength (World.ideal videos) x - 1) slot m ∈ r.trace ∧
        m.stream = x ∧ m.index = streamLength (World.ideal videos) x - 1 := by
  obtain ⟨r, hr, hh⟩ := Triton.triton_calm_BatchProcess hu hfirst
  exact ⟨r, handleOf (World.ideal videos) x, hr, hh.allocd x hx hl, hh.watched x hx hl,
    hh.lastFrames x _ hx (by omega)⟩

/-- Claim C8 at streams of 5, 3 and 7 frames, for the second stream: its handle is 1, its
state is released once, after two engine calls, and the only later engine call using the
handle is that of the third cycle. -/
theorem triton_release_precedes_last_dispatch_of_stream_witness :
    Uniform fiveThreeSeven frame4 ∧ 0 < streamLength (World.ideal fiveThreeSeven) 0 ∧
    1 < fiveThreeSeven.length ∧ 0 < streamLength (World.ideal fiveThreeSeven) 1 ∧
    (Triton.BatchProcess (World.ideal fiveThreeSeven)).map (fun r => watch 1 1 r.trace) =
      some ⟨1, 2, [2]⟩ ∧
    (∃ r h, Triton.BatchProcess (World.ideal fiveThreeSeven) = some r ∧
      Event.allocate 1 (some h) ∈ r.trace ∧
      watch 1 h r.trace = ⟨1, streamLength (World.ideal fiveThreeSeven) 1 - 1,
        [streamLength (World.ideal fiveThreeSeven) 1 - 1]⟩ ∧
      ∃ slot m, Event.transferTo (streamLength (World.ideal fiveThreeSeven) 1 - 1) slot m
          ∈ r.trace ∧
        m.stream = 1 ∧ m.index = streamLength (World.ideal fiveThreeSeven) 1 - 1) :=
  ⟨uniform_replicate frame4 [5, 3, 7], by decide, by decide, by decide, rfl,
    triton_release_precedes_last_dispatch_of_stream fiveThreeSeven frame4
      (uniform_replicate frame4 [5, 3, 7]) (by decide) 1 (by decide) (by decide)⟩

theorem forall_mem_snoc {α : Type} {P : α → Prop} {l : List α} {a : α}
    (hl : ∀ e ∈ l, P e) (ha : P a) : ∀ e ∈ l ++ [a], P e := by
  intro e he
  rcases List.mem_append.1 he with h | h
  · exact hl e h
  · rw [List.mem_singleton] at h
    subst h
    exact ha

theorem readFrame_self {w : World} {i p : Nat} {m : Mat} (h : readFrame w i p = some m) :
    readFrame w m.stream m.index = some m := by
  obtain ⟨_, h1, h2⟩ := readFrame_some_lt h
  rw [h1, h2]
  exact h

theorem Started.reference {w : World} (h : Started w) : ∃ m0, readFrame w 0 0 = some m0 :=
  readFrame_isSome h.first

theorem Event.early_of_opening {e : Event} (h : e.opening = true) : e.early = true := by
  cases e <;> simp [Event.opening] at h <;> rfl

theorem Event.output_of_early {e : Event} (h : e.early = true) : e.output = none := by
  cases e <;> simp [Event.early] at h <;> rfl

namespace Local

theorem healthy_of_opening {w : World} {e : Event} (h : e.opening = true) : Healthy w e := by
  cases e <;> simp [Event.opening] at h <;> trivial

theorem sane_assembleStep {w : World} {j i : Nat} {s : State} (h : Sane w j s) :
    (∀ s1, assembleStep w j i s = Flow.next s1 → Sane w j s1) ∧
    (∀ s1, assembleStep w j i s = Flow.bail s1 → Exit w s1.err s1.trace) := by
  unfold assembleStep
  dsimp only
  cases hcap : s.srcCaptures.getD (i % w.videos.length) none with
  | none =>
    dsimp only
    refine ⟨fun s1 hs => ?_, fun s1 hs => by cases hs⟩
    cases hs
    exact h
  | some p =>
    dsimp only
    cases hread : readFrame w (i % w.videos.length) p with
    | none =>
      dsimp only
      refine ⟨fun s1 hs => ?_, fun s1 hs => by cases hs⟩
      cases hs
      exact ⟨h.started, h.ok, h.ref, forall_mem_snoc h.healthy trivial,
        forall_mem_snoc h.outputs (fun c hc => by cases hc)⟩
    | some m =>
      dsimp only
      have hpull : ∀ e ∈ s.trace ++ [Event.pull (i % w.videos.length) (some p)], Healthy w e :=
        forall_mem_snoc h.healthy (readFrame_some_lt hread).1
      have hout : ∀ e ∈ s.trace ++ [Event.pull (i % w.videos.length) (some p)],
          ∀ c, e.output = some c → c < j :=
        forall_mem_snoc h.outputs (fun c hc => by cases hc)
      by_cases hsize : m.width = s.srcWidth ∧ m.height = s.srcHeight
      · rw [if_neg (not_not.2 hsize)]
        by_cases htr : w.transferToStatus j s.activeVideoCount = NVCV_SUCCESS
        · rw [if_pos htr]
          refine ⟨fun s1 hs => ?_, fun s1 hs => by cases hs⟩
          cases hs
          refine ⟨h.started, rfl, h.ref, forall_mem_snoc hpull ⟨?_, readFrame_self hread⟩,
            forall_mem_snoc hout (fun c hc => by cases hc)⟩
          intro m0 hm0
          obtain ⟨h1, h2⟩ := h.ref m0 hm0
          exact ⟨hsize.1.trans h1, hsize.2.trans h2⟩
        · rw [if_neg htr]
          refine ⟨fun s1 hs => (by cases hs), fun s1 hs => ?_⟩
          cases hs
          exact Exit.stalled j h.started hpull hout htr
      · rw [if_pos hsize]
        refine ⟨fun s1 hs => (by cases hs), fun s1 hs => ?_⟩
        cases hs
        refine Exit.mismatch j (i % w.videos.length) _ h.started rfl hpull hout
          ⟨p, m, hread, ?_⟩ rfl
        intro hfit
        obtain ⟨m0, hm0⟩ := h.started.reference
        obtain ⟨h1, h2⟩ := h.ref m0 hm0
        obtain ⟨h3, h4⟩ := hfit m0 hm0
        exact hsize ⟨h3.trans h1.symm, h4.trans h2.symm⟩

theorem sane_dispatch {w : World} {j : Nat} {s : State} (h : Sane w j s) :
    (∀ s1, dispatch w j s = Flow.next s1 → Delivering w j s.activeVideoCount 0 s1) ∧
    (∀ s1, dispatch w j s = Flow.bail s1 → Exit w s1.err s1.trace) := by
  unfold dispatch check
  by_cases h1 : w.setBatchSize j = NVCV_SUCCESS
  · rw [if_pos h1]
    dsimp only
    by_cases h2 : w.setStates j = NVCV_SUCCESS
    · rw [if_pos h2]
      dsimp only
      by_cases h3 : w.runStatus j = NVCV_SUCCESS
      · rw [if_pos h3]
        refine ⟨fun s1 hs => ?_, fun s1 hs => (by cases hs)⟩
        cases hs
        refine ⟨h.started, h3, h.ref, ⟨s.trace, s.batchOfStates, ?_, h.healthy, h.outputs⟩,
          fun k hk => absurd hk (Nat.not_lt_zero _)⟩
        show s.trace ++ [Event.run j s.activeVideoCount s.batchOfStates s.batchIndices
          (w.runStatus j)] = _
        rw [h3]
        simp
      · rw [if_neg h3]
        refine ⟨fun s1 hs => (by cases hs), fun s1 hs => ?_⟩
        cases hs
        exact Exit.engine j s.activeVideoCount s.batchOfStates s.batchIndices s.trace
          h.started rfl h.healthy h.outputs h3
    · rw [if_neg h2]
      refine ⟨fun s1 hs => (by cases hs), fun s1 hs => ?_⟩
      cases hs
      exact Exit.stalled j h.started h.healthy h.outputs h2
  · rw [if_neg h1]
    refine ⟨fun s1 hs => (by cases hs), fun s1 hs => ?_⟩
    cases hs
    exact Exit.stalled j h.started h.healthy h.outputs h1

theorem delivering_writeStep {w : World} {j n i : Nat} {s : State} (h : Delivering w j n i s)
    (hi : i < n) :
    (∀ s1, writeStep w j i s = Flow.next s1 → Delivering w j n (i + 1) s1) ∧
    (∀ s1, writeStep w j i s = Flow.bail s1 → Exit w s1.err s1.trace) := by
  unfold writeStep
  dsimp only
  obtain ⟨pre, st, heq, hh, ho⟩ := h.parts
  by_cases h1 : w.transferFromStatus j i = NVCV_SUCCESS
  · rw [if_pos h1]
    refine ⟨fun s1 hs => ?_, fun s1 hs => (by cases hs)⟩
    cases hs
    refine ⟨h.started, rfl, h.ref, ⟨pre, st, ?_, hh, ho⟩, ?_⟩
    · show s.trace ++ [Event.write j (s.batchIndices.getD i 0) i] = _
      rw [heq, List.range_succ, List.map_append]
      simp
    · intro k hk
      rcases Nat.lt_succ_iff_lt_or_eq.1 hk with h2 | h2
      · exact h.served k h2
      · rw [h2]
        exact h1
  · rw [if_neg h1]
    refine ⟨fun s1 hs => (by cases hs), fun s1 hs => ?_⟩
    cases hs
    exact Exit.undelivered j n st s.batchIndices i pre h.started heq hh ho hi h.served rfl h1

theorem Delivering.delivering_sane {w : World} {j n : Nat} {s : State} (h : Delivering w j n n s) :
    Sane w (j + 1) s := by
  obtain ⟨pre, st, heq, hh, ho⟩ := h.parts
  refine ⟨h.started, h.ok, h.ref, ?_, ?_⟩
  · intro e he
    rw [heq] at he
    rcases List.mem_append.1 he with he1 | he1
    · rcases List.mem_append.1 he1 with he2 | he2
      · exact hh e he2
      · rw [List.mem_singleton] at he2
        subst he2
        exact ⟨rfl, h.served⟩
    · rw [List.mem_map] at he1
      obtain ⟨k, hk, rfl⟩ := he1
      exact h.served k (List.mem_range.1 hk)
  · intro e he c hc
    rw [heq] at he
    rcases List.mem_append.1 he with he1 | he1
    · rcases List.mem_append.1 he1 with he2 | he2
      · exact Nat.lt_succ_of_lt (ho e he2 c hc)
      · rw [List.mem_singleton] at he2
        subst he2
        cases hc
        exact Nat.lt_succ_self _
    · rw [List.mem_map] at he1
      obtain ⟨k, hk, rfl⟩ := he1
      cases hc
      exact Nat.lt_succ_self _

theorem sane_cycle {w : World} {j : Nat} {s : State} (h : Sane w j s) :
    (∀ s1, cycle w j s = Flow.next s1 → Sane w (j + 1) s1) ∧
    (∀ s1, cycle w j s = Flow.bail s1 → Exit w s1.err s1.trace) := by
  have hA := forLoop_rule (assembleStep w j) w.videos.length (fun _ t => Sane w j t)
    (fun t => Exit w t.err t.trace) (fun i t t1 _ hP => (sane_assembleStep hP).1 t1)
    (fun i t t1 _ hP => (sane_assembleStep hP).2 t1)
    w.videos.length 0 { s with activeVideoCount := 0 } (Nat.zero_add _)
    ⟨h.started, h.ok, h.ref, h.healthy, h.outputs⟩
  unfold cycle
  cases hloop : forLoop (assembleStep w j) w.videos.length 0 { s with activeVideoCount := 0 } with
  | bail b =>
    dsimp only
    refine ⟨fun s1 hs => (by cases hs), fun s1 hs => ?_⟩
    cases hs
    exact hA.2 _ hloop
  | next s1 =>
    dsimp only
    have hs1 := hA.1 _ hloop
    by_cases hz : s1.activeVideoCount = 0
    · rw [if_pos hz]
      refine ⟨fun s2 hs => (by cases hs), fun s2 hs => ?_⟩
      cases hs
      exact Exit.drained j hs1.started hs1.healthy hs1.outputs hs1.ok
    · rw [if_neg hz]
      have hD := sane_dispatch hs1
      cases hdis : dispatch w j s1 with
      | bail b =>
        dsimp only
        refine ⟨fun s2 hs => (by cases hs), fun s2 hs => ?_⟩
        cases hs
        exact hD.2 _ hdis
      | next s2 =>
        dsimp only
        have hW := forLoop_rule (writeStep w j) s1.activeVideoCount
          (fun i t => Delivering w j s1.activeVideoCount i t) (fun t => Exit w t.err t.trace)
          (fun i t t1 hi hP => (delivering_writeStep hP hi).1 t1)
          (fun i t t1 hi hP => (delivering_writeStep hP hi).2 t1)
          s1.activeVideoCount 0 s2 (Nat.zero_add _) (hD.1 _ hdis)
        exact ⟨fun s3 hs => (hW.1 s3 hs).delivering_sane, fun s3 hs => hW.2 s3 hs⟩

theorem sane_cycleLoop {w : World} :
    ∀ (fuel j : Nat) (s s1 : State), Sane w j s → cycleLoop w fuel j s = some s1 →
      Exit w s1.err s1.trace := by
  intro fuel
  induction fuel with
  | zero => intro j s s1 _ h; simp [cycleLoop] at h
  | succ fuel ih =>
    intro j s s1 hr h
    unfold cycleLoop at h
    have hc := sane_cycle hr
    cases hcy : cycle w j s with
    | bail b =>
      simp only [hcy, Option.some.injEq] at h
      subst h
      exact hc.2 _ hcy
    | next s2 =>
      simp only [hcy] at h
      exact ih (j + 1) s2 s1 (hc.1 _ hcy) h

theorem entering_openStep {w : World} {i : Nat} {s : State} (h : Entering w i s)
    (hi : i < w.videos.length) :
    (∀ s1, openStep w i s = Flow.next s1 → Entering w (i + 1) s1) ∧
    (∀ s1, openStep w i s = Flow.bail s1 → Exit w s1.err s1.trace) := by
  unfold openStep
  by_cases h1 : w.sourceOpens i = false
  · rw [if_pos h1]
    refine ⟨fun s1 hs => (by cases hs), fun s1 hs => ?_⟩
    cases hs
    exact Exit.unreadable i hi h1 h.opened (forall_mem_snoc h.opens rfl) rfl
  · rw [if_neg h1]
    dsimp only
    have h1t : w.sourceOpens i = true := by simpa using h1
    by_cases h2 : w.sinkOpens i = false
    · rw [if_pos h2]
      refine ⟨fun s1 hs => (by cases hs), fun s1 hs => ?_⟩
      cases hs
      exact Exit.unwritable i hi h2 h.opened h1t
        (forall_mem_snoc (forall_mem_snoc h.opens rfl) rfl) rfl
    · rw [if_neg h2]
      have h2t : w.sinkOpens i = true := by simpa using h2
      refine ⟨fun s1 hs => ?_, fun s1 hs => (by cases hs)⟩
      cases hs
      refine ⟨?_, forall_mem_snoc (forall_mem_snoc h.opens rfl) rfl,
        fun h0 => absurd h0 (Nat.succ_ne_zero i)⟩
      intro x hx
      rcases Nat.lt_succ_iff_lt_or_eq.1 hx with h3 | h3
      · exact h.opened x h3
      · rw [h3]
        exact ⟨h1t, h2t⟩

theorem Allotting.failed {w : World} {s : State} (h : Allotting w s) {err : NvCV_Status}
    (herr : err ≠ NVCV_SUCCESS) : Exit w err s.trace := by
  refine Exit.setupFailed h.started h.quiet herr ?_
  intro i hi
  exact absurd rfl (h.healthy _ hi)

theorem allotting_allocStep {w : World} {i : Nat} {s : State} (h : Allotting w s) :
    (∀ s1, allocStep w i s = Flow.next s1 → Allotting w s1) ∧
    (∀ s1, allocStep w i s = Flow.bail s1 → Exit w s1.err s1.trace) := by
  unfold allocStep
  by_cases h1 : w.allocateState i = NVCV_SUCCESS
  · rw [if_pos h1]
    refine ⟨fun s1 hs => ?_, fun s1 hs => (by cases hs)⟩
    cases hs
    exact ⟨h.started, h.ref, h.quiet.quiet_snoc _ rfl,
      forall_mem_snoc h.healthy (by simp [Healthy])⟩
  · rw [if_neg h1]
    refine ⟨fun s1 hs => (by cases hs), fun s1 hs => ?_⟩
    cases hs
    refine Exit.setupFailed h.started (h.quiet.quiet_snoc _ rfl) h1 ?_
    intro x hx
    rcases List.mem_append.1 hx with h2 | h2
    · exact absurd rfl (h.healthy _ h2)
    · rw [List.mem_singleton] at h2
      cases h2
      rfl

theorem Allotting.allotting_sane {w : World} {s : State} (h : Allotting w s)
    (hok : s.err = NVCV_SUCCESS) : Sane w 0 s := by
  refine ⟨h.started, hok, h.ref, h.healthy, ?_⟩
  intro e he c hc
  rw [Event.output_of_early (h.quiet e he)] at hc
  cases hc

theorem entering_setup {w : World} {s : State} (h : Entering w w.videos.length s) :
    (∀ s1, setup w s = Flow.next s1 → Sane w 0 s1) ∧
    (∀ s1, setup w s = Flow.bail s1 → Exit w s1.err s1.trace) := by
  unfold setup
  by_cases hn : w.videos.length = 0
  · simp only [hn, if_true, reduceCtorEq, IsEmpty.forall_iff, implies_true, Flow.bail.injEq,
      true_and]
    intro s1 hs
    subst hs
    exact Exit.noInput (List.length_eq_zero.1 hn) (h.silent hn) rfl
  simp only [hn, if_false]
  have hne : w.videos ≠ [] := fun h0 => hn (by rw [h0]; rfl)
  cases hread : readFrame w 0 0 with
  | none =>
    simp only [reduceCtorEq, IsEmpty.forall_iff, implies_true, Flow.bail.injEq, true_and]
    intro s1 hs
    subst hs
    exact Exit.noFirstFrame hne h.opened (Nat.le_zero.1 (readFrame_none_le hread)) s.trace rfl
      h.opens rfl
  | some m =>
    have h1 : Allotting w { s with srcWidth := m.width, srcHeight := m.height,
                                   trace := s.trace ++ [Event.pull 0 (some 0)] } := by
      refine ⟨⟨hne, fun x hx => (h.opened x hx).1, fun x hx => (h.opened x hx).2,
        (readFrame_some_lt hread).1⟩, ?_, ?_, ?_⟩
      · intro m0 hm0
        rw [hread] at hm0
        cases hm0
        exact ⟨rfl, rfl⟩
      · exact Quiet.quiet_snoc (fun e he => Event.early_of_opening (h.opens e he)) _ rfl
      · exact forall_mem_snoc (fun e he => healthy_of_opening (h.opens e he))
          (readFrame_some_lt hread).1
    dsimp only
    generalize ({ s with srcWidth := m.width, srcHeight := m.height,
                         trace := s.trace ++ [Event.pull 0 (some 0)] } : State) = t at h1 ⊢
    have hfail : ∀ e : NvCV_Status, e ≠ NVCV_SUCCESS →
        Exit w ({ t with err := e } : State).err ({ t with err := e } : State).trace :=
      fun e he => h1.failed he
    unfold check
    by_cases c1 : w.initStatus = NVCV_SUCCESS
    swap
    · simp only [c1, if_false, reduceCtorEq, IsEmpty.forall_iff, implies_true, Flow.bail.injEq,
        true_and]
      intro s1 hs; subst hs; exact hfail _ c1
    by_cases c2 : w.setMaxStreams = NVCV_SUCCESS
    swap
    · simp only [c1, c2, if_true, if_false, reduceCtorEq, IsEmpty.forall_iff, implies_true,
        Flow.bail.injEq, true_and]
      intro s1 hs; subst hs; exact hfail _ c2
    by_cases c3 : w.setModelBatch = NVCV_SUCCESS
    swap
    · simp only [c1, c2, c3, if_true, if_false, reduceCtorEq, IsEmpty.forall_iff, implies_true,
        Flow.bail.injEq, true_and]
      intro s1 hs; subst hs; exact hfail _ c3
    by_cases c4 : w.load = NVCV_SUCCESS
    swap
    · simp only [c1, c2, c3, c4, if_true, if_false, reduceCtorEq, IsEmpty.forall_iff,
        implies_true, Flow.bail.injEq, true_and]
      intro s1 hs; subst hs; exact hfail _ c4
    simp only [c1, c2, c3, c4, if_true]
    have hA := forLoop_rule (allocStep w) w.videos.length (fun _ t => Allotting w t)
      (fun t => Exit w t.err t.trace) (fun i t t1 _ hP => (allotting_allocStep hP).1 t1)
      (fun i t t1 _ hP => (allotting_allocStep hP).2 t1)
      w.videos.length 0 { t with err := NVCV_SUCCESS } (Nat.zero_add _)
      ⟨h1.started, h1.ref, h1.quiet, h1.healthy⟩
    cases hloop : forLoop (allocStep w) w.videos.length 0 { t with err := NVCV_SUCCESS } with
    | bail b =>
      simp only [reduceCtorEq, IsEmpty.forall_iff, implies_true, Flow.bail.injEq, true_and]
      intro s1 hs; subst hs
      exact hA.2 _ hloop
    | next s6 =>
      have h6 := hA.1 _ hloop
      dsimp only
      by_cases c5 : w.mallocOk = false
      · simp only [c5, if_true, reduceCtorEq, IsEmpty.forall_iff, implies_true, Flow.bail.injEq,
          true_and]
        intro s1 hs; subst hs
        exact Allotting.failed h6 (show NVCV_ERR_MEMORY ≠ NVCV_SUCCESS by decide)
      · simp only [c5, if_false]
        by_cases c6 : w.imageAlloc = NVCV_SUCCESS
        · simp only [c6, if_true, if_false, Flow.next.injEq, reduceCtorEq, IsEmpty.forall_iff,
            implies_true, and_true]
          intro s1 hs; subst hs
          exact Allotting.allotting_sane ⟨h6.started, h6.ref, h6.quiet, h6.healthy⟩ rfl
        · simp only [c6, if_false, reduceCtorEq, IsEmpty.forall_iff, implies_true,
            Flow.bail.injEq, true_and]
          intro s1 hs; subst hs
          exact h6.failed c6

theorem local_body_exit {w : World} {s : State} (h : body w = some s) :
    Exit w s.err s.trace := by
  unfold body at h
  have hO := forLoop_rule (openStep w) w.videos.length (fun i t => Entering w i t)
    (fun t => Exit w t.err t.trace) (fun i t t1 hi hP => (entering_openStep hP hi).1 t1)
    (fun i t t1 hi hP => (entering_openStep hP hi).2 t1)
    w.videos.length 0 (initial w) (Nat.zero_add _)
    ⟨fun x hx => absurd hx (Nat.not_lt_zero _), fun e he => (by cases he), fun _ => rfl⟩
  cases hloop : forLoop (openStep w) w.videos.length 0 (initial w) with
  | bail b =>
    simp only [hloop, Option.some.injEq] at h
    subst h
    exact hO.2 _ hloop
  | next s1 =>
    simp only [hloop] at h
    have hS := entering_setup (hO.1 _ hloop)
    cases hset : setup w s1 with
    | bail b =>
      simp only [hset, Option.some.injEq] at h
      subst h
      exact hS.2 _ hset
    | next s2 =>
      simp only [hset] at h
      exact sane_cycleLoop _ _ _ _ (hS.1 _ hset) h

end Local

theorem getD_set_some {α : Type} {l : List (Option α)} {i x : Nat} {v : Option α} {m : α}
    (h : (l.set i v).getD x none = some m) : v = some m ∨ l.getD x none = some m := by
  by_cases hx : x = i
  · subst hx
    rcases getD_set_self_or l x v none with h1 | h1
    · rw [h1] at h
      exact Or.inl h
    · rw [h1] at h
      cases h
  · rw [getD_set_ne _ _ _ _ _ hx] at h
    exact Or.inr h

namespace Triton

theorem triton_healthy_of_opening {w : World} {e : Event} (h : e.opening = true) :
    Healthy w e := by
  cases e <;> simp [Event.opening] at h <;> trivial

theorem sane_lookahead {w : World} {j i : Nat} {s : State} (h : Sane w j s) :
    (∀ s1, lookahead w i s = Flow.next s1 → Sane w j s1) ∧
    (∀ s1, lookahead w i s = Flow.bail s1 → Exit w s1.err s1.trace) := by
  unfold lookahead
  cases hcap : s.src_captures.getD i none with
  | none =>
    dsimp only
    refine ⟨fun s1 hs => ?_, fun s1 hs => (by cases hs)⟩
    cases hs
    exact h
  | some p =>
    dsimp only
    cases hread : readFrame w i p with
    | some m =>
      dsimp only
      refine ⟨fun s1 hs => ?_, fun s1 hs => (by cases hs)⟩
      cases hs
      refine ⟨h.started, h.ok, h.ref, forall_mem_snoc h.healthy (readFrame_some_lt hread).1,
        forall_mem_snoc h.outputs (fun c hc => by cases hc), h.frames, ?_⟩
      intro x m1 hx
      rcases getD_set_some hx with h1 | h1
      · cases h1
        by_cases hxi : x = i
        · subst hxi
          exact ⟨p, hread⟩
        · rw [getD_set_ne _ _ _ _ _ hxi] at hx
          exact h.next x _ hx
      · exact h.next x m1 h1
    | none =>
      dsimp only
      have hpull : ∀ e ∈ s.trace ++ [Event.pull i none], Healthy w e :=
        forall_mem_snoc h.healthy trivial
      have hout : ∀ e ∈ s.trace ++ [Event.pull i none], ∀ c, e.output = some c → c < j :=
        forall_mem_snoc h.outputs (fun c hc => by cases hc)
      by_cases hd : w.deallocateState i = NVCV_SUCCESS
      · rw [if_pos hd]
        refine ⟨fun s1 hs => ?_, fun s1 hs => (by cases hs)⟩
        cases hs
        refine ⟨h.started, h.ok, h.ref, forall_mem_snoc hpull hd,
          forall_mem_snoc hout (fun c hc => by cases hc), h.frames, ?_⟩
        intro x m1 hx
        rcases getD_set_some hx with h1 | h1
        · cases h1
        · exact h.next x m1 h1
      · rw [if_neg hd]
        refine ⟨fun s1 hs => (by cases hs), fun s1 hs => ?_⟩
        cases hs
        exact Exit.unreleased j i _ _ h.started rfl hpull hout hd h.ok

theorem triton_sane_assembleStep {w : World} {j i : Nat} {s : State} (h : Sane w j s) :
    (∀ s1, assembleStep w j i s = Flow.next s1 → Sane w j s1) ∧
    (∀ s1, assembleStep w j i s = Flow.bail s1 → Exit w s1.err s1.trace) := by
  unfold assembleStep
  have hL := sane_lookahead (i := i) h
  cases hlook : lookahead w i s with
  | bail b =>
    dsimp only
    refine ⟨fun s1 hs => (by cases hs), fun s1 hs => ?_⟩
    cases hs
    exact hL.2 _ hlook
  | next t =>
    dsimp only
    have ht := hL.1 _ hlook
    cases hfr : t.frames.getD i none with
    | none =>
      dsimp only
      refine ⟨fun s1 hs => ?_, fun s1 hs => (by cases hs)⟩
      cases hs
      exact ht
    | some m =>
      dsimp only
      by_cases hsize : m.width = t.src_width ∧ m.height = t.src_height
      · rw [if_neg (not_not.2 hsize)]
        by_cases htr : w.transferToStatus j t.active_video_count = NVCV_SUCCESS
        · rw [if_pos htr]
          refine ⟨fun s1 hs => ?_, fun s1 hs => (by cases hs)⟩
          cases hs
          obtain ⟨p, hp⟩ := ht.frames i m hfr
          refine ⟨ht.started, rfl, ht.ref, forall_mem_snoc ht.healthy ⟨?_, readFrame_self hp⟩,
            forall_mem_snoc ht.outputs (fun c hc => by cases hc), ht.frames, ht.next⟩
          intro m0 hm0
          obtain ⟨h1, h2⟩ := ht.ref m0 hm0
          exact ⟨hsize.1.trans h1, hsize.2.trans h2⟩
        · rw [if_neg htr]
          refine ⟨fun s1 hs => (by cases hs), fun s1 hs => ?_⟩
          cases hs
          exact Exit.stalled j ht.started ht.healthy ht.outputs htr
      · rw [if_pos hsize]
        refine ⟨fun s1 hs => (by cases hs), fun s1 hs => ?_⟩
        cases hs
        obtain ⟨p, hp⟩ := ht.frames i m hfr
        refine Exit.mismatch j i _ ht.started rfl ht.healthy ht.outputs ⟨p, m, hp, ?_⟩ rfl
        intro hfit
        obtain ⟨m0, hm0⟩ := ht.started.reference
        obtain ⟨h1, h2⟩ := ht.ref m0 hm0
        obtain ⟨h3, h4⟩ := hfit m0 hm0
        exact hsize ⟨h3.trans h1.symm, h4.trans h2.symm⟩

theorem gather_loop (s : State) :
    ∀ k i t, (∃ B, t = { s with m_batchOfStates := B }) →
      ∃ B, forLoop gatherStep k i t = Flow.next { s with m_batchOfStates := B } := by
  intro k
  induction k with
  | zero =>
    intro i t ht
    obtain ⟨B, rfl⟩ := ht
    exact ⟨B, rfl⟩
  | succ k ih =>
    intro i t ht
    obtain ⟨B, rfl⟩ := ht
    unfold forLoop
    simp only [gatherStep]
    exact ih (i + 1) _ ⟨_, rfl⟩

theorem sane_Run {w : World} {j : Nat} {s : State} (h : Sane w j s) :
    (∀ s1, Run w j s = Flow.next s1 → Delivering w j s.active_video_count 0 s1) ∧
    (∀ s1, Run w j s = Flow.bail s1 → Exit w s1.err s1.trace) := by
  obtain ⟨B, hB⟩ := gather_loop s s.active_video_count 0 s ⟨s.m_batchOfStates, rfl⟩
  unfold Run check
  rw [hB]
  dsimp only
  by_cases h1 : w.setBatchSize j = NVCV_SUCCESS
  · rw [if_pos h1]
    dsimp only
    by_cases h2 : w.setStates j = NVCV_SUCCESS
    · rw [if_pos h2]
      dsimp only
      by_cases h3 : w.runStatus j = NVCV_SUCCESS
      · rw [if_pos h3]
        refine ⟨fun s1 hs => ?_, fun s1 hs => (by cases hs)⟩
        cases hs
        refine ⟨h.started, h3, h.ref, ⟨s.trace, B, ?_, h.healthy, h.outputs⟩,
          fun k hk => absurd hk (Nat.not_lt_zero _), h.frames, h.next⟩
        show s.trace ++ [Event.run j s.active_video_count B s.batch_indices
          (w.runStatus j)] = _
        rw [h3]
        simp
      · rw [if_neg h3]
        refine ⟨fun s1 hs => (by cases hs), fun s1 hs => ?_⟩
        cases hs
        exact Exit.engine j s.active_video_count B s.batch_indices s.trace
          h.started rfl h.healthy h.outputs h3
    · rw [if_neg h2]
      refine ⟨fun s1 hs => (by cases hs), fun s1 hs => ?_⟩
      cases hs
      exact Exit.stalled j h.started h.healthy h.outputs h2
  · rw [if_neg h1]
    refine ⟨fun s1 hs => (by cases hs), fun s1 hs => ?_⟩
    cases hs
    exact Exit.stalled j h.started h.healthy h.outputs h1

theorem triton_delivering_writeStep {w : World} {j n i : Nat} {s : State}
    (h : Delivering w j n i s) (hi : i < n) :
    (∀ s1, writeStep w j i s = Flow.next s1 → Delivering w j n (i + 1) s1) ∧
    (∀ s1, writeStep w j i s = Flow.bail s1 → Exit w s1.err s1.trace) := by
  unfold writeStep
  dsimp only
  obtain ⟨pre, st, heq, hh, ho⟩ := h.parts
  by_cases h1 : w.transferFromStatus j (s.batch_indices.getD i 0) = NVCV_SUCCESS
  · rw [if_pos h1]
    refine ⟨fun s1 hs => ?_, fun s1 hs => (by cases hs)⟩
    cases hs
    refine ⟨h.started, rfl, h.ref, ⟨pre, st, ?_, hh, ho⟩, ?_, h.frames, h.next⟩
    · show s.trace ++ [Event.write j (s.batch_indices.getD i 0) (s.batch_indices.getD i 0)] = _
      rw [heq, List.range_succ, List.map_append]
      simp
    · intro k hk
      rcases Nat.lt_succ_iff_lt_or_eq.1 hk with h2 | h2
      · exact h.served k h2
      · rw [h2]
        exact h1
  · rw [if_neg h1]
    refine ⟨fun s1 hs => (by cases hs), fun s1 hs => ?_⟩
    cases hs
    exact Exit.undelivered j n st s.batch_indices i pre h.started heq hh ho hi h.served rfl h1

theorem Delivering.triton_delivering_sane {w : World} {j n : Nat} {s : State}
    (h : Delivering w j n n s) : Sane w (j + 1) s := by
  obtain ⟨pre, st, heq, hh, ho⟩ := h.parts
  refine ⟨h.started, h.ok, h.ref, ?_, ?_, h.frames, h.next⟩
  · intro e he
    rw [heq] at he
    rcases List.mem_append.1 he with he1 | he1
    · rcases List.mem_append.1 he1 with he2 | he2
      · exact hh e he2
      · rw [List.mem_singleton] at he2
        subst he2
        exact ⟨rfl, h.served⟩
    · rw [List.mem_map] at he1
      obtain ⟨k, hk, rfl⟩ := he1
      exact h.served k (List.mem_range.1 hk)
  · intro e he c hc
    rw [heq] at he
    rcases List.mem_append.1 he with he1 | he1
    · rcases List.mem_append.1 he1 with he2 | he2
      · exact Nat.lt_succ_of_lt (ho e he2 c hc)
      · rw [List.mem_singleton] at he2
        subst he2
        cases hc
        exact Nat.lt_succ_self _
    · rw [List.mem_map] at he1
      obtain ⟨k, hk, rfl⟩ := he1
      cases hc
      exact Nat.lt_succ_self _

theorem sane_updateStep {w : World} {j i : Nat} {s : State} (h : Sane w j s) :
    (∀ s1, updateStep i s = Flow.next s1 → Sane w j s1) ∧
    (∀ s1, updateStep i s = Flow.bail s1 → Exit w s1.err s1.trace) := by
  unfold updateStep
  dsimp only
  refine ⟨fun s1 hs => ?_, fun s1 hs => (by cases hs)⟩
  cases hs
  refine ⟨h.started, h.ok, h.ref, h.healthy, h.outputs, ?_, h.next⟩
  intro x m hx
  by_cases hxi : x = s.batch_indices.getD i 0
  · rcases getD_set_some hx with h1 | h1
    · rw [hxi]
      exact h.next _ m h1
    · exact h.frames x m h1
  · rw [getD_set_ne _ _ _ _ _ hxi] at hx
    exact h.frames x m hx

theorem triton_sane_cycle {w : World} {j : Nat} {s : State} (h : Sane w j s) :
    (∀ s1, cycle w j s = Flow.next s1 → Sane w (j + 1) s1) ∧
    (∀ s1, cycle w j s = Flow.bail s1 → Exit w s1.err s1.trace) := by
  have hA := forLoop_rule (assembleStep w j) w.videos.length (fun _ t => Sane w j t)
    (fun t => Exit w t.err t.trace) (fun i t t1 _ hP => (triton_sane_assembleStep hP).1 t1)
    (fun i t t1 _ hP => (triton_sane_assembleStep hP).2 t1)
    w.videos.length 0 { s with active_video_count := 0 } (Nat.zero_add _)
    ⟨h.started, h.ok, h.ref, h.healthy, h.outputs, h.frames, h.next⟩
  unfold cycle
  cases hloop : forLoop (assembleStep w j) w.videos.length 0
      { s with active_video_count := 0 } with
  | bail b =>
    dsimp only
    refine ⟨fun s1 hs => (by cases hs), fun s1 hs => ?_⟩
    cases hs
    exact hA.2 _ hloop
  | next s1 =>
    dsimp only
    have hs1 := hA.1 _ hloop
    by_cases hz : s1.active_video_count = 0
    · rw [if_pos hz]
      refine ⟨fun s2 hs => (by cases hs), fun s2 hs => ?_⟩
      cases hs
      exact Exit.drained j hs1.started hs1.healthy hs1.outputs hs1.ok
    · rw [if_neg hz]
      have hD := sane_Run hs1
      cases hdis : Run w j s1 with
      | bail b =>
        dsimp only
        refine ⟨fun s2 hs => (by cases hs), fun s2 hs => ?_⟩
        cases hs
        exact hD.2 _ hdis
      | next s2 =>
        dsimp only
        have hW := forLoop_rule (writeStep w j) s1.active_video_count
          (fun i t => Delivering w j s1.active_video_count i t) (fun t => Exit w t.err t.trace)
          (fun i t t1 hi hP => (triton_delivering_writeStep hP hi).1 t1)
          (fun i t t1 hi hP => (triton_delivering_writeStep hP hi).2 t1)
          s1.active_video_count 0 s2 (Nat.zero_add _) (hD.1 _ hdis)
        cases hwr : forLoop (writeStep w j) s1.active_video_count 0 s2 with
        | bail b =>
          dsimp only
          refine ⟨fun s3 hs => (by cases hs), fun s3 hs => ?_⟩
          cases hs
          exact hW.2 _ hwr
        | next s3 =>
          dsimp only
          have hU := forLoop_rule updateStep s1.active_video_count
            (fun _ t => Sane w (j + 1) t) (fun t => Exit w t.err t.trace)
            (fun i t t1 _ hP => (sane_updateStep hP).1 t1)
            (fun i t t1 _ hP => (sane_updateStep hP).2 t1)
            s1.active_video_count 0 s3 (Nat.zero_add _) (hW.1 _ hwr).triton_delivering_sane
          exact ⟨fun s4 hs => hU.1 s4 hs, fun s4 hs => hU.2 s4 hs⟩

theorem triton_sane_cycleLoop {w : World} :
    ∀ (fuel j : Nat) (s s1 : State), Sane w j s → cycleLoop w fuel j s = some s1 →
      Exit w s1.err s1.trace := by
  intro fuel
  induction fuel with
  | zero => intro j s s1 _ h; simp [cycleLoop] at h
  | succ fuel ih =>
    intro j s s1 hr h
    unfold cycleLoop at h
    have hc := triton_sane_cycle hr
    cases hcy : cycle w j s with
    | bail b =>
      simp only [hcy, Option.some.injEq] at h
      subst h
      exact hc.2 _ hcy
    | next s2 =>
      simp only [hcy] at h
      exact ih (j + 1) s2 s1 (hc.1 _ hcy) h

theorem triton_entering_openStep {w : World} {i : Nat} {s : State} (h : Entering w i s)
    (hi : i < w.videos.length) :
    (∀ s1, openStep w i s = Flow.next s1 → Entering w (i + 1) s1) ∧
    (∀ s1, openStep w i s = Flow.bail s1 → Exit w s1.err s1.trace) := by
  unfold openStep
  by_cases h1 : w.sourceOpens i = false
  · rw [if_pos h1]
    refine ⟨fun s1 hs => (by cases hs), fun s1 hs => ?_⟩
    cases hs
    exact Exit.unreadable i hi h1 h.opened (forall_mem_snoc h.opens rfl) rfl
  · rw [if_neg h1]
    dsimp only
    have h1t : w.sourceOpens i = true := by simpa using h1
    by_cases h2 : w.sinkOpens i = false
    · rw [if_pos h2]
      refine ⟨fun s1 hs => (by cases hs), fun s1 hs => ?_⟩
      cases hs
      exact Exit.unwritable i hi h2 h.opened h1t
        (forall_mem_snoc (forall_mem_snoc h.opens rfl) rfl) rfl
    · rw [if_neg h2]
      have h2t : w.sinkOpens i = true := by simpa using h2
      refine ⟨fun s1 hs => ?_, fun s1 hs => (by cases hs)⟩
      cases hs
      refine ⟨?_, forall_mem_snoc (forall_mem_snoc h.opens rfl) rfl,
        fun h0 => absurd h0 (Nat.succ_ne_zero i), h.frames, h.next⟩
      intro x hx
      rcases Nat.lt_succ_iff_lt_or_eq.1 hx with h3 | h3
      · exact h.opened x h3
      · rw [h3]
        exact ⟨h1t, h2t⟩

theorem allotting_initStep {w : World} {i : Nat} {s : State} (h : Allotting w s) :
    (∀ s1, initStep w i s = Flow.next s1 → Allotting w s1) ∧
    (∀ s1, initStep w i s = Flow.bail s1 → Exit w s1.err s1.trace) := by
  unfold initStep
  cases hcap : s.src_captures.getD i none with
  | none =>
    dsimp only
    refine ⟨fun s1 hs => ?_, fun s1 hs => (by cases hs)⟩
    cases hs
    exact h
  | some p =>
    dsimp only
    cases hread : readFrame w i p with
    | none =>
      dsimp only
      refine ⟨fun s1 hs => ?_, fun s1 hs => (by cases hs)⟩
      cases hs
      refine ⟨h.started, h.ok, h.ref, h.quiet.quiet_snoc _ rfl,
        forall_mem_snoc h.healthy trivial, ?_, h.next⟩
      intro x m hx
      rcases getD_set_some hx with h1 | h1
      · cases h1
      · exact h.frames x m h1
    | some m =>
      dsimp only
      have hlive : 0 < streamLength w i := Nat.lt_of_le_of_lt (Nat.zero_le _)
        (readFrame_some_lt hread).1
      have hq : Quiet (s.trace ++ [Event.pull i (some p)]) := h.quiet.quiet_snoc _ rfl
      have hh : ∀ e ∈ s.trace ++ [Event.pull i (some p)], Healthy w e :=
        forall_mem_snoc h.healthy (readFrame_some_lt hread).1
      by_cases ha : w.allocateState i = NVCV_SUCCESS
      · rw [if_pos ha]
        refine ⟨fun s1 hs => ?_, fun s1 hs => (by cases hs)⟩
        cases hs
        refine ⟨h.started, h.ok, h.ref, hq.quiet_snoc _ rfl,
          forall_mem_snoc hh ⟨by simp, hlive⟩, ?_, h.next⟩
        intro x m1 hx
        by_cases hxi : x = i
        · rcases getD_set_some hx with h1 | h1
          · cases h1
            rw [hxi]
            exact ⟨p, hread⟩
          · exact h.frames x m1 h1
        · rw [getD_set_ne _ _ _ _ _ hxi] at hx
          exact h.frames x m1 hx
      · rw [if_neg ha]
        refine ⟨fun s1 hs => (by cases hs), fun s1 hs => ?_⟩
        cases hs
        exact Exit.rejected i _ h.started rfl hq hh hlive ha h.ok

theorem triton_entering_setup {w : World} {s : State} (h : Entering w w.videos.length s) :
    (∀ s1, setup w s = Flow.next s1 → Sane w 0 s1) ∧
    (∀ s1, setup w s = Flow.bail s1 → Exit w s1.err s1.trace) := by
  unfold setup
  by_cases hn : w.videos.length = 0
  · simp only [hn, if_true, reduceCtorEq, IsEmpty.forall_iff, implies_true, Flow.bail.injEq,
      true_and]
    intro s1 hs
    subst hs
    exact Exit.noInput (List.length_eq_zero.1 hn) (h.silent hn) rfl
  simp only [hn, if_false]
  have hne : w.videos ≠ [] := fun h0 => hn (by rw [h0]; rfl)
  cases hread : readFrame w 0 0 with
  | none =>
    simp only [reduceCtorEq, IsEmpty.forall_iff, implies_true, Flow.bail.injEq, true_and]
    intro s1 hs
    subst hs
    exact Exit.noFirstFrame hne h.opened (Nat.le_zero.1 (readFrame_none_le hread)) s.trace rfl
      h.opens rfl
  | some m =>
    have hst : Started w := ⟨hne, fun x hx => (h.opened x hx).1, fun x hx => (h.opened x hx).2,
      (readFrame_some_lt hread).1⟩
    have hfail : ∀ (e : NvCV_Status) (t : State), e ≠ NVCV_SUCCESS →
        t.trace = s.trace ++ [Event.pull 0 (some 0)] → Exit w e t.trace :=
      fun e t he ht => Exit.setupFailed hst s.trace ht h.opens he
    dsimp only
    unfold check
    by_cases c1 : w.initStatus = NVCV_SUCCESS
    swap
    · simp only [c1, if_false, reduceCtorEq, IsEmpty.forall_iff, implies_true, Flow.bail.injEq,
        true_and]
      intro s1 hs; subst hs; exact hfail _ _ c1 rfl
    by_cases c2 : w.allocateBuffers = NVCV_SUCCESS
    swap
    · simp only [c1, c2, if_true, if_false, reduceCtorEq, IsEmpty.forall_iff, implies_true,
        Flow.bail.injEq, true_and]
      intro s1 hs; subst hs; exact hfail _ _ c2 rfl
    by_cases c3 : w.setParameters = NVCV_SUCCESS
    swap
    · simp only [c1, c2, c3, if_true, if_false, reduceCtorEq, IsEmpty.forall_iff, implies_true,
        Flow.bail.injEq, true_and]
      intro s1 hs; subst hs; exact hfail _ _ c3 rfl
    by_cases c4 : w.load = NVCV_SUCCESS
    swap
    · simp only [c1, c2, c3, c4, if_true, if_false, reduceCtorEq, IsEmpty.forall_iff,
        implies_true, Flow.bail.injEq, true_and]
      intro s1 hs; subst hs; exact hfail _ _ c4 rfl
    simp only [c1, c2, c3, c4, if_true]
    have key : ∀ t : State, Allotting w t →
        (∀ s1, forLoop (initStep w) w.videos.length 0 t = Flow.next s1 → Sane w 0 s1) ∧
        (∀ s1, forLoop (initStep w) w.videos.length 0 t = Flow.bail s1 →
          Exit w s1.err s1.trace) := by
      intro t ht
      have hA := forLoop_rule (initStep w) w.videos.length (fun _ t => Allotting w t)
        (fun t => Exit w t.err t.trace) (fun i t t1 _ hP => (allotting_initStep hP).1 t1)
        (fun i t t1 _ hP => (allotting_initStep hP).2 t1)
        w.videos.length 0 t (Nat.zero_add _) ht
      refine ⟨fun s1 hs => ?_, fun s1 hs => hA.2 s1 hs⟩
      have h6 := hA.1 s1 hs
      refine ⟨h6.started, h6.ok, h6.ref, h6.healthy, ?_, h6.frames, h6.next⟩
      intro e he c hc
      rw [Event.output_of_early (h6.quiet e he)] at hc
      cases hc
    apply key
    refine ⟨hst, rfl, ?_, ?_, ?_, ?_, ?_⟩
    · intro m0 hm0
      rw [hread] at hm0
      cases hm0
      exact ⟨rfl, rfl⟩
    · exact Quiet.quiet_snoc (fun e he => Event.early_of_opening (h.opens e he))
        (Event.pull 0 (some 0)) rfl
    · exact forall_mem_snoc (fun e he => triton_healthy_of_opening (h.opens e he))
        (readFrame_some_lt hread).1
    · intro x m1 hx
      have hx1 : s.frames.getD x none = some m1 := hx
      rw [h.frames x] at hx1
      cases hx1
    · intro x m1 hx
      have hx1 : s.frames_t_1.getD x none = some m1 := hx
      rw [h.next x] at hx1
      cases hx1

theorem triton_body_exit {w : World} {s : State} (h : body w = some s) :
    Exit w s.err s.trace := by
  unfold body at h
  have hO := forLoop_rule (openStep w) w.videos.length (fun i t => Entering w i t)
    (fun t => Exit w t.err t.trace) (fun i t t1 hi hP => (triton_entering_openStep hP hi).1 t1)
    (fun i t t1 hi hP => (triton_entering_openStep hP hi).2 t1)
    w.videos.length 0 (initial w) (Nat.zero_add _)
    ⟨fun x hx => absurd hx (Nat.not_lt_zero _), fun e he => (by cases he), fun _ => rfl,
      fun x => getD_replicate_none _ _, fun x => getD_replicate_none _ _⟩
  cases hloop : forLoop (openStep w) w.videos.length 0 (initial w) with
  | bail b =>
    simp only [hloop, Option.some.injEq] at h
    subst h
    exact hO.2 _ hloop
  | next s1 =>
    simp only [hloop] at h
    have hS := triton_entering_setup (hO.1 _ hloop)
    cases hset : setup w s1 with
    | bail b =>
      simp only [hset, Option.some.injEq] at h
      subst h
      exact hS.2 _ hset
    | next s2 =>
      simp only [hset] at h
      exact triton_sane_cycleLoop _ _ _ _ (hS.1 _ hset) h

theorem triton_exit {w : World} {r : State} (h : BatchProcess w = some r) :
    Exit w r.err r.trace := by
  obtain ⟨s, hs, rfl⟩ := triton_BatchProcess_eq h
  have hx : Exit w s.err s.trace := triton_body_exit hs
  exact hx

end Triton

theorem mem_snoc_cases {α : Type} {l : List α} {a e : α} (h : e ∈ l ++ [a]) : e ∈ l ∨ e = a := by
  rcases List.mem_append.1 h with h1 | h1
  · exact Or.inl h1
  · exact Or.inr (List.mem_singleton.1 h1)

namespace Local

theorem Exit.local_of_mismatch {w : World} {err : NvCV_Status} {tr : List Event}
    (h : Exit w err tr) {j i : Nat} (hm : Event.mismatch j i ∈ tr) :
    err = NVCV_ERR_MISMATCH ∧ (∃ p m, readFrame w i p = some m ∧ ¬ m.fits w) ∧
    ∃ pre, tr = pre ++ [Event.mismatch j i] ∧ (∀ e ∈ pre, Healthy w e) ∧
      ∀ e ∈ pre, ∀ c, e.output = some c → c < j := by
  cases h with
  | unreadable i' hi closed before opens status =>
    have := opens _ hm
    simp [Event.opening] at this
  | unwritable i' hi closed before source opens status =>
    have := opens _ hm
    simp [Event.opening] at this
  | noInput empty silent status =>
    rw [silent] at hm
    cases hm
  | noFirstFrame nonempty opened first pre eq opens status =>
    rw [eq] at hm
    rcases mem_snoc_cases hm with h1 | h1
    · have := opens _ h1
      simp [Event.opening] at this
    · cases h1
  | setupFailed started quiet status reject =>
    have := quiet _ hm
    simp [Event.early] at this
  | drained j' started healthy outputs status => exact absurd (healthy _ hm) id
  | mismatch j' i' pre started eq healthy outputs real status =>
    rw [eq] at hm
    rcases mem_snoc_cases hm with h1 | h1
    · exact absurd (healthy _ h1) id
    · cases h1
      exact ⟨status, real, pre, eq, healthy, outputs⟩
  | stalled j' started healthy outputs status => exact absurd (healthy _ hm) id
  | engine j' n st idx pre started eq healthy outputs status =>
    rw [eq] at hm
    rcases mem_snoc_cases hm with h1 | h1
    · exact absurd (healthy _ h1) id
    · cases h1
  | undelivered j' n st idx i' pre started eq healthy outputs hi served status failed =>
    rw [eq] at hm
    rcases List.mem_append.1 hm with h1 | h1
    · rcases mem_snoc_cases h1 with h2 | h2
      · exact absurd (healthy _ h2) id
      · cases h2
    · rw [List.mem_map] at h1
      obtain ⟨k, _, hk⟩ := h1
      cases hk

theorem Exit.local_fits {w : World} {err : NvCV_Status} {tr : List Event}
    (h : Exit w err tr) {c slot : Nat} {m : Mat} (hm : Event.transferTo c slot m ∈ tr) :
    m.fits w ∧ readFrame w m.stream m.index = some m := by
  cases h with
  | unreadable i' hi closed before opens status =>
    have := opens _ hm
    simp [Event.opening] at this
  | unwritable i' hi closed before source opens status =>
    have := opens _ hm
    simp [Event.opening] at this
  | noInput empty silent status =>
    rw [silent] at hm
    cases hm
  | noFirstFrame nonempty opened first pre eq opens status =>
    rw [eq] at hm
    rcases mem_snoc_cases hm with h1 | h1
    · have := opens _ h1
      simp [Event.opening] at this
    · cases h1
  | setupFailed started quiet status reject =>
    have := quiet _ hm
    simp [Event.early] at this
  | drained j' started healthy outputs status => exact healthy _ hm
  | mismatch j' i' pre started eq healthy outputs real status =>
    rw [eq] at hm
    rcases mem_snoc_cases hm with h1 | h1
    · exact healthy _ h1
    · cases h1
  | stalled j' started healthy outputs status => exact healthy _ hm
  | engine j' n st idx pre started eq healthy outputs status =>
    rw [eq] at hm
    rcases mem_snoc_cases hm with h1 | h1
    · exact healthy _ h1
    · cases h1
  | undelivered j' n st idx i' pre started eq healthy outputs hi served status failed =>
    rw [eq] at hm
    rcases List.mem_append.1 hm with h1 | h1
    · rcases mem_snoc_cases h1 with h2 | h2
      · exact healthy _ h2
      · cases h2
    · rw [List.mem_map] at h1
      obtain ⟨k, _, hk⟩ := h1
      cases hk

theorem Exit.local_of_rejected {w : World} {err : NvCV_Status} {tr : List Event}
    (h : Exit w err tr) {i : Nat} (hm : Event.allocate i none ∈ tr) :
    Quiet tr ∧ err = w.allocateState i ∧ err ≠ NVCV_SUCCESS := by
  cases h with
  | unreadable i' hi closed before opens status =>
    have := opens _ hm
    simp [Event.opening] at this
  | unwritable i' hi closed before source opens status =>
    have := opens _ hm
    simp [Event.opening] at this
  | noInput empty silent status =>
    rw [silent] at hm
    cases hm
  | noFirstFrame nonempty opened first pre eq opens status =>
    rw [eq] at hm
    rcases mem_snoc_cases hm with h1 | h1
    · have := opens _ h1
      simp [Event.opening] at this
    · cases h1
  | setupFailed started quiet status reject => exact ⟨quiet, reject i hm, status⟩
  | drained j' started healthy outputs status => exact absurd rfl (healthy _ hm)
  | mismatch j' i' pre started eq healthy outputs real status =>
    rw [eq] at hm
    rcases mem_snoc_cases hm with h1 | h1
    · exact absurd rfl (healthy _ h1)
    · cases h1
  | stalled j' started healthy outputs status => exact absurd rfl (healthy _ hm)
  | engine j' n st idx pre started eq healthy outputs status =>
    rw [eq] at hm
    rcases mem_snoc_cases hm with h1 | h1
    · exact absurd rfl (healthy _ h1)
    · cases h1
  | undelivered j' n st idx i' pre started eq healthy outputs hi served status failed =>
    rw [eq] at hm
    rcases List.mem_append.1 hm with h1 | h1
    · rcases mem_snoc_cases h1 with h2 | h2
      · exact absurd rfl (healthy _ h2)
      · cases h2
    · rw [List.mem_map] at h1
      obtain ⟨k, _, hk⟩ := h1
      cases hk

theorem Exit.local_of_undelivered {w : World} {err : NvCV_Status} {tr : List Event}
    (h : Exit w err tr) {j n i : Nat} {st : List (Option Nat)} {idx : List Nat}
    (hm : Event.run j n st idx NVCV_SUCCESS ∈ tr) (hi : i < n)
    (hfail : w.transferFromStatus j i ≠ NVCV_SUCCESS)
    (hfirst : ∀ k, k < i → w.transferFromStatus j k = NVCV_SUCCESS) :
    err = w.transferFromStatus j i ∧
    ∃ pre, tr = pre ++ [Event.run j n st idx NVCV_SUCCESS] ++
        (List.range i).map (fun k => Event.write j (idx.getD k 0) k) ∧
      (∀ e ∈ pre, Healthy w e) ∧ ∀ e ∈ pre, ∀ c, e.output = some c → c < j := by
  have hbad : ¬ Healthy w (Event.run j n st idx NVCV_SUCCESS) := fun hh => hfail (hh.2 i hi)
  cases h with
  | unreadable i' hi closed before opens status =>
    have := opens _ hm
    simp [Event.opening] at this
  | unwritable i' hi closed before source opens status =>
    have := opens _ hm
    simp [Event.opening] at this
  | noInput empty silent status =>
    rw [silent] at hm
    cases hm
  | noFirstFrame nonempty opened first pre eq opens status =>
    rw [eq] at hm
    rcases mem_snoc_cases hm with h1 | h1
    · have := opens _ h1
      simp [Event.opening] at this
    · cases h1
  | setupFailed started quiet status reject =>
    have := quiet _ hm
    simp [Event.early] at this
  | drained j' started healthy outputs status => exact absurd (healthy _ hm) hbad
  | mismatch j' i' pre started eq healthy outputs real status =>
    rw [eq] at hm
    rcases mem_snoc_cases hm with h1 | h1
    · exact absurd (healthy _ h1) hbad
    · cases h1
  | stalled j' started healthy outputs status => exact absurd (healthy _ hm) hbad
  | engine j' n' st' idx' pre started eq healthy outputs status =>
    rw [eq] at hm
    rcases mem_snoc_cases hm with h1 | h1
    · exact absurd (healthy _ h1) hbad
    · cases h1
      exact absurd rfl status
  | undelivered j' n' st' idx' i' pre started eq healthy outputs hi' served status failed =>
    have hm' := hm
    rw [eq] at hm'
    rcases List.mem_append.1 hm' with h1 | h1
    · rcases mem_snoc_cases h1 with h2 | h2
      · exact absurd (healthy _ h2) hbad
      · cases h2
        have hii : i = i' := by
          rcases Nat.lt_trichotomy i i' with h3 | h3 | h3
          · exact absurd (served i h3) hfail
          · exact h3
          · exact absurd (hfirst i' h3) (status ▸ failed)
        subst hii
        exact ⟨status, pre, eq, healthy, outputs⟩
    · rw [List.mem_map] at h1
      obtain ⟨k, _, hk⟩ := h1
      cases hk

theorem Exit.local_unstarted {w : World} {err : NvCV_Status} {tr : List Event}
    (h : Exit w err tr) (hne : w.videos ≠ [])
    (hsinks : ∀ i, i < w.videos.length → w.sinkOpens i = true)
    (hbad : (∃ i, i < w.videos.length ∧ w.sourceOpens i = false) ∨ streamLength w 0 = 0) :
    err = NVCV_ERR_READ ∧ ∀ e ∈ tr, e.opening = true ∨ e = Event.pull 0 none := by
  have hno : ¬ Started w := by
    intro hs
    rcases hbad with ⟨i, hi, hc⟩ | h0
    · rw [hs.sources i hi] at hc
      cases hc
    · have := hs.first
      omega
  cases h with
  | unreadable i' hi closed before opens status =>
    exact ⟨status, fun e he => Or.inl (opens e he)⟩
  | unwritable i' hi closed before source opens status =>
    rw [hsinks i' hi] at closed
    cases closed
  | noInput empty silent status => exact absurd empty hne
  | noFirstFrame nonempty opened first pre eq opens status =>
    refine ⟨status, fun e he => ?_⟩
    rw [eq] at he
    rcases mem_snoc_cases he with h1 | h1
    · exact Or.inl (opens e h1)
    · exact Or.inr h1
  | setupFailed started quiet status reject => exact absurd started hno
  | drained j' started healthy outputs status => exact absurd started hno
  | mismatch j' i' pre started eq healthy outputs real status => exact absurd started hno
  | stalled j' started healthy outputs status => exact absurd started hno
  | engine j' n' st' idx' pre started eq healthy outputs status => exact absurd started hno
  | undelivered j' n' st' idx' i' pre started eq healthy outputs hi' served status failed =>
    exact absurd started hno

theorem local_exit {w : World} {r : State} (h : BatchProcess w = some r) :
    ∃ s, r = cleanup s ∧ Exit w s.err s.trace ∧ Done w s := by
  obtain ⟨s, hs, rfl⟩ := local_BatchProcess_eq h
  exact ⟨s, rfl, local_body_exit hs, local_body_done hs⟩

end Local

namespace Triton

theorem Exit.triton_of_mismatch {w : World} {err : NvCV_Status} {tr : List Event}
    (h : Exit w err tr) {j i : Nat} (hm : Event.mismatch j i ∈ tr) :
    err = NVCV_ERR_MISMATCH ∧ (∃ p m, readFrame w i p = some m ∧ ¬ m.fits w) ∧
    ∃ pre, tr = pre ++ [Event.mismatch j i] ∧ (∀ e ∈ pre, Healthy w e) ∧
      ∀ e ∈ pre, ∀ c, e.output = some c → c < j := by
  cases h with
  | unreadable i' hi closed before opens status =>
    have := opens _ hm
    simp [Event.opening] at this
  | unwritable i' hi closed before source opens status =>
    have := opens _ hm
    simp [Event.opening] at this
  | noInput empty silent status =>
    rw [silent] at hm
    cases hm
  | noFirstFrame nonempty opened first pre eq opens status =>
    rw [eq] at hm
    rcases mem_snoc_cases hm with h1 | h1
    · have := opens _ h1
      simp [Event.opening] at this
    · cases h1
  | setupFailed started pre eq opens status =>
    rw [eq] at hm
    rcases mem_snoc_cases hm with h1 | h1
    · have := opens _ h1
      simp [Event.opening] at this
    · cases h1
  | rejected i' pre started eq quiet healthy live refused status =>
    rw [eq] at hm
    rcases mem_snoc_cases hm with h1 | h1
    · have hh := healthy _ h1
      exact absurd hh id
    · cases h1
  | drained j' started healthy outputs status =>
    have hh := healthy _ hm
    exact absurd hh id
  | unreleased j' i' h' pre started eq healthy outputs refused status =>
    rw [eq] at hm
    rcases mem_snoc_cases hm with h1 | h1
    · have hh := healthy _ h1
      exact absurd hh id
    · cases h1
  | mismatch j' i' pre started eq healthy outputs real status =>
    rw [eq] at hm
    rcases mem_snoc_cases hm with h1 | h1
    · exact absurd (healthy _ h1) id
    · cases h1
      exact ⟨status, real, pre, eq, healthy, outputs⟩
  | stalled j' started healthy outputs status =>
    have hh := healthy _ hm
    exact absurd hh id
  | engine j' n' st' idx' pre started eq healthy outputs status =>
    rw [eq] at hm
    rcases mem_snoc_cases hm with h1 | h1
    · have hh := healthy _ h1
      exact absurd hh id
    · cases h1
  | undelivered j' n' st' idx' i' pre started eq healthy outputs hi' served status failed =>
    rw [eq] at hm
    rcases List.mem_append.1 hm with h1 | h1
    · rcases mem_snoc_cases h1 with h2 | h2
      · have hh := healthy _ h2
        exact absurd hh id
      · cases h2
    · rw [List.mem_map] at h1
      obtain ⟨k, _, hk⟩ := h1
      cases hk

theorem Exit.triton_fits {w : World} {err : NvCV_Status} {tr : List Event}
    (h : Exit w err tr) {c slot : Nat} {m : Mat} (hm : Event.transferTo c slot m ∈ tr) :
    m.fits w ∧ readFrame w m.stream m.index = some m := by
  cases h with
  | unreadable i' hi closed before opens status =>
    have := opens _ hm
    simp [Event.opening] at this
  | unwritable i' hi closed before source opens status =>
    have := opens _ hm
    simp [Event.opening] at this
  | noInput empty silent status =>
    rw [silent] at hm
    cases hm
  | noFirstFrame nonempty opened first pre eq opens status =>
    rw [eq] at hm
    rcases mem_snoc_cases hm with h1 | h1
    · have := opens _ h1
      simp [Event.opening] at this
    · cases h1
  | setupFailed started pre eq opens status =>
    rw [eq] at hm
    rcases mem_snoc_cases hm with h1 | h1
    · have := opens _ h1
      simp [Event.opening] at this
    · cases h1
  | rejected i' pre started eq quiet healthy live refused status =>
    rw [eq] at hm
    rcases mem_snoc_cases hm with h1 | h1
    · have hh := healthy _ h1
      exact hh
    · cases h1
  | drained j' started healthy outputs status =>
    have hh := healthy _ hm
    exact hh
  | unreleased j' i' h' pre started eq healthy outputs refused status =>
    rw [eq] at hm
    rcases mem_snoc_cases hm with h1 | h1
    · have hh := healthy _ h1
      exact hh
    · cases h1
  | mismatch j' i' pre started eq healthy outputs real status =>
    rw [eq] at hm
    rcases mem_snoc_cases hm with h1 | h1
    · have hh := healthy _ h1
      exact hh
    · cases h1
  | stalled j' started healthy outputs status =>
    have hh := healthy _ hm
    exact hh
  | engine j' n' st' idx' pre started eq healthy outputs status =>
    rw [eq] at hm
    rcases mem_snoc_cases hm with h1 | h1
    · have hh := healthy _ h1
      exact hh
    · cases h1
  | undelivered j' n' st' idx' i' pre started eq healthy outputs hi' served status failed =>
    rw [eq] at hm
    rcases List.mem_append.1 hm with h1 | h1
    · rcases mem_snoc_cases h1 with h2 | h2
      · have hh := healthy _ h2
        exact hh
      · cases h2
    · rw [List.mem_map] at h1
      obtain ⟨k, _, hk⟩ := h1
      cases hk

theorem Exit.triton_of_rejected {w : World} {err : NvCV_Status} {tr : List Event}
    (h : Exit w err tr) {i : Nat} (hm : Event.allocate i none ∈ tr) :
    err = NVCV_SUCCESS ∧ w.allocateState i ≠ NVCV_SUCCESS ∧ 0 < streamLength w i ∧
    ∃ pre, tr = pre ++ [Event.allocate i none] ∧ Quiet pre ∧ ∀ e ∈ pre, Healthy w e := by
  cases h with
  | unreadable i' hi closed before opens status =>
    have := opens _ hm
    simp [Event.opening] at this
  | unwritable i' hi closed before source opens status =>
    have := opens _ hm
    simp [Event.opening] at this
  | noInput empty silent status =>
    rw [silent] at hm
    cases hm
  | noFirstFrame nonempty opened first pre eq opens status =>
    rw [eq] at hm
    rcases mem_snoc_cases hm with h1 | h1
    · have := opens _ h1
      simp [Event.opening] at this
    · cases h1
  | setupFailed started pre eq opens status =>
    rw [eq] at hm
    rcases mem_snoc_cases hm with h1 | h1
    · have := opens _ h1
      simp [Event.opening] at this
    · cases h1
  | rejected i' pre started eq quiet healthy live refused status =>
    rw [eq] at hm
    rcases mem_snoc_cases hm with h1 | h1
    · exact absurd rfl (healthy _ h1).1
    · cases h1
      exact ⟨status, refused, live, pre, eq, quiet, healthy⟩
  | drained j' started healthy outputs status =>
    have hh := healthy _ hm
    exact absurd rfl hh.1
  | unreleased j' i' h' pre started eq healthy outputs refused status =>
    rw [eq] at hm
    rcases mem_snoc_cases hm with h1 | h1
    · have hh := healthy _ h1
      exact absurd rfl hh.1
    · cases h1
  | mismatch j' i' pre started eq healthy outputs real status =>
    rw [eq] at hm
    rcases mem_snoc_cases hm with h1 | h1
    · have hh := healthy _ h1
      exact absurd rfl hh.1
    · cases h1
  | stalled j' started healthy outputs status =>
    have hh := healthy _ hm
    exact absurd rfl hh.1
  | engine j' n' st' idx' pre started eq healthy outputs status =>
    rw [eq] at hm
    rcases mem_snoc_cases hm with h1 | h1
    · have hh := healthy _ h1
      exact absurd rfl hh.1
    · cases h1
  | undelivered j' n' st' idx' i' pre started eq healthy outputs hi' served status failed =>
    rw [eq] at hm
    rcases List.mem_append.1 hm with h1 | h1
    · rcases mem_snoc_cases h1 with h2 | h2
      · have hh := healthy _ h2
        exact absurd rfl hh.1
      · cases h2
    · rw [List.mem_map] at h1
      obtain ⟨k, _, hk⟩ := h1
      cases hk

theorem Exit.triton_of_unreleased {w : World} {err : NvCV_Status} {tr : List Event}
    (h : Exit w err tr) {i : Nat} {a : Option Nat} (hm : Event.deallocate i a ∈ tr)
    (hfail : w.deallocateState i ≠ NVCV_SUCCESS) :
    err = NVCV_SUCCESS ∧
    ∃ pre, tr = pre ++ [Event.deallocate i a] ∧ ∀ e ∈ pre, Healthy w e := by
  cases h with
  | unreadable i' hi closed before opens status =>
    have := opens _ hm
    simp [Event.opening] at this
  | unwritable i' hi closed before source opens status =>
    have := opens _ hm
    simp [Event.opening] at this
  | noInput empty silent status =>
    rw [silent] at hm
    cases hm
  | noFirstFrame nonempty opened first pre eq opens status =>
    rw [eq] at hm
    rcases mem_snoc_cases hm with h1 | h1
    · have := opens _ h1
      simp [Event.opening] at this
    · cases h1
  | setupFailed started pre eq opens status =>
    rw [eq] at hm
    rcases mem_snoc_cases hm with h1 | h1
    · have := opens _ h1
      simp [Event.opening] at this
    · cases h1
  | rejected i' pre started eq quiet healthy live refused status =>
    rw [eq] at hm
    rcases mem_snoc_cases hm with h1 | h1
    · have hh := healthy _ h1
      exact absurd hh hfail
    · cases h1
  | drained j' started healthy outputs status =>
    have hh := healthy _ hm
    exact absurd hh hfail
  | unreleased j' i' h' pre started eq healthy outputs refused status =>
    rw [eq] at hm
    rcases mem_snoc_cases hm with h1 | h1
    · exact absurd (healthy _ h1) hfail
    · cases h1
      exact ⟨status, pre, eq, healthy⟩
  | mismatch j' i' pre started eq healthy outputs real status =>
    rw [eq] at hm
    rcases mem_snoc_cases hm with h1 | h1
    · have hh := healthy _ h1
      exact absurd hh hfail
    · cases h1
  | stalled j' started healthy outputs status =>
    have hh := healthy _ hm
    exact absurd hh hfail
  | engine j' n' st' idx' pre started eq healthy outputs status =>
    rw [eq] at hm
    rcases mem_snoc_cases hm with h1 | h1
    · have hh := healthy _ h1
      exact absurd hh hfail
    · cases h1
  | undelivered j' n' st' idx' i' pre started eq healthy outputs hi' served status failed =>
    rw [eq] at hm
    rcases List.mem_append.1 hm with h1 | h1
    · rcases mem_snoc_cases h1 with h2 | h2
      · have hh := healthy _ h2
        exact absurd hh hfail
      · cases h2
    · rw [List.mem_map] at h1
      obtain ⟨k, _, hk⟩ := h1
      cases hk

theorem Exit.triton_alloc_live {w : World} {err : NvCV_Status} {tr : List Event}
    (h : Exit w err tr) {i : Nat} {a : Option Nat} (hm : Event.allocate i a ∈ tr) :
    0 < streamLength w i := by
  cases h with
  | unreadable i' hi closed before opens status =>
    have := opens _ hm
    simp [Event.opening] at this
  | unwritable i' hi closed before source opens status =>
    have := opens _ hm
    simp [Event.opening] at this
  | noInput empty silent status =>
    rw [silent] at hm
    cases hm
  | noFirstFrame nonempty opened first pre eq opens status =>
    rw [eq] at hm
    rcases mem_snoc_cases hm with h1 | h1
    · have := opens _ h1
      simp [Event.opening] at this
    · cases h1
  | setupFailed started pre eq opens status =>
    rw [eq] at hm
    rcases mem_snoc_cases hm with h1 | h1
    · have := opens _ h1
      simp [Event.opening] at this
    · cases h1
  | rejected i' pre started eq quiet healthy live refused status =>
    rw [eq] at hm
    rcases mem_snoc_cases hm with h1 | h1
    · exact (healthy _ h1).2
    · cases h1
      exact live
  | drained j' started healthy outputs status =>
    have hh := healthy _ hm
    exact hh.2
  | unreleased j' i' h' pre started eq healthy outputs refused status =>
    rw [eq] at hm
    rcases mem_snoc_cases hm with h1 | h1
    · have hh := healthy _ h1
      exact hh.2
    · cases h1
  | mismatch j' i' pre started eq healthy outputs real status =>
    rw [eq] at hm
    rcases mem_snoc_cases hm with h1 | h1
    · have hh := healthy _ h1
      exact hh.2
    · cases h1
  | stalled j' started healthy outputs status =>
    have hh := healthy _ hm
    exact hh.2
  | engine j' n' st' idx' pre started eq healthy outputs status =>
    rw [eq] at hm
    rcases mem_snoc_cases hm with h1 | h1
    · have hh := healthy _ h1
      exact hh.2
    · cases h1
  | undelivered j' n' st' idx' i' pre started eq healthy outputs hi' served status failed =>
    rw [eq] at hm
    rcases List.mem_append.1 hm with h1 | h1
    · rcases mem_snoc_cases h1 with h2 | h2
      · have hh := healthy _ h2
        exact hh.2
      · cases h2
    · rw [List.mem_map] at h1
      obtain ⟨k, _, hk⟩ := h1
      cases hk

theorem Exit.triton_pull_live {w : World} {err : NvCV_Status} {tr : List Event}
    (h : Exit w err tr) {i p : Nat} (hm : Event.pull i (some p) ∈ tr) :
    p < streamLength w i := by
  cases h with
  | unreadable i' hi closed before opens status =>
    have := opens _ hm
    simp [Event.opening] at this
  | unwritable i' hi closed before source opens status =>
    have := opens _ hm
    simp [Event.opening] at this
  | noInput empty silent status =>
    rw [silent] at hm
    cases hm
  | noFirstFrame nonempty opened first pre eq opens status =>
    rw [eq] at hm
    rcases mem_snoc_cases hm with h1 | h1
    · have := opens _ h1
      simp [Event.opening] at this
    · cases h1
  | setupFailed started pre eq opens status =>
    rw [eq] at hm
    rcases mem_snoc_cases hm with h1 | h1
    · have := opens _ h1
      simp [Event.opening] at this
    · cases h1
      exact started.first
  | rejected i' pre started eq quiet healthy live refused status =>
    rw [eq] at hm
    rcases mem_snoc_cases hm with h1 | h1
    · have hh := healthy _ h1
      exact hh
    · cases h1
  | drained j' started healthy outputs status =>
    have hh := healthy _ hm
    exact hh
  | unreleased j' i' h' pre started eq healthy outputs refused status =>
    rw [eq] at hm
    rcases mem_snoc_cases hm with h1 | h1
    · have hh := healthy _ h1
      exact hh
    · cases h1
  | mismatch j' i' pre started eq healthy outputs real status =>
    rw [eq] at hm
    rcases mem_snoc_cases hm with h1 | h1
    · have hh := healthy _ h1
      exact hh
    · cases h1
  | stalled j' started healthy outputs status =>
    have hh := healthy _ hm
    exact hh
  | engine j' n' st' idx' pre started eq healthy outputs status =>
    rw [eq] at hm
    rcases mem_snoc_cases hm with h1 | h1
    · have hh := healthy _ h1
      exact hh
    · cases h1
  | undelivered j' n' st' idx' i' pre started eq healthy outputs hi' served status failed =>
    rw [eq] at hm
    rcases List.mem_append.1 hm with h1 | h1
    · rcases mem_snoc_cases h1 with h2 | h2
      · have hh := healthy _ h2
        exact hh
      · cases h2
    · rw [List.mem_map] at h1
      obtain ⟨k, _, hk⟩ := h1
      cases hk

theorem Exit.triton_of_undelivered {w : World} {err : NvCV_Status} {tr : List Event}
    (h : Exit w err tr) {j n i : Nat} {st : List (Option Nat)} {idx : List Nat}
    (hm : Event.run j n st idx NVCV_SUCCESS ∈ tr) (hi : i < n)
    (hfail : w.transferFromStatus j (idx.getD i 0) ≠ NVCV_SUCCESS)
    (hfirst : ∀ k, k < i → w.transferFromStatus j (idx.getD k 0) = NVCV_SUCCESS) :
    err = w.transferFromStatus j (idx.getD i 0) ∧
    ∃ pre, tr = pre ++ [Event.run j n st idx NVCV_SUCCESS] ++
        (List.range i).map (fun k => Event.write j (idx.getD k 0) (idx.getD k 0)) ∧
      (∀ e ∈ pre, Healthy w e) ∧ ∀ e ∈ pre, ∀ c, e.output = some c → c < j := by
  have hbad : ¬ Healthy w (Event.run j n st idx NVCV_SUCCESS) := fun hh => hfail (hh.2 i hi)
  cases h with
  | unreadable i' hi closed before opens status =>
    have := opens _ hm
    simp [Event.opening] at this
  | unwritable i' hi closed before source opens status =>
    have := opens _ hm
    simp [Event.opening] at this
  | noInput empty silent status =>
    rw [silent] at hm
    cases hm
  | noFirstFrame nonempty opened first pre eq opens status =>
    rw [eq] at hm
    rcases mem_snoc_cases hm with h1 | h1
    · have := opens _ h1
      simp [Event.opening] at this
    · cases h1
  | setupFailed started pre eq opens status =>
    rw [eq] at hm
    rcases mem_snoc_cases hm with h1 | h1
    · have := opens _ h1
      simp [Event.opening] at this
    · cases h1
  | rejected i' pre started eq quiet healthy live refused status =>
    rw [eq] at hm
    rcases mem_snoc_cases hm with h1 | h1
    · have hh := healthy _ h1
      exact absurd hh hbad
    · cases h1
  | drained j' started healthy outputs status =>
    have hh := healthy _ hm
    exact absurd hh hbad
  | unreleased j' i' h' pre started eq healthy outputs refused status =>
    rw [eq] at hm
    rcases mem_snoc_cases hm with h1 | h1
    · have hh := healthy _ h1
      exact absurd hh hbad
    · cases h1
  | mismatch j' i' pre started eq healthy outputs real status =>
    rw [eq] at hm
    rcases mem_snoc_cases hm with h1 | h1
    · have hh := healthy _ h1
      exact absurd hh hbad
    · cases h1
  | stalled j' started healthy outputs status =>
    have hh := healthy _ hm
    exact absurd hh hbad
  | engine j' n' st' idx' pre started eq healthy outputs status =>
    rw [eq] at hm
    rcases mem_snoc_cases hm with h1 | h1
    · exact absurd (healthy _ h1) hbad
    · cases h1
      exact absurd rfl status
  | undelivered j' n' st' idx' i' pre started eq healthy outputs hi' served status failed =>
    have hm' := hm
    rw [eq] at hm'
    rcases List.mem_append.1 hm' with h1 | h1
    · rcases mem_snoc_cases h1 with h2 | h2
      · exact absurd (healthy _ h2) hbad
      · cases h2
        have hii : i = i' := by
          rcases Nat.lt_trichotomy i i' with h3 | h3 | h3
          · exact absurd (served i h3) hfail
          · exact h3
          · exact absurd (hfirst i' h3) (status ▸ failed)
        subst hii
        exact ⟨status, pre, eq, healthy, outputs⟩
    · rw [List.mem_map] at h1
      obtain ⟨k, _, hk⟩ := h1
      cases hk

theorem Exit.triton_unstarted {w : World} {err : NvCV_Status} {tr : List Event}
    (h : Exit w err tr) (hne : w.videos ≠ [])
    (hsinks : ∀ i, i < w.videos.length → w.sinkOpens i = true)
    (hbad : (∃ i, i < w.videos.length ∧ w.sourceOpens i = false) ∨ streamLength w 0 = 0) :
    err = NVCV_ERR_READ ∧ ∀ e ∈ tr, e.opening = true ∨ e = Event.pull 0 none := by
  have hno : ¬ Started w := by
    intro hs
    rcases hbad with ⟨i, hi, hc⟩ | h0
    · rw [hs.sources i hi] at hc
      cases hc
    · have := hs.first
      omega
  cases h with
  | unreadable i' hi closed before opens status =>
    exact ⟨status, fun e he => Or.inl (opens e he)⟩
  | unwritable i' hi closed before source opens status =>
    rw [hsinks i' hi] at closed
    cases closed
  | noInput empty silent status => exact absurd empty hne
  | noFirstFrame nonempty opened first pre eq opens status =>
    refine ⟨status, fun e he => ?_⟩
    rw [eq] at he
    rcases mem_snoc_cases he with h1 | h1
    · exact Or.inl (opens e h1)
    · exact Or.inr h1
  | setupFailed started pre eq opens status => exact absurd started hno
  | rejected i' pre started eq quiet healthy live refused status => exact absurd started hno
  | drained j' started healthy outputs status => exact absurd started hno
  | unreleased j' i' h' pre started eq healthy outputs refused status =>
    exact absurd started hno
  | mismatch j' i' pre started eq healthy outputs real status => exact absurd started hno
  | stalled j' started healthy outputs status => exact absurd started hno
  | engine j' n' st' idx' pre started eq healthy outputs status => exact absurd started hno
  | undelivered j' n' st' idx' i' pre started eq healthy outputs hi' served status failed =>
    exact absurd started hno

end Triton

theorem closing_is_release {arr : List (Option Nat)} {e : Event} (h : e ∈ Local.closing arr) :
    ∃ i a, e = Event.deallocate i a := by
  unfold Local.closing at h
  rw [List.mem_map] at h
  obtain ⟨k, _, hk⟩ := h
  exact ⟨k, _, hk.symm⟩

theorem closing_output {arr : List (Option Nat)} {e : Event} (h : e ∈ Local.closing arr) :
    e.output = none := by
  obtain ⟨i, a, rfl⟩ := closing_is_release h
  rfl

theorem dispatched_eq_nil {tr : List Event} (h : ∀ e ∈ tr, e.output = none) :
    dispatched tr = [] := by
  induction tr with
  | nil => rfl
  | cons a t ih =>
    have ha := h a (List.mem_cons_self _ _)
    have ht := ih (fun e he => h e (List.mem_cons_of_mem _ he))
    cases a <;> simp [Event.output] at ha <;> simpa [dispatched] using ht

theorem allocations_eq_nil {tr : List Event} (h : ∀ e ∈ tr, ∀ i a, e ≠ Event.allocate i a) :
    allocations tr = [] := by
  unfold allocations
  rw [List.filterMap_eq_nil_iff]
  intro e he
  cases e <;> first | rfl | exact absurd rfl (h _ he _ _)

theorem Local.closing_nil_of_no_allocation {w : World} {s : Local.State} (hd : Local.Done w s)
    (h : allocations s.trace = []) : Local.closing s.arrayOfStates = [] := by
  have hlen : s.arrayOfStates.length = 0 := by
    rcases hd.tail.alloc.allocs with h1 | h1
    · rw [h] at h1
      have := congrArg List.length h1
      simpa using this.symm
    · rw [h] at h1
      have := congrArg List.length h1
      simp at this
  unfold Local.closing
  rw [hlen]
  rfl

theorem unstarted_quiet {tr : List Event}
    (h : ∀ e ∈ tr, e.opening = true ∨ e = Event.pull 0 none) :
    allocations tr = [] ∧ dispatched tr = [] := by
  constructor
  · apply allocations_eq_nil
    intro e he i a hea
    subst hea
    rcases h _ he with h1 | h1
    · simp [Event.opening] at h1
    · cases h1
  · apply dispatched_eq_nil
    intro e he
    rcases h _ he with h1 | h1
    · exact Event.output_of_early (Event.early_of_opening h1)
    · rw [h1]
      rfl

theorem Local.mem_final {s : Local.State} {e : Event} (h : e ∈ (Local.cleanup s).trace)
    (hne : ∀ i a, e ≠ Event.deallocate i a) : e ∈ s.trace := by
  rw [Local.local_cleanup_trace] at h
  rcases List.mem_append.1 h with h1 | h1
  · exact h1
  · obtain ⟨i, a, hia⟩ := closing_is_release h1
    exact absurd hia (hne i a)

/-- Claim C12: called with an empty list of sources, `BatchProcess` of both drivers returns
`NVCV_ERR_MISSINGINPUT` having made no call at all: no reader or writer is opened, no
frame is read, no state is allocated, no batch is dispatched. -/
theorem empty_source_list_is_missing_input (w : World) (h : w.videos = []) :
    (∃ r, Local.BatchProcess w = some r ∧ r.err = NVCV_ERR_MISSINGINPUT ∧ r.trace = []) ∧
    (∃ r, Triton.BatchProcess w = some r ∧ r.err = NVCV_ERR_MISSINGINPUT ∧ r.trace = []) := by
  constructor
  · refine ⟨Local.cleanup { Local.initial w with err := NVCV_ERR_MISSINGINPUT }, ?_, rfl, ?_⟩
    · simp [Local.BatchProcess, Local.body, Local.setup, forLoop, h]
    · simp [Local.cleanup, Local.initial]
  · refine ⟨Triton.cleanup { Triton.initial w with err := NVCV_ERR_MISSINGINPUT }, ?_, rfl, ?_⟩
    · simp [Triton.BatchProcess, Triton.body, Triton.setup, forLoop, h]
    · simp [Triton.cleanup, Triton.initial]

/-- Claim C12 at the world without any video in which every call would succeed. -/
theorem empty_source_list_is_missing_input_witness :
    (World.ideal []).videos = [] ∧
    ((∃ r, Local.BatchProcess (World.ideal []) = some r ∧ r.err = NVCV_ERR_MISSINGINPUT ∧
        r.trace = []) ∧
     (∃ r, Triton.BatchProcess (World.ideal []) = some r ∧ r.err = NVCV_ERR_MISSINGINPUT ∧
        r.trace = [])) :=
  ⟨rfl, empty_source_list_is_missing_input (World.ideal []) rfl⟩

/-- Claim C13: with at least one stream and every writer opening, if some source does not
open or the first stream has no first frame, `BatchProcess` of both drivers returns
`NVCV_ERR_READ` and the only calls it made are opens of readers and writers and the failed
read of the first frame: no state is allocated and no batch is dispatched, whatever the
streams hold and whatever the other calls would return. -/
theorem unreadable_source_is_read_error (w : World) (hne : w.videos ≠ [])
    (hsinks : ∀ i, i < w.videos.length → w.sinkOpens i = true)
    (hbad : (∃ i, i < w.videos.length ∧ w.sourceOpens i = false) ∨ streamLength w 0 = 0) :
    (∃ r, Local.BatchProcess w = some r ∧ r.err = NVCV_ERR_READ ∧
      (∀ e ∈ r.trace, e.opening = true ∨ e = Event.pull 0 none) ∧
      allocations r.trace = [] ∧ dispatched r.trace = []) ∧
    (∃ r, Triton.BatchProcess w = some r ∧ r.err = NVCV_ERR_READ ∧
      (∀ e ∈ r.trace, e.opening = true ∨ e = Event.pull 0 none) ∧
      allocations r.trace = [] ∧ dispatched r.trace = []) := by
  constructor
  · obtain ⟨r, hr⟩ := Local.local_BatchProcess_total w
    obtain ⟨s, rfl, hx, hd⟩ := Local.local_exit hr
    obtain ⟨herr, hshape⟩ := hx.local_unstarted hne hsinks hbad
    have hq := unstarted_quiet hshape
    have htr : (Local.cleanup s).trace = s.trace := by
      rw [Local.local_cleanup_trace, Local.closing_nil_of_no_allocation hd hq.1,
        List.append_nil]
    refine ⟨_, hr, herr, ?_, ?_, ?_⟩
    · rw [htr]; exact hshape
    · rw [htr]; exact hq.1
    · rw [htr]; exact hq.2
  · obtain ⟨r, hr⟩ := Triton.triton_BatchProcess_total w
    have hx := Triton.triton_exit hr
    obtain ⟨herr, hshape⟩ := hx.triton_unstarted hne hsinks hbad
    have hq := unstarted_quiet hshape
    exact ⟨r, hr, herr, hshape, hq.1, hq.2⟩

/-- Claim C13 at two streams of one frame whose second reader does not open: both drivers
return `NVCV_ERR_READ` after opening the first reader and writer and trying the second
reader. -/
theorem unreadable_source_is_read_error_witness :
    secondSourceClosed.videos ≠ [] ∧
    (∀ i, i < secondSourceClosed.videos.length → secondSourceClosed.sinkOpens i = true) ∧
    ((∃ i, i < secondSourceClosed.videos.length ∧ secondSourceClosed.sourceOpens i = false) ∨
      streamLength secondSourceClosed 0 = 0) ∧
    (Local.BatchProcess secondSourceClosed).map (fun r => (r.err, r.trace)) =
      some (NVCV_ERR_READ, [Event.openSource 0 true, Event.openSink 0 true,
        Event.openSource 1 false]) ∧
    (Triton.BatchProcess secondSourceClosed).map (fun r => (r.err, r.trace)) =
      some (NVCV_ERR_READ, [Event.openSource 0 true, Event.openSink 0 true,
        Event.openSource 1 false]) ∧
    ((∃ r, Local.BatchProcess secondSourceClosed = some r ∧ r.err = NVCV_ERR_READ ∧
      (∀ e ∈ r.trace, e.opening = true ∨ e = Event.pull 0 none) ∧
      allocations r.trace = [] ∧ dispatched r.trace = []) ∧
    (∃ r, Triton.BatchProcess secondSourceClosed = some r ∧ r.err = NVCV_ERR_READ ∧
      (∀ e ∈ r.trace, e.opening = true ∨ e = Event.pull 0 none) ∧
      allocations r.trace = [] ∧ dispatched r.trace = [])) :=
  ⟨by decide, fun _ _ => rfl, Or.inl ⟨1, by decide, rfl⟩, rfl, rfl,
    unreadable_source_is_read_error secondSourceClosed (by decide) (fun _ _ => rfl)
      (Or.inl ⟨1, by decide, rfl⟩)⟩

/-- Claim C11: in both drivers, the step that batches a frame stops the run with
`NVCV_ERR_MISMATCH` when the frame at hand differs in width or height from the reference
size, recording the failed check; and when the size check of a frame of stream `i` fails
in cycle `j`, a frame of that stream differs in width or height from the first frame of
the first stream, `BatchProcess` returns `NVCV_ERR_MISMATCH`, every dispatch and every
sink write made before belongs to a cycle before `j`, and after the failing check no batch
is dispatched and nothing is written; moreover every frame that was put into a batch has
the width and height of the first frame of the first stream. -/
theorem mismatch_returns_error_without_dispatch (w : World) (j i : Nat) :
    (∀ (s : Local.State) (l p : Nat) (m : Mat),
      s.srcCaptures.getD (l % w.videos.length) none = some p →
      readFrame w (l % w.videos.length) p = some m →
      ¬ (m.width = s.srcWidth ∧ m.height = s.srcHeight) →
      ∃ t, Local.assembleStep w j l s = Flow.bail t ∧ t.err = NVCV_ERR_MISMATCH ∧
        t.trace = s.trace ++ [Event.pull (l % w.videos.length) (some p),
          Event.mismatch j (l % w.videos.length)]) ∧
    (∀ (s t : Triton.State) (m : Mat), Triton.lookahead w i s = Flow.next t →
      t.frames.getD i none = some m →
      ¬ (m.width = t.src_width ∧ m.height = t.src_height) →
      ∃ u, Triton.assembleStep w j i s = Flow.bail u ∧ u.err = NVCV_ERR_MISMATCH ∧
        u.trace = t.trace ++ [Event.mismatch j i]) ∧
    (∀ r, Local.BatchProcess w = some r →
      (∀ c slot m, Event.transferTo c slot m ∈ r.trace → m.fits w) ∧
      (Event.mismatch j i ∈ r.trace →
        r.err = NVCV_ERR_MISMATCH ∧ (∃ p m, readFrame w i p = some m ∧ ¬ m.fits w) ∧
        ∃ pre post, r.trace = pre ++ Event.mismatch j i :: post ∧
          (∀ e ∈ pre, ∀ c, e.output = some c → c < j) ∧ ∀ e ∈ post, e.output = none)) ∧
    (∀ r, Triton.BatchProcess w = some r →
      (∀ c slot m, Event.transferTo c slot m ∈ r.trace → m.fits w) ∧
      (Event.mismatch j i ∈ r.trace →
        r.err = NVCV_ERR_MISMATCH ∧ (∃ p m, readFrame w i p = some m ∧ ¬ m.fits w) ∧
        ∃ pre post, r.trace = pre ++ Event.mismatch j i :: post ∧
          (∀ e ∈ pre, ∀ c, e.output = some c → c < j) ∧ ∀ e ∈ post, e.output = none)) := by
  refine ⟨?_, ?_, ?_, ?_⟩
  · intro s l p m hcap hread hsize
    refine ⟨{ s with srcCaptures := s.srcCaptures.set (l % w.videos.length) (some (p + 1)),
                     batchIndices := s.batchIndices.set s.activeVideoCount (l % w.videos.length),
                     batchOfStates := s.batchOfStates.set s.activeVideoCount
                       (s.arrayOfStates.getD (l % w.videos.length) none),
                     err := NVCV_ERR_MISMATCH,
                     trace := s.trace ++ [Event.pull (l % w.videos.length) (some p)] ++
                       [Event.mismatch j (l % w.videos.length)] }, ?_, rfl, ?_⟩
    · simp only [Local.assembleStep, hcap, hread, hsize, not_false_eq_true, if_true]
    · simp
  · intro s t m hlook hfr hsize
    refine ⟨{ t with batch_indices := t.batch_indices.set t.active_video_count i,
                     err := NVCV_ERR_MISMATCH,
                     trace := t.trace ++ [Event.mismatch j i] }, ?_, rfl, rfl⟩
    simp only [Triton.assembleStep, hlook, hfr, hsize, not_false_eq_true, if_true]
  · intro r hr
    obtain ⟨s, rfl, hx, hd⟩ := Local.local_exit hr
    constructor
    · intro c slot m hm
      exact (hx.local_fits (Local.mem_final hm (fun _ _ hne => by cases hne))).1
    · intro hm
      obtain ⟨herr, hreal, pre, heq, -, hout⟩ :=
        hx.local_of_mismatch (Local.mem_final hm (fun _ _ hne => by cases hne))
      refine ⟨herr, hreal, pre, Local.closing s.arrayOfStates, ?_, hout,
        fun e he => closing_output he⟩
      rw [Local.local_cleanup_trace, heq]
      simp
  · intro r hr
    have hx := Triton.triton_exit hr
    constructor
    · intro c slot m hm
      exact (hx.triton_fits hm).1
    · intro hm
      obtain ⟨herr, hreal, pre, heq, -, hout⟩ := hx.triton_of_mismatch hm
      refine ⟨herr, hreal, pre, [], ?_, hout, fun e he => by cases he⟩
      rw [heq]

set_option maxRecDepth 100000 in

/-- Claim C11 at two streams of three frames, the second frame of the second stream being
of another size: both drivers dispatch the first cycle only and return
`NVCV_ERR_MISMATCH` from the second. -/
theorem mismatch_returns_error_without_dispatch_witness :
    (∃ r, Local.BatchProcess secondFrameDiffers = some r ∧
      Event.mismatch 1 1 ∈ r.trace ∧ r.err = NVCV_ERR_MISMATCH ∧
      dispatched r.trace = [[0, 1]]) ∧
    (∃ r, Triton.BatchProcess secondFrameDiffers = some r ∧
      Event.mismatch 1 1 ∈ r.trace ∧ r.err = NVCV_ERR_MISMATCH ∧
      dispatched r.trace = [[0, 1]]) := by
  have h := mismatch_returns_error_without_dispatch secondFrameDiffers 1 1
  constructor
  · obtain ⟨r, hr⟩ := Local.local_BatchProcess_total secondFrameDiffers
    have hev : (Local.BatchProcess secondFrameDiffers).map
        (fun r => (decide (Event.mismatch 1 1 ∈ r.trace), dispatched r.trace)) =
        some (true, [[0, 1]]) := by decide
    rw [hr] at hev
    simp only [Option.map_some', Option.some.injEq, Prod.mk.injEq, decide_eq_true_eq] at hev
    exact ⟨r, hr, hev.1, ((h.2.2.1 r hr).2 hev.1).1, hev.2⟩
  · obtain ⟨r, hr⟩ := Triton.triton_BatchProcess_total secondFrameDiffers
    have hev : (Triton.BatchProcess secondFrameDiffers).map
        (fun r => (decide (Event.mismatch 1 1 ∈ r.trace), dispatched r.trace)) =
        some (true, [[0, 1]]) := by decide
    rw [hr] at hev
    simp only [Option.map_some', Option.some.injEq, Prod.mk.injEq, decide_eq_true_eq] at hev
    exact ⟨r, hr, hev.1, ((h.2.2.2 r hr).2 hev.1).1, hev.2⟩

/-- Claim C14: in the Triton driver, a stream that holds no frame is closed at its first
read, which finds no frame: the step reading first frames leaves its capture closed after
that one read, without any allocation; and in the whole run, whatever the calls return, no
state is allocated for it, no deallocation is called for it, no frame is read from it, it
is in no dispatched batch and no frame of it is put into a batch. -/
theorem triton_empty_stream_gets_no_state (w : World) (x : Nat)
    (hx : streamLength w x = 0) :
    (∀ s p, s.src_captures.getD x none = some p → x < s.src_captures.length →
      ∃ t, Triton.initStep w x s = Flow.next t ∧ t.src_captures.getD x none = none ∧
        t.trace = s.trace ++ [Event.pull x none] ∧ t.m_arrayOfStates = s.m_arrayOfStates) ∧
    (∀ r, Triton.BatchProcess w = some r →
      (∀ a, Event.allocate x a ∉ r.trace) ∧
      (∀ a, Event.deallocate x a ∉ r.trace) ∧
      (∀ p, Event.pull x (some p) ∉ r.trace) ∧
      (∀ j n st idx rs, Event.run j n st idx rs ∈ r.trace → x ∉ idx.take n) ∧
      (∀ j slot m, Event.transferTo j slot m ∈ r.trace → m.stream ≠ x)) := by
  constructor
  · intro s p hcap hlen
    have hread : readFrame w x p = none := readFrame_eq_none (by omega)
    refine ⟨{ s with frames := s.frames.set x none,
                     src_captures := s.src_captures.set x none,
                     trace := s.trace ++ [Event.pull x none] }, ?_, ?_, rfl, rfl⟩
    · simp only [Triton.initStep, hcap, hread]
    · exact getD_set_eq _ _ _ _ hlen
  · intro r hr
    have hexit := Triton.triton_exit hr
    obtain ⟨s, hs, rfl⟩ := Triton.triton_BatchProcess_eq hr
    have hd := Triton.triton_body_done hs
    have hs1 : (Triton.cleanup s).trace = s.trace := rfl
    rw [hs1] at hexit ⊢
    have hno : ∀ a, Event.allocate x a ∉ s.trace := by
      intro a ha
      have := hexit.triton_alloc_live ha
      omega
    refine ⟨hno, ?_, ?_, ?_, ?_⟩
    · intro a ha
      obtain ⟨pre, post, heq⟩ := List.append_of_mem ha
      obtain ⟨h, -, hmem⟩ := hd.justified pre post x a heq
      exact hno (some h) (by rw [heq]; exact List.mem_append_left _ hmem)
    · intro p hp
      have := hexit.triton_pull_live hp
      omega
    · intro j n st idx rs hrun hmem
      obtain ⟨j0, hsealed⟩ := hd.sealed
      have g := (hsealed.runs _ _ _ _ _ hrun).2
      obtain ⟨k, hk, hkx⟩ := (mem_take_iff_getD (d := 0) g.len_le).1 hmem
      obtain ⟨h, -, hal⟩ := g.handle k hk
      rw [hkx] at hal
      exact hno _ hal
    · intro j slot m hm hst
      have hreal := (hexit.triton_fits hm).2
      have := (readFrame_some_lt hreal).1
      rw [hst] at this
      omega

/-- Claim C14 at three streams of 2, 0 and 3 frames, every call succeeding: the second
stream gets no allocation and is in no batch, and the only call made for it besides the
opens is the one read that finds no frame. -/
theorem triton_empty_stream_gets_no_state_witness :
    streamLength (World.ideal emptyMiddle) 1 = 0 ∧
    (Triton.BatchProcess (World.ideal emptyMiddle)).map
      (fun r => (allocations r.trace, releases r.trace, dispatched r.trace,
        r.trace.count (Event.pull 1 none))) =
      some ([(0, some 0), (2, some 1)], [(0, some 0), (2, some 1)], [[0, 2], [0, 2], [2]], 1) ∧
    (∀ r, Triton.BatchProcess (World.ideal emptyMiddle) = some r →
      (∀ a, Event.allocate 1 a ∉ r.trace) ∧
      (∀ a, Event.deallocate 1 a ∉ r.trace) ∧
      (∀ p, Event.pull 1 (some p) ∉ r.trace) ∧
      (∀ j n st idx rs, Event.run j n st idx rs ∈ r.trace → 1 ∉ idx.take n) ∧
      (∀ j slot m, Event.transferTo j slot m ∈ r.trace → m.stream ≠ 1)) :=
  ⟨rfl, by decide, (triton_empty_stream_gets_no_state (World.ideal emptyMiddle) 1 rfl).2⟩

/-- Claim C15, at an input it allows: with two streams of 1 and 0 frames, every call
succeeding, the local driver allocates a state for the second stream, which never produces
a frame, and calls the deallocation for it at the end. -/
theorem local_allocates_state_for_empty_stream :
    streamLength (World.ideal emptySecond) 1 = 0 ∧
    (Local.BatchProcess (World.ideal emptySecond)).map
      (fun r => (allocations r.trace, releases r.trace)) =
      some ([(0, some 0), (1, some 1)], [(0, some 0), (1, some 1)]) ∧
    ¬ (∀ r, Local.BatchProcess (World.ideal emptySecond) = some r →
        ∀ a, Event.allocate 1 a ∉ r.trace) := by
  have h : (Local.BatchProcess (World.ideal emptySecond)).map
      (fun r => decide (Event.allocate 1 (some 1) ∈ r.trace)) = some true := by decide
  refine ⟨rfl, rfl, fun hall => ?_⟩
  obtain ⟨r, hr⟩ := Local.local_BatchProcess_total (World.ideal emptySecond)
  rw [hr] at h
  simp only [Option.map_some', Option.some.injEq, decide_eq_true_eq] at h
  exact hall r hr _ h

/-- Claim C15, amended: the local driver allocates the states stream by stream before the
first cycle, whatever the streams hold: the allocation calls of a run are those of the
streams `0` to `k - 1`, all successful, possibly followed by a rejected one for stream
`k`; exactly the states of the streams `0` to `k - 1` get a deallocation call each, after
the label `bail`; and unless the run ended during the set-up, `k` is the number of
streams. -/
theorem local_allocates_state_for_every_stream (w : World) (r : Local.State)
    (hr : Local.BatchProcess w = some r) :
    ∃ k, (allocations r.trace = (List.range k).map (fun i => (i, some i)) ∨
        allocations r.trace = (List.range k).map (fun i => (i, some i)) ++ [(k, none)]) ∧
      releases r.trace = (List.range k).map (fun i => (i, some i)) ∧
      ((∀ e ∈ r.trace, e.early = true ∨ ∃ i a, e = Event.deallocate i a) ∨
        k = w.videos.length) := by
  obtain ⟨s, rfl, -, hd⟩ := Local.local_exit hr
  refine ⟨s.arrayOfStates.length, ?_, Local.final_releases hd, ?_⟩
  · rw [Local.final_allocations hd]
    exact hd.tail.alloc.allocs
  · rcases hd.tail.reached with h1 | h1
    · left
      intro e he
      rw [Local.local_cleanup_trace] at he
      rcases List.mem_append.1 he with h2 | h2
      · exact Or.inl (h1 e h2)
      · exact Or.inr (closing_is_release h2)
    · exact Or.inr h1.1

/-- The amended claim C15 at two streams of 1 and 0 frames, every call succeeding: both
streams are given a state and both states are released at the end. -/
theorem local_allocates_state_for_every_stream_witness :
    ∃ r, Local.BatchProcess (World.ideal emptySecond) = some r ∧
      allocations r.trace = [(0, some 0), (1, some 1)] ∧
      releases r.trace = [(0, some 0), (1, some 1)] ∧
      ∃ k, (allocations r.trace = (List.range k).map (fun i => (i, some i)) ∨
          allocations r.trace = (List.range k).map (fun i => (i, some i)) ++ [(k, none)]) ∧
        releases r.trace = (List.range k).map (fun i => (i, some i)) ∧
        ((∀ e ∈ r.trace, e.early = true ∨ ∃ i a, e = Event.deallocate i a) ∨
          k = (World.ideal emptySecond).videos.length) := by
  obtain ⟨r, hr⟩ := Local.local_BatchProcess_total (World.ideal emptySecond)
  have h : (Local.BatchProcess (World.ideal emptySecond)).map
      (fun r => (allocations r.trace, releases r.trace)) =
      some ([(0, some 0), (1, some 1)], [(0, some 0), (1, some 1)]) := rfl
  rw [hr] at h
  simp only [Option.map_some', Option.some.injEq, Prod.mk.injEq] at h
  exact ⟨r, hr, h.1, h.2,
    local_allocates_state_for_every_stream (World.ideal emptySecond) r hr⟩

theorem early_or_release_quiet {tr : List Event}
    (h : ∀ e ∈ tr, e.early = true ∨ ∃ i a, e = Event.deallocate i a) : dispatched tr = [] := by
  apply dispatched_eq_nil
  intro e he
  rcases h e he with h1 | ⟨i, a, rfl⟩
  · exact Event.output_of_early h1
  · rfl

/-- Claim C16, at an input it allows: with two streams of two frames and the engine
rejecting the state of the second stream only, neither driver dispatches or writes any
frame of the first stream: the local driver stops at the rejected call and releases the
state of the first stream, the Triton driver stops at the rejected call. -/
theorem rejected_state_stops_every_stream :
    streamLength rejectsSecond 0 = 2 ∧
    (Local.BatchProcess rejectsSecond).map (fun r => r.trace) =
      some [Event.openSource 0 true, Event.openSink 0 true, Event.openSource 1 true,
        Event.openSink 1 true, Event.pull 0 (some 0), Event.allocate 0 (some 0),
        Event.allocate 1 none, Event.deallocate 0 (some 0)] ∧
    (Triton.BatchProcess rejectsSecond).map (fun r => r.trace) =
      some [Event.openSource 0 true, Event.openSink 0 true, Event.openSource 1 true,
        Event.openSink 1 true, Event.pull 0 (some 0), Event.pull 0 (some 0),
        Event.allocate 0 (some 0), Event.pull 1 (some 0), Event.allocate 1 none] ∧
    (Local.BatchProcess rejectsSecond).map (fun r => dispatched r.trace) = some [] ∧
    (Triton.BatchProcess rejectsSecond).map (fun r => dispatched r.trace) = some [] :=
  ⟨rfl, rfl, rfl, rfl, rfl⟩

/-- Claim C16, amended: in both drivers, when the engine rejects the state allocation of a
stream, the run ends at that call, before the first cycle: the calls made are opens,
reads and allocations only, followed in the local driver by the deallocation of the states
already allocated, so that no frame of any stream is dispatched or written; the local
driver returns the status of the rejected call. -/
theorem rejected_state_allocation_ends_the_run (w : World) (i : Nat) :
    (∀ r, Local.BatchProcess w = some r → Event.allocate i none ∈ r.trace →
      r.err = w.allocateState i ∧ r.err ≠ NVCV_SUCCESS ∧
      (∀ e ∈ r.trace, e.early = true ∨ ∃ x a, e = Event.deallocate x a) ∧
      dispatched r.trace = []) ∧
    (∀ r, Triton.BatchProcess w = some r → Event.allocate i none ∈ r.trace →
      (∃ pre, r.trace = pre ++ [Event.allocate i none]) ∧
      (∀ e ∈ r.trace, e.early = true) ∧ dispatched r.trace = []) := by
  constructor
  · intro r hr hm
    obtain ⟨s, rfl, hx, hd⟩ := Local.local_exit hr
    obtain ⟨hq, herr, hne⟩ :=
      hx.local_of_rejected (Local.mem_final hm (fun _ _ hne => by cases hne))
    have hshape : ∀ e ∈ (Local.cleanup s).trace,
        e.early = true ∨ ∃ x a, e = Event.deallocate x a := by
      intro e he
      rw [Local.local_cleanup_trace] at he
      rcases List.mem_append.1 he with h2 | h2
      · exact Or.inl (hq e h2)
      · exact Or.inr (closing_is_release h2)
    exact ⟨herr, hne, hshape, early_or_release_quiet hshape⟩
  · intro r hr hm
    have hx := Triton.triton_exit hr
    obtain ⟨-, -, -, pre, heq, hq, -⟩ := hx.triton_of_rejected hm
    have hshape : ∀ e ∈ r.trace, e.early = true := by
      rw [heq]
      exact hq.quiet_snoc _ rfl
    exact ⟨⟨pre, heq⟩, hshape, early_or_release_quiet (fun e he => Or.inl (hshape e he))⟩

/-- The amended claim C16 at two streams of two frames, the engine rejecting the state of
the second stream. -/
theorem rejected_state_allocation_ends_the_run_witness :
    (∃ r, Local.BatchProcess rejectsSecond = some r ∧ Event.allocate 1 none ∈ r.trace ∧
      r.err = NvCV_Status.other 1 ∧ dispatched r.trace = []) ∧
    (∃ r, Triton.BatchProcess rejectsSecond = some r ∧ Event.allocate 1 none ∈ r.trace ∧
      (∀ e ∈ r.trace, e.early = true) ∧ dispatched r.trace = []) := by
  have h := rejected_state_allocation_ends_the_run rejectsSecond 1
  constructor
  · obtain ⟨r, hr⟩ := Local.local_BatchProcess_total rejectsSecond
    have hev : (Local.BatchProcess rejectsSecond).map
        (fun r => decide (Event.allocate 1 none ∈ r.trace)) = some true := by decide
    rw [hr] at hev
    simp only [Option.map_some', Option.some.injEq, decide_eq_true_eq] at hev
    exact ⟨r, hr, hev, (h.1 r hr hev).1, (h.1 r hr hev).2.2.2⟩
  · obtain ⟨r, hr⟩ := Triton.triton_BatchProcess_total rejectsSecond
    have hev : (Triton.BatchProcess rejectsSecond).map
        (fun r => decide (Event.allocate 1 none ∈ r.trace)) = some true := by decide
    rw [hr] at hev
    simp only [Option.map_some', Option.some.injEq, decide_eq_true_eq] at hev
    exact ⟨r, hr, hev, (h.2 r hr hev).2.1, (h.2 r hr hev).2.2⟩

/-- Claim C17 fails on the code: when the engine rejects the state of a stream, or the
release of a state fails, the Triton driver tests the status in `BAIL_IF_ERR` without
storing it in `err`, so `BatchProcess` returns `NVCV_SUCCESS` although no frame of streams
of two frames was dispatched. -/
theorem triton_cut_short_returns_success :
    (Triton.BatchProcess rejectsSecond).map (fun r => (r.err, dispatched r.trace)) =
      some (NVCV_SUCCESS, []) ∧
    streamLength rejectsSecond 0 = 2 ∧ streamLength rejectsSecond 1 = 2 ∧
    (Triton.BatchProcess releaseFails).map (fun r => (r.err, dispatched r.trace)) =
      some (NVCV_SUCCESS, []) ∧
    streamLength releaseFails 0 = 1 ∧ streamLength releaseFails 1 = 2 :=
  ⟨rfl, rfl, rfl, rfl, rfl, rfl⟩

/-- Claim C18, at an input it allows: with streams of one and two frames and the release of
the state of the first stream failing, the Triton driver stops at the failing call in the
first cycle: the frames of that cycle, of either stream, and the second frame of the
second stream are neither dispatched nor written. -/
theorem triton_failed_release_aborts_the_loop :
    (Triton.BatchProcess releaseFails).map (fun r => r.trace) =
      some [Event.openSource 0 true, Event.openSink 0 true, Event.openSource 1 true,
        Event.openSink 1 true, Event.pull 0 (some 0), Event.pull 0 (some 0),
        Event.allocate 0 (some 0), Event.pull 1 (some 0), Event.allocate 1 (some 1),
        Event.pull 0 none, Event.deallocate 0 (some 0)] ∧
    (Triton.BatchProcess releaseFails).map (fun r => dispatched r.trace) = some [] ∧
    streamLength releaseFails 1 = 2 :=
  ⟨rfl, rfl, rfl⟩

/-- Claim C18, amended: in the Triton driver a failing state deallocation ends the run at
once: the failing call is the last call of the run, so nothing is put into a batch,
dispatched or written after it, and every deallocation called before it succeeded. -/
theorem triton_failed_release_ends_the_run (w : World) (r : Triton.State) (i : Nat)
    (a : Option Nat) (hr : Triton.BatchProcess w = some r)
    (hm : Event.deallocate i a ∈ r.trace) (hfail : w.deallocateState i ≠ NVCV_SUCCESS) :
    ∃ pre, r.trace = pre ++ [Event.deallocate i a] ∧
      ∀ x b, Event.deallocate x b ∈ pre → w.deallocateState x = NVCV_SUCCESS := by
  obtain ⟨-, pre, heq, hh⟩ := (Triton.triton_exit hr).triton_of_unreleased hm hfail
  exact ⟨pre, heq, fun x b hx => hh _ hx⟩

/-- The amended claim C18 at streams of one and two frames, the release of the state of the
first stream failing. -/
theorem triton_failed_release_ends_the_run_witness :
    ∃ r, Triton.BatchProcess releaseFails = some r ∧
      Event.deallocate 0 (some 0) ∈ r.trace ∧
      releaseFails.deallocateState 0 ≠ NVCV_SUCCESS ∧
      ∃ pre, r.trace = pre ++ [Event.deallocate 0 (some 0)] ∧
        ∀ x b, Event.deallocate x b ∈ pre → releaseFails.deallocateState x = NVCV_SUCCESS := by
  obtain ⟨r, hr⟩ := Triton.triton_BatchProcess_total releaseFails
  have hev : (Triton.BatchProcess releaseFails).map
      (fun r => decide (Event.deallocate 0 (some 0) ∈ r.trace)) = some true := by decide
  rw [hr] at hev
  simp only [Option.map_some', Option.some.injEq, decide_eq_true_eq] at hev
  exact ⟨r, hr, hev, by decide,
    triton_failed_release_ends_the_run releaseFails r 0 (some 0) hr hev (by decide)⟩

/-- Claim C19, at an input it allows: with two streams of two frames and the transfer of
the result of the second stream failing in the first cycle, both drivers return the status
of that transfer after one dispatch and one sink write: the second frame of the first
stream is never dispatched nor written. -/
theorem failed_delivery_stops_every_stream :
    streamLength deliveryFails 0 = 2 ∧
    (Local.BatchProcess deliveryFails).map
      (fun r => (r.err, r.trace.filter (fun e => decide (e.output ≠ none)))) =
      some (NvCV_Status.other 1,
        [Event.run 0 2 [some 0, some 1] [0, 1] NVCV_SUCCESS, Event.write 0 0 0]) ∧
    (Triton.BatchProcess deliveryFails).map
      (fun r => (r.err, r.trace.filter (fun e => decide (e.output ≠ none)))) =
      some (NvCV_Status.other 1,
        [Event.run 0 2 [some 0, some 1] [0, 1] NVCV_SUCCESS, Event.write 0 0 0]) := by
  refine ⟨rfl, ?_, ?_⟩ <;> decide

/-- Claim C19, amended: in both drivers, when after the dispatch of cycle `j` the transfer
of the result of slot `i` fails, those of the slots before it having succeeded, the run
ends there: `BatchProcess` returns the status of that transfer, the trace after the
dispatch holds the sink writes of the slots before `i` and then deallocations only (none
in the Triton driver), and every earlier dispatch or write belongs to a cycle before `j`;
so neither slot `i` nor a later slot of that batch is written and no later cycle is
served. In the Triton driver the transfer is addressed by the stream index recorded for
the slot. -/
theorem failed_delivery_ends_the_run (w : World) (j n i : Nat) (st : List (Option Nat))
    (idx : List Nat) (hi : i < n) :
    (∀ r, Local.BatchProcess w = some r → Event.run j n st idx NVCV_SUCCESS ∈ r.trace →
      w.transferFromStatus j i ≠ NVCV_SUCCESS →
      (∀ k, k < i → w.transferFromStatus j k = NVCV_SUCCESS) →
      r.err = w.transferFromStatus j i ∧
      ∃ pre post, r.trace = pre ++ [Event.run j n st idx NVCV_SUCCESS] ++
          (List.range i).map (fun k => Event.write j (idx.getD k 0) k) ++ post ∧
        (∀ e ∈ pre, ∀ c, e.output = some c → c < j) ∧
        ∀ e ∈ post, ∃ x a, e = Event.deallocate x a) ∧
    (∀ r, Triton.BatchProcess w = some r → Event.run j n st idx NVCV_SUCCESS ∈ r.trace →
      w.transferFromStatus j (idx.getD i 0) ≠ NVCV_SUCCESS →
      (∀ k, k < i → w.transferFromStatus j (idx.getD k 0) = NVCV_SUCCESS) →
      r.err = w.transferFromStatus j (idx.getD i 0) ∧
      ∃ pre, r.trace = pre ++ [Event.run j n st idx NVCV_SUCCESS] ++
          (List.range i).map (fun k => Event.write j (idx.getD k 0) (idx.getD k 0)) ∧
        ∀ e ∈ pre, ∀ c, e.output = some c → c < j) := by
  constructor
  · intro r hr hm hfail hfirst
    obtain ⟨s, rfl, hx, hd⟩ := Local.local_exit hr
    obtain ⟨herr, pre, heq, -, hout⟩ :=
      hx.local_of_undelivered (Local.mem_final hm (fun _ _ hne => by cases hne)) hi hfail hfirst
    refine ⟨herr, pre, Local.closing s.arrayOfStates, ?_, hout,
      fun e he => closing_is_release he⟩
    rw [Local.local_cleanup_trace, heq]
  · intro r hr hm hfail hfirst
    obtain ⟨herr, pre, heq, -, hout⟩ :=
      (Triton.triton_exit hr).triton_of_undelivered hm hi hfail hfirst
    exact ⟨herr, pre, heq, hout⟩

set_option maxRecDepth 100000 in

/-- The amended claim C19 at two streams of two frames, the transfer of the second result
of the first cycle failing. -/
theorem failed_delivery_ends_the_run_witness :
    (1 : Nat) < 2 ∧
    (∃ r, Local.BatchProcess deliveryFails = some r ∧
      Event.run 0 2 [some 0, some 1] [0, 1] NVCV_SUCCESS ∈ r.trace ∧
      r.err = NvCV_Status.other 1 ∧
      ∃ pre post, r.trace = pre ++ [Event.run 0 2 [some 0, some 1] [0, 1] NVCV_SUCCESS] ++
          [Event.write 0 0 0] ++ post ∧
        (∀ e ∈ pre, ∀ c, e.output = some c → c < 0) ∧
        ∀ e ∈ post, ∃ x a, e = Event.deallocate x a) ∧
    (∃ r, Triton.BatchProcess deliveryFails = some r ∧
      Event.run 0 2 [some 0, some 1] [0, 1] NVCV_SUCCESS ∈ r.trace ∧
      r.err = NvCV_Status.other 1 ∧
      ∃ pre, r.trace = pre ++ [Event.run 0 2 [some 0, some 1] [0, 1] NVCV_SUCCESS] ++
          [Event.write 0 0 0] ∧
        ∀ e ∈ pre, ∀ c, e.output = some c → c < 0) := by
  have h := failed_delivery_ends_the_run deliveryFails 0 2 1 [some 0, some 1] [0, 1]
    (by decide)
  refine ⟨by decide, ?_, ?_⟩
  · obtain ⟨r, hr⟩ := Local.local_BatchProcess_total deliveryFails
    have hev : (Local.BatchProcess deliveryFails).map
        (fun r => decide (Event.run 0 2 [some 0, some 1] [0, 1] NVCV_SUCCESS ∈ r.trace)) =
        some true := by decide
    rw [hr] at hev
    simp only [Option.map_some', Option.some.injEq, decide_eq_true_eq] at hev
    have h1 := h.1 r hr hev (by decide) (by decide)
    exact ⟨r, hr, hev, h1.1, h1.2⟩
  · obtain ⟨r, hr⟩ := Triton.triton_BatchProcess_total deliveryFails
    have hev : (Triton.BatchProcess deliveryFails).map
        (fun r => decide (Event.run 0 2 [some 0, some 1] [0, 1] NVCV_SUCCESS ∈ r.trace)) =
        some true := by decide
    rw [hr] at hev
    simp only [Option.map_some', Option.some.injEq, decide_eq_true_eq] at hev
    have h1 := h.2 r hr hev (by decide) (by decide)
    exact ⟨r, hr, hev, h1.1, h1.2⟩

theorem rank_of_sorted (l : List Nat) (h : l.Pairwise (· < ·)) :
    ∀ k, k < l.length → (l.filter (fun y => decide (y < l.getD k 0))).length = k := by
  induction l with
  | nil => intro k hk; simp at hk
  | cons a t ih =>
    rw [List.pairwise_cons] at h
    intro k hk
    cases k with
    | zero =>
      have hnone : ∀ y ∈ a :: t, ¬ (decide (y < a) = true) := by
        intro y hy
        rw [decide_eq_true_eq]
        rcases List.mem_cons.1 hy with h1 | h1
        · rw [h1]; exact Nat.lt_irrefl _
        · exact Nat.lt_asymm (h.1 y h1)
      have : (a :: t).filter (fun y => decide (y < a)) = [] := List.filter_eq_nil_iff.2 hnone
      simpa using congrArg List.length this
    | succ k =>
      have hk1 : k < t.length := by simpa using hk
      have hget : (a :: t).getD (k + 1) 0 = t.getD k 0 := rfl
      have hmem : t.getD k 0 ∈ t := by
        rw [List.getD_eq_getElem?_getD, List.getElem?_eq_getElem hk1, Option.getD_some]
        exact List.getElem_mem _
      rw [hget, List.filter_cons_of_pos (by simpa using h.1 _ hmem), List.length_cons,
        ih h.2 k hk1]

theorem rank_stable {l1 l2 : List Nat} (h1 : l1.Pairwise (· < ·)) (h2 : l2.Pairwise (· < ·))
    (x : Nat) (hsame : ∀ y, y < x → (y ∈ l1 ↔ y ∈ l2)) :
    (l1.filter (fun y => decide (y < x))).length =
      (l2.filter (fun y => decide (y < x))).length := by
  have e : l1.filter (fun y => decide (y < x)) = l2.filter (fun y => decide (y < x)) := by
    apply List.eq_of_perm_of_sorted (r := (· < ·))
    · rw [List.perm_ext_iff_of_nodup
        ((h1.imp (fun hab => Nat.ne_of_lt hab)).sublist (List.filter_sublist _))
        ((h2.imp (fun hab => Nat.ne_of_lt hab)).sublist (List.filter_sublist _))]
      intro y
      simp only [List.mem_filter, decide_eq_true_eq]
      constructor
      · rintro ⟨hy, hyx⟩
        exact ⟨(hsame y hyx).1 hy, hyx⟩
      · rintro ⟨hy, hyx⟩
        exact ⟨(hsame y hyx).2 hy, hyx⟩
    · exact h1.sublist (List.filter_sublist _)
    · exact h2.sublist (List.filter_sublist _)
  rw [e]

theorem slotsByRank_of_increasing {N : Nat} {tr : List Event} (h : IndicesIncreasing N tr) :
    SlotsByRank tr := by
  have hrank : ∀ j n st idx rs, Event.run j n st idx rs ∈ tr → ∀ k, k < n →
      ((idx.take n).filter (fun y => decide (y < idx.getD k 0))).length = k := by
    intro j n st idx rs hm k hk
    obtain ⟨hp, -, -, hlen, -⟩ := h j n st idx rs hm
    have := rank_of_sorted (idx.take n) hp k (by rw [hlen]; exact hk)
    rw [getD_take _ _ _ _ hk] at this
    exact this
  refine ⟨hrank, ?_⟩
  intro j1 n1 st1 idx1 rs1 j2 n2 st2 idx2 rs2 k1 k2 hm1 hm2 hk1 hk2 hx hsame
  have e1 := hrank _ _ _ _ _ hm1 k1 hk1
  have e2 := hrank _ _ _ _ _ hm2 k2 hk2
  rw [← e1, ← e2, ← hx]
  exact rank_stable (h _ _ _ _ _ hm1).1 (h _ _ _ _ _ hm2).1 _ hsame

set_option maxRecDepth 100000 in

/-- Claim C20, at an input it allows: with streams of one and two frames, every call
succeeding, both drivers dispatch the batches of streams 0 1 and then of stream 1 alone:
the second stream has slot 1 in the first cycle and slot 0 in the second. -/
theorem slot_of_stream_changes_when_lower_stream_ends :
    (Local.BatchProcess shortThenLong).map (fun r => dispatched r.trace) = some [[0, 1], [1]] ∧
    (Triton.BatchProcess shortThenLong).map (fun r => dispatched r.trace) =
      some [[0, 1], [1]] ∧
    ¬ (∀ r, Local.BatchProcess shortThenLong = some r → StableSlots r.trace) ∧
    ¬ (∀ r, Triton.BatchProcess shortThenLong = some r → StableSlots r.trace) := by
  refine ⟨rfl, rfl, ?_, ?_⟩
  · intro hall
    obtain ⟨r, hr⟩ := Local.local_BatchProcess_total shortThenLong
    have hev : (Local.BatchProcess shortThenLong).map (fun r =>
        (decide (Event.run 0 2 [some 0, some 1] [0, 1] NVCV_SUCCESS ∈ r.trace),
         decide (Event.run 1 1 [some 1, some 1] [1, 1] NVCV_SUCCESS ∈ r.trace))) =
        some (true, true) := by decide
    rw [hr] at hev
    simp only [Option.map_some', Option.some.injEq, Prod.mk.injEq, decide_eq_true_eq] at hev
    have := hall r hr _ _ _ _ _ _ _ _ _ _ 1 0 hev.1 hev.2 (by decide) (by decide) rfl
    cases this
  · intro hall
    obtain ⟨r, hr⟩ := Triton.triton_BatchProcess_total shortThenLong
    have hev : (Triton.BatchProcess shortThenLong).map (fun r =>
        (decide (Event.run 0 2 [some 0, some 1] [0, 1] NVCV_SUCCESS ∈ r.trace),
         decide (Event.run 1 1 [some 1, some 1] [1, 1] NVCV_SUCCESS ∈ r.trace))) =
        some (true, true) := by decide
    rw [hr] at hev
    simp only [Option.map_some', Option.some.injEq, Prod.mk.injEq, decide_eq_true_eq] at hev
    have := hall r hr _ _ _ _ _ _ _ _ _ _ 1 0 hev.1 hev.2 (by decide) (by decide) rfl
    cases this

/-- Claim C20, amended: in both drivers and whatever the calls return, the slot of a
stream in a dispatched batch is the number of streams of lower index in that batch; so
the slot of a stream is the same in two cycles whose batches hold the same streams of
lower index, and it changes when a stream of lower index has left the batch. -/
theorem slot_is_rank_among_batched_streams (w : World) :
    (∀ r, Local.BatchProcess w = some r → SlotsByRank r.trace) ∧
    (∀ r, Triton.BatchProcess w = some r → SlotsByRank r.trace) := by
  constructor
  · intro r hr
    obtain ⟨s, rfl, -, hd⟩ := Local.local_exit hr
    obtain ⟨j, hj⟩ := Local.final_sealed hd
    exact slotsByRank_of_increasing hj.indices
  · intro r hr
    obtain ⟨s, hs, rfl⟩ := Triton.triton_BatchProcess_eq hr
    obtain ⟨j, hj⟩ := (Triton.triton_body_done hs).sealed
    exact slotsByRank_of_increasing hj.indices

set_option maxRecDepth 100000 in

/-- The amended claim C20 at streams of 5, 3 and 7 frames, every call succeeding: the slots
of each batch are given by the rank of the streams in it. -/
theorem slot_is_rank_among_batched_streams_witness :
    (∃ r, Local.BatchProcess (World.ideal fiveThreeSeven) = some r ∧
      dispatched r.trace = [[0, 1, 2], [0, 1, 2], [0, 1, 2], [0, 2], [0, 2], [2], [2]] ∧
      SlotsByRank r.trace) ∧
    (∃ r, Triton.BatchProcess (World.ideal fiveThreeSeven) = some r ∧
      dispatched r.trace = [[0, 1, 2], [0, 1, 2], [0, 1, 2], [0, 2], [0, 2], [2], [2]] ∧
      SlotsByRank r.trace) := by
  have h := slot_is_rank_among_batched_streams (World.ideal fiveThreeSeven)
  constructor
  · obtain ⟨r, hr⟩ := Local.local_BatchProcess_total (World.ideal fiveThreeSeven)
    have hev : (Local.BatchProcess (World.ideal fiveThreeSeven)).map
        (fun r => dispatched r.trace) =
        some [[0, 1, 2], [0, 1, 2], [0, 1, 2], [0, 2], [0, 2], [2], [2]] := rfl
    rw [hr] at hev
    simp only [Option.map_some', Option.some.injEq] at hev
    exact ⟨r, hr, hev, h.1 r hr⟩
  · obtain ⟨r, hr⟩ := Triton.triton_BatchProcess_total (World.ideal fiveThreeSeven)
    have hev : (Triton.BatchProcess (World.ideal fiveThreeSeven)).map
        (fun r => dispatched r.trace) =
        some [[0, 1, 2], [0, 1, 2], [0, 1, 2], [0, 2], [0, 2], [2], [2]] := rfl
    rw [hr] at hev
    simp only [Option.map_some', Option.some.injEq] at hev
    exact ⟨r, hr, hev, h.2 r hr⟩

namespace Local

end Local

namespace Triton

end Triton

theorem batchSizes_eq {N : Nat} {tr : List Event} (h : IndicesIncreasing N tr) :
    batchSizes tr = (dispatched tr).map List.length := by
  induction tr with
  | nil => rfl
  | cons a t ih =>
    have ht : IndicesIncreasing N t :=
      fun j n st idx rs hm => h j n st idx rs (List.mem_cons_of_mem _ hm)
    have iht := ih ht
    cases a with
    | run j n st idx rs =>
      have hlen := (h j n st idx rs (List.mem_cons_self _ _)).2.2.2.1
      simp only [batchSizes, dispatched, List.map_cons, iht, hlen]
    | openSource _ _ => simpa [batchSizes, dispatched] using iht
    | openSink _ _ => simpa [batchSizes, dispatched] using iht
    | pull _ _ => simpa [batchSizes, dispatched] using iht
    | allocate _ _ => simpa [batchSizes, dispatched] using iht
    | deallocate _ _ => simpa [batchSizes, dispatched] using iht
    | mismatch _ _ => simpa [batchSizes, dispatched] using iht
    | transferTo _ _ _ => simpa [batchSizes, dispatched] using iht
    | write _ _ _ => simpa [batchSizes, dispatched] using iht

theorem Local.local_final_indices {w : World} {r : Local.State} (hr : Local.BatchProcess w = some r) :
    IndicesIncreasing w.videos.length r.trace := by
  obtain ⟨s, rfl, -, hd⟩ := Local.local_exit hr
  obtain ⟨j, hj⟩ := Local.final_sealed hd
  exact hj.indices

theorem Triton.triton_final_indices {w : World} {r : Triton.State}
    (hr : Triton.BatchProcess w = some r) : IndicesIncreasing w.videos.length r.trace := by
  obtain ⟨s, hs, rfl⟩ := Triton.triton_BatchProcess_eq hr
  obtain ⟨j, hj⟩ := (Triton.triton_body_done hs).sealed
  exact hj.indices

/-- Claim C24: when all frames have one size, every call succeeds and the first stream has
a frame, both drivers return and dispatch the same sequence of batches: as many engine
calls as the longest stream has frames, with the same batch size and the same stream index
recorded for every slot of every batch. -/
theorem both_drivers_dispatch_same_batches (videos : List (List Frame)) (f0 : Frame)
    (hu : Uniform videos f0) (hfirst : 0 < streamLength (World.ideal videos) 0) :
    ∃ rl rt, Local.BatchProcess (World.ideal videos) = some rl ∧
      Triton.BatchProcess (World.ideal videos) = some rt ∧
      (dispatched rl.trace).length = maxLength (World.ideal videos) ∧
      (dispatched rt.trace).length = maxLength (World.ideal videos) ∧
      batchSizes rl.trace = batchSizes rt.trace ∧
      dispatched rl.trace = dispatched rt.trace := by
  obtain ⟨rl, hl, hdl⟩ := Local.calm_BatchProcess hu hfirst
  obtain ⟨rt, ht, hdt⟩ := Triton.triton_calm_BatchProcess hu hfirst
  refine ⟨rl, rt, hl, ht, ?_, ?_, ?_, ?_⟩
  · rw [hdl, schedule_length]
  · rw [hdt.disp, schedule_length]
  · rw [batchSizes_eq (Local.local_final_indices hl), batchSizes_eq (Triton.triton_final_indices ht), hdl,
      hdt.disp]
  · rw [hdl, hdt.disp]

set_option maxRecDepth 100000 in

/-- Claim C24 at streams of 5, 3 and 7 frames: both drivers make seven engine calls, with
batch sizes 3 3 3 2 2 1 1 and the same streams in the same slots. -/
theorem both_drivers_dispatch_same_batches_witness :
    Uniform fiveThreeSeven frame4 ∧ 0 < streamLength (World.ideal fiveThreeSeven) 0 ∧
    (Local.BatchProcess (World.ideal fiveThreeSeven)).map
      (fun r => (batchSizes r.trace, dispatched r.trace)) =
      some ([3, 3, 3, 2, 2, 1, 1], [[0, 1, 2], [0, 1, 2], [0, 1, 2], [0, 2], [0, 2], [2], [2]]) ∧
    (Triton.BatchProcess (World.ideal fiveThreeSeven)).map
      (fun r => (batchSizes r.trace, dispatched r.trace)) =
      some ([3, 3, 3, 2, 2, 1, 1], [[0, 1, 2], [0, 1, 2], [0, 1, 2], [0, 2], [0, 2], [2], [2]]) ∧
    ∃ rl rt, Local.BatchProcess (World.ideal fiveThreeSeven) = some rl ∧
      Triton.BatchProcess (World.ideal fiveThreeSeven) = some rt ∧
      (dispatched rl.trace).length = maxLength (World.ideal fiveThreeSeven) ∧
      (dispatched rt.trace).length = maxLength (World.ideal fiveThreeSeven) ∧
      batchSizes rl.trace = batchSizes rt.trace ∧
      dispatched rl.trace = dispatched rt.trace :=
  ⟨uniform_replicate frame4 [5, 3, 7], by decide, rfl, rfl,
    both_drivers_dispatch_same_batches fiveThreeSeven frame4
      (uniform_replicate frame4 [5, 3, 7]) (by decide)⟩

theorem cycle_loop_within_budget (w : World) :
    (∀ s1 s2, forLoop (Local.openStep w) w.videos.length 0 (Local.initial w) = Flow.next s1 →
      Local.setup w s1 = Flow.next s2 →
      ∃ r, Local.cycleLoop w (maxLength w + 1) 0 s2 = some r) ∧
    (∀ s1 s2, forLoop (Triton.openStep w) w.videos.length 0 (Triton.initial w) = Flow.next s1 →
      Triton.setup w s1 = Flow.next s2 →
      ∃ r, Triton.cycleLoop w (maxLength w + 1) 0 s2 = some r) := by
  constructor
  · intro s1 s2 hloop hset
    have hO := forLoop_rule (Local.openStep w) w.videos.length (fun _ t => Local.Opening w t)
      (Local.Done w) (fun i t t1 _ hP => (Local.local_openStep_spec hP).1 t1)
      (fun i t t1 _ hP => (Local.local_openStep_spec hP).2 t1)
      w.videos.length 0 (Local.initial w) (Nat.zero_add _)
      (Local.Opening.local_opening_atEntry w)
    have hS := Local.local_setup_spec (hO.1 _ hloop)
    exact Local.local_cycleLoop_total (maxLength w + 1) 0 s2 (hS.1 _ hset) (Nat.zero_le _)
      (by omega)
  · intro s1 s2 hloop hset
    have hO := forLoop_rule (Triton.openStep w) w.videos.length
      (fun i t => Triton.Opening w i t)
      (Triton.Done w) (fun i t t1 hi hP => (Triton.triton_openStep_spec hP hi).1 t1)
      (fun i t t1 hi hP => (Triton.triton_openStep_spec hP hi).2 t1)
      w.videos.length 0 (Triton.initial w) (Nat.zero_add _)
      (Triton.Opening.triton_opening_atEntry w)
    have hS := Triton.triton_setup_spec (hO.1 _ hloop)
    exact Triton.triton_cycleLoop_total (maxLength w + 1) 0 s2 (hS.1 _ hset) (Nat.zero_le _)
      (by omega)

theorem Local.assembleStep_bail_err {w : World} {j i : Nat} {s b : Local.State}
    (h : Local.assembleStep w j i s = Flow.bail b) : b.err ≠ NVCV_SUCCESS := by
  unfold Local.assembleStep at h
  dsimp only at h
  split at h
  · cases h
  · split at h
    · cases h
    · split at h
      · cases h
        exact fun hc => by cases hc
      · split at h
        · cases h
        · rename_i hst
          cases h
          exact hst

theorem Local.dispatch_bail_err {w : World} {j : Nat} {s b : Local.State}
    (h : Local.dispatch w j s = Flow.bail b) : b.err ≠ NVCV_SUCCESS := by
  unfold Local.dispatch Local.check at h
  by_cases h1 : w.setBatchSize j = NVCV_SUCCESS
  · rw [if_pos h1] at h
    dsimp only at h
    by_cases h2 : w.setStates j = NVCV_SUCCESS
    · rw [if_pos h2] at h
      dsimp only at h
      by_cases h3 : w.runStatus j = NVCV_SUCCESS
      · rw [if_pos h3] at h
        cases h
      · rw [if_neg h3] at h
        cases h
        exact h3
    · rw [if_neg h2] at h
      cases h
      exact h2
  · rw [if_neg h1] at h
    cases h
    exact h1

theorem Local.writeStep_bail_err {w : World} {j i : Nat} {s b : Local.State}
    (h : Local.writeStep w j i s = Flow.bail b) : b.err ≠ NVCV_SUCCESS := by
  unfold Local.writeStep at h
  dsimp only at h
  by_cases h1 : w.transferFromStatus j i = NVCV_SUCCESS
  · rw [if_pos h1] at h
    cases h
  · rw [if_neg h1] at h
    cases h
    exact h1

theorem local_success_only_when_drained (w : World) (j : Nat) (s b : Local.State)
    (h : Local.cycle w j s = Flow.bail b) (hb : b.err = NVCV_SUCCESS) :
    b.activeVideoCount = 0 ∧
    forLoop (Local.assembleStep w j) w.videos.length 0 { s with activeVideoCount := 0 } =
      Flow.next b := by
  have hA := forLoop_rule (Local.assembleStep w j) w.videos.length (fun _ _ => True)
    (fun t => t.err ≠ NVCV_SUCCESS) (fun _ _ _ _ _ _ => trivial)
    (fun i t t1 _ _ ht => Local.assembleStep_bail_err ht)
    w.videos.length 0 { s with activeVideoCount := 0 } (Nat.zero_add _) trivial
  unfold Local.cycle at h
  cases hloop : forLoop (Local.assembleStep w j) w.videos.length 0
      { s with activeVideoCount := 0 } with
  | bail c =>
    rw [hloop] at h
    cases h
    exact absurd hb (hA.2 _ hloop)
  | next s1 =>
    rw [hloop] at h
    dsimp only at h
    by_cases hz : s1.activeVideoCount = 0
    · rw [if_pos hz] at h
      cases h
      exact ⟨hz, rfl⟩
    · rw [if_neg hz] at h
      cases hdis : Local.dispatch w j s1 with
      | bail c =>
        rw [hdis] at h
        cases h
        exact absurd hb (Local.dispatch_bail_err hdis)
      | next s2 =>
        rw [hdis] at h
        dsimp only at h
        have hW := forLoop_rule (Local.writeStep w j) s1.activeVideoCount (fun _ _ => True)
          (fun t => t.err ≠ NVCV_SUCCESS) (fun _ _ _ _ _ _ => trivial)
          (fun i t t1 _ _ ht => Local.writeStep_bail_err ht)
          s1.activeVideoCount 0 s2 (Nat.zero_add _) trivial
        exact absurd hb (hW.2 _ h)

/-- Claim C23 fails on the code: with streams of two and one frames and the release of the
state of the second stream failing, the first pass of the Triton driver puts the frame of
the first stream into slot 0, then leaves the loop at the failing release without storing
its status: `BatchProcess` returns `NVCV_SUCCESS` from a pass in which a slot was
occupied. -/
theorem triton_success_exit_with_occupied_slot :
    streamLength secondReleaseFails 0 = 2 ∧ streamLength secondReleaseFails 1 = 1 ∧
    secondReleaseFails.deallocateState 1 ≠ NVCV_SUCCESS ∧
    (Triton.BatchProcess secondReleaseFails).map
      (fun r => (r.err, r.active_video_count, r.trace)) =
    some (NVCV_SUCCESS, 1,
      [Event.openSource 0 true, Event.openSink 0 true, Event.openSource 1 true,
        Event.openSink 1 true, Event.pull 0 (some 0), Event.pull 0 (some 0),
        Event.allocate 0 (some 0), Event.pull 1 (some 0), Event.allocate 1 (some 1),
        Event.pull 0 (some 1), Event.transferTo 0 0 ⟨0, 0, 4, 4⟩, Event.pull 1 none,
        Event.deallocate 1 (some 1)]) :=
  ⟨rfl, rfl, by decide, by decide⟩

theorem once_of_no_pull {tr : List Event} (h : ∀ e ∈ tr, e.isPull = false) : Once tr := by
  intro pre post x heq f _
  have hm : Event.pull x none ∈ tr := by rw [heq]; simp
  have := h _ hm
  cases this

theorem once_snoc_other {tr : List Event} {e : Event} (h : Once tr) (he : e.isPull = false) :
    Once (tr ++ [e]) := by
  intro pre post x heq f hf
  rcases List.eq_nil_or_concat post with hp | ⟨L, b, hp⟩
  · subst hp
    cases hf
  · rw [List.concat_eq_append] at hp
    subst hp
    have h0 : tr ++ [e] = (pre ++ Event.pull x none :: L) ++ [b] := by
      rw [heq]; simp
    obtain ⟨h1, h2⟩ := List.append_inj' h0 rfl
    have hb : e = b := by simpa using h2
    rcases List.mem_append.1 hf with hm | hm
    · exact h pre L x h1 f hm
    · have hm2 : Event.pull x f = b := by simpa using hm
      rw [← hb] at hm2
      rw [← hm2] at he
      cases he

theorem once_snoc_pull {tr : List Event} {x : Nat} {f : Option Nat} (h : Once tr)
    (hx : Event.pull x none ∉ tr) : Once (tr ++ [Event.pull x f]) := by
  intro pre post y heq g hg
  rcases List.eq_nil_or_concat post with hp | ⟨L, b, hp⟩
  · subst hp
    cases hg
  · rw [List.concat_eq_append] at hp
    subst hp
    have h0 : tr ++ [Event.pull x f] = (pre ++ Event.pull y none :: L) ++ [b] := by
      rw [heq]; simp
    obtain ⟨h1, h2⟩ := List.append_inj' h0 rfl
    have hb : Event.pull x f = b := by simpa using h2
    rcases List.mem_append.1 hg with hm | hm
    · exact h pre L y h1 g hm
    · have hm2 : Event.pull y g = b := by simpa using hm
      rw [← hb] at hm2
      cases hm2
      apply hx
      rw [h1]
      simp

theorem once_append_other {tr : List Event} (l : List Event) (h : Once tr)
    (hl : ∀ e ∈ l, e.isPull = false) : Once (tr ++ l) := by
  induction l generalizing tr with
  | nil => simpa using h
  | cons a l ih =>
    have h1 : Once (tr ++ [a]) := once_snoc_other h (hl a (List.mem_cons_self _ _))
    have h2 := ih h1 (fun e he => hl e (List.mem_cons_of_mem _ he))
    simpa using h2

theorem shut_of_no_pull {tr : List Event} (caps : List (Option Nat))
    (h : ∀ e ∈ tr, e.isPull = false) : Shut caps tr :=
  ⟨once_of_no_pull h, fun x hx => by have := h _ hx; cases this⟩

theorem shut_snoc_other {caps : List (Option Nat)} {tr : List Event} {e : Event}
    (h : Shut caps tr) (he : e.isPull = false) : Shut caps (tr ++ [e]) := by
  refine ⟨once_snoc_other h.1 he, fun x hx => ?_⟩
  rcases List.mem_append.1 hx with hm | hm
  · exact h.2 x hm
  · have hm2 : Event.pull x none = e := by simpa using hm
    rw [← hm2] at he
    cases he

theorem shut_not_ended {caps : List (Option Nat)} {tr : List Event} {x p : Nat}
    (h : Shut caps tr) (hc : caps.getD x none = some p) : Event.pull x none ∉ tr := by
  intro hm
  rw [h.2 x hm] at hc
  cases hc

theorem once_pull {caps : List (Option Nat)} {tr : List Event} {x p : Nat} (f : Option Nat)
    (h : Shut caps tr) (hc : caps.getD x none = some p) : Once (tr ++ [Event.pull x f]) :=
  once_snoc_pull h.1 (shut_not_ended h hc)

theorem shut_pull_some {caps : List (Option Nat)} {tr : List Event} {x p : Nat} (q r : Nat)
    (h : Shut caps tr) (hc : caps.getD x none = some p) :
    Shut (caps.set x (some q)) (tr ++ [Event.pull x (some r)]) := by
  refine ⟨once_pull _ h hc, fun y hy => ?_⟩
  rcases List.mem_append.1 hy with hm | hm
  · have hyx : y ≠ x := by
      rintro rfl
      exact shut_not_ended h hc hm
    rw [getD_set_ne _ _ _ _ _ hyx]
    exact h.2 y hm
  · simp at hm

theorem getD_lt_of_some {α : Type} {l : List (Option α)} {x : Nat} {p : α}
    (hc : l.getD x none = some p) : x < l.length := by
  by_contra hlt
  rw [List.getD_eq_getElem?_getD, List.getElem?_eq_none (by omega)] at hc
  cases hc

theorem shut_pull_none {caps : List (Option Nat)} {tr : List Event} {x p : Nat}
    (h : Shut caps tr) (hc : caps.getD x none = some p) :
    Shut (caps.set x none) (tr ++ [Event.pull x none]) := by
  refine ⟨once_pull _ h hc, fun y hy => ?_⟩
  by_cases hyx : y = x
  · subst hyx
    exact getD_set_eq _ _ _ _ (getD_lt_of_some hc)
  · rw [getD_set_ne _ _ _ _ _ hyx]
    rcases List.mem_append.1 hy with hm | hm
    · exact h.2 y hm
    · have hm2 : Event.pull y none = Event.pull x none := by simpa using hm
      cases hm2
      exact absurd rfl hyx

theorem fresh_snoc {tr : List Event} {e : Event} (h : ∀ a ∈ tr, a.isEnd = false)
    (he : e.isEnd = false) : ∀ a ∈ tr ++ [e], a.isEnd = false := by
  intro a ha
  rcases List.mem_append.1 ha with hm | hm
  · exact h a hm
  · have : a = e := by simpa using hm
    rw [this]; exact he

theorem fresh_not_ended {tr : List Event} (h : ∀ a ∈ tr, a.isEnd = false) (x : Nat) :
    Event.pull x none ∉ tr := by
  intro hm
  have := h _ hm
  cases this

theorem once_of_fresh {tr : List Event} (h : ∀ a ∈ tr, a.isEnd = false) : Once tr := by
  intro pre post x heq f _
  exact fresh_not_ended h x (by rw [heq]; simp)

theorem shut_of_fresh {tr : List Event} (caps : List (Option Nat))
    (h : ∀ a ∈ tr, a.isEnd = false) : Shut caps tr :=
  ⟨once_of_fresh h, fun x hx => absurd hx (fresh_not_ended h x)⟩

theorem once_fresh_snoc {tr : List Event} (h : ∀ a ∈ tr, a.isEnd = false) (e : Event) :
    Once (tr ++ [e]) := by
  intro pre post x heq f hf
  rcases List.eq_nil_or_concat post with hp | ⟨L, b, hp⟩
  · subst hp
    cases hf
  · rw [List.concat_eq_append] at hp
    subst hp
    have h0 : tr ++ [e] = (pre ++ Event.pull x none :: L) ++ [b] := by
      rw [heq]; simp
    obtain ⟨h1, -⟩ := List.append_inj' h0 rfl
    exact fresh_not_ended h x (by rw [h1]; simp)

namespace Local

theorem local_check_keeps {st : NvCV_Status} {s t : State}
    (h : check st s = Flow.next t ∨ check st s = Flow.bail t) :
    t.srcCaptures = s.srcCaptures ∧ t.trace = s.trace := by
  unfold check at h
  by_cases hst : st = NVCV_SUCCESS
  · simp only [if_pos hst] at h
    rcases h with h | h <;> cases h
    exact ⟨rfl, rfl⟩
  · simp only [if_neg hst] at h
    rcases h with h | h <;> cases h
    exact ⟨rfl, rfl⟩

theorem local_openStep_fresh {w : World} {i : Nat} {s t : State}
    (h : ∀ e ∈ s.trace, e.isEnd = false)
    (ht : openStep w i s = Flow.next t ∨ openStep w i s = Flow.bail t) :
    ∀ e ∈ t.trace, e.isEnd = false := by
  generalize hf : openStep w i s = f at ht
  unfold openStep at hf
  dsimp only at hf
  split at hf
  · subst hf
    rcases ht with ht | ht <;> cases ht
    exact fresh_snoc h rfl
  · split at hf
    · subst hf
      rcases ht with ht | ht <;> cases ht
      exact fresh_snoc (fresh_snoc h rfl) rfl
    · subst hf
      rcases ht with ht | ht <;> cases ht
      exact fresh_snoc (fresh_snoc h rfl) rfl

theorem local_allocStep_fresh {w : World} {i : Nat} {s t : State}
    (h : ∀ e ∈ s.trace, e.isEnd = false)
    (ht : allocStep w i s = Flow.next t ∨ allocStep w i s = Flow.bail t) :
    ∀ e ∈ t.trace, e.isEnd = false := by
  generalize hf : allocStep w i s = f at ht
  unfold allocStep at hf
  split at hf
  · subst hf
    rcases ht with ht | ht <;> cases ht
    exact fresh_snoc h rfl
  · subst hf
    rcases ht with ht | ht <;> cases ht
    exact fresh_snoc h rfl

theorem local_setup_once {w : World} {s : State} (h : ∀ e ∈ s.trace, e.isEnd = false) :
    (∀ t, setup w s = Flow.next t → Shut t.srcCaptures t.trace) ∧
    (∀ t, setup w s = Flow.bail t → Once t.trace) := by
  have key : ∀ f, setup w s = f → ∀ t, (f = Flow.next t ∨ f = Flow.bail t) →
      (∀ e ∈ t.trace, e.isEnd = false) ∨
        ((∀ u, f ≠ Flow.next u) ∧ t.trace = s.trace ++ [Event.pull 0 none]) := by
    intro f hf t ht
    unfold setup at hf
    dsimp only at hf
    split at hf
    · subst hf
      rcases ht with ht | ht <;> cases ht
      exact Or.inl h
    split at hf
    · subst hf
      rcases ht with ht | ht <;> cases ht
      exact Or.inr ⟨fun u hu => (by cases hu), rfl⟩
    rename_i m hread
    have h1 : ∀ e ∈ s.trace ++ [Event.pull 0 (some 0)], e.isEnd = false := fresh_snoc h rfl
    split at hf
    · rename_i b hb
      subst hf
      obtain ⟨-, hb2⟩ := local_check_keeps (Or.inr hb)
      rcases ht with ht | ht <;> cases ht
      left; rw [hb2]; exact h1
    rename_i s2 hs2
    obtain ⟨-, e2⟩ := local_check_keeps (Or.inl hs2)
    split at hf
    · rename_i b hb
      subst hf
      obtain ⟨-, hb2⟩ := local_check_keeps (Or.inr hb)
      rcases ht with ht | ht <;> cases ht
      left; rw [hb2, e2]; exact h1
    rename_i s3 hs3
    obtain ⟨-, e3⟩ := local_check_keeps (Or.inl hs3)
    split at hf
    · rename_i b hb
      subst hf
      obtain ⟨-, hb2⟩ := local_check_keeps (Or.inr hb)
      rcases ht with ht | ht <;> cases ht
      left; rw [hb2, e3, e2]; exact h1
    rename_i s4 hs4
    obtain ⟨-, e4⟩ := local_check_keeps (Or.inl hs4)
    split at hf
    · rename_i b hb
      subst hf
      obtain ⟨-, hb2⟩ := local_check_keeps (Or.inr hb)
      rcases ht with ht | ht <;> cases ht
      left; rw [hb2, e4, e3, e2]; exact h1
    rename_i s5 hs5
    obtain ⟨-, e5⟩ := local_check_keeps (Or.inl hs5)
    have h5 : ∀ e ∈ s5.trace, e.isEnd = false := by rw [e5, e4, e3, e2]; exact h1
    have hA := forLoop_rule (allocStep w) w.videos.length
      (fun _ (t : State) => ∀ e ∈ t.trace, e.isEnd = false)
      (fun (t : State) => ∀ e ∈ t.trace, e.isEnd = false)
      (fun i t t1 _ hP hst => local_allocStep_fresh hP (Or.inl hst))
      (fun i t t1 _ hP hst => local_allocStep_fresh hP (Or.inr hst))
      w.videos.length 0 s5 (Nat.zero_add _) h5
    split at hf
    · rename_i b hb
      subst hf
      rcases ht with ht | ht <;> cases ht
      exact Or.inl (hA.2 _ hb)
    rename_i s6 hs6
    have h6 := hA.1 _ hs6
    split at hf
    · subst hf
      rcases ht with ht | ht <;> cases ht
      exact Or.inl h6
    · obtain ⟨-, e7⟩ := local_check_keeps (hf ▸ ht)
      left; rw [e7]; exact h6
  constructor
  · intro t ht
    rcases key _ rfl t (Or.inl ht) with hk | hk
    · exact shut_of_fresh _ hk
    · exact absurd ht (hk.1 t)
  · intro t ht
    rcases key _ rfl t (Or.inr ht) with hk | hk
    · exact once_of_fresh hk
    · rw [hk.2]; exact once_fresh_snoc h _

theorem local_assembleStep_shut {w : World} {j i : Nat} {s : State}
    (h : Shut s.srcCaptures s.trace) :
    (∀ t, assembleStep w j i s = Flow.next t → Shut t.srcCaptures t.trace) ∧
    (∀ t, assembleStep w j i s = Flow.bail t → Once t.trace) := by
  have key : ∀ f, assembleStep w j i s = f →
      (∀ t, f = Flow.next t → Shut t.srcCaptures t.trace) ∧
      (∀ t, f = Flow.bail t → Once t.trace) := by
    intro f hf
    unfold assembleStep at hf
    dsimp only at hf
    split at hf
    · subst hf
      exact ⟨fun t ht => (by cases ht; exact h), fun t ht => (by cases ht)⟩
    · rename_i p hc
      split at hf
      · subst hf
        exact ⟨fun t ht => (by cases ht; exact shut_pull_none h hc), fun t ht => (by cases ht)⟩
      · rename_i m hread
        split at hf
        · subst hf
          refine ⟨fun t ht => (by cases ht), fun t ht => ?_⟩
          cases ht
          exact once_snoc_other (once_pull _ h hc) rfl
        · split at hf
          · subst hf
            refine ⟨fun t ht => ?_, fun t ht => (by cases ht)⟩
            cases ht
            exact shut_snoc_other (shut_pull_some _ _ h hc) rfl
          · subst hf
            refine ⟨fun t ht => (by cases ht), fun t ht => ?_⟩
            cases ht
            exact once_pull _ h hc
  exact key _ rfl

theorem local_dispatch_shut {w : World} {j : Nat} {s t : State}
    (h : Shut s.srcCaptures s.trace)
    (ht : dispatch w j s = Flow.next t ∨ dispatch w j s = Flow.bail t) :
    Shut t.srcCaptures t.trace := by
  generalize hf : dispatch w j s = f at ht
  unfold dispatch at hf
  split at hf
  · rename_i b hb
    subst hf
    obtain ⟨c1, e1⟩ := local_check_keeps (Or.inr hb)
    rcases ht with ht | ht <;> cases ht
    rw [c1, e1]; exact h
  rename_i s1 hs1
  obtain ⟨c1, e1⟩ := local_check_keeps (Or.inl hs1)
  split at hf
  · rename_i b hb
    subst hf
    obtain ⟨c2, e2⟩ := local_check_keeps (Or.inr hb)
    rcases ht with ht | ht <;> cases ht
    rw [c2, e2, c1, e1]; exact h
  rename_i s2 hs2
  obtain ⟨c2, e2⟩ := local_check_keeps (Or.inl hs2)
  obtain ⟨c3, e3⟩ := local_check_keeps (hf ▸ ht)
  rw [c3, e3]
  dsimp only
  rw [c2, e2, c1, e1]
  exact shut_snoc_other h rfl

theorem local_writeStep_shut {w : World} {j i : Nat} {s t : State}
    (h : Shut s.srcCaptures s.trace)
    (ht : writeStep w j i s = Flow.next t ∨ writeStep w j i s = Flow.bail t) :
    Shut t.srcCaptures t.trace := by
  generalize hf : writeStep w j i s = f at ht
  unfold writeStep at hf
  dsimp only at hf
  split at hf
  · subst hf
    rcases ht with ht | ht <;> cases ht
    exact shut_snoc_other h rfl
  · subst hf
    rcases ht with ht | ht <;> cases ht
    exact h

theorem local_cycle_shut {w : World} {j : Nat} {s : State} (h : Shut s.srcCaptures s.trace) :
    (∀ t, cycle w j s = Flow.next t → Shut t.srcCaptures t.trace) ∧
    (∀ t, cycle w j s = Flow.bail t → Once t.trace) := by
  have hA := forLoop_rule (assembleStep w j) w.videos.length
    (fun _ (t : State) => Shut t.srcCaptures t.trace) (fun (t : State) => Once t.trace)
    (fun i t t1 _ hP => (local_assembleStep_shut hP).1 t1)
    (fun i t t1 _ hP => (local_assembleStep_shut hP).2 t1)
    w.videos.length 0 { s with activeVideoCount := 0 } (Nat.zero_add _) h
  have key : ∀ f, cycle w j s = f →
      (∀ t, f = Flow.next t → Shut t.srcCaptures t.trace) ∧
      (∀ t, f = Flow.bail t → Once t.trace) := by
    intro f hf
    unfold cycle at hf
    split at hf
    · rename_i b hb
      subst hf
      exact ⟨fun t ht => (by cases ht), fun t ht => (by cases ht; exact hA.2 _ hb)⟩
    rename_i s1 hs1
    have h1 : Shut s1.srcCaptures s1.trace := hA.1 _ hs1
    split at hf
    · subst hf
      exact ⟨fun t ht => (by cases ht), fun t ht => (by cases ht; exact h1.1)⟩
    split at hf
    · rename_i b hb
      subst hf
      exact ⟨fun t ht => (by cases ht),
        fun t ht => (by cases ht; exact (local_dispatch_shut h1 (Or.inr hb)).1)⟩
    rename_i s2 hs2
    have h2 : Shut s2.srcCaptures s2.trace := local_dispatch_shut h1 (Or.inl hs2)
    have hW := forLoop_rule (writeStep w j) s1.activeVideoCount
      (fun _ (t : State) => Shut t.srcCaptures t.trace)
      (fun (t : State) => Shut t.srcCaptures t.trace)
      (fun i t t1 _ hP hst => local_writeStep_shut hP (Or.inl hst))
      (fun i t t1 _ hP hst => local_writeStep_shut hP (Or.inr hst))
      s1.activeVideoCount 0 s2 (Nat.zero_add _) h2
    exact ⟨fun t ht => hW.1 t (hf.trans ht), fun t ht => (hW.2 t (hf.trans ht)).1⟩
  exact key _ rfl

theorem local_cycleLoop_once {w : World} :
    ∀ (fuel j : Nat) (s r : State), Shut s.srcCaptures s.trace →
      cycleLoop w fuel j s = some r → Once r.trace := by
  intro fuel
  induction fuel with
  | zero => intro j s r _ h; cases h
  | succ fuel ih =>
    intro j s r hs h
    unfold cycleLoop at h
    split at h
    · rename_i b hb
      cases h
      exact (local_cycle_shut hs).2 _ hb
    · rename_i s1 hs1
      exact ih _ _ _ ((local_cycle_shut hs).1 _ hs1) h

theorem local_body_once {w : World} {s : State} (h : body w = some s) : Once s.trace := by
  have hO := forLoop_rule (openStep w) w.videos.length
    (fun _ (t : State) => ∀ e ∈ t.trace, e.isEnd = false)
    (fun (t : State) => ∀ e ∈ t.trace, e.isEnd = false)
    (fun i t t1 _ hP hst => local_openStep_fresh hP (Or.inl hst))
    (fun i t t1 _ hP hst => local_openStep_fresh hP (Or.inr hst))
    w.videos.length 0 (initial w) (Nat.zero_add _) (fun e he => by cases he)
  unfold body at h
  split at h
  · rename_i b hb
    cases h
    exact once_of_fresh (hO.2 _ hb)
  rename_i s1 hs1
  have hS := local_setup_once (w := w) (hO.1 _ hs1)
  split at h
  · rename_i b hb
    cases h
    exact hS.2 _ hb
  · rename_i s2 hs2
    exact local_cycleLoop_once _ _ _ _ (hS.1 _ hs2) h

theorem local_BatchProcess_once {w : World} {r : State} (h : BatchProcess w = some r) :
    Once r.trace := by
  unfold BatchProcess at h
  cases hb : body w with
  | none => rw [hb] at h; cases h
  | some s =>
    rw [hb] at h
    cases h
    unfold cleanup
    dsimp only
    refine once_append_other _ (local_body_once hb) ?_
    intro e he
    obtain ⟨i, -, rfl⟩ := List.mem_map.1 he
    rfl

end Local

namespace Triton

theorem triton_check_keeps {st : NvCV_Status} {s t : State}
    (h : check st s = Flow.next t ∨ check st s = Flow.bail t) :
    t.src_captures = s.src_captures ∧ t.trace = s.trace := by
  unfold check at h
  by_cases hst : st = NVCV_SUCCESS
  · simp only [if_pos hst] at h
    rcases h with h | h <;> cases h
    exact ⟨rfl, rfl⟩
  · simp only [if_neg hst] at h
    rcases h with h | h <;> cases h
    exact ⟨rfl, rfl⟩

theorem triton_openStep_fresh {w : World} {i : Nat} {s t : State}
    (h : ∀ e ∈ s.trace, e.isEnd = false)
    (ht : openStep w i s = Flow.next t ∨ openStep w i s = Flow.bail t) :
    ∀ e ∈ t.trace, e.isEnd = false := by
  generalize hf : openStep w i s = f at ht
  unfold openStep at hf
  dsimp only at hf
  split at hf
  · subst hf
    rcases ht with ht | ht <;> cases ht
    exact fresh_snoc h rfl
  · split at hf
    · subst hf
      rcases ht with ht | ht <;> cases ht
      exact fresh_snoc (fresh_snoc h rfl) rfl
    · subst hf
      rcases ht with ht | ht <;> cases ht
      exact fresh_snoc (fresh_snoc h rfl) rfl

theorem triton_initStep_shut {w : World} {i : Nat} {s : State}
    (h : Shut s.src_captures s.trace) :
    (∀ t, initStep w i s = Flow.next t → Shut t.src_captures t.trace) ∧
    (∀ t, initStep w i s = Flow.bail t → Once t.trace) := by
  have key : ∀ f, initStep w i s = f →
      (∀ t, f = Flow.next t → Shut t.src_captures t.trace) ∧
      (∀ t, f = Flow.bail t → Once t.trace) := by
    intro f hf
    unfold initStep at hf
    dsimp only at hf
    split at hf
    · subst hf
      exact ⟨fun t ht => (by cases ht; exact h), fun t ht => (by cases ht)⟩
    · rename_i p hc
      split at hf
      · subst hf
        exact ⟨fun t ht => (by cases ht; exact shut_pull_none h hc), fun t ht => (by cases ht)⟩
      · rename_i m hread
        split at hf
        · subst hf
          refine ⟨fun t ht => ?_, fun t ht => (by cases ht)⟩
          cases ht
          exact shut_snoc_other (shut_pull_some _ _ h hc) rfl
        · subst hf
          refine ⟨fun t ht => (by cases ht), fun t ht => ?_⟩
          cases ht
          exact once_snoc_other (once_pull _ h hc) rfl
  exact key _ rfl

theorem triton_setup_once {w : World} {s : State} (h : ∀ e ∈ s.trace, e.isEnd = false) :
    (∀ t, setup w s = Flow.next t → Shut t.src_captures t.trace) ∧
    (∀ t, setup w s = Flow.bail t → Once t.trace) := by
  have key : ∀ f, setup w s = f →
      (∀ t, f = Flow.next t → Shut t.src_captures t.trace) ∧
      (∀ t, f = Flow.bail t → Once t.trace) := by
    intro f hf
    unfold setup at hf
    dsimp only at hf
    split at hf
    · subst hf
      exact ⟨fun t ht => (by cases ht), fun t ht => (by cases ht; exact once_of_fresh h)⟩
    split at hf
    · subst hf
      exact ⟨fun t ht => (by cases ht), fun t ht => (by cases ht; exact once_fresh_snoc h _)⟩
    rename_i m hread
    have h1 : ∀ e ∈ s.trace ++ [Event.pull 0 (some 0)], e.isEnd = false := fresh_snoc h rfl
    split at hf
    · rename_i b hb
      subst hf
      obtain ⟨-, hb2⟩ := triton_check_keeps (Or.inr hb)
      refine ⟨fun t ht => (by cases ht), fun t ht => ?_⟩
      cases ht
      rw [hb2]; exact once_of_fresh h1
    rename_i s2 hs2
    obtain ⟨-, e2⟩ := triton_check_keeps (Or.inl hs2)
    split at hf
    · rename_i b hb
      subst hf
      obtain ⟨-, hb2⟩ := triton_check_keeps (Or.inr hb)
      refine ⟨fun t ht => (by cases ht), fun t ht => ?_⟩
      cases ht
      rw [hb2]; dsimp only; rw [e2]; exact once_of_fresh h1
    rename_i s3 hs3
    obtain ⟨-, e3⟩ := triton_check_keeps (Or.inl hs3)
    dsimp only at e3
    split at hf
    · rename_i b hb
      subst hf
      obtain ⟨-, hb2⟩ := triton_check_keeps (Or.inr hb)
      refine ⟨fun t ht => (by cases ht), fun t ht => ?_⟩
      cases ht
      rw [hb2, e3, e2]; exact once_of_fresh h1
    rename_i s4 hs4
    obtain ⟨-, e4⟩ := triton_check_keeps (Or.inl hs4)
    split at hf
    · rename_i b hb
      subst hf
      obtain ⟨-, hb2⟩ := triton_check_keeps (Or.inr hb)
      refine ⟨fun t ht => (by cases ht), fun t ht => ?_⟩
      cases ht
      rw [hb2, e4, e3, e2]; exact once_of_fresh h1
    rename_i s5 hs5
    obtain ⟨-, e5⟩ := triton_check_keeps (Or.inl hs5)
    have h5 : Shut s5.src_captures s5.trace :=
      shut_of_fresh _ (by rw [e5, e4, e3, e2]; exact h1)
    have hI := forLoop_rule (initStep w) w.videos.length
      (fun _ (t : State) => Shut t.src_captures t.trace) (fun (t : State) => Once t.trace)
      (fun i t t1 _ hP => (triton_initStep_shut hP).1 t1)
      (fun i t t1 _ hP => (triton_initStep_shut hP).2 t1)
      w.videos.length 0 s5 (Nat.zero_add _) h5
    exact ⟨fun t ht => hI.1 t (hf.trans ht), fun t ht => hI.2 t (hf.trans ht)⟩
  exact key _ rfl

theorem triton_lookahead_shut {w : World} {i : Nat} {s : State}
    (h : Shut s.src_captures s.trace) :
    (∀ t, lookahead w i s = Flow.next t → Shut t.src_captures t.trace) ∧
    (∀ t, lookahead w i s = Flow.bail t → Once t.trace) := by
  have key : ∀ f, lookahead w i s = f →
      (∀ t, f = Flow.next t → Shut t.src_captures t.trace) ∧
      (∀ t, f = Flow.bail t → Once t.trace) := by
    intro f hf
    unfold lookahead at hf
    dsimp only at hf
    split at hf
    · subst hf
      exact ⟨fun t ht => (by cases ht; exact h), fun t ht => (by cases ht)⟩
    · rename_i p hc
      split at hf
      · subst hf
        exact ⟨fun t ht => (by cases ht; exact shut_pull_some _ _ h hc),
          fun t ht => (by cases ht)⟩
      · split at hf
        · subst hf
          refine ⟨fun t ht => ?_, fun t ht => (by cases ht)⟩
          cases ht
          exact shut_snoc_other (shut_pull_none h hc) rfl
        · subst hf
          refine ⟨fun t ht => (by cases ht), fun t ht => ?_⟩
          cases ht
          exact once_snoc_other (once_pull _ h hc) rfl
  exact key _ rfl

theorem triton_assembleStep_shut {w : World} {j i : Nat} {s : State}
    (h : Shut s.src_captures s.trace) :
    (∀ t, assembleStep w j i s = Flow.next t → Shut t.src_captures t.trace) ∧
    (∀ t, assembleStep w j i s = Flow.bail t → Once t.trace) := by
  have key : ∀ f, assembleStep w j i s = f →
      (∀ t, f = Flow.next t → Shut t.src_captures t.trace) ∧
      (∀ t, f = Flow.bail t → Once t.trace) := by
    intro f hf
    unfold assembleStep at hf
    split at hf
    · rename_i b hb
      subst hf
      exact ⟨fun t ht => (by cases ht),
        fun t ht => (by cases ht; exact (triton_lookahead_shut h).2 _ hb)⟩
    rename_i s1 hs1
    have h1 : Shut s1.src_captures s1.trace := (triton_lookahead_shut h).1 _ hs1
    dsimp only at hf
    split at hf
    · subst hf
      exact ⟨fun t ht => (by cases ht; exact h1), fun t ht => (by cases ht)⟩
    · split at hf
      · subst hf
        refine ⟨fun t ht => (by cases ht), fun t ht => ?_⟩
        cases ht
        exact once_snoc_other h1.1 rfl
      · split at hf
        · subst hf
          refine ⟨fun t ht => ?_, fun t ht => (by cases ht)⟩
          cases ht
          exact shut_snoc_other h1 rfl
        · subst hf
          refine ⟨fun t ht => (by cases ht), fun t ht => ?_⟩
          cases ht
          exact h1.1
  exact key _ rfl

theorem triton_Run_shut {w : World} {j : Nat} {s t : State}
    (h : Shut s.src_captures s.trace)
    (ht : Run w j s = Flow.next t ∨ Run w j s = Flow.bail t) :
    Shut t.src_captures t.trace := by
  have hG := forLoop_rule gatherStep s.active_video_count
    (fun _ (t : State) => Shut t.src_captures t.trace)
    (fun (t : State) => Shut t.src_captures t.trace)
    (fun i t t1 _ hP hst => by unfold gatherStep at hst; cases hst; exact hP)
    (fun i t t1 _ hP hst => by unfold gatherStep at hst; cases hst)
    s.active_video_count 0 s (Nat.zero_add _) h
  generalize hf : Run w j s = f at ht
  unfold Run at hf
  split at hf
  · rename_i b hb
    subst hf
    rcases ht with ht | ht <;> cases ht
    exact hG.2 _ hb
  rename_i s0 hs0
  have h0 : Shut s0.src_captures s0.trace := hG.1 _ hs0
  split at hf
  · rename_i b hb
    subst hf
    obtain ⟨c1, e1⟩ := triton_check_keeps (Or.inr hb)
    rcases ht with ht | ht <;> cases ht
    rw [c1, e1]; exact h0
  rename_i s1 hs1
  obtain ⟨c1, e1⟩ := triton_check_keeps (Or.inl hs1)
  split at hf
  · rename_i b hb
    subst hf
    obtain ⟨c2, e2⟩ := triton_check_keeps (Or.inr hb)
    rcases ht with ht | ht <;> cases ht
    rw [c2, e2, c1, e1]; exact h0
  rename_i s2 hs2
  obtain ⟨c2, e2⟩ := triton_check_keeps (Or.inl hs2)
  obtain ⟨c3, e3⟩ := triton_check_keeps (hf ▸ ht)
  rw [c3, e3]
  dsimp only
  rw [c2, e2, c1, e1]
  exact shut_snoc_other h0 rfl

theorem triton_writeStep_shut {w : World} {j i : Nat} {s t : State}
    (h : Shut s.src_captures s.trace)
    (ht : writeStep w j i s = Flow.next t ∨ writeStep w j i s = Flow.bail t) :
    Shut t.src_captures t.trace := by
  generalize hf : writeStep w j i s = f at ht
  unfold writeStep at hf
  dsimp only at hf
  split at hf
  · subst hf
    rcases ht with ht | ht <;> cases ht
    exact shut_snoc_other h rfl
  · subst hf
    rcases ht with ht | ht <;> cases ht
    exact h

theorem triton_cycle_shut {w : World} {j : Nat} {s : State}
    (h : Shut s.src_captures s.trace) :
    (∀ t, cycle w j s = Flow.next t → Shut t.src_captures t.trace) ∧
    (∀ t, cycle w j s = Flow.bail t → Once t.trace) := by
  have hA := forLoop_rule (assembleStep w j) w.videos.length
    (fun _ (t : State) => Shut t.src_captures t.trace) (fun (t : State) => Once t.trace)
    (fun i t t1 _ hP => (triton_assembleStep_shut hP).1 t1)
    (fun i t t1 _ hP => (triton_assembleStep_shut hP).2 t1)
    w.videos.length 0 { s with active_video_count := 0 } (Nat.zero_add _) h
  have key : ∀ f, cycle w j s = f →
      (∀ t, f = Flow.next t → Shut t.src_captures t.trace) ∧
      (∀ t, f = Flow.bail t → Once t.trace) := by
    intro f hf
    unfold cycle at hf
    split at hf
    · rename_i b hb
      subst hf
      exact ⟨fun t ht => (by cases ht), fun t ht => (by cases ht; exact hA.2 _ hb)⟩
    rename_i s1 hs1
    have h1 : Shut s1.src_captures s1.trace := hA.1 _ hs1
    split at hf
    · subst hf
      exact ⟨fun t ht => (by cases ht), fun t ht => (by cases ht; exact h1.1)⟩
    split at hf
    · rename_i b hb
      subst hf
      exact ⟨fun t ht => (by cases ht),
        fun t ht => (by cases ht; exact (triton_Run_shut h1 (Or.inr hb)).1)⟩
    rename_i s2 hs2
    have h2 : Shut s2.src_captures s2.trace := triton_Run_shut h1 (Or.inl hs2)
    have hW := forLoop_rule (writeStep w j) s1.active_video_count
      (fun _ (t : State) => Shut t.src_captures t.trace)
      (fun (t : State) => Shut t.src_captures t.trace)
      (fun i t t1 _ hP hst => triton_writeStep_shut hP (Or.inl hst))
      (fun i t t1 _ hP hst => triton_writeStep_shut hP (Or.inr hst))
      s1.active_video_count 0 s2 (Nat.zero_add _) h2
    split at hf
    · rename_i b hb
      subst hf
      exact ⟨fun t ht => (by cases ht), fun t ht => (by cases ht; exact (hW.2 _ hb).1)⟩
    rename_i s3 hs3
    have h3 : Shut s3.src_captures s3.trace := hW.1 _ hs3
    have hU := forLoop_rule updateStep s1.active_video_count
      (fun _ (t : State) => Shut t.src_captures t.trace)
      (fun (t : State) => Shut t.src_captures t.trace)
      (fun i t t1 _ hP hst => by unfold updateStep at hst; cases hst; exact hP)
      (fun i t t1 _ hP hst => by unfold updateStep at hst; cases hst)
      s1.active_video_count 0 s3 (Nat.zero_add _) h3
    exact ⟨fun t ht => hU.1 t (hf.trans ht), fun t ht => (hU.2 t (hf.trans ht)).1⟩
  exact key _ rfl

theorem triton_cycleLoop_once {w : World} :
    ∀ (fuel j : Nat) (s r : State), Shut s.src_captures s.trace →
      cycleLoop w fuel j s = some r → Once r.trace := by
  intro fuel
  induction fuel with
  | zero => intro j s r _ h; cases h
  | succ fuel ih =>
    intro j s r hs h
    unfold cycleLoop at h
    split at h
    · rename_i b hb
      cases h
      exact (triton_cycle_shut hs).2 _ hb
    · rename_i s1 hs1
      exact ih _ _ _ ((triton_cycle_shut hs).1 _ hs1) h

theorem triton_body_once {w : World} {s : State} (h : body w = some s) : Once s.trace := by
  have hO := forLoop_rule (openStep w) w.videos.length
    (fun _ (t : State) => ∀ e ∈ t.trace, e.isEnd = false)
    (fun (t : State) => ∀ e ∈ t.trace, e.isEnd = false)
    (fun i t t1 _ hP hst => triton_openStep_fresh hP (Or.inl hst))
    (fun i t t1 _ hP hst => triton_openStep_fresh hP (Or.inr hst))
    w.videos.length 0 (initial w) (Nat.zero_add _) (fun e he => by cases he)
  unfold body at h
  split at h
  · rename_i b hb
    cases h
    exact once_of_fresh (hO.2 _ hb)
  rename_i s1 hs1
  have hS := triton_setup_once (w := w) (hO.1 _ hs1)
  split at h
  · rename_i b hb
    cases h
    exact hS.2 _ hb
  · rename_i s2 hs2
    exact triton_cycleLoop_once _ _ _ _ (hS.1 _ hs2) h

theorem triton_BatchProcess_once {w : World} {r : State} (h : BatchProcess w = some r) :
    Once r.trace := by
  unfold BatchProcess at h
  cases hb : body w with
  | none => rw [hb] at h; cases h
  | some s =>
    rw [hb] at h
    cases h
    have hx : Once s.trace := triton_body_once hb
    exact hx

end Triton

/-- Claim C21: both drivers return, and in the trace of either no stream is pulled again
after a pull of it returned no frame: whenever the trace is `pre`, the pull of stream `x`
that returned no frame, then `post`, no pull of `x` occurs in `post`. -/
theorem ended_stream_is_never_pulled_again (w : World) :
    (∃ r, Local.BatchProcess w = some r ∧ Once r.trace) ∧
    (∃ r, Triton.BatchProcess w = some r ∧ Once r.trace) := by
  obtain ⟨rl, hl⟩ := Local.local_BatchProcess_total w
  obtain ⟨rt, ht⟩ := Triton.triton_BatchProcess_total w
  exact ⟨⟨rl, hl, Local.local_BatchProcess_once hl⟩, ⟨rt, ht, Triton.triton_BatchProcess_once ht⟩⟩

set_option maxRecDepth 100000 in

/-- Claim C21 at streams of one and two frames: in both drivers a pull of stream 0
returns no frame, stream 1 is still pulled afterwards, and stream 0 is not. -/
theorem ended_stream_is_never_pulled_again_witness :
    (Local.BatchProcess shortThenLong).map
        (fun r => (r.trace.filter Event.isPull).drop 1) =
      some [Event.pull 0 (some 0), Event.pull 1 (some 0), Event.pull 0 none,
        Event.pull 1 (some 1), Event.pull 1 none] ∧
    (Triton.BatchProcess shortThenLong).map
        (fun r => (r.trace.filter Event.isPull).drop 1) =
      some [Event.pull 0 (some 0), Event.pull 1 (some 0), Event.pull 0 none,
        Event.pull 1 (some 1), Event.pull 1 none] ∧
    ((∃ r, Local.BatchProcess shortThenLong = some r ∧ Once r.trace) ∧
      (∃ r, Triton.BatchProcess shortThenLong = some r ∧ Once r.trace)) :=
  ⟨by decide, by decide, ended_stream_is_never_pulled_again shortThenLong⟩

theorem GetFlagArgVal_of_name_alone (flag : List Char) (h1 : '=' ∉ flag)
    (h2 : ∀ c rest, flag = c :: rest → c ≠ '-') :
    GetFlagArgVal flag ('-' :: '-' :: flag) = some none := by
  have hd : (('-' :: flag).dropWhile (fun d => d == '-')) = flag := by
    cases flag with
    | nil => rfl
    | cons c rest =>
      have hc : c ≠ '-' := h2 c rest rfl
      have hb : (c == '-') = false := by simpa using hc
      simp only [List.dropWhile, beq_self_eq_true, hb]
  simp only [GetFlagArgVal, ne_eq, not_true_eq_false, if_false, hd, strchr, if_neg h1]

theorem GetFlagArgValString_never_null (flag arg : List Char) :
    GetFlagArgValString flag arg = none ↔ GetFlagArgVal flag arg = none := by
  unfold GetFlagArgValString
  cases GetFlagArgVal flag arg <;> simp

/-- Claim C30 fails on the code: the argument `--mode` names the flag `mode` without a
value, the first overload returns true with a null value string, and the overloads for
`long` and `int` hand that null pointer to `strtol`, while the overloads for strings and
booleans test the value string for null. -/
theorem flag_without_value_applies_strtol_to_null (strtol : List Char → Int) :
    GetFlagArgVal "mode".toList "--mode".toList = some none ∧
    GetFlagArgValLong strtol "mode".toList "--mode".toList = NumberResult.strtolOfNull ∧
    GetFlagArgValInt strtol "mode".toList "--mode".toList = NumberResult.strtolOfNull ∧
    GetFlagArgValInt strtol "log_level".toList "--log_level".toList =
      NumberResult.strtolOfNull ∧
    GetFlagArgValBool "verbose".toList "--mode".toList = none ∧
    GetFlagArgValBool "verbose".toList "--verbose".toList = some true ∧
    GetFlagArgValString "log".toList "--log".toList = some [] := by
  have h1 : GetFlagArgVal "mode".toList "--mode".toList = some none := by decide
  have h2 : GetFlagArgVal "log_level".toList "--log_level".toList = some none := by decide
  refine ⟨h1, ?_, ?_, ?_, by decide, by decide, by decide⟩
  · simp only [GetFlagArgValLong, h1]
  · simp only [GetFlagArgValInt, GetFlagArgValLong, h1]
  · simp only [GetFlagArgValInt, GetFlagArgValLong, h2]

theorem outFilePattern_of_four (v : List Char) (h4 : 4 ≤ v.length) (hlen : v.length < 2 ^ 64)
    (hp : '%' ∉ v) :
    outFilePattern v =
      some (v.take (v.length - 4) ++ "_%02u".toList ++ v.drop (v.length - 4)) := by
  have hne : v ≠ [] := by
    intro h
    rw [h] at h4
    simp at h4
  have hpos : (v.length + 2 ^ 64 - 4) % 2 ^ 64 = v.length - 4 := by
    have : v.length + 2 ^ 64 - 4 = (v.length - 4) + 2 ^ 64 := by omega
    rw [this, Nat.add_mod_right]
    exact Nat.mod_eq_of_lt (by omega)
  unfold outFilePattern stringInsert
  rw [if_neg hne, if_pos hp, hpos, if_neg (by omega)]

/-- Claim C29 fails on the code: the value `out` of `--out_file` is not empty and has no
`%`; `size() - 4` wraps to `2 ^ 64 - 1`, beyond the end of the string, and `insert`
throws instead of producing a pattern. -/
theorem short_out_file_has_no_pattern :
    GetFlagArgValString "out_file".toList "--out_file=out".toList = some "out".toList ∧
    ("out".toList.length + 2 ^ 64 - 4) % 2 ^ 64 = 2 ^ 64 - 1 ∧
    outFilePattern "out".toList = none ∧
    outFilePattern "out.mp4".toList = some "out_%02u.mp4".toList := by
  refine ⟨by decide, by decide, by decide, by decide⟩

/-- Claim C25 fails on the code: for an effect name that is not the green-screen name,
`Create` returns the null pointer, and with one input stream that opens and has a frame
`BatchProcess` opens the stream, reads its first frame and then calls `app->Init` through
the null pointer instead of returning a status. -/
theorem unknown_effect_uses_null_app (NVVFX_FX_GREEN_SCREEN effectName : List Char)
    (hname : strcasecmp effectName NVVFX_FX_GREEN_SCREEN = false) :
    Triton.Create NVVFX_FX_GREEN_SCREEN effectName = none ∧
    ∃ s, Triton.BatchProcessFor NVVFX_FX_GREEN_SCREEN effectName (World.ideal [[frame4]]) =
        some (Triton.Outcome.nullAppUsed s) ∧
      s.trace = [Event.openSource 0 true, Event.openSink 0 true, Event.pull 0 (some 0)] := by
  have hc : Triton.Create NVVFX_FX_GREEN_SCREEN effectName = none := by
    unfold Triton.Create
    rw [hname]
    rfl
  refine ⟨hc, ?_⟩
  unfold Triton.BatchProcessFor
  rw [hc]
  exact ⟨_, rfl, rfl⟩

/-- Claim C25 at the default empty effect name, the green-screen name being
`GreenScreen`. -/
theorem unknown_effect_uses_null_app_witness :
    strcasecmp [] "GreenScreen".toList = false ∧
    (Triton.Create "GreenScreen".toList [] = none ∧
    ∃ s, Triton.BatchProcessFor "GreenScreen".toList [] (World.ideal [[frame4]]) =
        some (Triton.Outcome.nullAppUsed s) ∧
      s.trace = [Event.openSource 0 true, Event.openSink 0 true, Event.pull 0 (some 0)]) :=
  ⟨by decide, unknown_effect_uses_null_app "GreenScreen".toList [] (by decide)⟩

theorem BatchProcessFor_green_screen (gs effectName : List Char) (w : World)
    (hname : strcasecmp effectName gs = true) :
    Triton.BatchProcessFor gs effectName w = (Triton.BatchProcess w).map Triton.Outcome.returned := by
  unfold Triton.BatchProcessFor Triton.Create
  rw [hname]
  rfl

namespace Relight

theorem nextHdrLoop_total (readable : Nat → Bool) :
    ∀ (fuel : Nat) (s : HdrState), s.m_hdrFiles.length < fuel →
      ∃ r, nextHdrLoop readable fuel s = some r := by
  intro fuel
  induction fuel with
  | zero => intro s h; omega
  | succ fuel ih =>
    intro s h
    unfold nextHdrLoop
    split
    · exact ⟨_, rfl⟩
    · split
      · exact ⟨_, rfl⟩
      · rename_i f hf
        split
        · exact ⟨_, rfl⟩
        · dsimp only
          split
          · exact ⟨_, rfl⟩
          · apply ih
            have hlt : s.m_hdrIndex < s.m_hdrFiles.length := by
              by_contra hc
              rw [List.getElem?_eq_none (by omega)] at hf
              cases hf
            show (s.m_hdrFiles.eraseIdx s.m_hdrIndex).length < fuel
            rw [List.length_eraseIdx, if_pos hlt]
            omega

theorem nextHdrLoop_returned (readable : Nat → Bool) :
    ∀ (fuel : Nat) (s : HdrState) (e : Err) (t : HdrState), s.m_hdrFiles ≠ [] →
      nextHdrLoop readable fuel s = some (KeyOutcome.returned e t) →
      e = Err.errNone ∧ ∃ f, t.m_hdrFiles[t.m_hdrIndex]? = some f ∧ readable f = true := by
  intro fuel
  induction fuel with
  | zero => intro s e t _ h; cases h
  | succ fuel ih =>
    intro s e t hne h
    unfold nextHdrLoop at h
    rw [if_neg hne] at h
    split at h
    · cases h
    · rename_i f hf
      split at h
      · rename_i hr
        cases h
        exact ⟨rfl, f, hf, hr⟩
      · dsimp only at h
        split at h
        · cases h
        · rename_i hz
          refine ih _ e t ?_ h
          intro hnil
          apply hz
          show (s.m_hdrFiles.eraseIdx s.m_hdrIndex).length % 2 ^ 32 = 0
          have hnil2 : s.m_hdrFiles.eraseIdx s.m_hdrIndex = [] := hnil
          rw [hnil2]
          rfl

theorem processKeyN_results (readable : Nat → Bool) (s : HdrState) :
    (∃ r, processKeyN readable s = some r) ∧
    ∀ e t, processKeyN readable s = some (KeyOutcome.returned e t) →
      e = Err.errNone ∧ t.m_hdrIndex < t.m_hdrFiles.length ∧
        ∃ f, t.m_hdrFiles[t.m_hdrIndex]? = some f ∧ readable f = true := by
  unfold processKeyN
  split
  · exact ⟨⟨_, rfl⟩, fun e t h => by cases h⟩
  · rename_i hz
    refine ⟨nextHdrLoop_total readable _ _ (Nat.lt_succ_self _), fun e t h => ?_⟩
    have hne : s.m_hdrFiles ≠ [] := by
      intro hnil
      apply hz
      rw [hnil]
      rfl
    obtain ⟨he, f, hf, hr⟩ := nextHdrLoop_returned readable (s.m_hdrFiles.length + 1)
      ⟨s.m_hdrFiles, (s.m_hdrIndex + 1) % 2 ^ 32 % (s.m_hdrFiles.length % 2 ^ 32)⟩ e t hne h
    refine ⟨he, ?_, f, hf, hr⟩
    by_contra hc
    rw [List.getElem?_eq_none (by omega)] at hf
    cases hf

end Relight

/-- Claim C28 fails on the code: case `n` takes the remainder modulo the size of the list
before it tests the list for emptiness.  With an HDR directory holding no HDR file
`processMovie` goes on with an empty list and the key divides by zero; with one file that
was readable at the start and is not when the key is pressed, the file is erased and the
index is reduced modulo zero; `errQuit` is not returned. -/
theorem next_hdr_key_takes_remainder_modulo_zero (readable : Nat → Bool) :
    Relight.initHdr readable [] = some ⟨[], 0⟩ ∧
    Relight.processKeyN readable ⟨[], 0⟩ = some (Relight.KeyOutcome.remainderByZero ⟨[], 0⟩) ∧
    Relight.initHdr (fun _ => true) [7] = some ⟨[7], 0⟩ ∧
    Relight.processKeyN (fun _ => false) ⟨[7], 0⟩ =
      some (Relight.KeyOutcome.remainderByZero ⟨[], 0⟩) ∧
    Relight.processKeyN (fun f => decide (f = 7)) ⟨[7, 8], 0⟩ =
      some (Relight.KeyOutcome.returned Relight.Err.errNone ⟨[7], 0⟩) := by
  refine ⟨rfl, rfl, by decide, by decide, by decide⟩

namespace MultifileLogger

theorem openLogFile_ok {fopenOk : Nat → Bool} (hopen : ∀ i, fopenOk i = true) (index : Nat)
    (s : State) (hnum : s.m_numFiles ≠ 0) (hfd : s.m_fd = true) :
    ∃ s1, openLogFile fopenOk index s = some (true, s1) ∧ s1.m_fd = true ∧
      s1.m_numFiles = s.m_numFiles ∧ s1.m_maxSize = s.m_maxSize ∧ s1.m_currSize = 0 ∧
      s1.current = [] ∧ s1.closed = s.closed ++ [(s.m_currIndex, s.current)] := by
  unfold openLogFile
  rw [if_neg hnum]
  dsimp only
  rw [hopen, hfd]
  exact ⟨_, rfl, rfl, rfl, rfl, rfl, rfl, rfl⟩

theorem written_reopen {s s1 : State} (hcur : s1.current = [])
    (hcl : s1.closed = s.closed ++ [(s.m_currIndex, s.current)]) : written s1 = written s := by
  unfold written
  rw [hcur, hcl]
  simp

theorem endsLine_snoc (pre : List Char) : endsLine (pre ++ [newline]) = true := by
  unfold endsLine
  rw [List.getLast?_append]
  simp

theorem endsLine_append {a b : List Char} (ha : endsLine a = true) (hb : endsLine b = true) :
    endsLine (a ++ b) = true := by
  rcases List.eq_nil_or_concat b with hnil | ⟨L, x, hx⟩
  · rw [hnil, List.append_nil]; exact ha
  · rw [List.concat_eq_append] at hx
    subst hx
    unfold endsLine at hb ⊢
    rw [List.getLast?_append] at hb
    rw [← List.append_assoc, List.getLast?_append]
    simpa using hb

theorem tidy_reopen {s s1 : State} (h : Tidy s) (hmax : s1.m_maxSize = s.m_maxSize)
    (hsize : s1.m_currSize = 0) (hcur : s1.current = [])
    (hcl : s1.closed = s.closed ++ [(s.m_currIndex, s.current)]) : Tidy s1 := by
  refine ⟨by rw [hsize, hcur]; rfl, by rw [hcur]; exact ⟨Nat.zero_le _, rfl⟩, ?_⟩
  intro f hf
  rw [hcl] at hf
  rw [hmax]
  rcases List.mem_append.1 hf with hm | hm
  · exact h.closed f hm
  · have : f = (s.m_currIndex, s.current) := by simpa using hm
    rw [this]
    exact h.current

theorem fwrite_ok (buf : List Char) (z : Nat) (s : State) (hfd : s.m_fd = true)
    (hz : z ≤ buf.length) :
    fwrite buf z s = some { s with current := s.current ++ buf.take z } := by
  unfold fwrite
  rw [if_neg]
  rw [hfd]
  simp
  omega

theorem findBreak_spec (buf : List Char) :
    ∀ k, k ≤ buf.length →
      (findBreak buf k = some none ∧ ∀ i, i < k → buf[i]? ≠ some newline) ∨
      ∃ z, findBreak buf k = some (some z) ∧ 0 < z ∧ z ≤ k ∧ buf[z - 1]? = some newline := by
  intro k
  induction k with
  | zero =>
    intro _
    exact Or.inl ⟨rfl, fun i hi => absurd hi (Nat.not_lt_zero _)⟩
  | succ k ih =>
    intro hk
    have hget : buf[k]? = some buf[k] := List.getElem?_eq_getElem (by omega)
    unfold findBreak
    rw [hget]
    dsimp only
    by_cases hc : buf[k] = newline
    · rw [if_pos hc]
      right
      refine ⟨k + 1, rfl, Nat.succ_pos _, le_refl _, ?_⟩
      rw [Nat.add_sub_cancel, hget, hc]
    · rw [if_neg hc]
      rcases ih (by omega) with ⟨h1, h2⟩ | ⟨z, h1, h2, h3, h4⟩
      · left
        refine ⟨h1, fun i hi => ?_⟩
        by_cases hik : i = k
        · rw [hik, hget]
          intro heq
          exact hc (Option.some.inj heq)
        · exact h2 i (by omega)
      · right
        exact ⟨z, h1, h2, by omega, h4⟩

theorem linesOk_has_break (max : Nat) :
    ∀ (buf : List Char) (n : Nat), linesOk max n buf = true → buf ≠ [] →
      ∃ i, i + n < max ∧ buf[i]? = some newline := by
  intro buf
  induction buf with
  | nil => intro n _ h; exact absurd rfl h
  | cons c rest ih =>
    intro n h _
    unfold linesOk at h
    by_cases hc : c = newline
    · rw [if_pos hc] at h
      have h1 : n + 1 ≤ max := by
        have := Bool.and_eq_true_iff.1 h
        exact of_decide_eq_true this.1
      exact ⟨0, by omega, by rw [hc]; simp⟩
    · rw [if_neg hc] at h
      have hne : rest ≠ [] := by
        intro hnil
        rw [hnil] at h
        unfold linesOk at h
        simp at h
      obtain ⟨i, hi, hget⟩ := ih (n + 1) h hne
      exact ⟨i + 1, by omega, by simpa using hget⟩

theorem linesOk_drop (max : Nat) :
    ∀ (buf : List Char) (n i : Nat), linesOk max n buf = true → buf[i]? = some newline →
      linesOk max 0 (buf.drop (i + 1)) = true := by
  intro buf
  induction buf with
  | nil => intro n i _ h; simp at h
  | cons c rest ih =>
    intro n i h hget
    unfold linesOk at h
    cases i with
    | zero =>
      have hc : c = newline := by simpa using hget
      rw [if_pos hc] at h
      have := Bool.and_eq_true_iff.1 h
      simpa using this.2
    | succ j =>
      have hget2 : rest[j]? = some newline := by simpa using hget
      have hd : (c :: rest).drop (j + 1 + 1) = rest.drop (j + 1) := rfl
      rw [hd]
      by_cases hc : c = newline
      · rw [if_pos hc] at h
        have := Bool.and_eq_true_iff.1 h
        exact ih 0 j this.2 hget2
      · rw [if_neg hc] at h
        exact ih (n + 1) j h hget2

theorem linesOk_endsLine (max : Nat) :
    ∀ (buf : List Char) (n : Nat), linesOk max n buf = true → endsLine buf = true := by
  intro buf
  induction buf with
  | nil => intro n _; rfl
  | cons c rest ih =>
    intro n h
    unfold linesOk at h
    cases rest with
    | nil =>
      by_cases hc : c = newline
      · rw [hc]; exact endsLine_snoc []
      · rw [if_neg hc] at h
        unfold linesOk at h
        simp at h
    | cons d rest2 =>
      have hrest : endsLine (d :: rest2) = true := by
        by_cases hc : c = newline
        · rw [if_pos hc] at h
          have := Bool.and_eq_true_iff.1 h
          exact ih 0 this.2
        · rw [if_neg hc] at h
          exact ih (n + 1) h
      unfold endsLine at hrest ⊢
      rw [List.getLast?_cons_cons]
      exact hrest

theorem endsLine_take {buf : List Char} {i : Nat} (h : buf[i]? = some newline) :
    endsLine (buf.take (i + 1)) = true := by
  rw [List.take_succ, h]
  exact endsLine_snoc _

theorem writeLoop_spec {fopenOk : Nat → Bool} (hopen : ∀ i, fopenOk i = true) :
    ∀ (fuel : Nat) (buf : List Char) (s : State),
      2 * buf.length + (if s.m_currSize = 0 then 0 else 1) < fuel →
      s.m_fd = true → s.m_numFiles ≠ 0 → s.m_currSize ≤ s.m_maxSize →
      ∃ t, writeLoop fopenOk fuel buf s = some t ∧ t.m_fd = true ∧
        t.m_numFiles = s.m_numFiles ∧ t.m_maxSize = s.m_maxSize ∧
        written t = written s ++ buf ∧
        (linesOk s.m_maxSize 0 buf = true → s.m_maxSize + buf.length < 2 ^ 64 → Tidy s →
          Tidy t) := by
  intro fuel
  induction fuel with
  | zero => intro buf s h; omega
  | succ fuel ih =>
    intro buf s hfuel hfd hnum hle
    have hf0 : 2 * buf.length < fuel + 1 := by split at hfuel <;> omega
    unfold writeLoop
    by_cases hg : (s.m_currSize + buf.length) % 2 ^ 64 > s.m_maxSize
    · rw [if_pos hg, if_neg (Nat.not_lt.2 hle)]
      have hk : s.m_maxSize - s.m_currSize < buf.length := by
        have := Nat.mod_le (s.m_currSize + buf.length) (2 ^ 64)
        omega
      rcases findBreak_spec buf (s.m_maxSize - s.m_currSize) (Nat.le_of_lt hk) with
        ⟨hnone, hno⟩ | ⟨z, hz, hz0, hzk, hznl⟩
      · rw [hnone]
        dsimp only
        by_cases hc : s.m_currSize = 0
        · rw [if_neg (not_not.2 hc), fwrite_ok buf buf.length s hfd (le_refl _)]
          dsimp only
          refine ⟨_, rfl, hfd, rfl, rfl, ?_, ?_⟩
          · unfold written
            simp
          · intro hl _ _
            exfalso
            have hne : buf ≠ [] := by
              intro h0
              rw [h0] at hk
              simp at hk
            obtain ⟨i, hi, hget⟩ := linesOk_has_break _ buf 0 hl hne
            exact hno i (by omega) hget
        · rw [if_pos hc]
          obtain ⟨s1, h1, hfd1, hnum1, hmax1, hsize1, hcur1, hcl1⟩ :=
            openLogFile_ok hopen (s.m_currIndex + 1) s hnum hfd
          rw [h1]
          dsimp only
          rw [if_pos rfl]
          have hfuel1 : 2 * buf.length + (if s1.m_currSize = 0 then 0 else 1) < fuel := by
            rw [if_neg hc] at hfuel
            rw [if_pos hsize1]
            omega
          obtain ⟨t, ht, htfd, htnum, htmax, htw, htidy⟩ :=
            ih buf s1 hfuel1 hfd1 (by rw [hnum1]; exact hnum) (by rw [hsize1]; omega)
          refine ⟨t, ht, htfd, htnum.trans hnum1, htmax.trans hmax1, ?_, ?_⟩
          · rw [htw, written_reopen hcur1 hcl1]
          · intro hl hlen hts
            exact htidy (by rw [hmax1]; exact hl) (by rw [hmax1]; exact hlen)
              (tidy_reopen hts hmax1 hsize1 hcur1 hcl1)
      · rw [hz]
        dsimp only
        have hzlen : z ≤ buf.length := by omega
        have hz1 : z - 1 + 1 = z := by omega
        rw [fwrite_ok buf z s hfd hzlen]
        dsimp only
        obtain ⟨s2, h2, hfd2, hnum2, hmax2, hsize2, hcur2, hcl2⟩ :=
          openLogFile_ok hopen (s.m_currIndex + 1)
            { s with current := s.current ++ buf.take z,
                     m_currSize := (s.m_currSize + z) % 2 ^ 64 } hnum hfd
        rw [h2]
        dsimp only
        rw [if_pos rfl]
        have hfuel2 : 2 * (buf.drop z).length + (if s2.m_currSize = 0 then 0 else 1) < fuel := by
          rw [if_pos hsize2, List.length_drop]
          omega
        obtain ⟨t, ht, htfd, htnum, htmax, htw, htidy⟩ :=
          ih (buf.drop z) s2 hfuel2 hfd2 (by rw [hnum2]; exact hnum) (by rw [hsize2]; omega)
        refine ⟨t, ht, htfd, htnum.trans hnum2, htmax.trans hmax2, ?_, ?_⟩
        · rw [htw, written_reopen hcur2 hcl2]
          unfold written
          dsimp only
          rw [List.append_assoc, List.append_assoc, List.take_append_drop, List.append_assoc]
        · intro hl hlen hts
          have hmid : Tidy { s with current := s.current ++ buf.take z,
                                    m_currSize := (s.m_currSize + z) % 2 ^ 64 } := by
            refine ⟨?_, ⟨?_, ?_⟩, hts.closed⟩
            · show (s.m_currSize + z) % 2 ^ 64 = (s.current ++ buf.take z).length
              rw [List.length_append, List.length_take, Nat.min_eq_left hzlen, ← hts.size]
              exact Nat.mod_eq_of_lt (by omega)
            · show (s.current ++ buf.take z).length ≤ s.m_maxSize
              rw [List.length_append, List.length_take, Nat.min_eq_left hzlen, ← hts.size]
              omega
            · show endsLine (s.current ++ buf.take z) = true
              refine endsLine_append hts.current.2 ?_
              rw [← hz1]
              exact endsLine_take hznl
          refine htidy ?_ ?_ (tidy_reopen hmid hmax2 hsize2 hcur2 hcl2)
          · rw [hmax2]
            have := linesOk_drop _ buf 0 (z - 1) hl hznl
            rw [hz1] at this
            exact this
          · rw [hmax2, List.length_drop]
            show s.m_maxSize + (buf.length - z) < 2 ^ 64
            omega
    · rw [if_neg hg]
      by_cases hb : buf.length = 0
      · rw [if_neg (not_not.2 hb)]
        have hnil : buf = [] := List.length_eq_zero.1 hb
        refine ⟨s, rfl, hfd, rfl, rfl, by rw [hnil, List.append_nil], fun _ _ h => h⟩
      · rw [if_pos hb, fwrite_ok buf buf.length s hfd (le_refl _)]
        dsimp only
        refine ⟨_, rfl, hfd, rfl, rfl, ?_, ?_⟩
        · unfold written
          simp
        · intro hl hlen hts
          have hsum : s.m_currSize + buf.length < 2 ^ 64 := by omega
          have hfit : s.m_currSize + buf.length ≤ s.m_maxSize := by
            rw [Nat.mod_eq_of_lt hsum] at hg
            omega
          refine ⟨?_, ⟨?_, ?_⟩, hts.closed⟩
          · show (s.m_currSize + buf.length) % 2 ^ 64 = (s.current ++ buf.take buf.length).length
            rw [List.take_length, List.length_append, ← hts.size]
            exact Nat.mod_eq_of_lt hsum
          · show (s.current ++ buf.take buf.length).length ≤ s.m_maxSize
            rw [List.take_length, List.length_append, ← hts.size]
            exact hfit
          · show endsLine (s.current ++ buf.take buf.length) = true
            rw [List.take_length]
            exact endsLine_append hts.current.2 (linesOk_endsLine _ buf 0 hl)

theorem writeBuffer_spec {fopenOk : Nat → Bool} (hopen : ∀ i, fopenOk i = true)
    (buf : List Char) (s : State) (hfd : s.m_fd = true) (hnum : s.m_numFiles ≠ 0) :
    ∃ t, writeBuffer fopenOk buf s = some t ∧ t.m_fd = true ∧
      t.m_numFiles = s.m_numFiles ∧ t.m_maxSize = s.m_maxSize ∧
      written t = written s ++ buf ∧
      (linesOk s.m_maxSize 0 buf = true → s.m_maxSize + buf.length < 2 ^ 64 → Tidy s →
        Tidy t) := by
  unfold writeBuffer
  by_cases hfull : s.m_currSize ≥ s.m_maxSize
  · rw [if_pos hfull]
    obtain ⟨s1, h1, hfd1, hnum1, hmax1, hsize1, hcur1, hcl1⟩ :=
      openLogFile_ok hopen (s.m_currIndex + 1) s hnum hfd
    rw [h1]
    dsimp only
    rw [if_pos rfl]
    obtain ⟨t, ht, htfd, htnum, htmax, htw, htidy⟩ :=
      writeLoop_spec hopen (2 * buf.length + 2) buf s1 (by split <;> omega) hfd1
        (by rw [hnum1]; exact hnum) (by rw [hsize1]; omega)
    refine ⟨t, ht, htfd, htnum.trans hnum1, htmax.trans hmax1, ?_, ?_⟩
    · rw [htw, written_reopen hcur1 hcl1]
    · intro hl hlen hts
      exact htidy (by rw [hmax1]; exact hl) (by rw [hmax1]; exact hlen)
        (tidy_reopen hts hmax1 hsize1 hcur1 hcl1)
  · rw [if_neg hfull]
    exact writeLoop_spec hopen (2 * buf.length + 2) buf s (by split <;> omega) hfd hnum
      (by omega)

theorem writeAll_spec {fopenOk : Nat → Bool} (hopen : ∀ i, fopenOk i = true) :
    ∀ (bufs : List (List Char)) (s : State), s.m_fd = true → s.m_numFiles ≠ 0 → Tidy s →
      (∀ buf ∈ bufs, linesOk s.m_maxSize 0 buf = true ∧ s.m_maxSize + buf.length < 2 ^ 64) →
      ∃ t, writeAll fopenOk bufs s = some t ∧ t.m_maxSize = s.m_maxSize ∧ Tidy t ∧
        written t = written s ++ bufs.flatten := by
  intro bufs
  induction bufs with
  | nil =>
    intro s _ _ ht _
    exact ⟨s, rfl, rfl, ht, by simp⟩
  | cons buf rest ih =>
    intro s hfd hnum hts hb
    obtain ⟨s1, h1, hfd1, hnum1, hmax1, hw1, htidy1⟩ := writeBuffer_spec hopen buf s hfd hnum
    have hb0 := hb buf (List.mem_cons_self _ _)
    obtain ⟨t, ht, htmax, htt, htw⟩ := ih s1 hfd1 (by rw [hnum1]; exact hnum)
      (htidy1 hb0.1 hb0.2 hts)
      (fun b hbm => by rw [hmax1]; exact hb b (List.mem_cons_of_mem _ hbm))
    refine ⟨t, ?_, htmax.trans hmax1, htt, ?_⟩
    · unfold writeAll
      rw [h1]
      exact ht
    · rw [htw, hw1]
      simp

/-- Claim C26: with a log file open, `m_numFiles` not zero and every `fopen` succeeding,
`writeBuffer` returns for every buffer and every state of the size counters, without a
read or write outside the buffer, and the bytes written, taken in the order of the files
and within each file, are the bytes written before followed by exactly the buffer. -/
theorem writeBuffer_writes_the_buffer (fopenOk : Nat → Bool) (buf : List Char) (s : State)
    (hopen : ∀ i, fopenOk i = true) (hfd : s.m_fd = true) (hnum : s.m_numFiles ≠ 0) :
    ∃ t, writeBuffer fopenOk buf s = some t ∧ written t = written s ++ buf := by
  obtain ⟨t, ht, -, -, -, hw, -⟩ := writeBuffer_spec hopen buf s hfd hnum
  exact ⟨t, ht, hw⟩

/-- Claim C26 at a state whose open file holds 5 of at most 8 bytes and a buffer of three
lines: the first line completes the open file, the rest goes to the next file. -/
theorem writeBuffer_writes_the_buffer_witness :
    (∀ i : Nat, (fun _ => true) i = true) ∧ sampleState.m_fd = true ∧
    sampleState.m_numFiles ≠ 0 ∧
    (writeBuffer (fun _ => true) sampleBuffer sampleState).map
        (fun t => (t.closed, t.current)) =
      some ([(0, "abcd".toList ++ [newline] ++ "ef".toList ++ [newline])],
        "ghijklmnopq".toList ++ [newline] ++ "r".toList ++ [newline]) ∧
    ∃ t, writeBuffer (fun _ => true) sampleBuffer sampleState = some t ∧
      written t = written sampleState ++ sampleBuffer :=
  ⟨fun _ => rfl, rfl, by decide, by decide,
    writeBuffer_writes_the_buffer (fun _ => true) sampleBuffer sampleState (fun _ => rfl) rfl
      (by decide)⟩

/-- Claim C27: after `init` with at least one file and every `fopen` succeeding, for every
sequence of buffers made of lines that are ended by a line feed and at most `max_size`
bytes long with it (sizes staying below `2 ^ 64`), all calls of `writeBuffer` return, and
then every file closed so far and the open file hold at most `max_size` bytes and are
empty or end with a line feed; the files together hold the buffers in order. -/
theorem log_files_stay_within_max_size (fopenOk : Nat → Bool)
    (max_size num_files first : Nat) (bufs : List (List Char))
    (hopen : ∀ i, fopenOk i = true) (hnum : 1 ≤ num_files)
    (hbufs : ∀ buf ∈ bufs, linesOk max_size 0 buf = true ∧ max_size + buf.length < 2 ^ 64) :
    ∃ s0 t, init fopenOk max_size num_files first constructed = some (true, s0) ∧
      writeAll fopenOk bufs s0 = some t ∧
      (∀ f ∈ t.closed, f.2.length ≤ max_size ∧ endsLine f.2 = true) ∧
      t.current.length ≤ max_size ∧ endsLine t.current = true ∧
      written t = bufs.flatten := by
  have hne : num_files ≠ 0 := by omega
  have h0 : init fopenOk max_size num_files first constructed =
      some (true, { m_fd := true, m_numFiles := num_files, m_maxSize := max_size,
                    m_currSize := 0, m_currIndex := first % 2 ^ 32 % num_files,
                    closed := [], current := [] }) := by
    unfold init openLogFile constructed
    dsimp only
    rw [if_neg hne, hopen]
    rfl
  have htidy : Tidy { m_fd := true, m_numFiles := num_files, m_maxSize := max_size,
                      m_currSize := 0, m_currIndex := first % 2 ^ 32 % num_files,
                      closed := [], current := [] } :=
    ⟨rfl, ⟨Nat.zero_le _, rfl⟩, fun f hf => by cases hf⟩
  obtain ⟨t, ht, hmax, htt, hw⟩ := writeAll_spec hopen bufs _ rfl hne htidy hbufs
  refine ⟨_, t, h0, ht, ?_, ?_, htt.current.2, ?_⟩
  · intro f hf
    have := htt.closed f hf
    rw [hmax] at this
    exact this
  · have := htt.current.1
    rw [hmax] at this
    exact this
  · rw [hw]
    rfl

/-- Claim C27 at two files of at most 8 bytes and three buffers of short lines: four
files are written, of 6, 4, 8 and 3 bytes. -/
theorem log_files_stay_within_max_size_witness :
    (∀ i : Nat, (fun _ => true) i = true) ∧ 1 ≤ 2 ∧
    (∀ buf ∈ sampleBuffers, linesOk 8 0 buf = true ∧ 8 + buf.length < 2 ^ 64) ∧
    ((init (fun _ => true) 8 2 0 constructed).bind
        (fun p => writeAll (fun _ => true) sampleBuffers p.2)).map
        (fun t => (t.closed.map (fun f => (f.1, f.2.length)), t.current.length)) =
      some ([(0, 6), (1, 4), (0, 8)], 3) ∧
    ∃ s0 t, init (fun _ => true) 8 2 0 constructed = some (true, s0) ∧
      writeAll (fun _ => true) sampleBuffers s0 = some t ∧
      (∀ f ∈ t.closed, f.2.length ≤ 8 ∧ endsLine f.2 = true) ∧
      t.current.length ≤ 8 ∧ endsLine t.current = true ∧
      written t = sampleBuffers.flatten :=
  ⟨fun _ => rfl, by decide, by decide, by decide,
    log_files_stay_within_max_size (fun _ => true) 8 2 0 sampleBuffers (fun _ => rfl)
      (by decide) (by decide)⟩

end MultifileLogger

theorem exists_run_of_dispatched {tr : List Event} {b : List Nat} (hb : b ∈ dispatched tr) :
    ∃ j n st idx rs, Event.run j n st idx rs ∈ tr ∧ idx.take n = b := by
  induction tr with
  | nil => cases hb
  | cons e t ih =>
    cases e with
    | run j n st idx rs =>
      simp only [dispatched, List.mem_cons] at hb
      rcases hb with hb | hb
      · exact ⟨j, n, st, idx, rs, List.mem_cons_self _ _, hb.symm⟩
      · obtain ⟨j', n', st', idx', rs', hm, he⟩ := ih hb
        exact ⟨j', n', st', idx', rs', List.mem_cons_of_mem _ hm, he⟩
    | openSource _ _ =>
      obtain ⟨j', n', st', idx', rs', hm, he⟩ := ih (by simpa [dispatched] using hb)
      exact ⟨j', n', st', idx', rs', List.mem_cons_of_mem _ hm, he⟩
    | openSink _ _ =>
      obtain ⟨j', n', st', idx', rs', hm, he⟩ := ih (by simpa [dispatched] using hb)
      exact ⟨j', n', st', idx', rs', List.mem_cons_of_mem _ hm, he⟩
    | pull _ _ =>
      obtain ⟨j', n', st', idx', rs', hm, he⟩ := ih (by simpa [dispatched] using hb)
      exact ⟨j', n', st', idx', rs', List.mem_cons_of_mem _ hm, he⟩
    | allocate _ _ =>
      obtain ⟨j', n', st', idx', rs', hm, he⟩ := ih (by simpa [dispatched] using hb)
      exact ⟨j', n', st', idx', rs', List.mem_cons_of_mem _ hm, he⟩
    | deallocate _ _ =>
      obtain ⟨j', n', st', idx', rs', hm, he⟩ := ih (by simpa [dispatched] using hb)
      exact ⟨j', n', st', idx', rs', List.mem_cons_of_mem _ hm, he⟩
    | mismatch _ _ =>
      obtain ⟨j', n', st', idx', rs', hm, he⟩ := ih (by simpa [dispatched] using hb)
      exact ⟨j', n', st', idx', rs', List.mem_cons_of_mem _ hm, he⟩
    | transferTo _ _ _ =>
      obtain ⟨j', n', st', idx', rs', hm, he⟩ := ih (by simpa [dispatched] using hb)
      exact ⟨j', n', st', idx', rs', List.mem_cons_of_mem _ hm, he⟩
    | write _ _ _ =>
      obtain ⟨j', n', st', idx', rs', hm, he⟩ := ih (by simpa [dispatched] using hb)
      exact ⟨j', n', st', idx', rs', List.mem_cons_of_mem _ hm, he⟩

theorem mem_take_slot {idx : List Nat} {n x : Nat} (hx : x ∈ idx.take n) :
    ∃ i, i < n ∧ idx.getD i 0 = x := by
  obtain ⟨i, hi, hget⟩ := List.getElem_of_mem hx
  rw [List.length_take] at hi
  refine ⟨i, by omega, ?_⟩
  rw [List.getElem_take] at hget
  rw [List.getD_eq_getElem?_getD, List.getElem?_eq_getElem (by omega)]
  exact hget

namespace Local

theorem local_openStep_emits {w : World} {P : Event → Prop} {i : Nat} {s t : State}
    (h1 : ∀ x b, P (Event.openSource x b)) (h2 : ∀ x b, P (Event.openSink x b))
    (h : ∀ e ∈ s.trace, P e)
    (ht : openStep w i s = Flow.next t ∨ openStep w i s = Flow.bail t) :
    ∀ e ∈ t.trace, P e := by
  generalize hf : openStep w i s = f at ht
  unfold openStep at hf
  dsimp only at hf
  split at hf
  · subst hf
    rcases ht with ht | ht <;> cases ht
    exact forall_mem_snoc h (h1 _ _)
  · split at hf
    · subst hf
      rcases ht with ht | ht <;> cases ht
      exact forall_mem_snoc (forall_mem_snoc h (h1 _ _)) (h2 _ _)
    · subst hf
      rcases ht with ht | ht <;> cases ht
      exact forall_mem_snoc (forall_mem_snoc h (h1 _ _)) (h2 _ _)

theorem local_allocStep_emits {w : World} {P : Event → Prop} {i : Nat} {s t : State}
    (h4 : ∀ x a, P (Event.allocate x a)) (h : ∀ e ∈ s.trace, P e)
    (ht : allocStep w i s = Flow.next t ∨ allocStep w i s = Flow.bail t) :
    ∀ e ∈ t.trace, P e := by
  generalize hf : allocStep w i s = f at ht
  unfold allocStep at hf
  split at hf
  · subst hf
    rcases ht with ht | ht <;> cases ht
    exact forall_mem_snoc h (h4 _ _)
  · subst hf
    rcases ht with ht | ht <;> cases ht
    exact forall_mem_snoc h (h4 _ _)

theorem local_setup_emits {w : World} {P : Event → Prop} {s t : State}
    (h3 : ∀ x f, P (Event.pull x f)) (h4 : ∀ x a, P (Event.allocate x a))
    (h : ∀ e ∈ s.trace, P e)
    (ht : setup w s = Flow.next t ∨ setup w s = Flow.bail t) :
    ∀ e ∈ t.trace, P e := by
  generalize hf : setup w s = f at ht
  unfold setup at hf
  dsimp only at hf
  split at hf
  · subst hf
    rcases ht with ht | ht <;> cases ht
    exact h
  split at hf
  · subst hf
    rcases ht with ht | ht <;> cases ht
    exact forall_mem_snoc h (h3 _ _)
  rename_i m hread
  have h1 : ∀ e ∈ s.trace ++ [Event.pull 0 (some 0)], P e := forall_mem_snoc h (h3 _ _)
  split at hf
  · rename_i b hb
    subst hf
    obtain ⟨-, hb2⟩ := local_check_keeps (Or.inr hb)
    rcases ht with ht | ht <;> cases ht
    rw [hb2]; exact h1
  rename_i s2 hs2
  obtain ⟨-, e2⟩ := local_check_keeps (Or.inl hs2)
  split at hf
  · rename_i b hb
    subst hf
    obtain ⟨-, hb2⟩ := local_check_keeps (Or.inr hb)
    rcases ht with ht | ht <;> cases ht
    rw [hb2, e2]; exact h1
  rename_i s3 hs3
  obtain ⟨-, e3⟩ := local_check_keeps (Or.inl hs3)
  split at hf
  · rename_i b hb
    subst hf
    obtain ⟨-, hb2⟩ := local_check_keeps (Or.inr hb)
    rcases ht with ht | ht <;> cases ht
    rw [hb2, e3, e2]; exact h1
  rename_i s4 hs4
  obtain ⟨-, e4⟩ := local_check_keeps (Or.inl hs4)
  split at hf
  · rename_i b hb
    subst hf
    obtain ⟨-, hb2⟩ := local_check_keeps (Or.inr hb)
    rcases ht with ht | ht <;> cases ht
    rw [hb2, e4, e3, e2]; exact h1
  rename_i s5 hs5
  obtain ⟨-, e5⟩ := local_check_keeps (Or.inl hs5)
  have h5 : ∀ e ∈ s5.trace, P e := by rw [e5, e4, e3, e2]; exact h1
  have hA := forLoop_rule (allocStep w) w.videos.length
    (fun _ (t : State) => ∀ e ∈ t.trace, P e) (fun (t : State) => ∀ e ∈ t.trace, P e)
    (fun i t t1 _ hP hst => local_allocStep_emits h4 hP (Or.inl hst))
    (fun i t t1 _ hP hst => local_allocStep_emits h4 hP (Or.inr hst))
    w.videos.length 0 s5 (Nat.zero_add _) h5
  split at hf
  · rename_i b hb
    subst hf
    rcases ht with ht | ht <;> cases ht
    exact hA.2 _ hb
  rename_i s6 hs6
  have h6 := hA.1 _ hs6
  split at hf
  · subst hf
    rcases ht with ht | ht <;> cases ht
    exact h6
  · obtain ⟨-, e7⟩ := local_check_keeps (hf ▸ ht)
    rw [e7]; exact h6

theorem local_assembleStep_emits {w : World} {P : Event → Prop} {j i : Nat} {s t : State}
    (h3 : ∀ x f, P (Event.pull x f)) (h5 : ∀ x, P (Event.mismatch j x))
    (h6 : ∀ a m, P (Event.transferTo j a m)) (h : ∀ e ∈ s.trace, P e)
    (ht : assembleStep w j i s = Flow.next t ∨ assembleStep w j i s = Flow.bail t) :
    ∀ e ∈ t.trace, P e := by
  generalize hf : assembleStep w j i s = f at ht
  unfold assembleStep at hf
  dsimp only at hf
  split at hf
  · subst hf
    rcases ht with ht | ht <;> cases ht
    exact h
  · split at hf
    · subst hf
      rcases ht with ht | ht <;> cases ht
      exact forall_mem_snoc h (h3 _ _)
    · split at hf
      · subst hf
        rcases ht with ht | ht <;> cases ht
        exact forall_mem_snoc (forall_mem_snoc h (h3 _ _)) (h5 _)
      · split at hf
        · subst hf
          rcases ht with ht | ht <;> cases ht
          exact forall_mem_snoc (forall_mem_snoc h (h3 _ _)) (h6 _ _)
        · subst hf
          rcases ht with ht | ht <;> cases ht
          exact forall_mem_snoc h (h3 _ _)

theorem local_dispatch_emits {w : World} {P : Event → Prop} {j : Nat} {s t : State}
    (h7 : ∀ n st idx, P (Event.run j n st idx (w.runStatus j))) (h : ∀ e ∈ s.trace, P e)
    (ht : dispatch w j s = Flow.next t ∨ dispatch w j s = Flow.bail t) :
    ∀ e ∈ t.trace, P e := by
  generalize hf : dispatch w j s = f at ht
  unfold dispatch at hf
  split at hf
  · rename_i b hb
    subst hf
    obtain ⟨-, e1⟩ := local_check_keeps (Or.inr hb)
    rcases ht with ht | ht <;> cases ht
    rw [e1]; exact h
  rename_i s1 hs1
  obtain ⟨-, e1⟩ := local_check_keeps (Or.inl hs1)
  split at hf
  · rename_i b hb
    subst hf
    obtain ⟨-, e2⟩ := local_check_keeps (Or.inr hb)
    rcases ht with ht | ht <;> cases ht
    rw [e2, e1]; exact h
  rename_i s2 hs2
  obtain ⟨-, e2⟩ := local_check_keeps (Or.inl hs2)
  obtain ⟨-, e3⟩ := local_check_keeps (hf ▸ ht)
  rw [e3]
  dsimp only
  rw [e2, e1]
  exact forall_mem_snoc h (h7 _ _ _)

theorem local_writeStep_emits {w : World} {P : Event → Prop} {j i : Nat} {s t : State}
    (h8 : ∀ x a, P (Event.write j x a)) (h : ∀ e ∈ s.trace, P e)
    (ht : writeStep w j i s = Flow.next t ∨ writeStep w j i s = Flow.bail t) :
    ∀ e ∈ t.trace, P e := by
  generalize hf : writeStep w j i s = f at ht
  unfold writeStep at hf
  dsimp only at hf
  split at hf
  · subst hf
    rcases ht with ht | ht <;> cases ht
    exact forall_mem_snoc h (h8 _ _)
  · subst hf
    rcases ht with ht | ht <;> cases ht
    exact h

theorem local_cycle_emits {w : World} {P : Event → Prop} {j : Nat} {s t : State}
    (h3 : ∀ x f, P (Event.pull x f)) (h5 : ∀ x, P (Event.mismatch j x))
    (h6 : ∀ a m, P (Event.transferTo j a m))
    (h7 : ∀ n st idx, P (Event.run j n st idx (w.runStatus j)))
    (h8 : ∀ x a, P (Event.write j x a)) (h : ∀ e ∈ s.trace, P e)
    (ht : cycle w j s = Flow.next t ∨ cycle w j s = Flow.bail t) :
    ∀ e ∈ t.trace, P e := by
  have hA := forLoop_rule (assembleStep w j) w.videos.length
    (fun _ (t : State) => ∀ e ∈ t.trace, P e) (fun (t : State) => ∀ e ∈ t.trace, P e)
    (fun i t t1 _ hP hst => local_assembleStep_emits h3 h5 h6 hP (Or.inl hst))
    (fun i t t1 _ hP hst => local_assembleStep_emits h3 h5 h6 hP (Or.inr hst))
    w.videos.length 0 { s with activeVideoCount := 0 } (Nat.zero_add _) h
  generalize hf : cycle w j s = f at ht
  unfold cycle at hf
  split at hf
  · rename_i b hb
    subst hf
    rcases ht with ht | ht <;> cases ht
    exact hA.2 _ hb
  rename_i s1 hs1
  have g1 : ∀ e ∈ s1.trace, P e := hA.1 _ hs1
  split at hf
  · subst hf
    rcases ht with ht | ht <;> cases ht
    exact g1
  split at hf
  · rename_i b hb
    subst hf
    rcases ht with ht | ht <;> cases ht
    exact local_dispatch_emits h7 g1 (Or.inr hb)
  rename_i s2 hs2
  have g2 : ∀ e ∈ s2.trace, P e := local_dispatch_emits h7 g1 (Or.inl hs2)
  have hW := forLoop_rule (writeStep w j) s1.activeVideoCount
    (fun _ (t : State) => ∀ e ∈ t.trace, P e) (fun (t : State) => ∀ e ∈ t.trace, P e)
    (fun i t t1 _ hP hst => local_writeStep_emits h8 hP (Or.inl hst))
    (fun i t t1 _ hP hst => local_writeStep_emits h8 hP (Or.inr hst))
    s1.activeVideoCount 0 s2 (Nat.zero_add _) g2
  rcases ht with ht | ht
  · exact hW.1 t (hf.trans ht)
  · exact hW.2 t (hf.trans ht)

theorem local_cycleLoop_emits {w : World} {P : Event → Prop}
    (h3 : ∀ x f, P (Event.pull x f)) (h5 : ∀ j x, P (Event.mismatch j x))
    (h6 : ∀ j a m, P (Event.transferTo j a m))
    (h7 : ∀ j n st idx, P (Event.run j n st idx (w.runStatus j)))
    (h8 : ∀ j x a, P (Event.write j x a)) :
    ∀ (fuel j : Nat) (s r : State), (∀ e ∈ s.trace, P e) → cycleLoop w fuel j s = some r →
      ∀ e ∈ r.trace, P e := by
  intro fuel
  induction fuel with
  | zero => intro j s r _ h; cases h
  | succ fuel ih =>
    intro j s r hs h
    unfold cycleLoop at h
    split at h
    · rename_i b hb
      cases h
      exact local_cycle_emits h3 (h5 j) (h6 j) (h7 j) (h8 j) hs (Or.inr hb)
    · rename_i s1 hs1
      exact ih _ _ _ (local_cycle_emits h3 (h5 j) (h6 j) (h7 j) (h8 j) hs (Or.inl hs1)) h

theorem local_BatchProcess_emits {w : World} {P : Event → Prop} {r : State}
    (h1 : ∀ x b, P (Event.openSource x b)) (h2 : ∀ x b, P (Event.openSink x b))
    (h3 : ∀ x f, P (Event.pull x f)) (h4 : ∀ x a, P (Event.allocate x a))
    (h5 : ∀ j x, P (Event.mismatch j x)) (h6 : ∀ j a m, P (Event.transferTo j a m))
    (h7 : ∀ j n st idx, P (Event.run j n st idx (w.runStatus j)))
    (h8 : ∀ j x a, P (Event.write j x a)) (h9 : ∀ x a, P (Event.deallocate x a))
    (h : BatchProcess w = some r) : ∀ e ∈ r.trace, P e := by
  have hO := forLoop_rule (openStep w) w.videos.length
    (fun _ (t : State) => ∀ e ∈ t.trace, P e) (fun (t : State) => ∀ e ∈ t.trace, P e)
    (fun i t t1 _ hP hst => local_openStep_emits h1 h2 hP (Or.inl hst))
    (fun i t t1 _ hP hst => local_openStep_emits h1 h2 hP (Or.inr hst))
    w.videos.length 0 (initial w) (Nat.zero_add _) (fun e he => by cases he)
  have hbody : ∀ s, body w = some s → ∀ e ∈ s.trace, P e := by
    intro s hs
    unfold body at hs
    split at hs
    · rename_i b hb
      cases hs
      exact hO.2 _ hb
    rename_i s1 hs1
    have g1 : ∀ e ∈ s1.trace, P e := hO.1 _ hs1
    split at hs
    · rename_i b hb
      cases hs
      exact local_setup_emits h3 h4 g1 (Or.inr hb)
    · rename_i s2 hs2
      exact local_cycleLoop_emits h3 h5 h6 h7 h8 _ _ _ _
        (local_setup_emits h3 h4 g1 (Or.inl hs2)) hs
  unfold BatchProcess at h
  cases hb : body w with
  | none => rw [hb] at h; cases h
  | some s =>
    rw [hb] at h
    cases h
    unfold cleanup
    dsimp only
    intro e he
    rcases List.mem_append.1 he with hm | hm
    · exact hbody s hb e hm
    · obtain ⟨i, -, rfl⟩ := List.mem_map.1 hm
      exact h9 _ _

end Local

theorem slotsIncreasing_of_no_frame {N : Nat} {tr : List Event}
    (h : ∀ e ∈ tr, e.isFrame = false) : SlotsIncreasing N tr := by
  refine ⟨fun j a m hm => ?_, fun j a b m m' hm => ?_, fun j a m m' hm => ?_⟩ <;>
    · have := h _ hm
      cases this

theorem slotsIncreasing_mono {N : Nat} {tr tr' : List Event} (h : SlotsIncreasing N tr)
    (hsub : ∀ e ∈ tr', e ∈ tr ∨ e.isFrame = false) : SlotsIncreasing N tr' := by
  have key : ∀ j a m, Event.transferTo j a m ∈ tr' → Event.transferTo j a m ∈ tr := by
    intro j a m hm
    rcases hsub _ hm with h1 | h1
    · exact h1
    · cases h1
  exact ⟨fun j a m hm => h.1 j a m (key _ _ _ hm),
    fun j a b m m' hm hm' => h.2.1 j a b m m' (key _ _ _ hm) (key _ _ _ hm'),
    fun j a m m' hm hm' => h.2.2 j a m m' (key _ _ _ hm) (key _ _ _ hm')⟩

theorem slotsIncreasing_snoc_other {N : Nat} {tr : List Event} {e : Event}
    (h : SlotsIncreasing N tr) (he : e.isFrame = false) : SlotsIncreasing N (tr ++ [e]) := by
  refine slotsIncreasing_mono h (fun x hx => ?_)
  rcases List.mem_append.1 hx with hm | hm
  · exact Or.inl hm
  · rw [List.mem_singleton] at hm
    rw [hm]
    exact Or.inr he

theorem slotsIncreasing_snoc_frame {N j c i : Nat} {tr : List Event} {m : Mat}
    (h : SlotsIncreasing N tr) (hc : c ≤ i) (hi : i < N) (hm : m.stream = i)
    (hold : ∀ a m', Event.transferTo j a m' ∈ tr → a < c ∧ m'.stream < i) :
    SlotsIncreasing N (tr ++ [Event.transferTo j c m]) := by
  have split : ∀ {j' a m'}, Event.transferTo j' a m' ∈ tr ++ [Event.transferTo j c m] →
      Event.transferTo j' a m' ∈ tr ∨ (j' = j ∧ a = c ∧ m' = m) := by
    intro j' a m' hx
    rcases List.mem_append.1 hx with h1 | h1
    · exact Or.inl h1
    · rw [List.mem_singleton] at h1
      cases h1
      exact Or.inr ⟨rfl, rfl, rfl⟩
  refine ⟨fun j' a m' hx => ?_, fun j' a b m1 m2 hx1 hx2 hab => ?_,
    fun j' a m1 m2 hx1 hx2 => ?_⟩
  · rcases split hx with h1 | ⟨-, rfl, rfl⟩
    · exact h.1 _ _ _ h1
    · rw [hm]; exact ⟨hc, hi⟩
  · rcases split hx1 with h1 | ⟨rfl, rfl, rfl⟩
    · rcases split hx2 with h2 | ⟨rfl, rfl, rfl⟩
      · exact h.2.1 _ _ _ _ _ h1 h2 hab
      · rw [hm]; exact (hold _ _ h1).2
    · rcases split hx2 with h2 | ⟨-, rfl, rfl⟩
      · have := (hold _ _ h2).1
        omega
      · omega
  · rcases split hx1 with h1 | ⟨rfl, rfl, rfl⟩
    · rcases split hx2 with h2 | ⟨rfl, rfl, rfl⟩
      · exact h.2.2 _ _ _ _ h1 h2
      · have := (hold _ _ h1).1
        omega
    · rcases split hx2 with h2 | ⟨-, -, rfl⟩
      · have := (hold _ _ h2).1
        omega
      · rfl

theorem Filling.older {N j i c : Nat} {idx : List Nat} {tr : List Event}
    (h : Filling N j i c idx tr) (hi : i ≤ N) :
    ∀ a m, Event.transferTo j a m ∈ tr → a < c ∧ m.stream < i := by
  intro a m hm
  rcases h.transfers _ _ _ hm with h1 | ⟨-, h2, h3⟩
  · omega
  · refine ⟨h2, ?_⟩
    rw [h3]
    have hlen : c ≤ idx.length := by
      have := h.count_le
      rw [h.len]
      omega
    exact h.bounded _ (getD_mem_take idx c a 0 h2 hlen)

namespace Local

theorem local_assembleStep_slots {w : World} {j i : Nat} {s t : State}
    (ha : Assembling w j i s) (hi : i < w.videos.length)
    (h : SlotsIncreasing w.videos.length s.trace)
    (ht : assembleStep w j i s = Flow.next t ∨ assembleStep w j i s = Flow.bail t) :
    SlotsIncreasing w.videos.length t.trace := by
  have hmod : i % w.videos.length = i := Nat.mod_eq_of_lt hi
  generalize hf : assembleStep w j i s = f at ht
  unfold assembleStep at hf
  dsimp only at hf
  rw [hmod] at hf
  split at hf
  · subst hf
    rcases ht with ht | ht <;> cases ht
    exact h
  · split at hf
    · subst hf
      rcases ht with ht | ht <;> cases ht
      exact slotsIncreasing_snoc_other h rfl
    · rename_i m hread
      have hst : m.stream = i := (readFrame_some_lt hread).2.1
      split at hf
      · subst hf
        rcases ht with ht | ht <;> cases ht
        exact slotsIncreasing_snoc_other (slotsIncreasing_snoc_other h rfl) rfl
      · split at hf
        · subst hf
          rcases ht with ht | ht <;> cases ht
          refine slotsIncreasing_snoc_frame (slotsIncreasing_snoc_other h rfl)
            ha.fill.count_le hi hst ?_
          intro a m' hm'
          rcases List.mem_append.1 hm' with h1 | h1
          · exact ha.fill.older (Nat.le_of_lt hi) a m' h1
          · rw [List.mem_singleton] at h1
            cases h1
        · subst hf
          rcases ht with ht | ht <;> cases ht
          exact slotsIncreasing_snoc_other h rfl

theorem local_cycle_slots {w : World} {j : Nat} {s t : State} (hr : Ready w j s)
    (h : SlotsIncreasing w.videos.length s.trace)
    (ht : cycle w j s = Flow.next t ∨ cycle w j s = Flow.bail t) :
    SlotsIncreasing w.videos.length t.trace := by
  have hA := forLoop_rule (assembleStep w j) w.videos.length
    (fun i (t : State) => Assembling w j i t ∧ SlotsIncreasing w.videos.length t.trace)
    (fun (t : State) => SlotsIncreasing w.videos.length t.trace)
    (fun i t t1 hi hP hst => ⟨(local_assembleStep_spec hP.1 hi).1 t1 hst,
      local_assembleStep_slots hP.1 hi hP.2 (Or.inl hst)⟩)
    (fun i t t1 hi hP hst => local_assembleStep_slots hP.1 hi hP.2 (Or.inr hst))
    w.videos.length 0 { s with activeVideoCount := 0 } (Nat.zero_add _)
    ⟨hr.local_ready_assembling, h⟩
  generalize hf : cycle w j s = f at ht
  unfold cycle at hf
  split at hf
  · rename_i b hb
    subst hf
    rcases ht with ht | ht <;> cases ht
    exact hA.2 _ hb
  rename_i s1 hs1
  have g1 : SlotsIncreasing w.videos.length s1.trace := (hA.1 _ hs1).2
  split at hf
  · subst hf
    rcases ht with ht | ht <;> cases ht
    exact g1
  have hd : ∀ u, (dispatch w j s1 = Flow.next u ∨ dispatch w j s1 = Flow.bail u) →
      ∀ e ∈ u.trace, e ∈ s1.trace ∨ e.isFrame = false := fun u hu =>
    local_dispatch_emits (P := fun e => e ∈ s1.trace ∨ e.isFrame = false)
      (fun _ _ _ => Or.inr rfl) (fun e he => Or.inl he) hu
  split at hf
  · rename_i b hb
    subst hf
    rcases ht with ht | ht <;> cases ht
    exact slotsIncreasing_mono g1 (hd _ (Or.inr hb))
  rename_i s2 hs2
  have hW := forLoop_rule (writeStep w j) s1.activeVideoCount
    (fun _ (t : State) => ∀ e ∈ t.trace, e ∈ s1.trace ∨ e.isFrame = false)
    (fun (t : State) => ∀ e ∈ t.trace, e ∈ s1.trace ∨ e.isFrame = false)
    (fun i t t1 _ hP hst => local_writeStep_emits (fun _ _ => Or.inr rfl) hP (Or.inl hst))
    (fun i t t1 _ hP hst => local_writeStep_emits (fun _ _ => Or.inr rfl) hP (Or.inr hst))
    s1.activeVideoCount 0 s2 (Nat.zero_add _) (hd _ (Or.inl hs2))
  rcases ht with ht | ht
  · exact slotsIncreasing_mono g1 (hW.1 t (hf.trans ht))
  · exact slotsIncreasing_mono g1 (hW.2 t (hf.trans ht))

theorem local_cycleLoop_slots {w : World} :
    ∀ (fuel j : Nat) (s r : State), Ready w j s → SlotsIncreasing w.videos.length s.trace →
      cycleLoop w fuel j s = some r → SlotsIncreasing w.videos.length r.trace := by
  intro fuel
  induction fuel with
  | zero => intro j s r _ _ h; cases h
  | succ fuel ih =>
    intro j s r hr hs h
    unfold cycleLoop at h
    split at h
    · rename_i b hb
      cases h
      exact local_cycle_slots hr hs (Or.inr hb)
    · rename_i s1 hs1
      exact ih _ _ _ ((local_cycle_spec hr).1 _ hs1).1 (local_cycle_slots hr hs (Or.inl hs1)) h

theorem local_BatchProcess_slots {w : World} {r : State} (h : BatchProcess w = some r) :
    SlotsIncreasing w.videos.length r.trace := by
  have hO := forLoop_rule (openStep w) w.videos.length
    (fun _ (t : State) => Opening w t ∧ ∀ e ∈ t.trace, e.isFrame = false)
    (fun (t : State) => ∀ e ∈ t.trace, e.isFrame = false)
    (fun i t t1 _ hP hst => ⟨(local_openStep_spec hP.1).1 t1 hst,
      local_openStep_emits (fun _ _ => rfl) (fun _ _ => rfl) hP.2 (Or.inl hst)⟩)
    (fun i t t1 _ hP hst =>
      local_openStep_emits (fun _ _ => rfl) (fun _ _ => rfl) hP.2 (Or.inr hst))
    w.videos.length 0 (initial w) (Nat.zero_add _)
    ⟨Opening.local_opening_atEntry w, fun e he => by cases he⟩
  have hbody : ∀ s, body w = some s → SlotsIncreasing w.videos.length s.trace := by
    intro s hs
    unfold body at hs
    split at hs
    · rename_i b hb
      cases hs
      exact slotsIncreasing_of_no_frame (hO.2 _ hb)
    rename_i s1 hs1
    have g1 := hO.1 _ hs1
    split at hs
    · rename_i b hb
      cases hs
      exact slotsIncreasing_of_no_frame
        (local_setup_emits (fun _ _ => rfl) (fun _ _ => rfl) g1.2 (Or.inr hb))
    · rename_i s2 hs2
      exact local_cycleLoop_slots _ _ _ _ ((local_setup_spec g1.1).1 _ hs2)
        (slotsIncreasing_of_no_frame
          (local_setup_emits (fun _ _ => rfl) (fun _ _ => rfl) g1.2 (Or.inl hs2))) hs
  unfold BatchProcess at h
  cases hb : body w with
  | none => rw [hb] at h; cases h
  | some s =>
    rw [hb] at h
    cases h
    unfold cleanup
    dsimp only
    refine slotsIncreasing_mono (hbody s hb) (fun e he => ?_)
    rcases List.mem_append.1 he with hm | hm
    · exact Or.inl hm
    · obtain ⟨i, -, rfl⟩ := List.mem_map.1 hm
      exact Or.inr rfl

end Local

namespace Triton

theorem triton_openStep_emits {w : World} {P : Event → Prop} {i : Nat} {s t : State}
    (h1 : ∀ x b, P (Event.openSource x b)) (h2 : ∀ x b, P (Event.openSink x b))
    (h : ∀ e ∈ s.trace, P e)
    (ht : openStep w i s = Flow.next t ∨ openStep w i s = Flow.bail t) :
    ∀ e ∈ t.trace, P e := by
  generalize hf : openStep w i s = f at ht
  unfold openStep at hf
  dsimp only at hf
  split at hf
  · subst hf
    rcases ht with ht | ht <;> cases ht
    exact forall_mem_snoc h (h1 _ _)
  · split at hf
    · subst hf
      rcases ht with ht | ht <;> cases ht
      exact forall_mem_snoc (forall_mem_snoc h (h1 _ _)) (h2 _ _)
    · subst hf
      rcases ht with ht | ht <;> cases ht
      exact forall_mem_snoc (forall_mem_snoc h (h1 _ _)) (h2 _ _)

theorem triton_initStep_emits {w : World} {P : Event → Prop} {i : Nat} {s t : State}
    (h3 : ∀ x f, P (Event.pull x f)) (h4 : ∀ x a, P (Event.allocate x a))
    (h : ∀ e ∈ s.trace, P e)
    (ht : initStep w i s = Flow.next t ∨ initStep w i s = Flow.bail t) :
    ∀ e ∈ t.trace, P e := by
  generalize hf : initStep w i s = f at ht
  unfold initStep at hf
  dsimp only at hf
  split at hf
  · subst hf
    rcases ht with ht | ht <;> cases ht
    exact h
  · split at hf
    · subst hf
      rcases ht with ht | ht <;> cases ht
      exact forall_mem_snoc h (h3 _ _)
    · split at hf
      · subst hf
        rcases ht with ht | ht <;> cases ht
        exact forall_mem_snoc (forall_mem_snoc h (h3 _ _)) (h4 _ _)
      · subst hf
        rcases ht with ht | ht <;> cases ht
        exact forall_mem_snoc (forall_mem_snoc h (h3 _ _)) (h4 _ _)

theorem triton_setup_emits {w : World} {P : Event → Prop} {s t : State}
    (h3 : ∀ x f, P (Event.pull x f)) (h4 : ∀ x a, P (Event.allocate x a))
    (h : ∀ e ∈ s.trace, P e)
    (ht : setup w s = Flow.next t ∨ setup w s = Flow.bail t) :
    ∀ e ∈ t.trace, P e := by
  generalize hf : setup w s = f at ht
  unfold setup at hf
  dsimp only at hf
  split at hf
  · subst hf
    rcases ht with ht | ht <;> cases ht
    exact h
  split at hf
  · subst hf
    rcases ht with ht | ht <;> cases ht
    exact forall_mem_snoc h (h3 _ _)
  rename_i m hread
  have h1 : ∀ e ∈ s.trace ++ [Event.pull 0 (some 0)], P e := forall_mem_snoc h (h3 _ _)
  split at hf
  · rename_i b hb
    subst hf
    obtain ⟨-, hb2⟩ := triton_check_keeps (Or.inr hb)
    rcases ht with ht | ht <;> cases ht
    rw [hb2]; exact h1
  rename_i s2 hs2
  obtain ⟨-, e2⟩ := triton_check_keeps (Or.inl hs2)
  split at hf
  · rename_i b hb
    subst hf
    obtain ⟨-, hb2⟩ := triton_check_keeps (Or.inr hb)
    rcases ht with ht | ht <;> cases ht
    rw [hb2]; dsimp only; rw [e2]; exact h1
  rename_i s3 hs3
  obtain ⟨-, e3⟩ := triton_check_keeps (Or.inl hs3)
  dsimp only at e3
  split at hf
  · rename_i b hb
    subst hf
    obtain ⟨-, hb2⟩ := triton_check_keeps (Or.inr hb)
    rcases ht with ht | ht <;> cases ht
    rw [hb2, e3, e2]; exact h1
  rename_i s4 hs4
  obtain ⟨-, e4⟩ := triton_check_keeps (Or.inl hs4)
  split at hf
  · rename_i b hb
    subst hf
    obtain ⟨-, hb2⟩ := triton_check_keeps (Or.inr hb)
    rcases ht with ht | ht <;> cases ht
    rw [hb2, e4, e3, e2]; exact h1
  rename_i s5 hs5
  obtain ⟨-, e5⟩ := triton_check_keeps (Or.inl hs5)
  have h5 : ∀ e ∈ s5.trace, P e := by rw [e5, e4, e3, e2]; exact h1
  have hI := forLoop_rule (initStep w) w.videos.length
    (fun _ (t : State) => ∀ e ∈ t.trace, P e) (fun (t : State) => ∀ e ∈ t.trace, P e)
    (fun i t t1 _ hP hst => triton_initStep_emits h3 h4 hP (Or.inl hst))
    (fun i t t1 _ hP hst => triton_initStep_emits h3 h4 hP (Or.inr hst))
    w.videos.length 0 s5 (Nat.zero_add _) h5
  rcases ht with ht | ht
  · exact hI.1 t (hf.trans ht)
  · exact hI.2 t (hf.trans ht)

theorem triton_lookahead_emits {w : World} {P : Event → Prop} {i : Nat} {s t : State}
    (h3 : ∀ x f, P (Event.pull x f)) (h9 : ∀ x a, P (Event.deallocate x a))
    (h : ∀ e ∈ s.trace, P e)
    (ht : lookahead w i s = Flow.next t ∨ lookahead w i s = Flow.bail t) :
    ∀ e ∈ t.trace, P e := by
  generalize hf : lookahead w i s = f at ht
  unfold lookahead at hf
  dsimp only at hf
  split at hf
  · subst hf
    rcases ht with ht | ht <;> cases ht
    exact h
  · split at hf
    · subst hf
      rcases ht with ht | ht <;> cases ht
      exact forall_mem_snoc h (h3 _ _)
    · split at hf
      · subst hf
        rcases ht with ht | ht <;> cases ht
        exact forall_mem_snoc (forall_mem_snoc h (h3 _ _)) (h9 _ _)
      · subst hf
        rcases ht with ht | ht <;> cases ht
        exact forall_mem_snoc (forall_mem_snoc h (h3 _ _)) (h9 _ _)

theorem triton_Run_emits {w : World} {P : Event → Prop} {j : Nat} {s t : State}
    (h7 : ∀ n st idx, P (Event.run j n st idx (w.runStatus j))) (h : ∀ e ∈ s.trace, P e)
    (ht : Run w j s = Flow.next t ∨ Run w j s = Flow.bail t) :
    ∀ e ∈ t.trace, P e := by
  have hG := forLoop_rule gatherStep s.active_video_count
    (fun _ (t : State) => t.trace = s.trace) (fun (t : State) => t.trace = s.trace)
    (fun i t t1 _ hP hst => by unfold gatherStep at hst; cases hst; exact hP)
    (fun i t t1 _ hP hst => by unfold gatherStep at hst; cases hst)
    s.active_video_count 0 s (Nat.zero_add _) rfl
  generalize hf : Run w j s = f at ht
  unfold Run at hf
  split at hf
  · rename_i b hb
    subst hf
    rcases ht with ht | ht <;> cases ht
    rw [hG.2 _ hb]; exact h
  rename_i s0 hs0
  have e0 : s0.trace = s.trace := hG.1 _ hs0
  split at hf
  · rename_i b hb
    subst hf
    obtain ⟨-, e1⟩ := triton_check_keeps (Or.inr hb)
    rcases ht with ht | ht <;> cases ht
    rw [e1, e0]; exact h
  rename_i s1 hs1
  obtain ⟨-, e1⟩ := triton_check_keeps (Or.inl hs1)
  split at hf
  · rename_i b hb
    subst hf
    obtain ⟨-, e2⟩ := triton_check_keeps (Or.inr hb)
    rcases ht with ht | ht <;> cases ht
    rw [e2, e1, e0]; exact h
  rename_i s2 hs2
  obtain ⟨-, e2⟩ := triton_check_keeps (Or.inl hs2)
  obtain ⟨-, e3⟩ := triton_check_keeps (hf ▸ ht)
  rw [e3]
  dsimp only
  rw [e2, e1, e0]
  exact forall_mem_snoc h (h7 _ _ _)

theorem triton_writeStep_emits {w : World} {P : Event → Prop} {j i : Nat} {s t : State}
    (h8 : ∀ x a, P (Event.write j x a)) (h : ∀ e ∈ s.trace, P e)
    (ht : writeStep w j i s = Flow.next t ∨ writeStep w j i s = Flow.bail t) :
    ∀ e ∈ t.trace, P e := by
  generalize hf : writeStep w j i s = f at ht
  unfold writeStep at hf
  dsimp only at hf
  split at hf
  · subst hf
    rcases ht with ht | ht <;> cases ht
    exact forall_mem_snoc h (h8 _ _)
  · subst hf
    rcases ht with ht | ht <;> cases ht
    exact h

theorem triton_assembleStep_slots {w : World} {j i : Nat} {s t : State}
    (ha : Assembling w j i i s) (hi : i < w.videos.length)
    (h : SlotsIncreasing w.videos.length s.trace)
    (ht : assembleStep w j i s = Flow.next t ∨ assembleStep w j i s = Flow.bail t) :
    SlotsIncreasing w.videos.length t.trace := by
  have hL : ∀ u, (lookahead w i s = Flow.next u ∨ lookahead w i s = Flow.bail u) →
      SlotsIncreasing w.videos.length u.trace := fun u hu =>
    slotsIncreasing_mono h
      (triton_lookahead_emits (P := fun e => e ∈ s.trace ∨ e.isFrame = false)
        (fun _ _ => Or.inr rfl) (fun _ _ => Or.inr rfl) (fun e he => Or.inl he) hu)
  generalize hf : assembleStep w j i s = f at ht
  unfold assembleStep at hf
  split at hf
  · rename_i b hb
    subst hf
    rcases ht with ht | ht <;> cases ht
    exact hL _ (Or.inr hb)
  rename_i s1 hs1
  have g1 : SlotsIncreasing w.videos.length s1.trace := hL _ (Or.inl hs1)
  have a1 : Assembling w j i (i + 1) s1 := (lookahead_spec ha hi).1 _ hs1
  dsimp only at hf
  split at hf
  · subst hf
    rcases ht with ht | ht <;> cases ht
    exact g1
  · rename_i m hm
    have hst : m.stream = i := (a1.frames i m hm).1
    split at hf
    · subst hf
      rcases ht with ht | ht <;> cases ht
      exact slotsIncreasing_snoc_other g1 rfl
    · split at hf
      · subst hf
        rcases ht with ht | ht <;> cases ht
        exact slotsIncreasing_snoc_frame g1 a1.fill.count_le hi hst
          (a1.fill.older (Nat.le_of_lt hi))
      · subst hf
        rcases ht with ht | ht <;> cases ht
        exact g1

theorem triton_cycle_slots {w : World} {j : Nat} {s t : State} (hr : Ready w j s)
    (h : SlotsIncreasing w.videos.length s.trace)
    (ht : cycle w j s = Flow.next t ∨ cycle w j s = Flow.bail t) :
    SlotsIncreasing w.videos.length t.trace := by
  have hA := forLoop_rule (assembleStep w j) w.videos.length
    (fun i (t : State) => Assembling w j i i t ∧ SlotsIncreasing w.videos.length t.trace)
    (fun (t : State) => SlotsIncreasing w.videos.length t.trace)
    (fun i t t1 hi hP hst => ⟨(triton_assembleStep_spec hP.1 hi).1 t1 hst,
      triton_assembleStep_slots hP.1 hi hP.2 (Or.inl hst)⟩)
    (fun i t t1 hi hP hst => triton_assembleStep_slots hP.1 hi hP.2 (Or.inr hst))
    w.videos.length 0 { s with active_video_count := 0 } (Nat.zero_add _)
    ⟨hr.triton_ready_assembling, h⟩
  generalize hf : cycle w j s = f at ht
  unfold cycle at hf
  split at hf
  · rename_i b hb
    subst hf
    rcases ht with ht | ht <;> cases ht
    exact hA.2 _ hb
  rename_i s1 hs1
  have g1 : SlotsIncreasing w.videos.length s1.trace := (hA.1 _ hs1).2
  split at hf
  · subst hf
    rcases ht with ht | ht <;> cases ht
    exact g1
  have hd : ∀ u, (Run w j s1 = Flow.next u ∨ Run w j s1 = Flow.bail u) →
      ∀ e ∈ u.trace, e ∈ s1.trace ∨ e.isFrame = false := fun u hu =>
    triton_Run_emits (P := fun e => e ∈ s1.trace ∨ e.isFrame = false)
      (fun _ _ _ => Or.inr rfl) (fun e he => Or.inl he) hu
  split at hf
  · rename_i b hb
    subst hf
    rcases ht with ht | ht <;> cases ht
    exact slotsIncreasing_mono g1 (hd _ (Or.inr hb))
  rename_i s2 hs2
  have hW := forLoop_rule (writeStep w j) s1.active_video_count
    (fun _ (t : State) => ∀ e ∈ t.trace, e ∈ s1.trace ∨ e.isFrame = false)
    (fun (t : State) => ∀ e ∈ t.trace, e ∈ s1.trace ∨ e.isFrame = false)
    (fun i t t1 _ hP hst => triton_writeStep_emits (fun _ _ => Or.inr rfl) hP (Or.inl hst))
    (fun i t t1 _ hP hst => triton_writeStep_emits (fun _ _ => Or.inr rfl) hP (Or.inr hst))
    s1.active_video_count 0 s2 (Nat.zero_add _) (hd _ (Or.inl hs2))
  split at hf
  · rename_i b hb
    subst hf
    rcases ht with ht | ht <;> cases ht
    exact slotsIncreasing_mono g1 (hW.2 _ hb)
  rename_i s3 hs3
  have hU := forLoop_rule updateStep s1.active_video_count
    (fun _ (t : State) => t.trace = s3.trace) (fun (t : State) => t.trace = s3.trace)
    (fun i t t1 _ hP hst => by unfold updateStep at hst; cases hst; exact hP)
    (fun i t t1 _ hP hst => by unfold updateStep at hst; cases hst)
    s1.active_video_count 0 s3 (Nat.zero_add _) rfl
  have g3 : SlotsIncreasing w.videos.length s3.trace := slotsIncreasing_mono g1 (hW.1 _ hs3)
  rcases ht with ht | ht
  · rw [hU.1 t (hf.trans ht)]; exact g3
  · rw [hU.2 t (hf.trans ht)]; exact g3

theorem triton_cycleLoop_slots {w : World} :
    ∀ (fuel j : Nat) (s r : State), Ready w j s → SlotsIncreasing w.videos.length s.trace →
      cycleLoop w fuel j s = some r → SlotsIncreasing w.videos.length r.trace := by
  intro fuel
  induction fuel with
  | zero => intro j s r _ _ h; cases h
  | succ fuel ih =>
    intro j s r hr hs h
    unfold cycleLoop at h
    split at h
    · rename_i b hb
      cases h
      exact triton_cycle_slots hr hs (Or.inr hb)
    · rename_i s1 hs1
      exact ih _ _ _ ((triton_cycle_spec hr).1 _ hs1).1
        (triton_cycle_slots hr hs (Or.inl hs1)) h

theorem triton_BatchProcess_slots {w : World} {r : State} (h : BatchProcess w = some r) :
    SlotsIncreasing w.videos.length r.trace := by
  have hO := forLoop_rule (openStep w) w.videos.length
    (fun i (t : State) => Opening w i t ∧ ∀ e ∈ t.trace, e.isFrame = false)
    (fun (t : State) => ∀ e ∈ t.trace, e.isFrame = false)
    (fun i t t1 hi hP hst => ⟨(triton_openStep_spec hP.1 hi).1 t1 hst,
      triton_openStep_emits (fun _ _ => rfl) (fun _ _ => rfl) hP.2 (Or.inl hst)⟩)
    (fun i t t1 _ hP hst =>
      triton_openStep_emits (fun _ _ => rfl) (fun _ _ => rfl) hP.2 (Or.inr hst))
    w.videos.length 0 (initial w) (Nat.zero_add _)
    ⟨Opening.triton_opening_atEntry w, fun e he => by cases he⟩
  have hbody : ∀ s, body w = some s → SlotsIncreasing w.videos.length s.trace := by
    intro s hs
    unfold body at hs
    split at hs
    · rename_i b hb
      cases hs
      exact slotsIncreasing_of_no_frame (hO.2 _ hb)
    rename_i s1 hs1
    have g1 := hO.1 _ hs1
    split at hs
    · rename_i b hb
      cases hs
      exact slotsIncreasing_of_no_frame
        (triton_setup_emits (fun _ _ => rfl) (fun _ _ => rfl) g1.2 (Or.inr hb))
    · rename_i s2 hs2
      exact triton_cycleLoop_slots _ _ _ _ ((triton_setup_spec g1.1).1 _ hs2)
        (slotsIncreasing_of_no_frame
          (triton_setup_emits (fun _ _ => rfl) (fun _ _ => rfl) g1.2 (Or.inl hs2))) hs
  unfold BatchProcess at h
  cases hb : body w with
  | none => rw [hb] at h; cases h
  | some s =>
    rw [hb] at h
    cases h
    have hx : SlotsIncreasing w.videos.length s.trace := hbody s hb
    exact hx

end Triton

theorem mem_dispatched_of_run {tr : List Event} {j n : Nat} {st : List (Option Nat)}
    {idx : List Nat} {rs : NvCV_Status} (h : Event.run j n st idx rs ∈ tr) :
    idx.take n ∈ dispatched tr := by
  induction tr with
  | nil => cases h
  | cons e t ih =>
    rcases List.mem_cons.1 h with h1 | h1
    · subst h1
      simp [dispatched]
    · have := ih h1
      cases e <;> simp [dispatched, this]

theorem Sealed.recorded {N j : Nat} {tr : List Event} (h : Sealed N j tr) :
    SlotsRecorded tr := by
  intro j' n st idx rs hm
  have g := (h.runs _ _ _ _ _ hm).2
  exact ⟨g.input, g.inputOnly⟩

theorem slotsIncreasing_one_slot {N : Nat} {tr : List Event} (h : SlotsIncreasing N tr)
    {j a b : Nat} {m m' : Mat} (hm : Event.transferTo j a m ∈ tr)
    (hm' : Event.transferTo j b m' ∈ tr) (hs : m.stream = m'.stream) : a = b := by
  rcases Nat.lt_trichotomy a b with hab | hab | hab
  · have := h.2.1 j a b m m' hm hm' hab
    omega
  · exact hab
  · have := h.2.1 j b a m' m hm' hm hab
    omega

theorem served_of_schedule {w : World} {tr : List Event} (hd : dispatched tr = schedule w)
    (hh : HandlesMatch tr) : Served w tr := by
  intro x c hx hc
  have hcm : c < maxLength w := Nat.lt_of_lt_of_le hc (streamLength_le_maxLength w x)
  have hb : activeAt w c ∈ dispatched tr := by
    rw [hd]
    unfold schedule
    exact List.mem_map.2 ⟨c, List.mem_range.2 hcm, rfl⟩
  obtain ⟨j, n, st, idx, rs, hrun, htake⟩ := exists_run_of_dispatched hb
  have hxa : x ∈ idx.take n := by
    rw [htake]
    exact mem_activeAt.2 ⟨hx, hc⟩
  obtain ⟨i, hi, hget⟩ := mem_take_slot hxa
  obtain ⟨h, m, h1, h2, -, -, -, -⟩ := hh j n st idx rs hrun i hi
  rw [hget] at h2
  exact ⟨j, n, st, idx, rs, i, h, hrun, htake, hi, hget, h1, h2⟩

theorem allWritten_of_schedule {w : World} {tr : List Event}
    (hd : dispatched tr = schedule w) (hr : OutputsRouted w tr)
    (hrun : ∀ j n st idx rs, Event.run j n st idx rs ∈ tr → rs = NVCV_SUCCESS)
    (hfrom : ∀ j k, w.transferFromStatus j k = NVCV_SUCCESS) : AllWritten tr := by
  intro j n st idx rs hm
  have hrs := hrun _ _ _ _ _ hm
  subst hrs
  have hne : idx.take n ≠ [] := by
    have h1 := mem_dispatched_of_run hm
    rw [hd] at h1
    exact schedule_ne_nil h1
  have hn : 0 < n := by
    rcases Nat.eq_zero_or_pos n with h0 | h0
    · rw [h0] at hne
      exact absurd (List.take_zero _) hne
    · exact h0
  refine ⟨rfl, hn, fun i hi => ?_⟩
  have hw := hr.2 j n st idx hm i hi (fun k _ => hfrom j k)
  obtain ⟨n', st', idx', -, -, -, hin, -⟩ := hr.1 _ _ _ hw
  exact ⟨hw, hin⟩

/-- Claim C3 as amended, local driver.  For every world `BatchProcess` returns, every
picture written was read from a slot below the batch size of a batch the engine processed
and went to the writer of the stream recorded for that slot, the stream whose frame was put
into that input slot in the same cycle, and every slot is written as long as the transfers
out of the slots up to it succeed.  When all frames have one size, every call succeeds and
the first stream has a frame, the batches dispatched are the expected ones, the engine
processes each of them and every slot of every batch is written. -/
theorem local_output_goes_to_slot_stream (w : World) (videos : List (List Frame))
    (f0 : Frame) (hu : Uniform videos f0)
    (hfirst : 0 < streamLength (World.ideal videos) 0) :
    (∃ r, Local.BatchProcess w = some r ∧ OutputsRouted w r.trace) ∧
    (∃ r, Local.BatchProcess (World.ideal videos) = some r ∧
      dispatched r.trace = schedule (World.ideal videos) ∧
      OutputsRouted (World.ideal videos) r.trace ∧ AllWritten r.trace) := by
  have key : ∀ v : World, ∀ r, Local.BatchProcess v = some r → OutputsRouted v r.trace := by
    intro v r hr
    obtain ⟨s, hs, rfl⟩ := Local.local_BatchProcess_eq hr
    exact Local.final_routed (Local.local_body_done hs)
  constructor
  · obtain ⟨r, hr⟩ := Local.local_BatchProcess_total w
    exact ⟨r, hr, key w r hr⟩
  · obtain ⟨r, hr, hd⟩ := Local.calm_BatchProcess hu hfirst
    refine ⟨r, hr, hd, key _ r hr, allWritten_of_schedule hd (key _ r hr) ?_ (fun _ _ => rfl)⟩
    intro j n st idx rs hm
    have := Local.local_BatchProcess_emits
      (P := fun e => ∀ j n st idx rs, e = Event.run j n st idx rs → rs = NVCV_SUCCESS)
      (fun _ _ _ _ _ _ _ h => by cases h) (fun _ _ _ _ _ _ _ h => by cases h)
      (fun _ _ _ _ _ _ _ h => by cases h) (fun _ _ _ _ _ _ _ h => by cases h)
      (fun _ _ _ _ _ _ _ h => by cases h) (fun _ _ _ _ _ _ _ _ h => by cases h)
      (fun _ _ _ _ _ _ _ _ _ h => by cases h; rfl)
      (fun _ _ _ _ _ _ _ _ h => by cases h) (fun _ _ _ _ _ _ _ h => by cases h) hr _ hm
    exact this j n st idx rs rfl

set_option maxRecDepth 100000 in

/-- Claim C3 as amended, at the world in which the second result of the first cycle cannot
be transferred, and at streams of 5, 3 and 7 frames with every call succeeding: there the
local driver writes 15 pictures, in cycle 4 the picture of slot 1 to the writer of
stream 2. -/
theorem local_output_goes_to_slot_stream_witness :
    Uniform fiveThreeSeven frame4 ∧ 0 < streamLength (World.ideal fiveThreeSeven) 0 ∧
    (Local.BatchProcess (World.ideal fiveThreeSeven)).map
        (fun r => r.trace.filter Event.isWrite) =
      some [Event.write 0 0 0, Event.write 0 1 1, Event.write 0 2 2, Event.write 1 0 0,
        Event.write 1 1 1, Event.write 1 2 2, Event.write 2 0 0, Event.write 2 1 1,
        Event.write 2 2 2, Event.write 3 0 0, Event.write 3 2 1, Event.write 4 0 0,
        Event.write 4 2 1, Event.write 5 2 0, Event.write 6 2 0] ∧
    ((∃ r, Local.BatchProcess deliveryFails = some r ∧ OutputsRouted deliveryFails r.trace) ∧
    (∃ r, Local.BatchProcess (World.ideal fiveThreeSeven) = some r ∧
      dispatched r.trace = schedule (World.ideal fiveThreeSeven) ∧
      OutputsRouted (World.ideal fiveThreeSeven) r.trace ∧ AllWritten r.trace)) :=
  ⟨uniform_replicate frame4 [5, 3, 7], by decide, by decide,
    local_output_goes_to_slot_stream deliveryFails fiveThreeSeven frame4
      (uniform_replicate frame4 [5, 3, 7]) (by decide)⟩

set_option maxRecDepth 100000 in

/-- Claim C3 fails on the code as it stands: with two streams of two frames and the
transfer of the second result of the first cycle failing, the engine processes the batch of
cycle 0 with the streams 0 and 1 in its two slots, the picture of slot 0 is written and the
run ends at the failing transfer, so the picture of slot 1 is never written to the writer
of stream 1. -/
theorem dispatched_slot_is_left_unwritten :
    (Local.BatchProcess deliveryFails).map
        (fun r => (r.err, r.trace.filter (fun e => e.isRun || e.isWrite))) =
      some (NvCV_Status.other 1,
        [Event.run 0 2 [some 0, some 1] [0, 1] NVCV_SUCCESS, Event.write 0 0 0]) ∧
    ∃ r, Local.BatchProcess deliveryFails = some r ∧ ¬ EverySlotWritten r.trace := by
  refine ⟨by decide, ?_⟩
  obtain ⟨r, hr⟩ := Local.local_BatchProcess_total deliveryFails
  have hev : (Local.BatchProcess deliveryFails).map
      (fun r => (decide (Event.run 0 2 [some 0, some 1] [0, 1] NVCV_SUCCESS ∈ r.trace),
        decide (Event.write 0 1 1 ∈ r.trace))) = some (true, false) := by decide
  rw [hr] at hev
  simp only [Option.map_some', Option.some.injEq, Prod.mk.injEq, decide_eq_true_eq,
    decide_eq_false_iff_not] at hev
  exact ⟨r, hr, fun hall => hev.2 (hall 0 2 _ _ hev.1 1 (by decide))⟩

/-- Claim C5, both drivers.  For every world `BatchProcess` returns and in every engine call
the handle at each position below the batch size is the one allocated for the stream
recorded for that slot, whose frame is in that input slot.  When all frames have one size,
every call succeeds and the first stream has a frame, the batches dispatched are the
expected ones, so every stream with a frame number `c` holds a slot of a dispatched batch
with the handle allocated for it. -/
theorem handle_of_slot_is_handle_of_its_stream (w : World) (videos : List (List Frame))
    (f0 : Frame) (hu : Uniform videos f0)
    (hfirst : 0 < streamLength (World.ideal videos) 0) :
    ((∃ r, Local.BatchProcess w = some r ∧ HandlesMatch r.trace) ∧
      (∃ r, Triton.BatchProcess w = some r ∧ HandlesMatch r.trace)) ∧
    ((∃ r, Local.BatchProcess (World.ideal videos) = some r ∧
        dispatched r.trace = schedule (World.ideal videos) ∧ HandlesMatch r.trace ∧
        Served (World.ideal videos) r.trace) ∧
      (∃ r, Triton.BatchProcess (World.ideal videos) = some r ∧
        dispatched r.trace = schedule (World.ideal videos) ∧ HandlesMatch r.trace ∧
        Served (World.ideal videos) r.trace)) := by
  have keyL : ∀ v : World, ∀ r, Local.BatchProcess v = some r → HandlesMatch r.trace := by
    intro v r hr
    obtain ⟨s, hs, rfl⟩ := Local.local_BatchProcess_eq hr
    have hd := Local.local_body_done hs
    obtain ⟨j, hj⟩ := Local.final_sealed hd
    exact hj.sealed_handles (Local.final_discipline hd).1
  have keyT : ∀ v : World, ∀ r, Triton.BatchProcess v = some r → HandlesMatch r.trace := by
    intro v r hr
    obtain ⟨s, hs, rfl⟩ := Triton.triton_BatchProcess_eq hr
    have hd := Triton.triton_body_done hs
    obtain ⟨j, hj⟩ := hd.sealed
    exact hj.sealed_handles hd.allocOnce
  refine ⟨⟨?_, ?_⟩, ⟨?_, ?_⟩⟩
  · obtain ⟨r, hr⟩ := Local.local_BatchProcess_total w
    exact ⟨r, hr, keyL w r hr⟩
  · obtain ⟨r, hr⟩ := Triton.triton_BatchProcess_total w
    exact ⟨r, hr, keyT w r hr⟩
  · obtain ⟨r, hr, hd⟩ := Local.calm_BatchProcess hu hfirst
    exact ⟨r, hr, hd, keyL _ r hr, served_of_schedule hd (keyL _ r hr)⟩
  · obtain ⟨r, hr, hd⟩ := Triton.triton_calm_BatchProcess hu hfirst
    exact ⟨r, hr, hd.disp, keyT _ r hr, served_of_schedule hd.disp (keyT _ r hr)⟩

set_option maxRecDepth 100000 in

/-- Claim C5 at streams of 2, 0 and 3 frames.  The local driver allocates a state for every
stream, so stream 2 travels with handle 2; the Triton driver allocates none for the empty
stream, so stream 2 travels with handle 1.  Position 2 is never below the batch size: in
the local driver it keeps what `malloc` returned, here 9. -/
theorem handle_of_slot_is_handle_of_its_stream_witness :
    Uniform emptyMiddle frame4 ∧ 0 < streamLength (World.ideal emptyMiddle) 0 ∧
    (Local.BatchProcess staleMemory).map (fun r => r.trace.filter Event.isRun) =
      some [Event.run 0 2 [some 0, some 2, some 9] [0, 2, 0] NVCV_SUCCESS,
        Event.run 1 2 [some 0, some 2, some 9] [0, 2, 0] NVCV_SUCCESS,
        Event.run 2 1 [some 2, some 2, some 9] [2, 2, 0] NVCV_SUCCESS] ∧
    (Triton.BatchProcess (World.ideal emptyMiddle)).map (fun r => r.trace.filter Event.isRun) =
      some [Event.run 0 2 [some 0, some 1, none] [0, 2, 0] NVCV_SUCCESS,
        Event.run 1 2 [some 0, some 1, none] [0, 2, 0] NVCV_SUCCESS,
        Event.run 2 1 [some 1, some 1, none] [2, 2, 0] NVCV_SUCCESS] ∧
    (((∃ r, Local.BatchProcess staleMemory = some r ∧ HandlesMatch r.trace) ∧
      (∃ r, Triton.BatchProcess staleMemory = some r ∧ HandlesMatch r.trace)) ∧
    ((∃ r, Local.BatchProcess (World.ideal emptyMiddle) = some r ∧
        dispatched r.trace = schedule (World.ideal emptyMiddle) ∧ HandlesMatch r.trace ∧
        Served (World.ideal emptyMiddle) r.trace) ∧
      (∃ r, Triton.BatchProcess (World.ideal emptyMiddle) = some r ∧
        dispatched r.trace = schedule (World.ideal emptyMiddle) ∧ HandlesMatch r.trace ∧
        Served (World.ideal emptyMiddle) r.trace))) :=
  ⟨by simp [Uniform, emptyMiddle], by decide, by decide, by decide,
    handle_of_slot_is_handle_of_its_stream staleMemory emptyMiddle frame4
      (by simp [Uniform, emptyMiddle]) (by decide)⟩

/-- Claim C6, both drivers.  For every world `BatchProcess` returns; the stream indices
recorded for the slots of every dispatched batch are strictly increasing and below the
number of streams, so the batch size is at most the number of streams and no stream is in
a batch twice; and in every cycle, also one that ends at a frame of another size or at a
failing call before any dispatch, the streams recorded for the slots filled increase
strictly with the slot and are below the number of streams, no stream filling two slots.
When all frames have one size, every call succeeds and the first stream has a frame, the
batches dispatched are the expected ones. -/
theorem recorded_indices_strictly_increasing (w : World) (videos : List (List Frame))
    (f0 : Frame) (hu : Uniform videos f0)
    (hfirst : 0 < streamLength (World.ideal videos) 0) :
    ((∃ r, Local.BatchProcess w = some r ∧ IndicesIncreasing w.videos.length r.trace ∧
        SlotsIncreasing w.videos.length r.trace ∧ SlotsRecorded r.trace ∧
        ∀ j a b m m', Event.transferTo j a m ∈ r.trace → Event.transferTo j b m' ∈ r.trace →
          m.stream = m'.stream → a = b) ∧
      (∃ r, Triton.BatchProcess w = some r ∧ IndicesIncreasing w.videos.length r.trace ∧
        SlotsIncreasing w.videos.length r.trace ∧ SlotsRecorded r.trace ∧
        ∀ j a b m m', Event.transferTo j a m ∈ r.trace → Event.transferTo j b m' ∈ r.trace →
          m.stream = m'.stream → a = b)) ∧
    ((∃ r, Local.BatchProcess (World.ideal videos) = some r ∧
        dispatched r.trace = schedule (World.ideal videos) ∧
        IndicesIncreasing videos.length r.trace ∧ SlotsIncreasing videos.length r.trace ∧
        SlotsRecorded r.trace) ∧
      (∃ r, Triton.BatchProcess (World.ideal videos) = some r ∧
        dispatched r.trace = schedule (World.ideal videos) ∧
        IndicesIncreasing videos.length r.trace ∧ SlotsIncreasing videos.length r.trace ∧
        SlotsRecorded r.trace)) := by
  have keyL : ∀ v : World, ∀ r, Local.BatchProcess v = some r →
      IndicesIncreasing v.videos.length r.trace ∧ SlotsRecorded r.trace := by
    intro v r hr
    obtain ⟨s, hs, rfl⟩ := Local.local_BatchProcess_eq hr
    obtain ⟨j, hj⟩ := Local.final_sealed (Local.local_body_done hs)
    exact ⟨hj.indices, hj.recorded⟩
  have keyT : ∀ v : World, ∀ r, Triton.BatchProcess v = some r →
      IndicesIncreasing v.videos.length r.trace ∧ SlotsRecorded r.trace := by
    intro v r hr
    obtain ⟨s, hs, rfl⟩ := Triton.triton_BatchProcess_eq hr
    obtain ⟨j, hj⟩ := (Triton.triton_body_done hs).sealed
    exact ⟨hj.indices, hj.recorded⟩
  refine ⟨⟨?_, ?_⟩, ⟨?_, ?_⟩⟩
  · obtain ⟨r, hr⟩ := Local.local_BatchProcess_total w
    have hs := Local.local_BatchProcess_slots hr
    exact ⟨r, hr, (keyL w r hr).1, hs, (keyL w r hr).2,
      fun j a b m m' h1 h2 h3 => slotsIncreasing_one_slot hs h1 h2 h3⟩
  · obtain ⟨r, hr⟩ := Triton.triton_BatchProcess_total w
    have hs := Triton.triton_BatchProcess_slots hr
    exact ⟨r, hr, (keyT w r hr).1, hs, (keyT w r hr).2,
      fun j a b m m' h1 h2 h3 => slotsIncreasing_one_slot hs h1 h2 h3⟩
  · obtain ⟨r, hr, hd⟩ := Local.calm_BatchProcess hu hfirst
    exact ⟨r, hr, hd, (keyL _ r hr).1, Local.local_BatchProcess_slots hr, (keyL _ r hr).2⟩
  · obtain ⟨r, hr, hd⟩ := Triton.triton_calm_BatchProcess hu hfirst
    exact ⟨r, hr, hd.disp, (keyT _ r hr).1, Triton.triton_BatchProcess_slots hr,
      (keyT _ r hr).2⟩

set_option maxRecDepth 100000 in

/-- Claim C6 at two streams of three frames, the second frame of the second stream being of
another size: the second cycle puts the frame of stream 0 into slot 0 and ends at the
mismatch without a dispatch; and at streams of 5, 3 and 7 frames with every call
succeeding, where stream 2 moves to slot 1 in cycle 4 and to slot 0 in cycle 6. -/
theorem recorded_indices_strictly_increasing_witness :
    Uniform fiveThreeSeven frame4 ∧ 0 < streamLength (World.ideal fiveThreeSeven) 0 ∧
    (Local.BatchProcess secondFrameDiffers).map
        (fun r => (r.trace.filterMap Event.placed, dispatched r.trace)) =
      some ([(0, 0, 0), (0, 1, 1), (1, 0, 0)], [[0, 1]]) ∧
    (Triton.BatchProcess secondFrameDiffers).map
        (fun r => (r.trace.filterMap Event.placed, dispatched r.trace)) =
      some ([(0, 0, 0), (0, 1, 1), (1, 0, 0)], [[0, 1]]) ∧
    (Triton.BatchProcess (World.ideal fiveThreeSeven)).map
        (fun r => r.trace.filterMap Event.placed) =
      some [(0, 0, 0), (0, 1, 1), (0, 2, 2), (1, 0, 0), (1, 1, 1), (1, 2, 2), (2, 0, 0),
        (2, 1, 1), (2, 2, 2), (3, 0, 0), (3, 1, 2), (4, 0, 0), (4, 1, 2), (5, 0, 2),
        (6, 0, 2)] ∧
    (((∃ r, Local.BatchProcess secondFrameDiffers = some r ∧
        IndicesIncreasing secondFrameDiffers.videos.length r.trace ∧
        SlotsIncreasing secondFrameDiffers.videos.length r.trace ∧ SlotsRecorded r.trace ∧
        ∀ j a b m m', Event.transferTo j a m ∈ r.trace → Event.transferTo j b m' ∈ r.trace →
          m.stream = m'.stream → a = b) ∧
      (∃ r, Triton.BatchProcess secondFrameDiffers = some r ∧
        IndicesIncreasing secondFrameDiffers.videos.length r.trace ∧
        SlotsIncreasing secondFrameDiffers.videos.length r.trace ∧ SlotsRecorded r.trace ∧
        ∀ j a b m m', Event.transferTo j a m ∈ r.trace → Event.transferTo j b m' ∈ r.trace →
          m.stream = m'.stream → a = b)) ∧
    ((∃ r, Local.BatchProcess (World.ideal fiveThreeSeven) = some r ∧
        dispatched r.trace = schedule (World.ideal fiveThreeSeven) ∧
        IndicesIncreasing fiveThreeSeven.length r.trace ∧
        SlotsIncreasing fiveThreeSeven.length r.trace ∧ SlotsRecorded r.trace) ∧
      (∃ r, Triton.BatchProcess (World.ideal fiveThreeSeven) = some r ∧
        dispatched r.trace = schedule (World.ideal fiveThreeSeven) ∧
        IndicesIncreasing fiveThreeSeven.length r.trace ∧
        SlotsIncreasing fiveThreeSeven.length r.trace ∧ SlotsRecorded r.trace))) :=
  ⟨uniform_replicate frame4 [5, 3, 7], by decide, by decide, by decide, by decide,
    recorded_indices_strictly_increasing secondFrameDiffers fiveThreeSeven frame4
      (uniform_replicate frame4 [5, 3, 7]) (by decide)⟩

end VFX
